import Mathlib

/-! # IPRT memory object allocation cache (`memcache.cpp`), single-threaded model

A shallow embedding of `src/trunk/src/VBox/Runtime/common/alloc/memcache.cpp`
and of the bitmap helpers of `src/include/iprt/asm.h` that it calls, followed by
the host command queue of the guest control service
(`src/src/VBox/HostServices/GuestControl/service.cpp`).

Modelling decisions

* Addresses are natural numbers.  A cache page is a record holding the header
  fields of `RTMEMCACHEPAGE` plus `mem`, the bit-addressed content of the page
  (bit number `8 * byteAddress + bit`, the x86 numbering used by `bts`/`btr`).
  Both bitmaps of a page live in that one memory, at `pbmAlloc` and `pbmCtor`,
  so that the model sees what the code sees when the two regions overlap.
* The page list (`pPageHead`, `pNext`) is a `List`; a page pointer is the page
  address and is dereferenced by looking the address up in the list.
* The external collaborators are inputs of the operation that calls them:
  what `RTMemPageAlloc` returns and what the user constructor returns.
* The `int32_t` counters `cFree` are modelled twice.  The functions named as in
  the source compute them exactly, as `Int`.  The functions with the suffix
  `S32` wrap every counter operation modulo `2^32`, as `lock xadd` does; every
  world they reach is the image of a world of the exact functions
  (`reachableS32_exact`), and the two agree up to `2^31` free objects.
  The `uint32_t` computations of the capacity guard and of growth carry an
  explicit `% 4294967296`.
* A shift of a 32-bit value takes its count modulo 32, as the `shl` instruction
  does (`shl32`); C leaves a count of 32 undefined.
* A result `none` of an operation means that the call does not return
  (a retry loop that cannot make progress single-threaded) or dereferences a
  pointer that is not a page of the cache.
* Assertions that are compiled out of release builds (`Assert`, `AssertMsg`,
  `AssertPtr`) are not modelled; `AssertReturn` and `AssertReturnVoid` are.
  The condition of the assertion in `rtMemCacheGrow` is a function of its own.
* In the guest control service the lists `mHostCmds` and `mClientList` are
  `List`s; whether `RTMemAlloc` and the list allocator deliver is an input.
-/

namespace MemCache

/-! ## Platform constants -/

/-- The pointer width `ARCH_BITS` the file is compiled for. -/
inductive Arch where
  | bits32
  | bits64
  deriving DecidableEq, Repr

/-- Modelled from the spec: `PAGE_SIZE` of `iprt/param.h` (not among the sources), the
x86 hardware page of 4096 bytes. -/
def PAGE_SIZE : Nat := 4096

/-- Modelled from the spec: `PAGE_OFFSET_MASK` of `iprt/param.h`, `PAGE_SIZE - 1`. -/
def PAGE_OFFSET_MASK : Nat := 4095

/-- The value of `sizeof(RTMEMCACHEPAGE)`: `cFree` sits at offset 64
(`AssertCompileMemberOffset`), followed by padding up to the pointer alignment. -/
def sizeofRTMEMCACHEPAGE : Arch → Nat
  | Arch.bits32 => 68
  | Arch.bits64 => 72

/-- Modelled from the spec: `RT_ALIGN` / `RT_ALIGN_Z` / `RT_ALIGN_32` / `RT_ALIGN_PT` of
`iprt/cdefs.h`, `(u + (uAlignment - 1)) & ~(uAlignment - 1)`; the masking `x & ~m` is
written `x - (x &&& m)`. -/
def RT_ALIGN (u uAlignment : Nat) : Nat :=
  (u + (uAlignment - 1)) - ((u + (uAlignment - 1)) &&& (uAlignment - 1))

/-- Modelled from the spec: `RT_MIN` of `iprt/cdefs.h`,
`(Value1) <= (Value2) ? (Value1) : (Value2)`. -/
def RT_MIN (a b : Nat) : Nat := if a ≤ b then a else b

/-- IPRT status codes.  The symbolic codes used by the cache are constructors; any other
`int` (what a user constructor or `RTCritSectInit` may return) is `rc n`. -/
inductive Status where
  | VINF_SUCCESS
  | VERR_INVALID_PARAMETER
  | VERR_INVALID_HANDLE
  | VERR_NO_MEMORY
  | VERR_NOT_POWER_OF_TWO
  | VERR_OUT_OF_RANGE
  | VERR_MEM_CACHE_MAX_SIZE
  | rc (code : Int)
  deriving DecidableEq, Repr

/-- The macro `RT_FAILURE(rc)`, that is `rc < 0`; all symbolic `VERR_` codes are negative. -/
def RT_FAILURE : Status → Bool
  | Status.VINF_SUCCESS => false
  | Status.rc n => decide (n < 0)
  | _ => true

/-- Modelled from the spec: `RTMEMCACHE_MAGIC` of `internal/magics.h`. -/
def RTMEMCACHE_MAGIC : Nat := 0x19230108

/-- Modelled from the spec: `RTMEMCACHE_MAGIC_DEAD` of `internal/magics.h`. -/
def RTMEMCACHE_MAGIC_DEAD : Nat := 0x20080305

/-! ## Bitmap primitives of `asm.h` -/

/-- Bit-addressed memory: bit `8 * a + i` is bit `i` of the byte at address `a`. -/
abbrev BitMem := Nat → Bool

/-- The zeroed memory `ASMMemZeroPage` leaves behind. -/
def zeroMem : BitMem := fun _ => false

/-- `ASMBitTest(pvBitmap, iBit)`. -/
def ASMBitTest (m : BitMem) (pvBitmap iBit : Nat) : Bool := m (8 * pvBitmap + iBit)

/-- `ASMBitSet(pvBitmap, iBit)` (`bts`). -/
def ASMBitSet (m : BitMem) (pvBitmap iBit : Nat) : BitMem :=
  fun b => if b = 8 * pvBitmap + iBit then true else m b

/-- `ASMBitClear` / `ASMAtomicBitClear` (`btr`). -/
def ASMAtomicBitClear (m : BitMem) (pvBitmap iBit : Nat) : BitMem :=
  fun b => if b = 8 * pvBitmap + iBit then false else m b

/-- `ASMAtomicBitTestAndSet` (`lock bts; setc`): the previous value and the new memory. -/
def ASMAtomicBitTestAndSet (m : BitMem) (pvBitmap iBit : Nat) : Bool × BitMem :=
  (ASMBitTest m pvBitmap iBit, ASMBitSet m pvBitmap iBit)

/-- `ASMBitTestAndClear` / `ASMAtomicBitTestAndClear` (`btr; setc`): the previous value and
the new memory. -/
def ASMAtomicBitTestAndClear (m : BitMem) (pvBitmap iBit : Nat) : Bool × BitMem :=
  (ASMBitTest m pvBitmap iBit, ASMAtomicBitClear m pvBitmap iBit)

/-- `ASMBitFirstClear(pvBitmap, cBits)`: `repe scasd` over `RT_ALIGN_32(cBits, 32) / 32`
dwords against `0xffffffff`, then `bsf` on the inverted dword that differs: the index of
the first clear bit among the first `RT_ALIGN_32(cBits, 32)` bits, `-1` when there is none
or when `cBits` is zero. -/
def ASMBitFirstClear (m : BitMem) (pvBitmap cBits : Nat) : Int :=
  if cBits ≠ 0 then
    match (List.range (RT_ALIGN cBits 32)).find? (fun i => !ASMBitTest m pvBitmap i) with
    | some i => (i : Int)
    | none => -1
  else -1

/-- The `bsr` instruction on bits `fuel - 1, ..., 0`: the index of the highest set bit. -/
def bitScanReverse (u32 : Nat) : Nat → Option Nat
  | 0 => none
  | i + 1 => if u32.testBit i then some i else bitScanReverse u32 i

/-- `ASMBitLastSetU32(u32)`: bits are numbered from 1; `0` when no bit is set. -/
def ASMBitLastSetU32 (u32 : Nat) : Nat :=
  match bitScanReverse u32 32 with
  | some iBit => iBit + 1
  | none => 0

/-! ## Data model -/

/-- `RTMEMCACHEPAGE`: a cache page.  `pPage` is the address of the page, which is the
address of this header; `pNext` is the position in the page list and `pCache` (validation
only) is left out.  `mem` is the bit content of the page. -/
structure RTMEMCACHEPAGE where
  pPage : Nat
  pbmAlloc : Nat
  pbmCtor : Nat
  pbObjects : Nat
  cObjects : Nat
  cFree : Int
  mem : BitMem

/-- `RTMEMCACHEINT`: a cache instance.  `pfnCtor` / `pfnDtor` say whether a callback is
registered; `pages` is the list hanging off `pPageHead`.  The field `cFree` is the
`int32_t volatile cFree` of the source: the functions named as in the source keep the
exact count in it, the functions with the suffix `S32` what the 32-bit counter holds. -/
structure RTMEMCACHEINT where
  u32Magic : Nat
  cbObject : Nat
  cbAlignment : Nat
  cPerPage : Nat
  cBits : Nat
  cMax : Nat
  pages : List RTMEMCACHEPAGE
  pfnCtor : Bool
  pfnDtor : Bool
  pvUser : Nat
  cTotal : Nat
  cFree : Int
  pPageHint : Option Nat

/-- Dereference a page pointer: the page of the list that lives at address `a`. -/
def findPage (pages : List RTMEMCACHEPAGE) (a : Nat) : Option RTMEMCACHEPAGE :=
  pages.find? (fun pg => decide (pg.pPage = a))

/-- Store through a page pointer: replace the page at the address of `pg`. -/
def setPage (pages : List RTMEMCACHEPAGE) (pg : RTMEMCACHEPAGE) : List RTMEMCACHEPAGE :=
  pages.map (fun q => if q.pPage = pg.pPage then pg else q)

/-! ## `RTMemCacheCreate` -/

/-- The loop `while (header + cPerPage * cbObject + RT_ALIGN(cPerPage, 64) / 8 * 2 > PAGE_SIZE)
cPerPage--;`.  At `cPerPage = 0` the condition is `header > PAGE_SIZE`, false for both
header sizes, so the loop stops there at the latest. -/
def cPerPageLoop (cbHdr cbObject : Nat) : Nat → Nat
  | 0 => 0
  | n + 1 =>
    if cbHdr + (n + 1) * cbObject + RT_ALIGN (n + 1) 64 / 8 * 2 > PAGE_SIZE then
      cPerPageLoop cbHdr cbObject n
    else n + 1

/-- The two resources `RTMemCacheCreate` asks its environment for. -/
structure CreateEnv where
  /-- Value `true` when `RTMemAlloc(sizeof(*pThis))` returns memory. -/
  fMemAlloc : Bool
  /-- The status `RTCritSectInit` returns. -/
  rcCritSect : Status

/-- The alignment `RTMemCacheCreate` derives when `cbAlignment == 0` is passed:
`cbAlignment = UINT32_C(1) << ASMBitLastSetU32((uint32_t)cbObject); if (cbAlignment > 64)
cbAlignment = 64;`. -/
def derivedAlignment (cbObject : Nat) : Nat :=
  if 1 <<< ASMBitLastSetU32 cbObject > 64 then 64 else 1 <<< ASMBitLastSetU32 cbObject

/-- The alignment `RTMemCacheCreate` works with, or the status it rejects the request with. -/
def createAlignment (cbObject cbAlignment : Nat) : Except Status Nat :=
  if cbAlignment = 0 then Except.ok (derivedAlignment cbObject)
  else if ((cbAlignment - 1) &&& cbAlignment) ≠ 0 then Except.error Status.VERR_NOT_POWER_OF_TWO
  else if ¬ cbAlignment ≤ 64 then Except.error Status.VERR_OUT_OF_RANGE
  else Except.ok cbAlignment

/-- `RTMemCacheCreate(phMemCache, cbObject, cbAlignment, cMaxObjects, pfnCtor, pfnDtor,
pvUser)`: the status, or the instance stored through `phMemCache`. -/
def RTMemCacheCreate (arch : Arch) (cbObject cbAlignment cMaxObjects : Nat)
    (pfnCtor pfnDtor : Bool) (pvUser : Nat) (env : CreateEnv) : Except Status RTMEMCACHEINT :=
  if ¬ cbObject > 0 then Except.error Status.VERR_INVALID_PARAMETER
  else if ¬ cbObject ≤ PAGE_SIZE / 8 then Except.error Status.VERR_INVALID_PARAMETER
  else
    match createAlignment cbObject cbAlignment with
    | Except.error rc => Except.error rc
    | Except.ok cbAlign =>
      if ¬ env.fMemAlloc then Except.error Status.VERR_NO_MEMORY
      else if RT_FAILURE env.rcCritSect then Except.error env.rcCritSect
      else
        let cb := RT_ALIGN cbObject cbAlign
        let cPerPage0 := (PAGE_SIZE - RT_ALIGN (sizeofRTMEMCACHEPAGE arch) cbAlign) / cb
        let cPerPage :=
          cPerPageLoop (RT_ALIGN (sizeofRTMEMCACHEPAGE arch) (RT_MIN cbAlign 8)) cb cPerPage0
        Except.ok
          { u32Magic := RTMEMCACHE_MAGIC
            cbObject := cb
            cbAlignment := cbAlign
            cPerPage := cPerPage
            cBits := RT_ALIGN cPerPage 64
            cMax := cMaxObjects
            cTotal := 0
            cFree := 0
            pages := []
            pPageHint := none
            pfnCtor := pfnCtor
            pfnDtor := pfnDtor
            pvUser := pvUser }

/-! ## `rtMemCacheGrow` -/

/-- The loop `for (iBit = cObjects; iBit < cBits; iBit++) ASMBitSet(pPage->pbmAlloc, iBit);`
that marks the bitmap padding and the unused objects as allocated. -/
def markPadding (m : BitMem) (pbmAlloc cObjects cBits : Nat) : BitMem :=
  (List.range' cObjects (cBits - cObjects)).foldl (fun acc iBit => ASMBitSet acc pbmAlloc iBit) m

/-- The page `rtMemCacheGrow` lays out in the memory `RTMemPageAlloc` returned at `pPage`. -/
def growPage (arch : Arch) (pThis : RTMEMCACHEINT) (pPage : Nat) : RTMEMCACHEPAGE :=
  let cObjects := RT_MIN pThis.cPerPage ((pThis.cMax + 4294967296 - pThis.cTotal) % 4294967296)
  let pbmCtor := RT_ALIGN (pPage + sizeofRTMEMCACHEPAGE arch) 8
  let pbObjects := pPage + PAGE_SIZE - pThis.cbObject * cObjects
  let pb := pbObjects - pThis.cBits / 8
  let pbmAlloc := pb - (pb &&& 7)
  { pPage := pPage
    cFree := (cObjects : Int)
    cObjects := cObjects
    pbmCtor := pbmCtor
    pbObjects := pbObjects
    pbmAlloc := pbmAlloc
    mem := markPadding zeroMem pbmAlloc cObjects pThis.cBits }

/-- `rtMemCacheGrow(pThis)`; `pvPage` is what `RTMemPageAlloc(PAGE_SIZE)` returns when it
is called (`none` for `NULL`).  The new page becomes the hint, is linked at the tail of the
list and its object count is added to `cFree` and `cTotal`. -/
def rtMemCacheGrow (arch : Arch) (pThis : RTMEMCACHEINT) (pvPage : Option Nat) :
    Status × RTMEMCACHEINT :=
  if pThis.cFree < 0 then
    match pvPage with
    | some pPage =>
      let pg := growPage arch pThis pPage
      (Status.VINF_SUCCESS,
        { pThis with
          pPageHint := some pPage
          pages := pThis.pages ++ [pg]
          cFree := pThis.cFree + (pg.cObjects : Int)
          cTotal := (pThis.cTotal + pg.cObjects) % 4294967296 })
    | none => (Status.VERR_NO_MEMORY, pThis)
  else (Status.VINF_SUCCESS, pThis)

/-! ## `RTMemCacheAllocEx` and `RTMemCacheFree` -/

/-- `rtMemCacheGrabObj(pPage)`: the new `cFree` of the page on success, `-1` on failure
(the decrement is then undone), and the page afterwards. -/
def rtMemCacheGrabObj (pPage : RTMEMCACHEPAGE) : Int × RTMEMCACHEPAGE :=
  let cFreeNew := pPage.cFree - 1
  if cFreeNew < 0 then (-1, { pPage with cFree := cFreeNew + 1 })
  else (cFreeNew, { pPage with cFree := cFreeNew })

/-- `RTMemCacheFree(hMemCache, pvObj)`.  The page is found by masking the pointer; the
result is `none` when the masked address is not a page of the cache or the pointer lies
below the object array (the code would read outside the cache).  The counters are exact
here; `RTMemCacheFreeS32` is the same code with `ASMAtomicIncS32` wrapping. -/
def RTMemCacheFree (pThis : RTMEMCACHEINT) (pvObj : Nat) : Option RTMEMCACHEINT :=
  if pvObj = 0 then some pThis
  else if pThis.u32Magic ≠ RTMEMCACHE_MAGIC then some pThis
  else
    match findPage pThis.pages (pvObj - (pvObj &&& PAGE_OFFSET_MASK)) with
    | none => none
    | some pPage =>
      if pvObj < pPage.pbObjects then none
      else
        let offObj := pvObj - pPage.pbObjects
        let iObj := offObj / pThis.cbObject
        let r := ASMAtomicBitTestAndClear pPage.mem pPage.pbmAlloc iObj
        if ¬ r.1 then some { pThis with pages := setPage pThis.pages { pPage with mem := r.2 } }
        else
          some { pThis with
                 pages := setPage pThis.pages { pPage with mem := r.2, cFree := pPage.cFree + 1 }
                 cFree := pThis.cFree + 1 }

/-- What the environment answers during one `RTMemCacheAllocEx` call. -/
structure AllocEnv where
  /-- What `RTMemPageAlloc(PAGE_SIZE)` returns if growth calls it, `none` for `NULL`. -/
  pvPage : Option Nat
  /-- What the user constructor returns if it is invoked. -/
  rcCtor : Status

/-- One invocation of a user callback: the slot (page address and index) and the arguments
it was called with. -/
structure Callback where
  pPage : Nat
  iObj : Nat
  pvObj : Nat
  pvUser : Nat
  deriving DecidableEq, Repr

/-- The outcome of `RTMemCacheAllocEx`: status, the pointer stored through `ppvObj` (on
success only), the constructor invocation made during the call, and the instance. -/
structure AllocResult where
  rc : Status
  ppvObj : Option Nat
  ctorCall : Option Callback
  pThis : RTMEMCACHEINT

/-- "Try grab a free object at the cache level": the decrement of `cFree`, the capacity
guard and growth.  Status `VINF_SUCCESS` means the call goes on to the page level.  The
counter is exact here; `allocReserveS32` is the same code on the wrapping `int32_t`, and the
two differ only above `2^31` free objects, where the wrapped counter reads negative. -/
def allocReserve (arch : Arch) (pThis : RTMEMCACHEINT) (pvPage : Option Nat) :
    Status × RTMEMCACHEINT :=
  let cNewFree := pThis.cFree - 1
  let pThis1 := { pThis with cFree := cNewFree }
  if cNewFree < 0 then
    let cTotal : Nat := pThis1.cTotal
    let cSum : Nat := (((cTotal : Int) + -cNewFree) % 4294967296).toNat
    if cSum > pThis1.cMax ∨ cSum ≤ cTotal then
      (Status.VERR_MEM_CACHE_MAX_SIZE, { pThis1 with cFree := pThis1.cFree + 1 })
    else
      let g := rtMemCacheGrow arch pThis1 pvPage
      if RT_FAILURE g.1 then (g.1, { g.2 with cFree := g.2.cFree + 1 })
      else (Status.VINF_SUCCESS, g.2)
  else (Status.VINF_SUCCESS, pThis1)

/-- One pass `for (pPage = pThis->pPageHead; pPage; pPage = pPage->pNext)` of grab
attempts: the grabbed index, the page it was grabbed on and the list afterwards. -/
def scanGrab : List RTMEMCACHEPAGE → Option (Int × RTMEMCACHEPAGE × List RTMEMCACHEPAGE)
  | [] => none
  | pPage :: rest =>
    let g := rtMemCacheGrabObj pPage
    if g.1 ≥ 0 then some (g.1, g.2, g.2 :: rest)
    else
      match scanGrab rest with
      | some (iObj, pg, rest1) => some (iObj, pg, g.2 :: rest1)
      | none => none

/-- The loop `for (cLoops = 0; ; cLoops++)` around the list pass.  A pass that grabs
nothing leaves every counter as it was, so single-threaded the next pass fails as well and
the loop never exits: `none`. -/
def allocScan (pThis : RTMEMCACHEINT) : Option (Int × RTMEMCACHEPAGE × RTMEMCACHEINT) :=
  match scanGrab pThis.pages with
  | some (iObj, pg, pages1) =>
    some (iObj, pg,
      { pThis with
        pages := pages1
        pPageHint := if iObj > 0 then some pg.pPage else pThis.pPageHint })
  | none => none

/-- "Grab a free object at the page level": the hint page first, then the list. -/
def allocGrabPage (pThis : RTMEMCACHEINT) : Option (Int × RTMEMCACHEPAGE × RTMEMCACHEINT) :=
  match pThis.pPageHint with
  | none => allocScan pThis
  | some a =>
    match findPage pThis.pages a with
    | none => none
    | some pPage =>
      let g := rtMemCacheGrabObj pPage
      let pThis1 := { pThis with pages := setPage pThis.pages g.2 }
      if g.1 < 0 then allocScan pThis1 else some (g.1, g.2, pThis1)

/-- "Find a free object in the allocation bitmap": try bit `iObj`, else the first clear
bit.  When `ASMBitFirstClear` finds nothing the loop `for (cLoops2 = 0;; cLoops2++)` spins
without changing anything and never exits: `none`. -/
def claimBit (cBits : Nat) (pPage : RTMEMCACHEPAGE) (iObj : Nat) :
    Option (Nat × RTMEMCACHEPAGE) :=
  let t := ASMAtomicBitTestAndSet pPage.mem pPage.pbmAlloc iObj
  if t.1 then
    let iObj2 := ASMBitFirstClear t.2 pPage.pbmAlloc cBits
    if iObj2 ≥ 0 then
      let t2 := ASMAtomicBitTestAndSet t.2 pPage.pbmAlloc iObj2.toNat
      if ¬ t2.1 then some (iObj2.toNat, { pPage with mem := t2.2 }) else none
    else none
  else some (iObj, { pPage with mem := t.2 })

/-- "Call the constructor?" and the return of `RTMemCacheAllocEx`, for the claimed slot
`iObj` of `pPage` (already stored back into `pThis`). -/
def allocConstruct (pThis : RTMEMCACHEINT) (pPage : RTMEMCACHEPAGE) (iObj : Nat)
    (rcCtor : Status) : Option AllocResult :=
  let pvObj := pPage.pbObjects + iObj * pThis.cbObject
  if pThis.pfnCtor then
    let t := ASMAtomicBitTestAndSet pPage.mem pPage.pbmCtor iObj
    if ¬ t.1 then
      let call : Callback :=
        { pPage := pPage.pPage, iObj := iObj, pvObj := pvObj, pvUser := pThis.pvUser }
      if RT_FAILURE rcCtor then
        let pPage2 := { pPage with mem := ASMAtomicBitClear t.2 pPage.pbmCtor iObj }
        match RTMemCacheFree { pThis with pages := setPage pThis.pages pPage2 } pvObj with
        | some pThis2 =>
          some { rc := rcCtor, ppvObj := none, ctorCall := some call, pThis := pThis2 }
        | none => none
      else
        some { rc := Status.VINF_SUCCESS, ppvObj := some pvObj, ctorCall := some call
               pThis := { pThis with pages := setPage pThis.pages { pPage with mem := t.2 } } }
    else
      some { rc := Status.VINF_SUCCESS, ppvObj := some pvObj, ctorCall := none
             pThis := { pThis with pages := setPage pThis.pages { pPage with mem := t.2 } } }
  else
    some { rc := Status.VINF_SUCCESS, ppvObj := some pvObj, ctorCall := none, pThis := pThis }

/-- `RTMemCacheAllocEx(hMemCache, ppvObj)`. -/
def RTMemCacheAllocEx (arch : Arch) (pThis : RTMEMCACHEINT) (env : AllocEnv) :
    Option AllocResult :=
  if pThis.u32Magic ≠ RTMEMCACHE_MAGIC then
    some { rc := Status.VERR_INVALID_PARAMETER, ppvObj := none, ctorCall := none, pThis := pThis }
  else
    let a := allocReserve arch pThis env.pvPage
    if a.1 ≠ Status.VINF_SUCCESS then
      some { rc := a.1, ppvObj := none, ctorCall := none, pThis := a.2 }
    else
      match allocGrabPage a.2 with
      | none => none
      | some (iObj, pPage, pThis1) =>
        match claimBit pThis1.cBits pPage iObj.toNat with
        | none => none
        | some (iObj1, pPage1) =>
          allocConstruct { pThis1 with pages := setPage pThis1.pages pPage1 } pPage1 iObj1
            env.rcCtor

/-- `RTMemCacheAlloc(hMemCache)`: the pointer, or `NULL` (`none`) on any failure. -/
def RTMemCacheAlloc (arch : Arch) (pThis : RTMEMCACHEINT) (env : AllocEnv) :
    Option (Option Nat × RTMEMCACHEINT) :=
  match RTMemCacheAllocEx arch pThis env with
  | some r => some (r.ppvObj, r.pThis)
  | none => none

/-! ## `RTMemCacheDestroy` -/

/-- The loop `iObj = cObjects; while (iObj-- > 0) if (ASMBitTestAndClear(pbmCtor, iObj))
pfnDtor(...)` on one page, started at `iObj`: the slots the destructor is invoked on, in
call order, and the memory afterwards. -/
def dtorLoop (pbmCtor : Nat) : BitMem → Nat → List Nat × BitMem
  | m, 0 => ([], m)
  | m, iObj + 1 =>
    let t := ASMAtomicBitTestAndClear m pbmCtor iObj
    let rest := dtorLoop pbmCtor t.2 iObj
    (if t.1 then iObj :: rest.1 else rest.1, rest.2)

/-- The destructor invocations `RTMemCacheDestroy` makes while it unlinks one page. -/
def destroyPage (pThis : RTMEMCACHEINT) (pPage : RTMEMCACHEPAGE) : List Callback :=
  if pThis.pfnDtor then
    (dtorLoop pPage.pbmCtor pPage.mem pPage.cObjects).1.map (fun iObj =>
      { pPage := pPage.pPage, iObj := iObj
        pvObj := pPage.pbObjects + iObj * pThis.cbObject, pvUser := pThis.pvUser })
  else []

/-- The outcome of `RTMemCacheDestroy`: the status, the destructor invocations in call
order, the pages handed to `RTMemPageFree` in order, whether `RTMemFree(pThis)` was reached,
and the content of the instance structure at the end of the call. -/
structure DestroyResult where
  rc : Status
  dtorCalls : List Callback
  pagesFreed : List Nat
  fFreed : Bool
  pThis : Option RTMEMCACHEINT

/-- `RTMemCacheDestroy(hMemCache)`; a `NULL` handle is `none`. -/
def RTMemCacheDestroy (hMemCache : Option RTMEMCACHEINT) : DestroyResult :=
  match hMemCache with
  | none =>
    { rc := Status.VINF_SUCCESS, dtorCalls := [], pagesFreed := [], fFreed := false
      pThis := none }
  | some pThis =>
    if pThis.u32Magic ≠ RTMEMCACHE_MAGIC then
      { rc := Status.VERR_INVALID_HANDLE, dtorCalls := [], pagesFreed := [], fFreed := false
        pThis := some pThis }
    else
      { rc := Status.VINF_SUCCESS
        dtorCalls := pThis.pages.flatMap (destroyPage pThis)
        pagesFreed := pThis.pages.map (fun pg => pg.pPage)
        fFreed := true
        pThis := some { pThis with u32Magic := RTMEMCACHE_MAGIC_DEAD, pages := [] } }

/-! ## Single-threaded executions -/

/-- A cache together with the bookkeeping the claims talk about: the objects handed out and
not yet freed, and every constructor invocation made so far (most recent first). -/
structure World where
  cache : RTMEMCACHEINT
  live : List Nat
  ctorLog : List Callback

/-- The contract of `RTMemPageAlloc`: a page it returns is page-aligned, not `NULL`, and not
one of the pages the cache already holds. -/
def PageFresh (pThis : RTMEMCACHEINT) (env : AllocEnv) : Prop :=
  ∀ a, env.pvPage = some a →
    a % PAGE_SIZE = 0 ∧ a ≠ 0 ∧ ∀ pg ∈ pThis.pages, pg.pPage ≠ a

/-- The world after an `RTMemCacheAllocEx` call that returned `r`. -/
def World.afterAlloc (w : World) (r : AllocResult) : World :=
  { cache := r.pThis
    live := match r.ppvObj with
      | some pvObj => pvObj :: w.live
      | none => w.live
    ctorLog := match r.ctorCall with
      | some call => call :: w.ctorLog
      | none => w.ctorLog }

/-- The world after `RTMemCacheFree(pvObj)` left the instance as `pThis`. -/
def World.afterFree (w : World) (pvObj : Nat) (pThis : RTMEMCACHEINT) : World :=
  { cache := pThis, live := w.live.erase pvObj, ctorLog := w.ctorLog }

/-- The worlds a single thread can reach: `RTMemCacheCreate` succeeded (with a `uint32_t`
maximum), followed by `RTMemCacheAllocEx` calls that return and `RTMemCacheFree` calls on
live pointers.  `envOk` restricts what the environment may answer. -/
inductive Reachable (arch : Arch) (envOk : AllocEnv → Prop) : World → Prop where
  | create (cbObject cbAlignment cMaxObjects : Nat) (pfnCtor pfnDtor : Bool) (pvUser : Nat)
      (env : CreateEnv) (pThis : RTMEMCACHEINT) :
      cMaxObjects < 4294967296 →
      RTMemCacheCreate arch cbObject cbAlignment cMaxObjects pfnCtor pfnDtor pvUser env
        = Except.ok pThis →
      Reachable arch envOk { cache := pThis, live := [], ctorLog := [] }
  | alloc (w : World) (env : AllocEnv) (r : AllocResult) :
      Reachable arch envOk w → envOk env → PageFresh w.cache env →
      RTMemCacheAllocEx arch w.cache env = some r →
      Reachable arch envOk (w.afterAlloc r)
  | free (w : World) (pvObj : Nat) (pThis : RTMEMCACHEINT) :
      Reachable arch envOk w → pvObj ∈ w.live →
      RTMemCacheFree w.cache pvObj = some pThis →
      Reachable arch envOk (w.afterFree pvObj pThis)

/-- No restriction on the environment. -/
def anyEnv : AllocEnv → Prop := fun _ => True

/-- The user constructor never fails. -/
def ctorNeverFails : AllocEnv → Prop := fun env => RT_FAILURE env.rcCtor = false

/-- The address of slot `i` of a page, `&pPage->pbObjects[i * cbObject]`. -/
def slotPtr (pThis : RTMEMCACHEINT) (pg : RTMEMCACHEPAGE) (i : Nat) : Nat :=
  pg.pbObjects + i * pThis.cbObject

/-- The pointer lies inside the page. -/
def onPage (pg : RTMEMCACHEPAGE) (p : Nat) : Bool :=
  decide (pg.pPage ≤ p ∧ p < pg.pPage + 4096)

/-- What `RTMemCacheCreate` guarantees about the immutable fields of an instance. -/
structure CfgOk (c : RTMEMCACHEINT) : Prop where
  magic : c.u32Magic = RTMEMCACHE_MAGIC
  cb_pos : 0 < c.cbObject
  per_pos : 0 < c.cPerPage
  per_le : c.cPerPage ≤ c.cBits
  bits64 : c.cBits % 64 = 0
  fits : 68 + c.cPerPage * c.cbObject + c.cBits / 8 * 2 ≤ 4096
  max_lt : c.cMax < 4294967296
  al_cb : c.cbAlignment ∣ c.cbObject
  al_page : c.cbAlignment ∣ 4096

/-- The state of one page in a reachable world: where growth put it, its free counter against
the live objects, the padding bits, and the allocation bits of the live slots. -/
structure PageOk (c : RTMEMCACHEINT) (live : List Nat) (pg : RTMEMCACHEPAGE) : Prop where
  aligned : pg.pPage % 4096 = 0
  nobj : pg.cObjects ≤ c.cPerPage
  objs : pg.pbObjects = pg.pPage + 4096 - c.cbObject * pg.cObjects
  ctor_le : pg.pbmCtor ≤ pg.pbmAlloc
  count : pg.cFree + (live.countP (onPage pg) : Int) = (pg.cObjects : Int)
  pad : ∀ i, pg.cObjects ≤ i → i < c.cBits → ASMBitTest pg.mem pg.pbmAlloc i = true
  liveBit : ∀ i, i < pg.cObjects → slotPtr c pg i ∈ live →
    ASMBitTest pg.mem pg.pbmAlloc i = true

/-- The invariant of reachable worlds; `k` is the number of reservations in flight (0
between calls, 1 inside `RTMemCacheAllocEx` after the cache-level reservation). -/
structure Inv (k : Int) (c : RTMEMCACHEINT) (live : List Nat) : Prop where
  cfg : CfgOk c
  pagesOk : ∀ pg ∈ c.pages, PageOk c live pg
  distinct : (c.pages.map (fun pg => pg.pPage)).Nodup
  liveSlots : ∀ p ∈ live, ∃ pg ∈ c.pages, ∃ i, i < pg.cObjects ∧ p = slotPtr c pg i
  liveNodup : live.Nodup
  conserve : c.cFree + (live.length : Int) + k = (c.cTotal : Int)
  total_le : c.cTotal ≤ c.cMax

/-- The constructor bookkeeping of reachable worlds when the constructor never fails: a
logged slot keeps its construction bit, and no live slot has its allocation bit at the
address of a logged slot's construction bit. -/
structure CtorInv (c : RTMEMCACHEINT) (live : List Nat) (log : List Callback) : Prop where
  bitSet : ∀ call ∈ log, ∃ pg ∈ c.pages, pg.pPage = call.pPage ∧ call.iObj < pg.cObjects ∧
    ASMBitTest pg.mem pg.pbmCtor call.iObj = true
  noAlias : ∀ call ∈ log, ∀ pg ∈ c.pages, pg.pPage = call.pPage →
    ∀ j, j < pg.cObjects → slotPtr c pg j ∈ live →
      8 * pg.pbmAlloc + j ≠ 8 * pg.pbmCtor + call.iObj
  nodup : (log.map (fun call => (call.pPage, call.iObj))).Nodup

/-- The instance after page `pg` got the free counter `X` and the memory `M`, the instance
the free counter `Y` and the hint `H`. -/
def slotTaken (c : RTMEMCACHEINT) (pg : RTMEMCACHEPAGE) (X : Int) (M : BitMem) (Y : Int)
    (H : Option Nat) : RTMEMCACHEINT :=
  { c with
    pages := setPage c.pages { pg with cFree := X, mem := M }
    cFree := Y
    pPageHint := H }

/-- The ways `RTMemCacheAllocEx` can end once it has claimed slot `i` of page `pg` in the
instance `c` (the instance after the cache-level reservation): no constructor registered;
the slot already constructed; the constructor invoked and successful; the constructor invoked
and failed, in which case the slot is given back. -/
def AllocOutcome (c : RTMEMCACHEINT) (pg : RTMEMCACHEPAGE) (i : Nat) (H : Option Nat)
    (rcCtor : Status) (r : AllocResult) : Prop :=
  (c.pfnCtor = false ∧ r.rc = Status.VINF_SUCCESS ∧ r.ppvObj = some (slotPtr c pg i) ∧
    r.ctorCall = none ∧
    r.pThis = slotTaken c pg (pg.cFree - 1) (ASMBitSet pg.mem pg.pbmAlloc i) c.cFree H) ∨
  (c.pfnCtor = true ∧
    ASMBitTest (ASMBitSet pg.mem pg.pbmAlloc i) pg.pbmCtor i = true ∧
    r.rc = Status.VINF_SUCCESS ∧ r.ppvObj = some (slotPtr c pg i) ∧ r.ctorCall = none ∧
    r.pThis = slotTaken c pg (pg.cFree - 1)
      (ASMBitSet (ASMBitSet pg.mem pg.pbmAlloc i) pg.pbmCtor i) c.cFree H) ∨
  (c.pfnCtor = true ∧
    ASMBitTest (ASMBitSet pg.mem pg.pbmAlloc i) pg.pbmCtor i = false ∧
    RT_FAILURE rcCtor = false ∧
    r.rc = Status.VINF_SUCCESS ∧ r.ppvObj = some (slotPtr c pg i) ∧
    r.ctorCall = some { pPage := pg.pPage, iObj := i, pvObj := slotPtr c pg i,
                        pvUser := c.pvUser } ∧
    r.pThis = slotTaken c pg (pg.cFree - 1)
      (ASMBitSet (ASMBitSet pg.mem pg.pbmAlloc i) pg.pbmCtor i) c.cFree H) ∨
  (c.pfnCtor = true ∧
    ASMBitTest (ASMBitSet pg.mem pg.pbmAlloc i) pg.pbmCtor i = false ∧
    RT_FAILURE rcCtor = true ∧
    r.rc = rcCtor ∧ r.ppvObj = none ∧
    r.ctorCall = some { pPage := pg.pPage, iObj := i, pvObj := slotPtr c pg i,
                        pvUser := c.pvUser } ∧
    r.pThis = slotTaken c pg (pg.cFree - 1 + 1)
      (ASMAtomicBitClear (ASMAtomicBitClear
        (ASMBitSet (ASMBitSet pg.mem pg.pbmAlloc i) pg.pbmCtor i) pg.pbmCtor i)
        pg.pbmAlloc i) (c.cFree + 1) H)

/-! ## Concrete executions -/

/-- An environment in which `RTMemCacheCreate` gets its resources. -/
def sampleCreateEnv : CreateEnv := { fMemAlloc := true, rcCritSect := Status.VINF_SUCCESS }

/-- The instance `RTMemCacheCreate(&h, 512, 64, 4, ctor, dtor, NULL)` stores on a 64-bit
host. -/
def sampleCache : RTMEMCACHEINT :=
  { u32Magic := RTMEMCACHE_MAGIC, cbObject := 512, cbAlignment := 64, cPerPage := 7
    cBits := 64, cMax := 4, pages := [], pfnCtor := true, pfnDtor := true, pvUser := 0
    cTotal := 0, cFree := 0, pPageHint := none }

/-- The world right after that `RTMemCacheCreate`. -/
def sampleWorld : World := { cache := sampleCache, live := [], ctorLog := [] }

/-- An environment whose page allocator hands out the page at `a` and whose constructor
succeeds. -/
def sampleEnv (a : Nat) : AllocEnv := { pvPage := some a, rcCtor := Status.VINF_SUCCESS }

/-- The result of a call that is known to return. -/
def returned (o : Option AllocResult) : AllocResult :=
  match o with
  | some r => r
  | none => { rc := Status.VINF_SUCCESS, ppvObj := none, ctorCall := none, pThis := sampleCache }

/-- The first `RTMemCacheAllocEx` on the sample cache. -/
def sampleAlloc1 : AllocResult :=
  returned (RTMemCacheAllocEx Arch.bits64 sampleCache (sampleEnv 4096))

/-- The world after the first allocation. -/
def sampleWorld1 : World := sampleWorld.afterAlloc sampleAlloc1

/-- The second `RTMemCacheAllocEx` on the sample cache. -/
def sampleAlloc2 : AllocResult :=
  returned (RTMemCacheAllocEx Arch.bits64 sampleWorld1.cache (sampleEnv 8192))

/-- A full cache: capacity zero, nothing provisioned. -/
def sampleFullCache : RTMEMCACHEINT := { sampleCache with cMax := 0 }

/-- The destructor invocation `RTMemCacheDestroy` owes slot `i` of page `pg`. -/
def dtorCallOf (pThis : RTMEMCACHEINT) (pg : RTMEMCACHEPAGE) (i : Nat) : Callback :=
  { pPage := pg.pPage, iObj := i, pvObj := pg.pbObjects + i * pThis.cbObject
    pvUser := pThis.pvUser }

/-- The invocation is made on slot `i` of the page at address `a`. -/
def onSlot (a i : Nat) (call : Callback) : Bool :=
  decide (call.pPage = a ∧ call.iObj = i)

/-- The derived alignment as the specification words it: "the largest power of two that is
<= s, capped at 64". -/
def specDerivedAlignment (cbObject : Nat) : Nat :=
  match ((List.range 33).reverse).find? (fun k => decide (2 ^ k ≤ cbObject)) with
  | some k => min (2 ^ k) 64
  | none => 64

/-- The statuses and pointers of `n` successive `RTMemCacheAllocEx` calls (the page
allocator, asked at most once in the runs below, hands out the page at 4096). -/
def allocRun (arch : Arch) : Nat → RTMEMCACHEINT → List (Status × Option Nat)
  | 0, _ => []
  | n + 1, pThis =>
    match RTMemCacheAllocEx arch pThis (sampleEnv 4096) with
    | some r => (r.rc, r.ppvObj) :: allocRun arch n r.pThis
    | none => []

/-- Scenario B: Allocate, Free the object, Allocate again; the constructor invocations made,
most recent first (`none` if a call does not return or the first Allocate fails). -/
def scenarioB (arch : Arch) (pThis : RTMEMCACHEINT) : Option (List Callback) :=
  match RTMemCacheAllocEx arch pThis (sampleEnv 4096) with
  | none => none
  | some r1 =>
    match r1.ppvObj with
    | none => none
    | some pvObj =>
      match RTMemCacheFree r1.pThis pvObj with
      | none => none
      | some pThis2 =>
        match RTMemCacheAllocEx arch pThis2 (sampleEnv 8192) with
        | none => none
        | some r2 => some (r2.ctorCall.toList ++ r1.ctorCall.toList)

/-- The instance `RTMemCacheCreate(&h, 68, 4, 100, ctor, dtor, NULL)` stores; `cPerPage` is 59
on a 32-bit host and 58 on a 64-bit host. -/
def sampleCache68 (cPerPage : Nat) : RTMEMCACHEINT :=
  { u32Magic := RTMEMCACHE_MAGIC, cbObject := 68, cbAlignment := 4, cPerPage := cPerPage
    cBits := 64, cMax := 100, pages := [], pfnCtor := true, pfnDtor := true, pvUser := 0
    cTotal := 0, cFree := 0, pPageHint := none }

/-- The instance `RTMemCacheCreate(&h, cbObject, 0, 4, NULL, NULL, NULL)` stores on a 64-bit
host for `cbObject` 16 or 24: alignment 32, object size 32. -/
def sampleCacheA : RTMEMCACHEINT :=
  { u32Magic := RTMEMCACHE_MAGIC, cbObject := 32, cbAlignment := 32, cPerPage := 124
    cBits := 128, cMax := 4, pages := [], pfnCtor := false, pfnDtor := false, pvUser := 0
    cTotal := 0, cFree := 0, pPageHint := none }

/-! ## Bit ranges (`ASMBitSetRange` of `asm.h`) -/

/-- The statement `*pu32 |= u32` on dword `iDword` of the bitmap at `pvBitmap`: bit `j < 32`
of the dword gets set when bit `j` of `u32` is set.  Only the low 32 bits of `u32` count. -/
def orU32 (m : BitMem) (pvBitmap iDword u32 : Nat) : BitMem :=
  fun b =>
    if 8 * pvBitmap + 32 * iDword ≤ b ∧ b < 8 * pvBitmap + 32 * iDword + 32 then
      m b || u32.testBit (b - (8 * pvBitmap + 32 * iDword))
    else m b

/-- `ASMMemFill32(pu32, cb, u32)` with `pu32` at dword `iDword` of the bitmap at `pvBitmap`:
`rep stosd` stores `cb >> 2` dwords. -/
def ASMMemFill32 (m : BitMem) (pvBitmap iDword cb u32 : Nat) : BitMem :=
  fun b =>
    if 8 * pvBitmap + 32 * iDword ≤ b ∧ b < 8 * pvBitmap + 32 * iDword + 32 * (cb >>> 2) then
      u32.testBit ((b - (8 * pvBitmap + 32 * iDword)) % 32)
    else m b

/-- The shift `u32 << cShift` of a 32-bit operand as the compiled code performs it: the
instruction `shl r32, cl` takes the count modulo 32 and keeps the low 32 bits.  For a count
below 32 this is the value C defines; for a count of 32 or more C leaves the shift
undefined and the instruction is what runs. -/
def shl32 (u32 cShift : Nat) : Nat := (u32 <<< (cShift % 32)) % 4294967296

/-- `ASMBitSetRange(pvBitmap, iBitStart, iBitEnd)` for non-negative arguments.  The `int`
expressions are taken modulo `2^32`.  In the single-dword branch the source shifts by
`iBitStart`, not by `iBitStart & 31`; the count is 32 or more when the range lies in a
dword of index 1 or more, and the shift is then the one of `shl32`. -/
def ASMBitSetRange (m : BitMem) (pvBitmap iBitStart iBitEnd : Nat) : BitMem :=
  if iBitStart < iBitEnd then
    let iDword := iBitStart >>> 5
    let iStart := iBitStart - (iBitStart &&& 31)
    let iEnd := iBitEnd - (iBitEnd &&& 31)
    if iStart = iEnd then
      orU32 m pvBitmap iDword (shl32 ((1 <<< (iBitEnd - iBitStart)) - 1) iBitStart)
    else
      let first : BitMem × Nat × Nat :=
        if (iBitStart &&& 31) ≠ 0 then
          (orU32 m pvBitmap iDword (4294967295 - ((1 <<< (iBitStart &&& 31)) - 1)),
            iDword + 1, iStart + 32)
        else (m, iDword, iBitStart)
      let whole : BitMem :=
        if first.2.2 ≠ iEnd then
          ASMMemFill32 first.1 pvBitmap first.2.1 ((iEnd - first.2.2) >>> 3) 4294967295
        else first.1
      if (iBitEnd &&& 31) ≠ 0 then
        orU32 whole pvBitmap (iBitEnd >>> 5) ((1 <<< (iBitEnd &&& 31)) - 1)
      else whole
  else m

/-! ## More concrete executions -/

/-- An environment whose page allocator fails. -/
def sampleEnvNoPage : AllocEnv := { pvPage := none, rcCtor := Status.VINF_SUCCESS }

/-- An environment whose page allocator fails and whose constructor fails with
`VERR_NO_MEMORY`. -/
def sampleEnvCtorFails : AllocEnv := { pvPage := none, rcCtor := Status.VERR_NO_MEMORY }

/-- The slot the second `RTMemCacheAllocEx` on the sample cache constructs. -/
def sampleCall2 : Callback := { pPage := 4096, iObj := 2, pvObj := 7168, pvUser := 0 }

/-- The first `RTMemCacheAllocEx` on the 32-bit cache of 68-byte objects. -/
def sampleAlloc68 : AllocResult :=
  returned (RTMemCacheAllocEx Arch.bits32 (sampleCache68 59) (sampleEnv 4096))

/-- The world after that allocation. -/
def sampleWorld68 : World :=
  ({ cache := sampleCache68 59, live := [], ctorLog := [] } : World).afterAlloc sampleAlloc68

/-- The page of the cache at address `a` (the zero page of nothing when there is none). -/
def pageAt (pThis : RTMEMCACHEINT) (a : Nat) : RTMEMCACHEPAGE :=
  match findPage pThis.pages a with
  | some pg => pg
  | none =>
    { pPage := 0, pbmAlloc := 0, pbmCtor := 0, pbObjects := 0, cObjects := 0, cFree := 0
      mem := zeroMem }

/-- The instance `RTMemCacheFree` leaves (the instance itself when the call is undefined). -/
def freed (pThis : RTMEMCACHEINT) (pvObj : Nat) : RTMEMCACHEINT :=
  match RTMemCacheFree pThis pvObj with
  | some pThis2 => pThis2
  | none => pThis

/-- The instance `RTMemCacheDestroy` leaves of the sample cache. -/
def sampleDeadCache : RTMEMCACHEINT := { sampleCache with u32Magic := RTMEMCACHE_MAGIC_DEAD }

/-- Rounding up as the specification words it ("rounded up to"): the least multiple of `g`
that is `>= x`, to be compared with the macro `RT_ALIGN` of the code. -/
def specRoundUp (x g : Nat) : Nat := (x + (g - 1)) / g * g

/-- The instance `RTMemCacheCreate(&h, 512, 64, 10, ctor, dtor, NULL)` stores on a 64-bit
host: 7 objects per page, so the maximum of 10 needs a second page. -/
def sampleCache10 : RTMEMCACHEINT := { sampleCache with cMax := 10 }

/-- The world after `k` further `RTMemCacheAllocEx` calls during which the page allocator
is not needed (it would fail). -/
def allocMore (arch : Arch) : Nat → World → World
  | 0, w => w
  | k + 1, w =>
    (allocMore arch k w).afterAlloc
      (returned (RTMemCacheAllocEx arch (allocMore arch k w).cache sampleEnvNoPage))

/-- The world after the first allocation from the cache with maximum 10 (page at 4096). -/
def sampleWorld10 : World :=
  ({ cache := sampleCache10, live := [], ctorLog := [] } : World).afterAlloc
    (returned (RTMemCacheAllocEx Arch.bits64 sampleCache10 (sampleEnv 4096)))

/-- The world in which the first page of that cache is full: seven live objects. -/
def sampleWorldFull : World := allocMore Arch.bits64 6 sampleWorld10

/-! ## Bit ranges (`ASMBitClearRange` of `asm.h`) -/

/-- The statement `*pu32 &= u32` on dword `iDword` of the bitmap at `pvBitmap`: bit `j < 32`
of the dword stays set only when bit `j` of `u32` is set. -/
def andU32 (m : BitMem) (pvBitmap iDword u32 : Nat) : BitMem :=
  fun b =>
    if 8 * pvBitmap + 32 * iDword ≤ b ∧ b < 8 * pvBitmap + 32 * iDword + 32 then
      m b && u32.testBit (b - (8 * pvBitmap + 32 * iDword))
    else m b

/-- `ASMMemZero32(pu32, cb)` with `pu32` at dword `iDword` of the bitmap at `pvBitmap`:
`rep stosd` stores `cb >> 2` zero dwords. -/
def ASMMemZero32 (m : BitMem) (pvBitmap iDword cb : Nat) : BitMem :=
  fun b =>
    if 8 * pvBitmap + 32 * iDword ≤ b ∧ b < 8 * pvBitmap + 32 * iDword + 32 * (cb >>> 2) then
      false
    else m b

/-- `ASMBitClearRange(pvBitmap, iBitStart, iBitEnd)` for non-negative arguments; `~x` on
the 32-bit values is `4294967295 - x`. -/
def ASMBitClearRange (m : BitMem) (pvBitmap iBitStart iBitEnd : Nat) : BitMem :=
  if iBitStart < iBitEnd then
    let iDword := iBitStart >>> 5
    let iStart := iBitStart - (iBitStart &&& 31)
    let iEnd := iBitEnd - (iBitEnd &&& 31)
    if iStart = iEnd then
      andU32 m pvBitmap iDword
        (((1 <<< (iBitStart &&& 31)) - 1) ||| (4294967295 - ((1 <<< (iBitEnd &&& 31)) - 1)))
    else
      let first : BitMem × Nat × Nat :=
        if (iBitStart &&& 31) ≠ 0 then
          (andU32 m pvBitmap iDword ((1 <<< (iBitStart &&& 31)) - 1), iDword + 1, iStart + 32)
        else (m, iDword, iBitStart)
      let whole : BitMem :=
        if first.2.2 ≠ iEnd then
          ASMMemZero32 first.1 pvBitmap first.2.1 ((iEnd - first.2.2) >>> 3)
        else first.1
      if (iBitEnd &&& 31) ≠ 0 then
        andU32 whole pvBitmap (iBitEnd >>> 5) (4294967295 - ((1 <<< (iBitEnd &&& 31)) - 1))
      else whole
  else m

/-- A bitmap of all ones. -/
def onesMem : BitMem := fun _ => true

/-! ## The assertion of `rtMemCacheGrow` -/

/-- The number of values of `uintptr_t`: address arithmetic is modulo this. -/
def uintptrRange : Arch → Nat
  | Arch.bits32 => 4294967296
  | Arch.bits64 => 18446744073709551616

/-- The condition of `Assert((uintptr_t)pPage->pbmCtor + pThis->cBits / 8 <
(uintptr_t)pPage->pbmCtor)`, the assertion `rtMemCacheGrow` makes after it has placed the
bitmaps.  The assertion fires when the condition is false. -/
def growAssertion (arch : Arch) (pThis : RTMEMCACHEINT) (pPage : RTMEMCACHEPAGE) : Bool :=
  decide ((pPage.pbmCtor + pThis.cBits / 8) % uintptrRange arch < pPage.pbmCtor)

/-! ## Guest control service (`src/VBox/HostServices/GuestControl/service.cpp`)

The host command buffer of the guest control HGCM service.  The state is the two lists of
the `Service` object; the content of the HGCM parameters is a list of numbers.  What the
service cannot decide itself is an input of the operation: whether `RTMemAlloc` and the
node allocation of `std::list::push_back` succeed, and what a registered host callback
returns.  The completion of a guest call (`pfnCallComplete`) changes neither list and is
left out. -/

/-- The status codes of `service.cpp`. -/
inductive SvcStatus where
  | VINF_SUCCESS
  | VINF_HGCM_ASYNC_EXECUTE
  | VERR_NO_MEMORY
  | VERR_INVALID_PARAMETER
  | VERR_TOO_MUCH_DATA
  | VERR_NOT_SUPPORTED
  deriving DecidableEq, Repr

/-- `RT_SUCCESS(rc)` on the codes above. -/
def RT_SUCCESS : SvcStatus → Bool
  | SvcStatus.VINF_SUCCESS => true
  | SvcStatus.VINF_HGCM_ASYNC_EXECUTE => true
  | _ => false

/-- The function codes `Service::hostCall` switches over; `other` is the `default:` case. -/
inductive HostFunction where
  | HOST_EXEC_CMD
  | HOST_EXEC_SET_INPUT
  | HOST_EXEC_GET_OUTPUT
  | other (eFunction : Nat)
  deriving DecidableEq, Repr

/-- The function codes `Service::call` switches over; `other` is the `default:` case. -/
inductive GuestFunction where
  | GUEST_GET_HOST_MSG
  | GUEST_EXEC_SEND_OUTPUT
  | GUEST_EXEC_SEND_STATUS
  | other (eFunction : Nat)
  deriving DecidableEq, Repr

/-- `VBOXGUESTCTRPARAMBUFFER`: a buffered HGCM request. -/
structure VBOXGUESTCTRPARAMBUFFER where
  uMsg : HostFunction
  uParmCount : Nat
  pParms : List Nat
  deriving DecidableEq, Repr

/-- `HostCmd`: a buffered host command. -/
structure HostCmd where
  parmBuf : VBOXGUESTCTRPARAMBUFFER
  deriving DecidableEq, Repr

/-- `GuestCall`: an uncompleted guest call (the pointer `mParms` is left out). -/
structure GuestCall where
  mHandle : Nat
  mNumParms : Nat
  deriving DecidableEq, Repr

/-- The two lists of `Service`: the deferred guest calls and the buffered host commands. -/
structure Service where
  mClientList : List GuestCall
  mHostCmds : List HostCmd
  deriving DecidableEq, Repr

/-- What the environment answers during one service call. -/
structure SvcEnv where
  /-- Value `true` when the `RTMemAlloc` calls of `paramBufferAllocate` return memory. -/
  fParmAlloc : Bool
  /-- Value `true` when `std::list::push_back` gets its node; otherwise it throws
  `std::bad_alloc` and leaves the list as it was. -/
  fListAlloc : Bool
  /-- What the registered host callback returns, `none` when none is registered. -/
  rcHostCallback : Option SvcStatus

/-- `Service::paramBufferAllocate(pBuf, uMsg, cParms, paParms)`. -/
def paramBufferAllocate (uMsg : HostFunction) (cParms : Nat) (paParms : List Nat)
    (env : SvcEnv) : SvcStatus × VBOXGUESTCTRPARAMBUFFER :=
  if env.fParmAlloc then
    (SvcStatus.VINF_SUCCESS, { uMsg := uMsg, uParmCount := cParms, pParms := paParms })
  else (SvcStatus.VERR_NO_MEMORY, { uMsg := uMsg, uParmCount := cParms, pParms := [] })

/-- `Service::paramBufferAssign(pBuf, cParms, paParms)`: the status (the copy into the
caller's parameters is not part of the state). -/
def paramBufferAssign (pBuf : VBOXGUESTCTRPARAMBUFFER) (cParms : Nat) : SvcStatus :=
  if cParms ≠ pBuf.uParmCount then SvcStatus.VERR_INVALID_PARAMETER
  else SvcStatus.VINF_SUCCESS

/-- `Service::sendHostCmdToGuest(pCmd, callHandle, cParms, paParms)`. -/
def sendHostCmdToGuest (pCmd : HostCmd) (cParms : Nat) : SvcStatus :=
  if pCmd.parmBuf.uParmCount > cParms then SvcStatus.VERR_TOO_MUCH_DATA
  else paramBufferAssign pCmd.parmBuf cParms

/-- `Service::retrieveNextHostCmd(callHandle, cParms, paParms)`; the status is `none` when
`std::bad_alloc` leaves the function. -/
def retrieveNextHostCmd (s : Service) (callHandle cParms : Nat) (env : SvcEnv) :
    Option SvcStatus × Service :=
  match s.mHostCmds with
  | [] =>
    if env.fListAlloc then
      (some SvcStatus.VINF_HGCM_ASYNC_EXECUTE,
        { s with mClientList := s.mClientList ++ [{ mHandle := callHandle, mNumParms := cParms }] })
    else (none, s)
  | curCmd :: rest =>
    let rc := sendHostCmdToGuest curCmd cParms
    if RT_SUCCESS rc then (some rc, { s with mHostCmds := rest })
    else (some rc, s)

/-- `Service::notifyHost(eFunction, cParms, paParms)`: the status; no list changes. -/
def notifyHost (cParms : Nat) (env : SvcEnv) : SvcStatus :=
  if cParms = 5 then
    match env.rcHostCallback with
    | some rc => rc
    | none => SvcStatus.VINF_SUCCESS
  else SvcStatus.VERR_NOT_SUPPORTED

/-- `Service::processHostCmd(eFunction, cParms, paParms)`; the status is `none` when
`std::bad_alloc` leaves the function. -/
def processHostCmd (s : Service) (eFunction : HostFunction) (cParms : Nat)
    (paParms : List Nat) (env : SvcEnv) : Option SvcStatus × Service :=
  let a := paramBufferAllocate eFunction cParms paParms env
  if RT_SUCCESS a.1 then
    let newCmd : HostCmd := { parmBuf := a.2 }
    let woken : SvcStatus × Bool × Service :=
      match s.mClientList with
      | guest :: rest =>
        let rc := sendHostCmdToGuest newCmd guest.mNumParms
        if RT_SUCCESS rc then (rc, true, { s with mClientList := rest })
        else if rc = SvcStatus.VERR_TOO_MUCH_DATA then
          (SvcStatus.VINF_SUCCESS, false, { s with mClientList := rest })
        else (rc, false, { s with mClientList := rest })
      | [] => (a.1, false, s)
    if ¬ woken.2.1 then
      if env.fListAlloc then
        let pushed := woken.2.2.mHostCmds ++ [newCmd]
        (some woken.1,
          { woken.2.2 with mHostCmds := if pushed.length > 256 then pushed.tail else pushed })
      else (none, woken.2.2)
    else (some woken.1, woken.2.2)
  else (some a.1, s)

/-- `Service::call(callHandle, u32ClientID, pvClient, eFunction, cParms, paParms)`: the
status at the end of the function and the service afterwards. -/
def call (s : Service) (callHandle : Nat) (eFunction : GuestFunction) (cParms : Nat)
    (env : SvcEnv) : SvcStatus × Service :=
  match eFunction with
  | GuestFunction.GUEST_GET_HOST_MSG =>
    match retrieveNextHostCmd s callHandle cParms env with
    | (some rc, s1) => (rc, s1)
    | (none, s1) => (SvcStatus.VERR_NO_MEMORY, s1)
  | GuestFunction.GUEST_EXEC_SEND_OUTPUT => (notifyHost cParms env, s)
  | GuestFunction.GUEST_EXEC_SEND_STATUS => (notifyHost cParms env, s)
  | GuestFunction.other _ => (SvcStatus.VERR_NOT_SUPPORTED, s)

/-- `Service::hostCall(eFunction, cParms, paParms)`. -/
def hostCall (s : Service) (eFunction : HostFunction) (cParms : Nat) (paParms : List Nat)
    (env : SvcEnv) : SvcStatus × Service :=
  match eFunction with
  | HostFunction.HOST_EXEC_CMD =>
    match processHostCmd s eFunction cParms paParms env with
    | (some rc, s1) => (rc, s1)
    | (none, s1) => (SvcStatus.VERR_NO_MEMORY, s1)
  | HostFunction.HOST_EXEC_SET_INPUT => (SvcStatus.VINF_SUCCESS, s)
  | HostFunction.HOST_EXEC_GET_OUTPUT =>
    match processHostCmd s eFunction cParms paParms env with
    | (some rc, s1) => (rc, s1)
    | (none, s1) => (SvcStatus.VERR_NO_MEMORY, s1)
  | HostFunction.other _ => (SvcStatus.VERR_NOT_SUPPORTED, s)

/-- One operation on the service: a host call or a guest call, with the answers of the
environment. -/
inductive SvcOp where
  | hostCall (eFunction : HostFunction) (cParms : Nat) (paParms : List Nat) (env : SvcEnv)
  | call (callHandle : Nat) (eFunction : GuestFunction) (cParms : Nat) (env : SvcEnv)

/-- The service after one operation. -/
def svcStep (s : Service) : SvcOp → Service
  | SvcOp.hostCall eFunction cParms paParms env => (hostCall s eFunction cParms paParms env).2
  | SvcOp.call callHandle eFunction cParms env => (call s callHandle eFunction cParms env).2

/-- The service after a sequence of operations. -/
def svcRun (s : Service) (ops : List SvcOp) : Service := ops.foldl svcStep s

/-- The service right after construction: both lists empty. -/
def emptyService : Service := { mClientList := [], mHostCmds := [] }

/-- An environment in which every allocation succeeds and no host callback is registered. -/
def sampleSvcEnv : SvcEnv := { fParmAlloc := true, fListAlloc := true, rcHostCallback := none }

/-- The host calls `HOST_EXEC_CMD` with `cParms = 0, 1, ..., n - 1`, no guest waiting. -/
def sampleHostCalls (n : Nat) : List SvcOp :=
  (List.range n).map (fun k => SvcOp.hostCall HostFunction.HOST_EXEC_CMD k [] sampleSvcEnv)

/-- Guest calls first: 300 `GUEST_GET_HOST_MSG` calls with no parameter, which all get
deferred, then the host calls `HOST_EXEC_CMD` with `cParms = 1, ..., 256`; each host call
wakes the oldest waiting guest call, which cannot take the command (`VERR_TOO_MUCH_DATA`),
so the command is buffered. -/
def sampleWaitingRun : List SvcOp :=
  (List.range 300).map
      (fun h => SvcOp.call h GuestFunction.GUEST_GET_HOST_MSG 0 sampleSvcEnv)
    ++ (List.range 256).map
      (fun k => SvcOp.hostCall HostFunction.HOST_EXEC_CMD (k + 1) [] sampleSvcEnv)

/-! ## The page `RTMemCacheAllocEx` grabs from -/

/-- The first page of the list whose grab succeeds: where the pass
`for (pPage = pThis->pPageHead; pPage; pPage = pPage->pNext)` stops. -/
def firstFree (pages : List RTMEMCACHEPAGE) : Option RTMEMCACHEPAGE :=
  pages.find? (fun pg => decide (0 ≤ pg.cFree - 1))

/-- Value `true` when the hint names a page and the grab on the hint page succeeds. -/
def hintGrabs (pThis : RTMEMCACHEINT) : Bool :=
  match pThis.pPageHint with
  | none => false
  | some a =>
    match findPage pThis.pages a with
    | none => false
    | some pPage => decide (0 ≤ pPage.cFree - 1)

/-- The page "Grab a free object at the page level" ends up with: the hint page when its
grab succeeds, otherwise the first page of the list whose grab succeeds (`none` when there
is none, or when the hint is not a page of the list). -/
def choosePage (pThis : RTMEMCACHEINT) : Option RTMEMCACHEPAGE :=
  match pThis.pPageHint with
  | none => firstFree pThis.pages
  | some a =>
    match findPage pThis.pages a with
    | none => none
    | some pPage => if pPage.cFree - 1 < 0 then firstFree pThis.pages else some pPage

/-- The hint after the grab on `pPage`: untouched when the hint page was grabbed, otherwise
`if (iObj > 0) ASMAtomicWritePtr(&pThis->pPageHint, pPage)`. -/
def hintAfter (pThis : RTMEMCACHEINT) (pPage : RTMEMCACHEPAGE) : Option Nat :=
  if hintGrabs pThis then pThis.pPageHint
  else if pPage.cFree - 1 > 0 then some pPage.pPage else pThis.pPageHint

/-! ## A 32-bit execution with partly overlapping bitmaps -/

/-- The instance `RTMemCacheCreate(&h, 54, 1, 100, ctor, dtor, NULL)` stores on a 32-bit
host: 74 objects per page, bitmaps of 128 bits. -/
def sampleCache54 : RTMEMCACHEINT :=
  { u32Magic := RTMEMCACHE_MAGIC, cbObject := 54, cbAlignment := 1, cPerPage := 74
    cBits := 128, cMax := 100, pages := [], pfnCtor := true, pfnDtor := true, pvUser := 0
    cTotal := 0, cFree := 0, pPageHint := none }

/-- The world after the first allocation from that cache (page at 4096). -/
def sampleWorld54 : World :=
  ({ cache := sampleCache54, live := [], ctorLog := [] } : World).afterAlloc
    (returned (RTMemCacheAllocEx Arch.bits32 sampleCache54 (sampleEnv 4096)))

/-- The counters of a cache against its page list; `k` is the number of reservations in
flight.  No page counter is negative, the instance's `cFree` is the sum of the page
counters, `cTotal` is the sum of the object counts, and the hint, when set, is the address
of a page of the list. -/
structure Counters (k : Int) (c : RTMEMCACHEINT) : Prop where
  pageFree : ∀ pg ∈ c.pages, 0 ≤ pg.cFree
  sumFree : c.cFree + k = (c.pages.map (fun pg => pg.cFree)).sum
  sumObj : (c.cTotal : Int) = (c.pages.map (fun pg => (pg.cObjects : Int))).sum
  hintOk : ∀ a, c.pPageHint = some a → a ∈ c.pages.map (fun pg => pg.pPage)

/-- The allocation bitmap against the live objects where the two bitmaps of every page are
apart: the construction bitmap ends before the allocation bitmap starts, and a slot whose
allocation bit is set is live. -/
structure Exact (c : RTMEMCACHEINT) (live : List Nat) : Prop where
  disjoint : ∀ pg ∈ c.pages, pg.pbmCtor + c.cBits / 8 ≤ pg.pbmAlloc
  bitLive : ∀ pg ∈ c.pages, ∀ i, i < pg.cObjects →
    ASMBitTest pg.mem pg.pbmAlloc i = true → slotPtr c pg i ∈ live

/-- The number of clear allocation bits among the slots `0 .. cObjects - 1` of a page. -/
def clearSlots (pg : RTMEMCACHEPAGE) : Nat :=
  ((List.range pg.cObjects).filter (fun i => !ASMBitTest pg.mem pg.pbmAlloc i)).length

/-- The world after 64 allocations from the 32-bit cache of 54-byte objects. -/
def sampleWorld54Full : World := allocMore Arch.bits32 63 sampleWorld54

/-! ## Runs of allocations and frees -/

/-- One step of a sample run: `none` is an `RTMemCacheAllocEx` call during which the page
allocator is not needed, `some p` is `RTMemCacheFree(p)`. -/
def stepWorld (arch : Arch) (w : World) : Option Nat → World
  | none => w.afterAlloc (returned (RTMemCacheAllocEx arch w.cache sampleEnvNoPage))
  | some p => w.afterFree p (freed w.cache p)

/-- The world after a sample run. -/
def runWorld (arch : Arch) (ops : List (Option Nat)) (w : World) : World :=
  ops.foldl (stepWorld arch) w

/-- Value `true` when every call of the run returns and every freed pointer is live. -/
def runOk (arch : Arch) : List (Option Nat) → World → Bool
  | [], _ => true
  | none :: rest, w =>
    (RTMemCacheAllocEx arch w.cache sampleEnvNoPage).isSome
      && runOk arch rest (stepWorld arch w none)
  | some p :: rest, w =>
    decide (p ∈ w.live) && (RTMemCacheFree w.cache p).isSome
      && runOk arch rest (stepWorld arch w (some p))

/-! ## The counters as `int32_t`

The functions above compute `cFree` of the instance and of a page exactly.  The functions
of this section are the same code with every counter operation as the machine performs it:
`ASMAtomicDecS32`, `ASMAtomicIncS32` and `ASMAtomicAddS32` are `lock xadd` on 32 bits and
wrap, and the assignment `pPage->cFree = cObjects` converts a `uint32_t`. -/

/-- The content of an `int32_t` that receives the exact value `i`: `i` modulo `2^32`, taken
into `-2^31 .. 2^31 - 1`. -/
def wrapS32 (i : Int) : Int := (i + 2147483648) % 4294967296 - 2147483648

/-- `ASMAtomicDecS32(pi32)`: the new content of `*pi32`, which the call also returns. -/
def ASMAtomicDecS32 (i32 : Int) : Int := wrapS32 (i32 - 1)

/-- `ASMAtomicIncS32(pi32)`: the new content of `*pi32`, which the call also returns. -/
def ASMAtomicIncS32 (i32 : Int) : Int := wrapS32 (i32 + 1)

/-- `ASMAtomicAddS32(pi32, i32)`: the new content of `*pi32` (the call returns the old). -/
def ASMAtomicAddS32 (i32Old i32 : Int) : Int := wrapS32 (i32Old + i32)

/-- `rtMemCacheGrow` with the `int32_t` counters. -/
def rtMemCacheGrowS32 (arch : Arch) (pThis : RTMEMCACHEINT) (pvPage : Option Nat) :
    Status × RTMEMCACHEINT :=
  if pThis.cFree < 0 then
    match pvPage with
    | some pPage =>
      let pg := growPage arch pThis pPage
      let pgS := { pg with cFree := wrapS32 (pg.cObjects : Int) }
      (Status.VINF_SUCCESS,
        { pThis with
          pPageHint := some pPage
          pages := pThis.pages ++ [pgS]
          cFree := ASMAtomicAddS32 pThis.cFree (wrapS32 (pg.cObjects : Int))
          cTotal := (pThis.cTotal + pg.cObjects) % 4294967296 })
    | none => (Status.VERR_NO_MEMORY, pThis)
  else (Status.VINF_SUCCESS, pThis)

/-- `rtMemCacheGrabObj` with the `int32_t` counter. -/
def rtMemCacheGrabObjS32 (pPage : RTMEMCACHEPAGE) : Int × RTMEMCACHEPAGE :=
  let cFreeNew := ASMAtomicDecS32 pPage.cFree
  if cFreeNew < 0 then (-1, { pPage with cFree := ASMAtomicIncS32 cFreeNew })
  else (cFreeNew, { pPage with cFree := cFreeNew })

/-- `RTMemCacheFree` with the `int32_t` counters. -/
def RTMemCacheFreeS32 (pThis : RTMEMCACHEINT) (pvObj : Nat) : Option RTMEMCACHEINT :=
  if pvObj = 0 then some pThis
  else if pThis.u32Magic ≠ RTMEMCACHE_MAGIC then some pThis
  else
    match findPage pThis.pages (pvObj - (pvObj &&& PAGE_OFFSET_MASK)) with
    | none => none
    | some pPage =>
      if pvObj < pPage.pbObjects then none
      else
        let offObj := pvObj - pPage.pbObjects
        let iObj := offObj / pThis.cbObject
        let r := ASMAtomicBitTestAndClear pPage.mem pPage.pbmAlloc iObj
        if ¬ r.1 then some { pThis with pages := setPage pThis.pages { pPage with mem := r.2 } }
        else
          some { pThis with
                 pages := setPage pThis.pages
                   { pPage with mem := r.2, cFree := ASMAtomicIncS32 pPage.cFree }
                 cFree := ASMAtomicIncS32 pThis.cFree }

/-- The cache-level reservation of `RTMemCacheAllocEx` with the `int32_t` counters. -/
def allocReserveS32 (arch : Arch) (pThis : RTMEMCACHEINT) (pvPage : Option Nat) :
    Status × RTMEMCACHEINT :=
  let cNewFree := ASMAtomicDecS32 pThis.cFree
  let pThis1 := { pThis with cFree := cNewFree }
  if cNewFree < 0 then
    let cTotal : Nat := pThis1.cTotal
    let cSum : Nat := (((cTotal : Int) + -cNewFree) % 4294967296).toNat
    if cSum > pThis1.cMax ∨ cSum ≤ cTotal then
      (Status.VERR_MEM_CACHE_MAX_SIZE, { pThis1 with cFree := ASMAtomicIncS32 pThis1.cFree })
    else
      let g := rtMemCacheGrowS32 arch pThis1 pvPage
      if RT_FAILURE g.1 then (g.1, { g.2 with cFree := ASMAtomicIncS32 g.2.cFree })
      else (Status.VINF_SUCCESS, g.2)
  else (Status.VINF_SUCCESS, pThis1)

/-- The list pass of grab attempts with the `int32_t` counters. -/
def scanGrabS32 : List RTMEMCACHEPAGE → Option (Int × RTMEMCACHEPAGE × List RTMEMCACHEPAGE)
  | [] => none
  | pPage :: rest =>
    let g := rtMemCacheGrabObjS32 pPage
    if g.1 ≥ 0 then some (g.1, g.2, g.2 :: rest)
    else
      match scanGrabS32 rest with
      | some (iObj, pg, rest1) => some (iObj, pg, g.2 :: rest1)
      | none => none

/-- The loop around the list pass with the `int32_t` counters. -/
def allocScanS32 (pThis : RTMEMCACHEINT) : Option (Int × RTMEMCACHEPAGE × RTMEMCACHEINT) :=
  match scanGrabS32 pThis.pages with
  | some (iObj, pg, pages1) =>
    some (iObj, pg,
      { pThis with
        pages := pages1
        pPageHint := if iObj > 0 then some pg.pPage else pThis.pPageHint })
  | none => none

/-- The page-level grab with the `int32_t` counters. -/
def allocGrabPageS32 (pThis : RTMEMCACHEINT) :
    Option (Int × RTMEMCACHEPAGE × RTMEMCACHEINT) :=
  match pThis.pPageHint with
  | none => allocScanS32 pThis
  | some a =>
    match findPage pThis.pages a with
    | none => none
    | some pPage =>
      let g := rtMemCacheGrabObjS32 pPage
      let pThis1 := { pThis with pages := setPage pThis.pages g.2 }
      if g.1 < 0 then allocScanS32 pThis1 else some (g.1, g.2, pThis1)

/-- The constructor step of `RTMemCacheAllocEx` with the `int32_t` counters (the
constructor failure path calls `RTMemCacheFree`). -/
def allocConstructS32 (pThis : RTMEMCACHEINT) (pPage : RTMEMCACHEPAGE) (iObj : Nat)
    (rcCtor : Status) : Option AllocResult :=
  let pvObj := pPage.pbObjects + iObj * pThis.cbObject
  if pThis.pfnCtor then
    let t := ASMAtomicBitTestAndSet pPage.mem pPage.pbmCtor iObj
    if ¬ t.1 then
      let call : Callback :=
        { pPage := pPage.pPage, iObj := iObj, pvObj := pvObj, pvUser := pThis.pvUser }
      if RT_FAILURE rcCtor then
        let pPage2 := { pPage with mem := ASMAtomicBitClear t.2 pPage.pbmCtor iObj }
        match RTMemCacheFreeS32 { pThis with pages := setPage pThis.pages pPage2 } pvObj with
        | some pThis2 =>
          some { rc := rcCtor, ppvObj := none, ctorCall := some call, pThis := pThis2 }
        | none => none
      else
        some { rc := Status.VINF_SUCCESS, ppvObj := some pvObj, ctorCall := some call
               pThis := { pThis with pages := setPage pThis.pages { pPage with mem := t.2 } } }
    else
      some { rc := Status.VINF_SUCCESS, ppvObj := some pvObj, ctorCall := none
             pThis := { pThis with pages := setPage pThis.pages { pPage with mem := t.2 } } }
  else
    some { rc := Status.VINF_SUCCESS, ppvObj := some pvObj, ctorCall := none, pThis := pThis }

/-- `RTMemCacheAllocEx(hMemCache, ppvObj)` with the `int32_t` counters. -/
def RTMemCacheAllocExS32 (arch : Arch) (pThis : RTMEMCACHEINT) (env : AllocEnv) :
    Option AllocResult :=
  if pThis.u32Magic ≠ RTMEMCACHE_MAGIC then
    some { rc := Status.VERR_INVALID_PARAMETER, ppvObj := none, ctorCall := none, pThis := pThis }
  else
    let a := allocReserveS32 arch pThis env.pvPage
    if a.1 ≠ Status.VINF_SUCCESS then
      some { rc := a.1, ppvObj := none, ctorCall := none, pThis := a.2 }
    else
      match allocGrabPageS32 a.2 with
      | none => none
      | some (iObj, pPage, pThis1) =>
        match claimBit pThis1.cBits pPage iObj.toNat with
        | none => none
        | some (iObj1, pPage1) =>
          allocConstructS32 { pThis1 with pages := setPage pThis1.pages pPage1 } pPage1 iObj1
            env.rcCtor

/-- The worlds a single thread can reach when the counters are the `int32_t` of the code:
as `Reachable`, with the calls of this section. -/
inductive ReachableS32 (arch : Arch) (envOk : AllocEnv → Prop) : World → Prop where
  | create (cbObject cbAlignment cMaxObjects : Nat) (pfnCtor pfnDtor : Bool) (pvUser : Nat)
      (env : CreateEnv) (pThis : RTMEMCACHEINT) :
      cMaxObjects < 4294967296 →
      RTMemCacheCreate arch cbObject cbAlignment cMaxObjects pfnCtor pfnDtor pvUser env
        = Except.ok pThis →
      ReachableS32 arch envOk { cache := pThis, live := [], ctorLog := [] }
  | alloc (w : World) (env : AllocEnv) (r : AllocResult) :
      ReachableS32 arch envOk w → envOk env → PageFresh w.cache env →
      RTMemCacheAllocExS32 arch w.cache env = some r →
      ReachableS32 arch envOk (w.afterAlloc r)
  | free (w : World) (pvObj : Nat) (pThis : RTMEMCACHEINT) :
      ReachableS32 arch envOk w → pvObj ∈ w.live →
      RTMemCacheFreeS32 w.cache pvObj = some pThis →
      ReachableS32 arch envOk (w.afterFree pvObj pThis)

/-- The instance whose `int32_t` counter holds the exact count of `c`. -/
def wrapCache (c : RTMEMCACHEINT) : RTMEMCACHEINT := { c with cFree := wrapS32 c.cFree }

/-- The world whose `int32_t` counter holds the exact count of `w`. -/
def wrapWorld (w : World) : World := { w with cache := wrapCache w.cache }

/-- The result whose `int32_t` counter holds the exact count of `r`. -/
def wrapResult (r : AllocResult) : AllocResult := { r with pThis := wrapCache r.pThis }

/-- Every page counter is a count of objects below `2^31 - 1`. -/
def PagesSmall (l : List RTMEMCACHEPAGE) : Prop :=
  ∀ pg ∈ l, 0 ≤ pg.cFree ∧ pg.cFree < 2147483647

/-! ## Arithmetic of the alignment macros -/

theorem and_mask7 (x : Nat) : x &&& 7 = x % 8 := by
  have h := Nat.and_pow_two_sub_one_eq_mod x 3
  simpa using h

theorem and_mask63 (x : Nat) : x &&& 63 = x % 64 := by
  have h := Nat.and_pow_two_sub_one_eq_mod x 6
  simpa using h

theorem and_mask31 (x : Nat) : x &&& 31 = x % 32 := by
  have h := Nat.and_pow_two_sub_one_eq_mod x 5
  simpa using h

theorem and_mask4095 (x : Nat) : x &&& 4095 = x % 4096 := by
  have h := Nat.and_pow_two_sub_one_eq_mod x 12
  simpa using h

theorem RT_ALIGN_pow (x k : Nat) :
    RT_ALIGN x (2 ^ k) = (x + (2 ^ k - 1)) / 2 ^ k * 2 ^ k := by
  unfold RT_ALIGN
  rw [Nat.and_pow_two_sub_one_eq_mod]
  have h := Nat.div_add_mod (x + (2 ^ k - 1)) (2 ^ k)
  rw [Nat.mul_comm] at h
  omega

theorem RT_ALIGN_8 (x : Nat) : RT_ALIGN x 8 = (x + 7) / 8 * 8 := by
  have h := RT_ALIGN_pow x 3
  simpa using h

theorem RT_ALIGN_32 (x : Nat) : RT_ALIGN x 32 = (x + 31) / 32 * 32 := by
  have h := RT_ALIGN_pow x 5
  simpa using h

theorem RT_ALIGN_64 (x : Nat) : RT_ALIGN x 64 = (x + 63) / 64 * 64 := by
  have h := RT_ALIGN_pow x 6
  simpa using h

/-- The alignments `RTMemCacheCreate` can end up with. -/
theorem pow_of_mem_alignments (a : Nat) (h : a ∈ [1, 2, 4, 8, 16, 32, 64]) :
    ∃ k, k ≤ 6 ∧ a = 2 ^ k := by
  simp only [List.mem_cons, List.mem_singleton, List.not_mem_nil, or_false] at h
  rcases h with h | h | h | h | h | h | h
  · exact ⟨0, by omega, by simp [h]⟩
  · exact ⟨1, by omega, by simp [h]⟩
  · exact ⟨2, by omega, by simp [h]⟩
  · exact ⟨3, by omega, by simp [h]⟩
  · exact ⟨4, by omega, by simp [h]⟩
  · exact ⟨5, by omega, by simp [h]⟩
  · exact ⟨6, by omega, by simp [h]⟩

theorem bitScanReverse_lt (u : Nat) : ∀ fuel i, bitScanReverse u fuel = some i → i < fuel := by
  intro fuel
  induction fuel with
  | zero => intro i h; simp [bitScanReverse] at h
  | succ n ih =>
    intro i h
    unfold bitScanReverse at h
    split at h
    · cases h; omega
    · have := ih i h; omega

theorem ASMBitLastSetU32_le (u : Nat) : ASMBitLastSetU32 u ≤ 32 := by
  unfold ASMBitLastSetU32
  cases h : bitScanReverse u 32 with
  | none => simp
  | some i => have := bitScanReverse_lt u 32 i h; simp; omega

theorem explicit_alignment_mem :
    ∀ a, a ≤ 64 → a ≠ 0 → (a - 1) &&& a = 0 → a ∈ [1, 2, 4, 8, 16, 32, 64] := by
  decide

theorem shift_alignment_mem :
    ∀ k, k ≤ 32 → 1 <<< k ≤ 64 → 1 <<< k ∈ [1, 2, 4, 8, 16, 32, 64] := by
  decide

theorem createAlignment_mem (cbObject cbAlignment a : Nat)
    (h : createAlignment cbObject cbAlignment = Except.ok a) :
    a ∈ [1, 2, 4, 8, 16, 32, 64] := by
  unfold createAlignment at h
  by_cases h0 : cbAlignment = 0
  · simp only [h0, if_true] at h
    cases h
    unfold derivedAlignment
    by_cases h1 : 1 <<< ASMBitLastSetU32 cbObject > 64
    · simp only [h1, if_true]
      simp
    · simp only [h1, if_false]
      exact shift_alignment_mem _ (ASMBitLastSetU32_le cbObject) (by omega)
  · simp only [h0, if_false] at h
    by_cases h1 : (cbAlignment - 1) &&& cbAlignment ≠ 0
    · simp [h1] at h
    · simp only [h1, if_false] at h
      by_cases h2 : ¬ cbAlignment ≤ 64
      · simp [h2] at h
      · simp only [h2, if_false] at h
        cases h
        exact explicit_alignment_mem _ (by omega) h0 (by simpa using h1)

theorem RT_ALIGN_dvd (x a : Nat) (h : a ∈ [1, 2, 4, 8, 16, 32, 64]) : a ∣ RT_ALIGN x a := by
  obtain ⟨k, _, rfl⟩ := pow_of_mem_alignments a h
  rw [RT_ALIGN_pow]
  exact Dvd.intro_left _ rfl

theorem RT_ALIGN_bounds (x a : Nat) (h : a ∈ [1, 2, 4, 8, 16, 32, 64]) :
    x ≤ RT_ALIGN x a ∧ RT_ALIGN x a < x + a := by
  obtain ⟨k, _, rfl⟩ := pow_of_mem_alignments a h
  rw [RT_ALIGN_pow]
  have hpos : 0 < 2 ^ k := Nat.two_pow_pos k
  have h1 := Nat.div_add_mod (x + (2 ^ k - 1)) (2 ^ k)
  have h2 := Nat.mod_lt (x + (2 ^ k - 1)) hpos
  rw [Nat.mul_comm] at h1
  constructor <;> omega

theorem alignment_dvd_page (a : Nat) (h : a ∈ [1, 2, 4, 8, 16, 32, 64]) : a ∣ 4096 := by
  simp only [List.mem_cons, List.mem_singleton, List.not_mem_nil, or_false] at h
  rcases h with h | h | h | h | h | h | h <;> subst h <;> decide

/-! ## The objects-per-page loop -/

theorem cPerPageLoop_le (cbHdr cb : Nat) : ∀ n, cPerPageLoop cbHdr cb n ≤ n := by
  intro n
  induction n with
  | zero => simp [cPerPageLoop]
  | succ n ih =>
    unfold cPerPageLoop
    split
    · omega
    · omega

theorem cPerPageLoop_fits (cbHdr cb : Nat) (hh : cbHdr ≤ PAGE_SIZE) : ∀ n,
    cbHdr + cPerPageLoop cbHdr cb n * cb + RT_ALIGN (cPerPageLoop cbHdr cb n) 64 / 8 * 2
      ≤ PAGE_SIZE := by
  intro n
  induction n with
  | zero => simpa [cPerPageLoop, RT_ALIGN] using hh
  | succ n ih =>
    unfold cPerPageLoop
    split
    · exact ih
    · omega

theorem cPerPageLoop_ge (cbHdr cb m : Nat)
    (hm : ¬ cbHdr + m * cb + RT_ALIGN m 64 / 8 * 2 > PAGE_SIZE) :
    ∀ n, m ≤ n → m ≤ cPerPageLoop cbHdr cb n := by
  intro n
  induction n with
  | zero => intro h; simpa [cPerPageLoop] using h
  | succ n ih =>
    intro h
    unfold cPerPageLoop
    split
    · rename_i hc
      by_cases hmn : m = n + 1
      · subst hmn; exact absurd hc hm
      · exact ih (by omega)
    · exact h

/-! ## What `RTMemCacheCreate` establishes -/

theorem header_bounds (arch : Arch) (a : Nat) (h : a ∈ [1, 2, 4, 8, 16, 32, 64]) :
    68 ≤ RT_ALIGN (sizeofRTMEMCACHEPAGE arch) (RT_MIN a 8) ∧
    RT_ALIGN (sizeofRTMEMCACHEPAGE arch) (RT_MIN a 8) ≤ 72 ∧
    RT_ALIGN (sizeofRTMEMCACHEPAGE arch) a ≤ 128 := by
  simp only [List.mem_cons, List.mem_singleton, List.not_mem_nil, or_false] at h
  rcases h with h | h | h | h | h | h | h <;> subst h <;> cases arch <;> decide

theorem create_ok (arch : Arch) (cbObject cbAlignment cMaxObjects : Nat)
    (pfnCtor pfnDtor : Bool) (pvUser : Nat) (env : CreateEnv) (c : RTMEMCACHEINT)
    (h : RTMemCacheCreate arch cbObject cbAlignment cMaxObjects pfnCtor pfnDtor pvUser env
      = Except.ok c) :
    ∃ a, createAlignment cbObject cbAlignment = Except.ok a ∧
      0 < cbObject ∧ cbObject ≤ PAGE_SIZE / 8 ∧
      c = { u32Magic := RTMEMCACHE_MAGIC
            cbObject := RT_ALIGN cbObject a
            cbAlignment := a
            cPerPage := cPerPageLoop (RT_ALIGN (sizeofRTMEMCACHEPAGE arch) (RT_MIN a 8))
              (RT_ALIGN cbObject a)
              ((PAGE_SIZE - RT_ALIGN (sizeofRTMEMCACHEPAGE arch) a) / RT_ALIGN cbObject a)
            cBits := RT_ALIGN (cPerPageLoop (RT_ALIGN (sizeofRTMEMCACHEPAGE arch) (RT_MIN a 8))
              (RT_ALIGN cbObject a)
              ((PAGE_SIZE - RT_ALIGN (sizeofRTMEMCACHEPAGE arch) a) / RT_ALIGN cbObject a)) 64
            cMax := cMaxObjects
            cTotal := 0
            cFree := 0
            pages := []
            pPageHint := none
            pfnCtor := pfnCtor
            pfnDtor := pfnDtor
            pvUser := pvUser } := by
  unfold RTMemCacheCreate at h
  split at h
  · cases h
  · split at h
    · cases h
    · rename_i h1 h2
      cases ha : createAlignment cbObject cbAlignment with
      | error e => rw [ha] at h; cases h
      | ok a =>
        rw [ha] at h
        simp only at h
        split at h
        · cases h
        · split at h
          · cases h
          · cases h
            exact ⟨a, rfl, by omega, by omega, rfl⟩

theorem create_cfg (arch : Arch) (cbObject cbAlignment cMaxObjects : Nat)
    (pfnCtor pfnDtor : Bool) (pvUser : Nat) (env : CreateEnv) (c : RTMEMCACHEINT)
    (hmax : cMaxObjects < 4294967296)
    (h : RTMemCacheCreate arch cbObject cbAlignment cMaxObjects pfnCtor pfnDtor pvUser env
      = Except.ok c) :
    CfgOk c ∧ c.pages = [] ∧ c.cTotal = 0 ∧ c.cFree = 0 := by
  obtain ⟨a, ha, hpos, hle, rfl⟩ := create_ok arch cbObject cbAlignment cMaxObjects pfnCtor
    pfnDtor pvUser env c h
  have hmem := createAlignment_mem cbObject cbAlignment a ha
  obtain ⟨hh1, hh2, hh3⟩ := header_bounds arch a hmem
  obtain ⟨hb1, hb2⟩ := RT_ALIGN_bounds cbObject a hmem
  have ha64 : a ≤ 64 := by
    simp only [List.mem_cons, List.mem_singleton, List.not_mem_nil, or_false] at hmem
    omega
  have hP : PAGE_SIZE = 4096 := rfl
  rw [hP] at hle
  generalize hcb : RT_ALIGN cbObject a = cb at *
  generalize hhdr : RT_ALIGN (sizeofRTMEMCACHEPAGE arch) (RT_MIN a 8) = hdr at *
  generalize hn0 : (PAGE_SIZE - RT_ALIGN (sizeofRTMEMCACHEPAGE arch) a) / cb = n0 at *
  have hcbpos : 0 < cb := by omega
  have hn0pos : 1 ≤ n0 := by
    rw [← hn0, hP]
    apply (Nat.le_div_iff_mul_le hcbpos).mpr
    omega
  have hfit := cPerPageLoop_fits hdr cb (by rw [hP]; omega) n0
  have hge := cPerPageLoop_ge hdr cb 1 (by
    rw [hP, RT_ALIGN_64]
    omega) n0 hn0pos
  generalize hr : cPerPageLoop hdr cb n0 = r at *
  rw [RT_ALIGN_64] at hfit
  rw [hP] at hfit
  refine ⟨⟨rfl, hcbpos, hge, ?_, ?_, ?_, hmax, ?_, ?_⟩, rfl, rfl, rfl⟩
  · show r ≤ RT_ALIGN r 64
    rw [RT_ALIGN_64]; omega
  · show RT_ALIGN r 64 % 64 = 0
    rw [RT_ALIGN_64]; omega
  · show 68 + r * cb + RT_ALIGN r 64 / 8 * 2 ≤ 4096
    rw [RT_ALIGN_64]; omega
  · show a ∣ cb
    rw [← hcb]; exact RT_ALIGN_dvd cbObject a hmem
  · exact alignment_dvd_page a hmem

/-! ## Bit memory -/

theorem test_set (m : BitMem) (pv i pv' j : Nat) :
    ASMBitTest (ASMBitSet m pv i) pv' j
      = if 8 * pv' + j = 8 * pv + i then true else ASMBitTest m pv' j := rfl

theorem test_clear (m : BitMem) (pv i pv' j : Nat) :
    ASMBitTest (ASMAtomicBitClear m pv i) pv' j
      = if 8 * pv' + j = 8 * pv + i then false else ASMBitTest m pv' j := rfl

theorem test_set_of_test (m : BitMem) (pv i pv' j : Nat) (h : ASMBitTest m pv' j = true) :
    ASMBitTest (ASMBitSet m pv i) pv' j = true := by
  rw [test_set]; split <;> simp [h]

theorem test_set_self (m : BitMem) (pv i : Nat) : ASMBitTest (ASMBitSet m pv i) pv i = true := by
  rw [test_set]; simp

theorem foldl_set_apply (pv : Nat) : ∀ (len s : Nat) (m : BitMem) (b : Nat),
    (List.range' s len).foldl (fun acc iBit => ASMBitSet acc pv iBit) m b
      = if 8 * pv + s ≤ b ∧ b < 8 * pv + s + len then true else m b := by
  intro len
  induction len with
  | zero =>
    intro s m b
    have : ¬ (8 * pv + s ≤ b ∧ b < 8 * pv + s + 0) := by omega
    simp [this]
  | succ n ih =>
    intro s m b
    rw [List.range'_succ, List.foldl_cons, ih]
    unfold ASMBitSet
    by_cases h1 : 8 * pv + (s + 1) ≤ b ∧ b < 8 * pv + (s + 1) + n
    · have h2 : 8 * pv + s ≤ b ∧ b < 8 * pv + s + (n + 1) := by omega
      simp [h1, h2]
    · by_cases h3 : b = 8 * pv + s
      · have h2 : 8 * pv + s ≤ b ∧ b < 8 * pv + s + (n + 1) := by omega
        simp [h1, h2, h3]
      · have h2 : ¬ (8 * pv + s ≤ b ∧ b < 8 * pv + s + (n + 1)) := by omega
        simp [h1, h2, h3]

theorem markPadding_test (m : BitMem) (pv cObjects cBits pv' j : Nat) :
    ASMBitTest (markPadding m pv cObjects cBits) pv' j
      = if 8 * pv + cObjects ≤ 8 * pv' + j ∧ 8 * pv' + j < 8 * pv + cObjects + (cBits - cObjects)
        then true else ASMBitTest m pv' j := by
  unfold markPadding ASMBitTest
  rw [foldl_set_apply]

/-! ## The page list -/

theorem grab_restore (pg : RTMEMCACHEPAGE) : { pg with cFree := pg.cFree - 1 + 1 } = pg := by
  cases pg
  simp

theorem mem_setPage (l : List RTMEMCACHEPAGE) (pg q : RTMEMCACHEPAGE) :
    q ∈ setPage l pg ↔
      (q = pg ∧ ∃ x ∈ l, x.pPage = pg.pPage) ∨ (q ∈ l ∧ q.pPage ≠ pg.pPage) := by
  unfold setPage
  rw [List.mem_map]
  constructor
  · rintro ⟨x, hx, rfl⟩
    by_cases h : x.pPage = pg.pPage
    · left; simp only [h, if_true]; exact ⟨trivial, x, hx, h⟩
    · right; simp only [h, if_false]; exact ⟨hx, h⟩
  · rintro (⟨rfl, x, hx, h⟩ | ⟨hq, h⟩)
    · exact ⟨x, hx, by simp [h]⟩
    · exact ⟨q, hq, by simp [h]⟩

theorem map_setPage (l : List RTMEMCACHEPAGE) (pg : RTMEMCACHEPAGE) :
    (setPage l pg).map (fun p => p.pPage) = l.map (fun p => p.pPage) := by
  unfold setPage
  rw [List.map_map]
  apply List.map_congr_left
  intro x _
  simp only [Function.comp]
  split
  · rename_i h; exact h.symm
  · rfl

theorem setPage_of_not_mem (l : List RTMEMCACHEPAGE) (pg : RTMEMCACHEPAGE)
    (h : ∀ q ∈ l, q.pPage ≠ pg.pPage) : setPage l pg = l := by
  unfold setPage
  conv_rhs => rw [← List.map_id l]
  apply List.map_congr_left
  intro x hx
  simp [h x hx]

theorem eq_of_mem_of_pPage_eq (l : List RTMEMCACHEPAGE)
    (hd : (l.map (fun p => p.pPage)).Nodup) (p q : RTMEMCACHEPAGE) (hp : p ∈ l) (hq : q ∈ l)
    (h : p.pPage = q.pPage) : p = q := by
  induction l with
  | nil => cases hp
  | cons x rest ih =>
    rw [List.map_cons, List.nodup_cons] at hd
    rcases List.mem_cons.mp hp with rfl | hp'
    · rcases List.mem_cons.mp hq with rfl | hq'
      · rfl
      · exact absurd (List.mem_map.mpr ⟨q, hq', h.symm⟩) hd.1
    · rcases List.mem_cons.mp hq with rfl | hq'
      · exact absurd (List.mem_map.mpr ⟨p, hp', h⟩) hd.1
      · exact ih hd.2 hp' hq'

theorem setPage_self (l : List RTMEMCACHEPAGE) (hd : (l.map (fun p => p.pPage)).Nodup)
    (pg : RTMEMCACHEPAGE) (hpg : pg ∈ l) : setPage l pg = l := by
  unfold setPage
  conv_rhs => rw [← List.map_id l]
  apply List.map_congr_left
  intro x hx
  by_cases h : x.pPage = pg.pPage
  · simp [h, eq_of_mem_of_pPage_eq l hd x pg hx hpg h]
  · simp [h]

theorem setPage_setPage (l : List RTMEMCACHEPAGE) (p1 p2 : RTMEMCACHEPAGE)
    (h : p2.pPage = p1.pPage) : setPage (setPage l p1) p2 = setPage l p2 := by
  unfold setPage
  rw [List.map_map]
  apply List.map_congr_left
  intro x _
  simp only [Function.comp]
  by_cases hx : x.pPage = p1.pPage
  · simp [hx, h]
  · simp [hx, h]

theorem findPage_some (l : List RTMEMCACHEPAGE) (a : Nat) (pg : RTMEMCACHEPAGE)
    (h : findPage l a = some pg) : pg ∈ l ∧ pg.pPage = a := by
  unfold findPage at h
  exact ⟨List.mem_of_find?_eq_some h, by simpa using List.find?_some h⟩

theorem findPage_of_mem (l : List RTMEMCACHEPAGE) (hd : (l.map (fun p => p.pPage)).Nodup)
    (pg : RTMEMCACHEPAGE) (hpg : pg ∈ l) : findPage l pg.pPage = some pg := by
  cases hf : findPage l pg.pPage with
  | none =>
    unfold findPage at hf
    rw [List.find?_eq_none] at hf
    exact absurd (by simp) (hf pg hpg)
  | some q =>
    obtain ⟨hq, hqa⟩ := findPage_some l _ q hf
    rw [eq_of_mem_of_pPage_eq l hd q pg hq hpg hqa]

/-! ## The page-level grab -/

theorem grabObj_fail (pg : RTMEMCACHEPAGE) (h : pg.cFree - 1 < 0) :
    rtMemCacheGrabObj pg = (-1, pg) := by
  unfold rtMemCacheGrabObj
  simp only [h, if_true]
  rw [grab_restore]

theorem grabObj_ok (pg : RTMEMCACHEPAGE) (h : ¬ pg.cFree - 1 < 0) :
    rtMemCacheGrabObj pg = (pg.cFree - 1, { pg with cFree := pg.cFree - 1 }) := by
  unfold rtMemCacheGrabObj
  simp only [h, if_false]

theorem scanGrab_spec : ∀ (l : List RTMEMCACHEPAGE) (iObj : Int) (pg' : RTMEMCACHEPAGE)
    (l' : List RTMEMCACHEPAGE), (l.map (fun p => p.pPage)).Nodup →
    scanGrab l = some (iObj, pg', l') →
    ∃ pg ∈ l, 0 ≤ pg.cFree - 1 ∧ iObj = pg.cFree - 1 ∧
      pg' = { pg with cFree := pg.cFree - 1 } ∧ l' = setPage l pg' := by
  intro l
  induction l with
  | nil => intro iObj pg' l' _ h; simp [scanGrab] at h
  | cons x rest ih =>
    intro iObj pg' l' hd h
    rw [List.map_cons, List.nodup_cons] at hd
    unfold scanGrab at h
    by_cases hx : x.cFree - 1 < 0
    · rw [grabObj_fail x hx] at h
      simp only [ge_iff_le, Left.nonneg_neg_iff, Int.reduceLE, if_false] at h
      cases hs : scanGrab rest with
      | none => rw [hs] at h; cases h
      | some t =>
        obtain ⟨i1, p1, r1⟩ := t
        rw [hs] at h
        simp only [Option.some.injEq, Prod.mk.injEq] at h
        obtain ⟨rfl, rfl, rfl⟩ := h
        obtain ⟨pg, hpg, h0, hi, hp, hl⟩ := ih i1 p1 r1 hd.2 hs
        refine ⟨pg, List.mem_cons_of_mem _ hpg, h0, hi, hp, ?_⟩
        have hne : ¬ x.pPage = p1.pPage := by
          intro he
          apply hd.1
          rw [hp] at he
          exact List.mem_map.mpr ⟨pg, hpg, he.symm⟩
        rw [hl]
        simp [setPage, hne]
    · rw [grabObj_ok x hx] at h
      have hge : x.cFree - 1 ≥ 0 := by omega
      simp only [hge, if_true, Option.some.injEq, Prod.mk.injEq] at h
      obtain ⟨rfl, rfl, rfl⟩ := h
      refine ⟨x, List.mem_cons_self _ _, by omega, rfl, rfl, ?_⟩
      have hrest : setPage rest { x with cFree := x.cFree - 1 } = rest := by
        apply setPage_of_not_mem
        intro q hq he
        exact hd.1 (List.mem_map.mpr ⟨q, hq, he⟩)
      have : setPage (x :: rest) { x with cFree := x.cFree - 1 }
          = { x with cFree := x.cFree - 1 } :: setPage rest { x with cFree := x.cFree - 1 } := by
        simp [setPage]
      rw [this, hrest]

theorem allocScan_spec (c : RTMEMCACHEINT) (iObj : Int) (pg' : RTMEMCACHEPAGE)
    (c' : RTMEMCACHEINT) (hd : (c.pages.map (fun p => p.pPage)).Nodup)
    (h : allocScan c = some (iObj, pg', c')) :
    ∃ pg ∈ c.pages, 0 ≤ pg.cFree - 1 ∧ iObj = pg.cFree - 1 ∧
      pg' = { pg with cFree := pg.cFree - 1 } ∧
      ∃ H, c' = { c with pages := setPage c.pages pg', pPageHint := H } := by
  unfold allocScan at h
  cases hs : scanGrab c.pages with
  | none => rw [hs] at h; cases h
  | some t =>
    obtain ⟨i1, p1, r1⟩ := t
    rw [hs] at h
    simp only [Option.some.injEq, Prod.mk.injEq] at h
    obtain ⟨rfl, rfl, rfl⟩ := h
    obtain ⟨pg, hpg, h0, hi, hp, hl⟩ := scanGrab_spec c.pages i1 p1 r1 hd hs
    exact ⟨pg, hpg, h0, hi, hp, _, by rw [hl]⟩

theorem allocGrabPage_spec (c : RTMEMCACHEINT) (iObj : Int) (pg' : RTMEMCACHEPAGE)
    (c' : RTMEMCACHEINT) (hd : (c.pages.map (fun p => p.pPage)).Nodup)
    (h : allocGrabPage c = some (iObj, pg', c')) :
    ∃ pg ∈ c.pages, 0 ≤ pg.cFree - 1 ∧ iObj = pg.cFree - 1 ∧
      pg' = { pg with cFree := pg.cFree - 1 } ∧
      ∃ H, c' = { c with pages := setPage c.pages pg', pPageHint := H } := by
  unfold allocGrabPage at h
  split at h
  · exact allocScan_spec c iObj pg' c' hd h
  · rename_i a hh
    split at h
    · cases h
    · rename_i pgH hf
      simp only at h
      obtain ⟨hmem, _⟩ := findPage_some c.pages a pgH hf
      by_cases hx : pgH.cFree - 1 < 0
      · rw [grabObj_fail pgH hx] at h
        simp only [Int.reduceNeg, Int.reduceLT, if_true] at h
        rw [setPage_self c.pages hd pgH hmem] at h
        exact allocScan_spec c iObj pg' c' hd h
      · rw [grabObj_ok pgH hx] at h
        simp only [hx, if_false, Option.some.injEq, Prod.mk.injEq] at h
        obtain ⟨rfl, rfl, rfl⟩ := h
        exact ⟨pgH, hmem, by omega, rfl, rfl, _, rfl⟩

/-! ## The bit claim -/

theorem firstClear_spec (m : BitMem) (pv cBits : Nat) (i : Int)
    (h : ASMBitFirstClear m pv cBits = i) (hi : i ≥ 0) :
    i.toNat < RT_ALIGN cBits 32 ∧ ASMBitTest m pv i.toNat = false := by
  unfold ASMBitFirstClear at h
  split at h
  · cases hf : (List.range (RT_ALIGN cBits 32)).find? (fun i => !ASMBitTest m pv i) with
    | none => rw [hf] at h; simp only at h; omega
    | some k =>
      rw [hf] at h
      simp only at h
      subst h
      have h1 := List.mem_of_find?_eq_some hf
      have h2 := List.find?_some hf
      simp only [Int.toNat_ofNat]
      exact ⟨List.mem_range.mp h1, by simpa using h2⟩
  · omega

theorem claimBit_spec (cBits : Nat) (pg : RTMEMCACHEPAGE) (iObj i : Nat)
    (pg' : RTMEMCACHEPAGE) (h : claimBit cBits pg iObj = some (i, pg')) :
    pg' = { pg with mem := ASMBitSet pg.mem pg.pbmAlloc i } ∧
    ASMBitTest pg.mem pg.pbmAlloc i = false ∧
    (i = iObj ∨ i < RT_ALIGN cBits 32) := by
  unfold claimBit ASMAtomicBitTestAndSet at h
  simp only at h
  by_cases ht : ASMBitTest pg.mem pg.pbmAlloc iObj = true
  · simp only [ht, if_true] at h
    by_cases hge : ASMBitFirstClear (ASMBitSet pg.mem pg.pbmAlloc iObj) pg.pbmAlloc cBits ≥ 0
    · simp only [hge, if_true] at h
      obtain ⟨hlt, hclr⟩ := firstClear_spec _ _ _ _ rfl hge
      simp only [hclr, Bool.false_eq_true, not_false_eq_true, if_true, Option.some.injEq,
        Prod.mk.injEq] at h
      obtain ⟨rfl, rfl⟩ := h
      generalize (ASMBitFirstClear (ASMBitSet pg.mem pg.pbmAlloc iObj) pg.pbmAlloc
        cBits).toNat = k at *
      rw [test_set] at hclr
      have hne : ¬ 8 * pg.pbmAlloc + k = 8 * pg.pbmAlloc + iObj := by
        intro he; simp [he] at hclr
      simp only [hne, if_false] at hclr
      refine ⟨?_, hclr, Or.inr hlt⟩
      congr 1
      funext b
      unfold ASMBitSet
      by_cases hb : b = 8 * pg.pbmAlloc + k
      · simp [hb]
      · by_cases hb2 : b = 8 * pg.pbmAlloc + iObj
        · subst hb2
          simp only [hb, if_false, if_true]
          exact ht.symm
        · simp [hb, hb2]
    · simp [hge] at h
  · simp only [ht, Bool.false_eq_true, if_false, Option.some.injEq, Prod.mk.injEq] at h
    obtain ⟨rfl, rfl⟩ := h
    exact ⟨rfl, by simpa using ht, Or.inl rfl⟩

/-! ## Geometry of a page -/

theorem slot_bounds (c : RTMEMCACHEINT) (pg : RTMEMCACHEPAGE) (hc : CfgOk c)
    (hn : pg.cObjects ≤ c.cPerPage)
    (ho : pg.pbObjects = pg.pPage + 4096 - c.cbObject * pg.cObjects)
    (i : Nat) (hi : i < pg.cObjects) :
    pg.pPage + 68 ≤ pg.pbObjects ∧ pg.pbObjects ≤ slotPtr c pg i ∧
      slotPtr c pg i + c.cbObject ≤ pg.pPage + 4096 := by
  have h1 : pg.cObjects * c.cbObject ≤ c.cPerPage * c.cbObject := Nat.mul_le_mul_right _ hn
  have h2 : (i + 1) * c.cbObject ≤ pg.cObjects * c.cbObject := Nat.mul_le_mul_right _ hi
  have h3 := hc.fits
  have h4 : c.cbObject * pg.cObjects = pg.cObjects * c.cbObject := Nat.mul_comm _ _
  have h5 : (i + 1) * c.cbObject = i * c.cbObject + c.cbObject := by ring
  unfold slotPtr
  omega

theorem slot_onPage (c : RTMEMCACHEINT) (pg : RTMEMCACHEPAGE) (hc : CfgOk c)
    (hn : pg.cObjects ≤ c.cPerPage)
    (ho : pg.pbObjects = pg.pPage + 4096 - c.cbObject * pg.cObjects)
    (i : Nat) (hi : i < pg.cObjects) : onPage pg (slotPtr c pg i) = true := by
  obtain ⟨h1, h2, h3⟩ := slot_bounds c pg hc hn ho i hi
  have := hc.cb_pos
  unfold onPage
  simp only [decide_eq_true_eq]
  omega

theorem onPage_unique (pg q : RTMEMCACHEPAGE) (hpg : pg.pPage % 4096 = 0)
    (hq : q.pPage % 4096 = 0) (p : Nat) (h1 : onPage pg p = true) (h2 : onPage q p = true) :
    pg.pPage = q.pPage := by
  unfold onPage at h1 h2
  simp only [decide_eq_true_eq] at h1 h2
  omega

theorem slotPtr_inj (c : RTMEMCACHEINT) (pg : RTMEMCACHEPAGE) (hc : CfgOk c) (i j : Nat)
    (h : slotPtr c pg i = slotPtr c pg j) : i = j := by
  unfold slotPtr at h
  have h1 : i * c.cbObject = j * c.cbObject := by omega
  exact Nat.eq_of_mul_eq_mul_right hc.cb_pos h1

theorem slot_mask (c : RTMEMCACHEINT) (pg : RTMEMCACHEPAGE) (hc : CfgOk c)
    (ha : pg.pPage % 4096 = 0) (hn : pg.cObjects ≤ c.cPerPage)
    (ho : pg.pbObjects = pg.pPage + 4096 - c.cbObject * pg.cObjects)
    (i : Nat) (hi : i < pg.cObjects) :
    slotPtr c pg i - (slotPtr c pg i &&& PAGE_OFFSET_MASK) = pg.pPage := by
  obtain ⟨h1, h2, h3⟩ := slot_bounds c pg hc hn ho i hi
  have := hc.cb_pos
  have hm : PAGE_OFFSET_MASK = 4095 := rfl
  rw [hm, and_mask4095]
  omega

theorem slot_index (c : RTMEMCACHEINT) (pg : RTMEMCACHEPAGE) (hc : CfgOk c) (i : Nat) :
    (slotPtr c pg i - pg.pbObjects) / c.cbObject = i := by
  unfold slotPtr
  rw [Nat.add_sub_cancel_left]
  exact Nat.mul_div_cancel _ hc.cb_pos

/-- `RTMemCacheFree` on the address of a slot whose allocation bit is set. -/
theorem free_slot (c : RTMEMCACHEINT) (pg : RTMEMCACHEPAGE) (hc : CfgOk c)
    (hd : (c.pages.map (fun p => p.pPage)).Nodup) (hpg : pg ∈ c.pages)
    (ha : pg.pPage % 4096 = 0) (hn : pg.cObjects ≤ c.cPerPage)
    (ho : pg.pbObjects = pg.pPage + 4096 - c.cbObject * pg.cObjects)
    (i : Nat) (hi : i < pg.cObjects) (hbit : ASMBitTest pg.mem pg.pbmAlloc i = true) :
    RTMemCacheFree c (slotPtr c pg i) =
      some { c with
             pages := setPage c.pages
               { pg with mem := ASMAtomicBitClear pg.mem pg.pbmAlloc i, cFree := pg.cFree + 1 }
             cFree := c.cFree + 1 } := by
  obtain ⟨h1, h2, h3⟩ := slot_bounds c pg hc hn ho i hi
  unfold RTMemCacheFree
  have hne : ¬ slotPtr c pg i = 0 := by omega
  have hmagic : ¬ c.u32Magic ≠ RTMEMCACHE_MAGIC := by simp [hc.magic]
  simp only [hne, hmagic, if_false]
  rw [slot_mask c pg hc ha hn ho i hi, findPage_of_mem c.pages hd pg hpg]
  have hlt : ¬ slotPtr c pg i < pg.pbObjects := by omega
  simp only [hlt, if_false, slot_index c pg hc i, ASMAtomicBitTestAndClear, hbit,
    not_true_eq_false]

/-! ## Re-establishing the invariant after one page changed -/

theorem inv_update (k k' : Int) (c : RTMEMCACHEINT) (live live' : List Nat)
    (pg : RTMEMCACHEPAGE) (X : Int) (M : BitMem) (Y : Int) (H : Option Nat)
    (hinv : Inv k c live) (hpg : pg ∈ c.pages)
    (hcount : X + (live'.countP (onPage pg) : Int) = (pg.cObjects : Int))
    (hpad : ∀ i, pg.cObjects ≤ i → i < c.cBits → ASMBitTest M pg.pbmAlloc i = true)
    (hbit : ∀ i, i < pg.cObjects → slotPtr c pg i ∈ live' →
      ASMBitTest M pg.pbmAlloc i = true)
    (hoff : ∀ p, onPage pg p = false → (p ∈ live' ↔ p ∈ live))
    (hoffc : ∀ q : RTMEMCACHEPAGE, q.pPage % 4096 = 0 → q.pPage ≠ pg.pPage →
      live'.countP (onPage q) = live.countP (onPage q))
    (hsub : ∀ p ∈ live', p ∈ live ∨ ∃ i, i < pg.cObjects ∧ p = slotPtr c pg i)
    (hnd : live'.Nodup)
    (hcons : Y + (live'.length : Int) + k' = (c.cTotal : Int)) :
    Inv k'
      { c with
        pages := setPage c.pages { pg with cFree := X, mem := M }
        cFree := Y
        pPageHint := H } live' := by
  have hPg := hinv.pagesOk pg hpg
  have hcfg : CfgOk { c with
        pages := setPage c.pages { pg with cFree := X, mem := M }
        cFree := Y
        pPageHint := H } :=
    ⟨hinv.cfg.magic, hinv.cfg.cb_pos, hinv.cfg.per_pos, hinv.cfg.per_le, hinv.cfg.bits64,
      hinv.cfg.fits, hinv.cfg.max_lt, hinv.cfg.al_cb, hinv.cfg.al_page⟩
  refine ⟨hcfg, ?_, ?_, ?_, hnd, hcons, hinv.total_le⟩
  · intro q hq
    rcases (mem_setPage c.pages _ q).mp hq with ⟨rfl, _⟩ | ⟨hq1, hq2⟩
    · exact ⟨hPg.aligned, hPg.nobj, hPg.objs, hPg.ctor_le, hcount, hpad, hbit⟩
    · have hQ := hinv.pagesOk q hq1
      refine ⟨hQ.aligned, hQ.nobj, hQ.objs, hQ.ctor_le, ?_, hQ.pad, ?_⟩
      · rw [hoffc q hQ.aligned hq2]; exact hQ.count
      · intro j hj hmem
        apply hQ.liveBit j hj
        have hon := slot_onPage c q hinv.cfg hQ.nobj hQ.objs j hj
        have hnot : onPage pg (slotPtr c q j) = false := by
          cases hp : onPage pg (slotPtr c q j) with
          | false => rfl
          | true =>
            exact absurd (onPage_unique pg q hPg.aligned hQ.aligned _ hp hon).symm hq2
        exact (hoff _ hnot).mp hmem
  · show ((setPage c.pages { pg with cFree := X, mem := M }).map (fun p => p.pPage)).Nodup
    rw [map_setPage]; exact hinv.distinct
  · intro p hp
    have hself : ({ pg with cFree := X, mem := M } : RTMEMCACHEPAGE) ∈
        setPage c.pages { pg with cFree := X, mem := M } :=
      (mem_setPage c.pages _ _).mpr (Or.inl ⟨rfl, pg, hpg, rfl⟩)
    rcases hsub p hp with hl | ⟨i, hi, rfl⟩
    · obtain ⟨q, hq, i, hi, rfl⟩ := hinv.liveSlots p hl
      by_cases hqa : q.pPage = pg.pPage
      · have : q = pg := eq_of_mem_of_pPage_eq c.pages hinv.distinct q pg hq hpg hqa
        subst this
        exact ⟨_, hself, i, hi, rfl⟩
      · exact ⟨q, (mem_setPage c.pages _ q).mpr (Or.inr ⟨hq, hqa⟩), i, hi, rfl⟩
    · exact ⟨_, hself, i, hi, rfl⟩

theorem countP_other_cons (pg q : RTMEMCACHEPAGE) (live : List Nat) (p : Nat)
    (hpg : pg.pPage % 4096 = 0) (hq : q.pPage % 4096 = 0) (hne : q.pPage ≠ pg.pPage)
    (hp : onPage pg p = true) :
    (p :: live).countP (onPage q) = live.countP (onPage q) := by
  rw [List.countP_cons]
  have : onPage q p = false := by
    cases h : onPage q p with
    | false => rfl
    | true => exact absurd (onPage_unique pg q hpg hq p hp h).symm hne
  simp [this]

theorem countP_erase_of_mem (f : Nat → Bool) (live : List Nat) (p : Nat) (hp : p ∈ live) :
    live.countP f = (live.erase p).countP f + (if f p = true then 1 else 0) := by
  have h := (List.perm_cons_erase hp).countP_eq f
  rw [h, List.countP_cons]

/-- The invariant after slot `i` of `pg`, whose allocation bit was clear, was handed out. -/
theorem inv_alloc (c : RTMEMCACHEINT) (live : List Nat) (pg : RTMEMCACHEPAGE) (i : Nat)
    (M : BitMem) (H : Option Nat) (hinv : Inv 1 c live) (hpg : pg ∈ c.pages)
    (hi : i < pg.cObjects) (hclr : ASMBitTest pg.mem pg.pbmAlloc i = false)
    (hM : ∀ j, ASMBitTest pg.mem pg.pbmAlloc j = true → ASMBitTest M pg.pbmAlloc j = true)
    (hMi : ASMBitTest M pg.pbmAlloc i = true) :
    slotPtr c pg i ∉ live ∧
    Inv 0
      { c with
        pages := setPage c.pages { pg with cFree := pg.cFree - 1, mem := M }
        cFree := c.cFree
        pPageHint := H } (slotPtr c pg i :: live) := by
  have hPg := hinv.pagesOk pg hpg
  have hnot : slotPtr c pg i ∉ live := by
    intro hmem
    have := hPg.liveBit i hi hmem
    rw [hclr] at this
    cases this
  have hon := slot_onPage c pg hinv.cfg hPg.nobj hPg.objs i hi
  refine ⟨hnot, ?_⟩
  apply inv_update 1 0 c live (slotPtr c pg i :: live) pg _ M _ H hinv hpg
  · rw [List.countP_cons]
    have := hPg.count
    simp only [hon, if_true]
    push_cast
    omega
  · intro j hj1 hj2
    exact hM j (hPg.pad j hj1 hj2)
  · intro j hj hmem
    rcases List.mem_cons.mp hmem with he | hl
    · have : j = i := slotPtr_inj c pg hinv.cfg j i he
      subst this
      exact hMi
    · exact hM j (hPg.liveBit j hj hl)
  · intro p hp
    constructor
    · intro hmem
      rcases List.mem_cons.mp hmem with rfl | hl
      · rw [hon] at hp; cases hp
      · exact hl
    · intro hl; exact List.mem_cons_of_mem _ hl
  · intro q hq hne
    exact countP_other_cons pg q live _ hPg.aligned hq hne hon
  · intro p hp
    rcases List.mem_cons.mp hp with rfl | hl
    · exact Or.inr ⟨i, hi, rfl⟩
    · exact Or.inl hl
  · exact List.nodup_cons.mpr ⟨hnot, hinv.liveNodup⟩
  · have := hinv.conserve
    simp only [List.length_cons]
    push_cast
    omega

/-- The invariant after the live object in slot `i` of `pg` was freed. -/
theorem inv_free (c : RTMEMCACHEINT) (live : List Nat) (pg : RTMEMCACHEPAGE) (i : Nat)
    (hinv : Inv 0 c live) (hpg : pg ∈ c.pages) (hi : i < pg.cObjects)
    (hmem : slotPtr c pg i ∈ live) :
    Inv 0
      { c with
        pages := setPage c.pages
          { pg with mem := ASMAtomicBitClear pg.mem pg.pbmAlloc i, cFree := pg.cFree + 1 }
        cFree := c.cFree + 1 } (live.erase (slotPtr c pg i)) := by
  have hPg := hinv.pagesOk pg hpg
  have hon := slot_onPage c pg hinv.cfg hPg.nobj hPg.objs i hi
  apply inv_update 0 0 c live (live.erase (slotPtr c pg i)) pg _ _ _ c.pPageHint hinv hpg
  · have h1 := countP_erase_of_mem (onPage pg) live _ hmem
    have h2 := hPg.count
    simp only [hon, if_true] at h1
    rw [h1] at h2
    push_cast at h2
    omega
  · intro j hj1 hj2
    rw [test_clear]
    have : ¬ 8 * pg.pbmAlloc + j = 8 * pg.pbmAlloc + i := by omega
    simp only [this, if_false]
    exact hPg.pad j hj1 hj2
  · intro j hj hm
    have hm' := (hinv.liveNodup.mem_erase_iff).mp hm
    rw [test_clear]
    have : ¬ 8 * pg.pbmAlloc + j = 8 * pg.pbmAlloc + i := by
      intro he
      have : j = i := by omega
      subst this
      exact hm'.1 rfl
    simp only [this, if_false]
    exact hPg.liveBit j hj hm'.2
  · intro p hp
    rw [hinv.liveNodup.mem_erase_iff]
    constructor
    · intro h; exact h.2
    · intro h
      refine ⟨?_, h⟩
      rintro rfl
      rw [hon] at hp; cases hp
  · intro q hq hne
    have h1 := countP_erase_of_mem (onPage q) live _ hmem
    have : onPage q (slotPtr c pg i) = false := by
      cases h : onPage q (slotPtr c pg i) with
      | false => rfl
      | true => exact absurd (onPage_unique pg q hPg.aligned hq _ hon h).symm hne
    simp only [this, Bool.false_eq_true, if_false, Nat.add_zero] at h1
    exact h1.symm
  · intro p hp
    exact Or.inl (List.mem_of_mem_erase hp)
  · exact hinv.liveNodup.erase _
  · have h1 := List.length_erase_of_mem hmem
    have h2 := hinv.conserve
    have h3 := List.length_pos_of_mem hmem
    rw [h1]
    push_cast [Nat.cast_sub h3]
    omega

/-- `RTMemCacheFree` on a live pointer keeps the invariant. -/
theorem free_step (c : RTMEMCACHEINT) (live : List Nat) (p : Nat) (c' : RTMEMCACHEINT)
    (hinv : Inv 0 c live) (hp : p ∈ live) (h : RTMemCacheFree c p = some c') :
    Inv 0 c' (live.erase p) := by
  obtain ⟨pg, hpg, i, hi, rfl⟩ := hinv.liveSlots p hp
  have hPg := hinv.pagesOk pg hpg
  rw [free_slot c pg hinv.cfg hinv.distinct hpg hPg.aligned hPg.nobj hPg.objs i hi
    (hPg.liveBit i hi hp)] at h
  cases h
  exact inv_free c live pg i hinv hpg hi hp

theorem pageOk_congr (c c' : RTMEMCACHEINT) (live : List Nat) (pg : RTMEMCACHEPAGE)
    (h1 : c'.cPerPage = c.cPerPage) (h2 : c'.cbObject = c.cbObject) (h3 : c'.cBits = c.cBits)
    (h : PageOk c live pg) : PageOk c' live pg := by
  refine ⟨h.aligned, by rw [h1]; exact h.nobj, by rw [h2]; exact h.objs, h.ctor_le, h.count,
    by rw [h3]; exact h.pad, ?_⟩
  intro i hi hm
  apply h.liveBit i hi
  unfold slotPtr at hm ⊢
  rw [h2] at hm
  exact hm

theorem inv_cFree (k k' : Int) (c : RTMEMCACHEINT) (live : List Nat) (Y : Int)
    (hinv : Inv k c live) (hcons : Y + (live.length : Int) + k' = (c.cTotal : Int)) :
    Inv k' { c with cFree := Y } live := by
  refine ⟨⟨hinv.cfg.magic, hinv.cfg.cb_pos, hinv.cfg.per_pos, hinv.cfg.per_le,
    hinv.cfg.bits64, hinv.cfg.fits, hinv.cfg.max_lt, hinv.cfg.al_cb, hinv.cfg.al_page⟩,
    ?_, hinv.distinct, ?_, hinv.liveNodup, hcons, hinv.total_le⟩
  · intro pg hpg
    exact pageOk_congr c _ live pg rfl rfl rfl (hinv.pagesOk pg hpg)
  · intro p hp
    exact hinv.liveSlots p hp

/-! ## Growth -/

theorem growPage_cObjects (arch : Arch) (c : RTMEMCACHEINT) (a : Nat) (hmax : c.cMax < 4294967296)
    (htot : c.cTotal ≤ c.cMax) :
    (growPage arch c a).cObjects ≤ c.cPerPage ∧
      c.cTotal + (growPage arch c a).cObjects ≤ c.cMax := by
  show RT_MIN c.cPerPage ((c.cMax + 4294967296 - c.cTotal) % 4294967296) ≤ c.cPerPage ∧
    c.cTotal + RT_MIN c.cPerPage ((c.cMax + 4294967296 - c.cTotal) % 4294967296) ≤ c.cMax
  unfold RT_MIN
  split <;> omega

theorem growPage_pbmCtor (arch : Arch) (c : RTMEMCACHEINT) (a : Nat) (ha : a % 4096 = 0) :
    (growPage arch c a).pbmCtor = a + 72 := by
  show RT_ALIGN (a + sizeofRTMEMCACHEPAGE arch) 8 = a + 72
  rw [RT_ALIGN_8]
  cases arch <;> simp only [sizeofRTMEMCACHEPAGE] <;> omega

theorem growPage_ok (arch : Arch) (c : RTMEMCACHEINT) (live : List Nat) (a : Nat)
    (hcfg : CfgOk c) (htot : c.cTotal ≤ c.cMax) (ha : a % 4096 = 0)
    (hlive : ∀ p ∈ live, onPage (growPage arch c a) p = false) :
    PageOk c live (growPage arch c a) := by
  obtain ⟨hn1, hn2⟩ := growPage_cObjects arch c a hcfg.max_lt htot
  have hctor := growPage_pbmCtor arch c a ha
  have hobjs : (growPage arch c a).pbObjects
      = a + 4096 - c.cbObject * (growPage arch c a).cObjects := rfl
  have hpage : (growPage arch c a).pPage = a := rfl
  have halloc : (growPage arch c a).pbmAlloc
      = ((growPage arch c a).pbObjects - c.cBits / 8)
        - (((growPage arch c a).pbObjects - c.cBits / 8) &&& 7) := rfl
  have hmem : (growPage arch c a).mem
      = markPadding zeroMem (growPage arch c a).pbmAlloc (growPage arch c a).cObjects c.cBits :=
    rfl
  have hfree : (growPage arch c a).cFree = ((growPage arch c a).cObjects : Int) := rfl
  generalize growPage arch c a = pg at *
  have h0 : live.countP (onPage pg) = 0 := by
    rw [List.countP_eq_zero]
    intro p hp
    simp [hlive p hp]
  refine ⟨by rw [hpage]; exact ha, hn1, by rw [hobjs, hpage], ?_, ?_, ?_, ?_⟩
  · rw [hctor, halloc, and_mask7, hobjs]
    have h1 : pg.cObjects * c.cbObject ≤ c.cPerPage * c.cbObject := Nat.mul_le_mul_right _ hn1
    have h2 : c.cbObject * pg.cObjects = pg.cObjects * c.cbObject := Nat.mul_comm _ _
    have h3 := hcfg.fits
    have h4 := hcfg.bits64
    have h5 := hcfg.per_le
    have h6 := hcfg.per_pos
    omega
  · rw [hfree, h0]; simp
  · intro i hi1 hi2
    rw [hmem, markPadding_test]
    have : 8 * pg.pbmAlloc + pg.cObjects ≤ 8 * pg.pbmAlloc + i ∧
        8 * pg.pbmAlloc + i < 8 * pg.pbmAlloc + pg.cObjects + (c.cBits - pg.cObjects) := by
      omega
    simp [this]
  · intro i hi hm
    have h1 := hlive _ hm
    have h2 := slot_onPage c pg hcfg hn1 (by rw [hobjs, hpage]) i hi
    rw [h1] at h2
    cases h2

theorem inv_grow (arch : Arch) (k : Int) (c : RTMEMCACHEINT) (live : List Nat) (a : Nat)
    (hinv : Inv k c live) (ha : a % 4096 = 0) (hfresh : ∀ pg ∈ c.pages, pg.pPage ≠ a) :
    Inv k
      { c with
        pPageHint := some a
        pages := c.pages ++ [growPage arch c a]
        cFree := c.cFree + ((growPage arch c a).cObjects : Int)
        cTotal := (c.cTotal + (growPage arch c a).cObjects) % 4294967296 } live := by
  obtain ⟨hn1, hn2⟩ := growPage_cObjects arch c a hinv.cfg.max_lt hinv.total_le
  have hmax := hinv.cfg.max_lt
  have hpage : (growPage arch c a).pPage = a := rfl
  have hlive : ∀ p ∈ live, onPage (growPage arch c a) p = false := by
    intro p hp
    obtain ⟨q, hq, i, hi, rfl⟩ := hinv.liveSlots p hp
    have hQ := hinv.pagesOk q hq
    have hon := slot_onPage c q hinv.cfg hQ.nobj hQ.objs i hi
    cases h : onPage (growPage arch c a) (slotPtr c q i) with
    | false => rfl
    | true =>
      have := onPage_unique (growPage arch c a) q (by rw [hpage]; exact ha) hQ.aligned _ h hon
      exact absurd this.symm (by rw [hpage]; exact hfresh q hq)
  have hnew := growPage_ok arch c live a hinv.cfg hinv.total_le ha hlive
  have hmod : (c.cTotal + (growPage arch c a).cObjects) % 4294967296
      = c.cTotal + (growPage arch c a).cObjects := Nat.mod_eq_of_lt (by omega)
  refine ⟨⟨hinv.cfg.magic, hinv.cfg.cb_pos, hinv.cfg.per_pos, hinv.cfg.per_le,
    hinv.cfg.bits64, hinv.cfg.fits, hinv.cfg.max_lt, hinv.cfg.al_cb, hinv.cfg.al_page⟩,
    ?_, ?_, ?_, hinv.liveNodup, ?_, ?_⟩
  · intro pg hpg
    rcases List.mem_append.mp hpg with h | h
    · exact pageOk_congr c _ live pg rfl rfl rfl (hinv.pagesOk pg h)
    · rw [List.mem_singleton] at h
      subst h
      exact pageOk_congr c _ live _ rfl rfl rfl hnew
  · show ((c.pages ++ [growPage arch c a]).map (fun p => p.pPage)).Nodup
    rw [List.map_append, List.map_singleton, hpage]
    apply List.Nodup.append hinv.distinct (List.nodup_singleton a)
    intro x hx1 hx2
    rw [List.mem_singleton] at hx2
    subst hx2
    obtain ⟨q, hq, hqa⟩ := List.mem_map.mp hx1
    exact hfresh q hq hqa
  · intro p hp
    obtain ⟨q, hq, i, hi, rfl⟩ := hinv.liveSlots p hp
    exact ⟨q, List.mem_append_left _ hq, i, hi, rfl⟩
  · show c.cFree + ((growPage arch c a).cObjects : Int) + (live.length : Int) + k
      = (((c.cTotal + (growPage arch c a).cObjects) % 4294967296 : Nat) : Int)
    rw [hmod]
    have := hinv.conserve
    push_cast
    omega
  · show (c.cTotal + (growPage arch c a).cObjects) % 4294967296 ≤ c.cMax
    rw [hmod]; exact hn2

/-! ## The cache-level reservation -/

theorem restore_cFree (c : RTMEMCACHEINT) : { c with cFree := c.cFree - 1 + 1 } = c := by
  cases c
  simp

/-- The four ways the cache-level reservation can end. -/
theorem reserve_cases (arch : Arch) (c : RTMEMCACHEINT) (pv : Option Nat) :
    allocReserve arch c pv = (Status.VERR_MEM_CACHE_MAX_SIZE, c) ∨
    allocReserve arch c pv = (Status.VERR_NO_MEMORY, c) ∨
    allocReserve arch c pv = (Status.VINF_SUCCESS, { c with cFree := c.cFree - 1 }) ∨
    ∃ a, pv = some a ∧ allocReserve arch c pv = (Status.VINF_SUCCESS,
      { c with
        pPageHint := some a
        pages := c.pages ++ [growPage arch c a]
        cFree := c.cFree - 1 + ((growPage arch c a).cObjects : Int)
        cTotal := (c.cTotal + (growPage arch c a).cObjects) % 4294967296 }) := by
  unfold allocReserve
  simp only
  by_cases h1 : c.cFree - 1 < 0
  · simp only [h1, if_true]
    split
    · left
      rw [restore_cFree]
    · unfold rtMemCacheGrow
      simp only [h1, if_true]
      cases pv with
      | none =>
        right; left
        simp only [RT_FAILURE, if_true]
        rw [restore_cFree]
      | some a =>
        right; right; right
        refine ⟨a, rfl, ?_⟩
        simp only [RT_FAILURE, Bool.false_eq_true, if_false]
        rfl
  · right; right; left
    simp only [h1, if_false]

theorem reserve_spec (arch : Arch) (c : RTMEMCACHEINT) (live : List Nat) (env : AllocEnv)
    (hinv : Inv 0 c live) (hf : PageFresh c env) :
    ((allocReserve arch c env.pvPage).1 ≠ Status.VINF_SUCCESS →
      (allocReserve arch c env.pvPage).2 = c) ∧
    ((allocReserve arch c env.pvPage).1 = Status.VINF_SUCCESS →
      Inv 1 (allocReserve arch c env.pvPage).2 live ∧
      (allocReserve arch c env.pvPage).2.pfnCtor = c.pfnCtor ∧
      (allocReserve arch c env.pvPage).2.cbObject = c.cbObject ∧
      (allocReserve arch c env.pvPage).2.cbAlignment = c.cbAlignment ∧
      (allocReserve arch c env.pvPage).2.pvUser = c.pvUser ∧
      ((allocReserve arch c env.pvPage).2.pages = c.pages ∨
        ∃ a, (∀ pg ∈ c.pages, pg.pPage ≠ a) ∧
          (allocReserve arch c env.pvPage).2.pages = c.pages ++ [growPage arch c a])) := by
  have h0 : Inv 1 { c with cFree := c.cFree - 1 } live :=
    inv_cFree 0 1 c live _ hinv (by have := hinv.conserve; omega)
  rcases reserve_cases arch c env.pvPage with h | h | h | ⟨a, ha, h⟩
  · rw [h]; exact ⟨fun _ => rfl, fun hc => by cases hc⟩
  · rw [h]; exact ⟨fun _ => rfl, fun hc => by cases hc⟩
  · rw [h]
    exact ⟨fun hc => absurd rfl hc, fun _ => ⟨h0, rfl, rfl, rfl, rfl, Or.inl rfl⟩⟩
  · rw [h]
    obtain ⟨hal, _, hfresh⟩ := hf a ha
    refine ⟨fun hc => absurd rfl hc, fun _ => ⟨?_, rfl, rfl, rfl, rfl, Or.inr ⟨a, hfresh, rfl⟩⟩⟩
    exact inv_grow arch 1 { c with cFree := c.cFree - 1 } live a h0 hal hfresh

/-! ## The constructor call and the whole of `RTMemCacheAllocEx` -/

/-- The four ways `allocConstruct` can end. -/
theorem construct_cases (d : RTMEMCACHEINT) (q : RTMEMCACHEPAGE) (i : Nat) (rcCtor : Status)
    (r : AllocResult) (h : allocConstruct d q i rcCtor = some r) :
    (d.pfnCtor = false ∧ r.rc = Status.VINF_SUCCESS ∧
      r.ppvObj = some (q.pbObjects + i * d.cbObject) ∧ r.ctorCall = none ∧ r.pThis = d) ∨
    (d.pfnCtor = true ∧ ASMBitTest q.mem q.pbmCtor i = true ∧
      r.rc = Status.VINF_SUCCESS ∧ r.ppvObj = some (q.pbObjects + i * d.cbObject) ∧
      r.ctorCall = none ∧
      r.pThis =
        { d with pages := setPage d.pages ({ q with mem := ASMBitSet q.mem q.pbmCtor i }) }) ∨
    (d.pfnCtor = true ∧ ASMBitTest q.mem q.pbmCtor i = false ∧ RT_FAILURE rcCtor = false ∧
      r.rc = Status.VINF_SUCCESS ∧ r.ppvObj = some (q.pbObjects + i * d.cbObject) ∧
      r.ctorCall = some { pPage := q.pPage, iObj := i,
                          pvObj := q.pbObjects + i * d.cbObject, pvUser := d.pvUser } ∧
      r.pThis =
        { d with pages := setPage d.pages ({ q with mem := ASMBitSet q.mem q.pbmCtor i }) }) ∨
    (d.pfnCtor = true ∧ ASMBitTest q.mem q.pbmCtor i = false ∧ RT_FAILURE rcCtor = true ∧
      r.rc = rcCtor ∧ r.ppvObj = none ∧
      r.ctorCall = some { pPage := q.pPage, iObj := i,
                          pvObj := q.pbObjects + i * d.cbObject, pvUser := d.pvUser } ∧
      RTMemCacheFree
        { d with pages := setPage d.pages { q with mem := ASMAtomicBitClear (ASMBitSet q.mem q.pbmCtor i) q.pbmCtor i } }
        (q.pbObjects + i * d.cbObject) = some r.pThis) := by
  unfold allocConstruct at h
  by_cases hctor : d.pfnCtor = true
  · rw [if_pos hctor] at h
    simp only [ASMAtomicBitTestAndSet] at h
    by_cases ht : ASMBitTest q.mem q.pbmCtor i = true
    · simp only [ht, not_true_eq_false, if_false, Option.some.injEq] at h
      subst h
      right; left
      exact ⟨hctor, ht, rfl, rfl, rfl, rfl⟩
    · have ht' : ASMBitTest q.mem q.pbmCtor i = false := by simpa using ht
      simp only [ht', Bool.false_eq_true, not_false_eq_true, if_true] at h
      by_cases hrc : RT_FAILURE rcCtor = true
      · simp only [hrc, if_true] at h
        right; right; right
        split at h
        · rename_i pThis2 heq
          cases h
          exact ⟨hctor, ht', hrc, rfl, rfl, rfl, heq⟩
        · cases h
      · have hrc' : RT_FAILURE rcCtor = false := by simpa using hrc
        simp only [hrc', Bool.false_eq_true, if_false, Option.some.injEq] at h
        subst h
        right; right; left
        exact ⟨hctor, ht', hrc', rfl, rfl, rfl, rfl⟩
  · have hctor0 : d.pfnCtor = false := by simpa using hctor
    rw [if_neg hctor] at h
    simp only [Option.some.injEq] at h
    subst h
    left
    exact ⟨hctor0, rfl, rfl, rfl, rfl⟩

theorem RT_ALIGN_32_of_bits64 (n : Nat) (h : n % 64 = 0) : RT_ALIGN n 32 = n := by
  rw [RT_ALIGN_32]; omega

/-- What a returning `RTMemCacheAllocEx` call did, in a world that satisfies the invariant. -/
theorem alloc_spec (arch : Arch) (c : RTMEMCACHEINT) (live : List Nat) (env : AllocEnv)
    (r : AllocResult) (hinv : Inv 0 c live) (hf : PageFresh c env)
    (h : RTMemCacheAllocEx arch c env = some r) :
    ((allocReserve arch c env.pvPage).1 ≠ Status.VINF_SUCCESS ∧
      r.rc = (allocReserve arch c env.pvPage).1 ∧ r.ppvObj = none ∧ r.ctorCall = none ∧
      r.pThis = c) ∨
    ((allocReserve arch c env.pvPage).1 = Status.VINF_SUCCESS ∧
      ∃ pg ∈ (allocReserve arch c env.pvPage).2.pages, ∃ i H, i < pg.cObjects ∧
        ASMBitTest pg.mem pg.pbmAlloc i = false ∧
        AllocOutcome (allocReserve arch c env.pvPage).2 pg i H env.rcCtor r) := by
  have hmagic : ¬ c.u32Magic ≠ RTMEMCACHE_MAGIC := by simp [hinv.cfg.magic]
  unfold RTMemCacheAllocEx at h
  rw [if_neg hmagic] at h
  simp only at h
  obtain ⟨hfail, hok⟩ := reserve_spec arch c live env hinv hf
  generalize allocReserve arch c env.pvPage = A at *
  obtain ⟨rc, c1⟩ := A
  simp only at h hfail hok ⊢
  by_cases hrc : rc = Status.VINF_SUCCESS
  · right
    rw [if_neg (not_not.mpr hrc)] at h
    obtain ⟨hinv1, -, -, -, -, -⟩ := hok hrc
    refine ⟨hrc, ?_⟩
    split at h
    · cases h
    · rename_i iObj pgG c2 hg
      obtain ⟨pg, hpg, h0, hi, rfl, H, rfl⟩ :=
        allocGrabPage_spec c1 iObj pgG c2 hinv1.distinct hg
      have hPg := hinv1.pagesOk pg hpg
      split at h
      · cases h
      · rename_i i pgC hcl
        obtain ⟨rfl, hclr, hidx⟩ := claimBit_spec _ _ _ _ _ hcl
        have hclr' : ASMBitTest pg.mem pg.pbmAlloc i = false := hclr
        have hilt : i < pg.cObjects := by
          rcases hidx with hidx | hidx
          · have hcnt := hPg.count
            have : (0 : Int) ≤ (live.countP (onPage pg) : Int) := Int.natCast_nonneg _
            omega
          · by_contra hge
            have hbits : RT_ALIGN c1.cBits 32 = c1.cBits :=
              RT_ALIGN_32_of_bits64 _ hinv1.cfg.bits64
            have hidx' : i < c1.cBits := by
              have : i < RT_ALIGN c1.cBits 32 := hidx
              omega
            have := hPg.pad i (by omega) hidx'
            rw [hclr'] at this
            cases this
        refine ⟨pg, hpg, i, H, hilt, hclr', ?_⟩
        have hpages : setPage (setPage c1.pages { pg with cFree := pg.cFree - 1 })
            { pg with cFree := pg.cFree - 1, mem := ASMBitSet pg.mem pg.pbmAlloc i }
            = setPage c1.pages
              { pg with cFree := pg.cFree - 1, mem := ASMBitSet pg.mem pg.pbmAlloc i } :=
          setPage_setPage _ _ _ rfl
        have hd : ({ ({ c1 with
              pages := setPage c1.pages { pg with cFree := pg.cFree - 1 }
              pPageHint := H } : RTMEMCACHEINT) with
            pages := setPage (setPage c1.pages { pg with cFree := pg.cFree - 1 })
              { pg with cFree := pg.cFree - 1, mem := ASMBitSet pg.mem pg.pbmAlloc i } }
              : RTMEMCACHEINT)
            = slotTaken c1 pg (pg.cFree - 1) (ASMBitSet pg.mem pg.pbmAlloc i) c1.cFree H :=
          congrArg (fun P => ({ c1 with pages := P, cFree := c1.cFree, pPageHint := H }
            : RTMEMCACHEINT)) hpages
        have h' : allocConstruct
            (slotTaken c1 pg (pg.cFree - 1) (ASMBitSet pg.mem pg.pbmAlloc i) c1.cFree H)
            { pg with cFree := pg.cFree - 1, mem := ASMBitSet pg.mem pg.pbmAlloc i } i
            env.rcCtor = some r := by
          rw [← hd]; exact h
        rcases construct_cases _ _ _ _ _ h' with ⟨e1, e2, e3, e4, e5⟩ |
          ⟨e1, e2, e3, e4, e5, e6⟩ | ⟨e1, e2, e3, e4, e5, e6, e7⟩ |
          ⟨e1, e2, e3, e4, e5, e6, e7⟩
        · left
          exact ⟨e1, e2, e3, e4, e5⟩
        · right; left
          refine ⟨e1, e2, e3, e4, e5, ?_⟩
          rw [e6]
          exact congrArg (fun P => ({ c1 with pages := P, cFree := c1.cFree, pPageHint := H }
            : RTMEMCACHEINT)) (setPage_setPage _ _ _ rfl)
        · right; right; left
          refine ⟨e1, e2, e3, e4, e5, e6, ?_⟩
          rw [e7]
          exact congrArg (fun P => ({ c1 with pages := P, cFree := c1.cFree, pPageHint := H }
            : RTMEMCACHEINT)) (setPage_setPage _ _ _ rfl)
        · right; right; right
          refine ⟨e1, e2, e3, e4, e5, e6, ?_⟩
          have hbit : ASMBitTest (ASMAtomicBitClear
              (ASMBitSet (ASMBitSet pg.mem pg.pbmAlloc i) pg.pbmCtor i) pg.pbmCtor i)
              pg.pbmAlloc i = true := by
            rw [test_clear]
            have hne : ¬ 8 * pg.pbmAlloc + i = 8 * pg.pbmCtor + i := by
              intro he
              have h1 := test_set_self pg.mem pg.pbmAlloc i
              have h2 : ASMBitTest (ASMBitSet pg.mem pg.pbmAlloc i) pg.pbmCtor i = false := e2
              unfold ASMBitTest at h1 h2
              rw [he] at h1
              rw [h1] at h2
              cases h2
            simp only [hne, if_false]
            exact test_set_of_test _ _ _ _ _ (test_set_self _ _ _)
          have hfree := free_slot
            (slotTaken c1 pg (pg.cFree - 1) (ASMAtomicBitClear
              (ASMBitSet (ASMBitSet pg.mem pg.pbmAlloc i) pg.pbmCtor i) pg.pbmCtor i)
              c1.cFree H)
            { pg with
              cFree := pg.cFree - 1
              mem := ASMAtomicBitClear
                (ASMBitSet (ASMBitSet pg.mem pg.pbmAlloc i) pg.pbmCtor i) pg.pbmCtor i }
            ⟨hinv1.cfg.magic, hinv1.cfg.cb_pos, hinv1.cfg.per_pos, hinv1.cfg.per_le,
              hinv1.cfg.bits64, hinv1.cfg.fits, hinv1.cfg.max_lt, hinv1.cfg.al_cb,
              hinv1.cfg.al_page⟩
            (by
              show ((setPage c1.pages _).map (fun p => p.pPage)).Nodup
              rw [map_setPage]; exact hinv1.distinct)
            ((mem_setPage c1.pages _ _).mpr (Or.inl ⟨rfl, pg, hpg, rfl⟩))
            hPg.aligned hPg.nobj hPg.objs i hilt hbit
          have hd2 : RTMemCacheFree
              (slotTaken c1 pg (pg.cFree - 1) (ASMAtomicBitClear
                (ASMBitSet (ASMBitSet pg.mem pg.pbmAlloc i) pg.pbmCtor i) pg.pbmCtor i)
                c1.cFree H) (slotPtr c1 pg i) = some r.pThis := by
            refine Eq.trans (congrArg (fun P => RTMemCacheFree ({ c1 with pages := P, cFree := c1.cFree, pPageHint := H } : RTMEMCACHEINT) (slotPtr c1 pg i)) ?_) e7
            exact (setPage_setPage c1.pages
              { pg with cFree := pg.cFree - 1, mem := ASMBitSet pg.mem pg.pbmAlloc i }
              { pg with
                cFree := pg.cFree - 1
                mem := ASMAtomicBitClear
                  (ASMBitSet (ASMBitSet pg.mem pg.pbmAlloc i) pg.pbmCtor i) pg.pbmCtor i }
              rfl).symm
          have e := hd2.symm.trans hfree
          simp only [Option.some.injEq] at e
          rw [e]
          exact congrArg (fun P => ({ c1 with pages := P, cFree := c1.cFree + 1, pPageHint := H } : RTMEMCACHEINT)) (setPage_setPage _ _ _ rfl)
  · left
    rw [if_pos hrc] at h
    simp only [Option.some.injEq] at h
    subst h
    exact ⟨hrc, rfl, rfl, rfl, hfail hrc⟩

/-! ## One step keeps the invariant -/

theorem slot_aligned (c : RTMEMCACHEINT) (pg : RTMEMCACHEPAGE) (hc : CfgOk c)
    (ha : pg.pPage % 4096 = 0)
    (ho : pg.pbObjects = pg.pPage + 4096 - c.cbObject * pg.cObjects) (i : Nat) :
    slotPtr c pg i % c.cbAlignment = 0 := by
  apply Nat.mod_eq_zero_of_dvd
  unfold slotPtr
  rw [ho]
  have h1 : c.cbAlignment ∣ pg.pPage :=
    Nat.dvd_trans hc.al_page (Nat.dvd_of_mod_eq_zero ha)
  have h2 : c.cbAlignment ∣ pg.pPage + 4096 := Nat.dvd_add h1 hc.al_page
  have h3 : c.cbAlignment ∣ c.cbObject * pg.cObjects := Dvd.dvd.mul_right hc.al_cb _
  have h4 : c.cbAlignment ∣ i * c.cbObject := Dvd.dvd.mul_left hc.al_cb _
  exact Nat.dvd_add (Nat.dvd_sub' h2 h3) h4

theorem failure_ne_success (rc : Status) (h : RT_FAILURE rc = true) :
    rc ≠ Status.VINF_SUCCESS := by
  rintro rfl
  simp [RT_FAILURE] at h

/-- A returning `RTMemCacheAllocEx` call keeps the invariant; a pointer it hands out was not
live and is aligned. -/
theorem alloc_step (arch : Arch) (c : RTMEMCACHEINT) (live : List Nat) (env : AllocEnv)
    (r : AllocResult) (hinv : Inv 0 c live) (hf : PageFresh c env)
    (h : RTMemCacheAllocEx arch c env = some r) :
    Inv 0 r.pThis (match r.ppvObj with
      | some p => p :: live
      | none => live) ∧
    (∀ p, r.ppvObj = some p → p ∉ live ∧ p % c.cbAlignment = 0) ∧
    (r.rc = Status.VINF_SUCCESS → ∃ p, r.ppvObj = some p) := by
  obtain ⟨-, hok⟩ := reserve_spec arch c live env hinv hf
  rcases alloc_spec arch c live env r hinv hf h with ⟨hne, e1, e2, e3, e4⟩ |
    ⟨hs, pg, hpg, i, H, hi, hclr, hout⟩
  · rw [e2, e4]
    refine ⟨hinv, ?_, ?_⟩
    · intro p hp; cases hp
    · intro hrc; rw [e1] at hrc; exact absurd hrc hne
  · obtain ⟨hinv1, -, -, hal, -, -⟩ := hok hs
    generalize (allocReserve arch c env.pvPage).2 = c1 at *
    have hPg := hinv1.pagesOk pg hpg
    have hptr : slotPtr c1 pg i % c.cbAlignment = 0 := by
      rw [← hal]; exact slot_aligned c1 pg hinv1.cfg hPg.aligned hPg.objs i
    have hsucc : ∀ (M : BitMem),
        (∀ j, ASMBitTest pg.mem pg.pbmAlloc j = true → ASMBitTest M pg.pbmAlloc j = true) →
        ASMBitTest M pg.pbmAlloc i = true →
        r.ppvObj = some (slotPtr c1 pg i) →
        r.pThis = slotTaken c1 pg (pg.cFree - 1) M c1.cFree H →
        Inv 0 r.pThis (match r.ppvObj with
          | some p => p :: live
          | none => live) ∧
        (∀ p, r.ppvObj = some p → p ∉ live ∧ p % c.cbAlignment = 0) ∧
        (r.rc = Status.VINF_SUCCESS → ∃ p, r.ppvObj = some p) := by
      intro M hM hMi e3 e5
      obtain ⟨hnot, hI⟩ := inv_alloc c1 live pg i M H hinv1 hpg hi hclr hM hMi
      rw [e3, e5]
      refine ⟨hI, ?_, fun _ => ⟨_, rfl⟩⟩
      intro p hp
      cases hp
      exact ⟨hnot, hptr⟩
    rcases hout with ⟨-, -, e3, -, e5⟩ | ⟨-, -, -, e3, -, e5⟩ | ⟨-, -, -, -, e3, -, e5⟩ |
      ⟨-, e2, hrcf, erc, e3, -, e5⟩
    · exact hsucc _ (fun j hj => test_set_of_test _ _ _ _ _ hj) (test_set_self _ _ _) e3 e5
    · exact hsucc _
        (fun j hj => test_set_of_test _ _ _ _ _ (test_set_of_test _ _ _ _ _ hj))
        (test_set_of_test _ _ _ _ _ (test_set_self _ _ _)) e3 e5
    · exact hsucc _
        (fun j hj => test_set_of_test _ _ _ _ _ (test_set_of_test _ _ _ _ _ hj))
        (test_set_of_test _ _ _ _ _ (test_set_self _ _ _)) e3 e5
    · rw [e3, e5]
      refine ⟨?_, ?_, ?_⟩
      · have hnotlive : slotPtr c1 pg i ∉ live := by
          intro hm
          have := hPg.liveBit i hi hm
          rw [hclr] at this
          cases this
        have hkeep : ∀ j, j ≠ i → ASMBitTest pg.mem pg.pbmAlloc j = true →
            ASMBitTest (ASMAtomicBitClear (ASMAtomicBitClear
              (ASMBitSet (ASMBitSet pg.mem pg.pbmAlloc i) pg.pbmCtor i) pg.pbmCtor i)
              pg.pbmAlloc i) pg.pbmAlloc j = true := by
          intro j hji hj
          rw [test_clear]
          have h1 : ¬ 8 * pg.pbmAlloc + j = 8 * pg.pbmAlloc + i := by omega
          simp only [h1, if_false]
          rw [test_clear]
          have h2 : ¬ 8 * pg.pbmAlloc + j = 8 * pg.pbmCtor + i := by
            intro he
            have h3 : ASMBitTest (ASMBitSet pg.mem pg.pbmAlloc i) pg.pbmAlloc j = true :=
              test_set_of_test _ _ _ _ _ hj
            unfold ASMBitTest at h3 e2
            rw [he] at h3
            rw [h3] at e2
            cases e2
          simp only [h2, if_false]
          exact test_set_of_test _ _ _ _ _ (test_set_of_test _ _ _ _ _ hj)
        apply inv_update 1 0 c1 live live pg _ _ _ H hinv1 hpg
        · have := hPg.count; omega
        · intro j hj1 hj2
          exact hkeep j (by omega) (hPg.pad j hj1 hj2)
        · intro j hj hm
          have hji : j ≠ i := by
            rintro rfl
            exact hnotlive hm
          exact hkeep j hji (hPg.liveBit j hj hm)
        · intro p _; exact Iff.rfl
        · intro q _ _; rfl
        · intro p hp; exact Or.inl hp
        · exact hinv1.liveNodup
        · have := hinv1.conserve; omega
      · intro p hp; cases hp
      · intro hrc
        rw [erc] at hrc
        exact absurd hrc (failure_ne_success _ hrcf)

theorem reachable_inv (arch : Arch) (envOk : AllocEnv → Prop) (w : World)
    (hw : Reachable arch envOk w) : Inv 0 w.cache w.live := by
  induction hw with
  | create cbObject cbAlignment cMaxObjects pfnCtor pfnDtor pvUser env pThis hmax hc =>
    obtain ⟨hcfg, hp, ht, hfree⟩ := create_cfg arch cbObject cbAlignment cMaxObjects pfnCtor
      pfnDtor pvUser env pThis hmax hc
    refine ⟨hcfg, ?_, ?_, ?_, List.nodup_nil, ?_, ?_⟩
    · intro pg hpg
      simp only [hp] at hpg
      cases hpg
    · simp only [hp]
      exact List.nodup_nil
    · intro p hp'
      cases hp'
    · simp only [hfree, ht]
      rfl
    · simp only [ht]
      exact Nat.zero_le _
  | alloc w env r _ _ hf h ih =>
    exact (alloc_step arch w.cache w.live env r ih hf h).1
  | free w pvObj pThis _ hp h ih =>
    exact free_step w.cache w.live pvObj pThis ih hp h

/-! ## The constructor log -/

theorem ctorInv_update (k : Int) (c : RTMEMCACHEINT) (live live' : List Nat)
    (log : List Callback) (pg : RTMEMCACHEPAGE) (X : Int) (M : BitMem) (Y : Int)
    (H : Option Nat) (hinv : Inv k c live) (hC : CtorInv c live log) (hpg : pg ∈ c.pages)
    (hkeep : ∀ call ∈ log, call.pPage = pg.pPage →
      ASMBitTest pg.mem pg.pbmCtor call.iObj = true →
      ASMBitTest M pg.pbmCtor call.iObj = true)
    (hlive : ∀ p ∈ live', p ∈ live ∨ ∃ j, j < pg.cObjects ∧ p = slotPtr c pg j ∧
      ∀ call ∈ log, call.pPage = pg.pPage →
        8 * pg.pbmAlloc + j ≠ 8 * pg.pbmCtor + call.iObj) :
    CtorInv (slotTaken c pg X M Y H) live' log := by
  have hPg := hinv.pagesOk pg hpg
  have hself : ({ pg with cFree := X, mem := M } : RTMEMCACHEPAGE) ∈
      setPage c.pages { pg with cFree := X, mem := M } :=
    (mem_setPage c.pages _ _).mpr (Or.inl ⟨rfl, pg, hpg, rfl⟩)
  refine ⟨?_, ?_, hC.nodup⟩
  · intro call hcall
    obtain ⟨pg0, hpg0, ha, hlt, hbit⟩ := hC.bitSet call hcall
    by_cases hsame : pg0.pPage = pg.pPage
    · have : pg0 = pg := eq_of_mem_of_pPage_eq c.pages hinv.distinct pg0 pg hpg0 hpg hsame
      subst this
      exact ⟨_, hself, ha, hlt, hkeep call hcall ha.symm hbit⟩
    · exact ⟨pg0, (mem_setPage c.pages _ pg0).mpr (Or.inr ⟨hpg0, hsame⟩), ha, hlt, hbit⟩
  · intro call hcall q hq hqa j hj hmem
    rcases (mem_setPage c.pages _ q).mp hq with ⟨rfl, _⟩ | ⟨hq1, hq2⟩
    · rcases hlive _ hmem with hl | ⟨j', hj', he, hfree⟩
      · exact hC.noAlias call hcall pg hpg hqa j hj hl
      · have : j = j' := slotPtr_inj c pg hinv.cfg j j' he
        subst this
        exact hfree call hcall hqa.symm
    · have hQ := hinv.pagesOk q hq1
      rcases hlive _ hmem with hl | ⟨j', hj', he, _⟩
      · exact hC.noAlias call hcall q hq1 hqa j hj hl
      · exfalso
        have h1 := slot_onPage c q hinv.cfg hQ.nobj hQ.objs j hj
        have h2 := slot_onPage c pg hinv.cfg hPg.nobj hPg.objs j' hj'
        have he' : slotPtr c q j = slotPtr c pg j' := he
        rw [he'] at h1
        exact hq2 (onPage_unique q pg hQ.aligned hPg.aligned _ h1 h2)

theorem ctorInv_reserve (arch : Arch) (c : RTMEMCACHEINT) (live : List Nat)
    (log : List Callback) (env : AllocEnv) (hinv : Inv 0 c live) (hf : PageFresh c env)
    (hC : CtorInv c live log)
    (hs : (allocReserve arch c env.pvPage).1 = Status.VINF_SUCCESS) :
    CtorInv (allocReserve arch c env.pvPage).2 live log := by
  obtain ⟨-, hok⟩ := reserve_spec arch c live env hinv hf
  obtain ⟨-, -, hcb, -, -, hpages⟩ := hok hs
  generalize (allocReserve arch c env.pvPage).2 = c1 at *
  have hslot : ∀ q j, slotPtr c1 q j = slotPtr c q j := by
    intro q j; unfold slotPtr; rw [hcb]
  refine ⟨?_, ?_, hC.nodup⟩
  · intro call hcall
    obtain ⟨pg0, hpg0, ha, hlt, hbit⟩ := hC.bitSet call hcall
    refine ⟨pg0, ?_, ha, hlt, hbit⟩
    rcases hpages with hp | ⟨a, _, hp⟩
    · rw [hp]; exact hpg0
    · rw [hp]; exact List.mem_append_left _ hpg0
  · intro call hcall q hq hqa j hj hmem
    rw [hslot] at hmem
    have hold : q ∈ c.pages → 8 * q.pbmAlloc + j ≠ 8 * q.pbmCtor + call.iObj :=
      fun hq' => hC.noAlias call hcall q hq' hqa j hj hmem
    rcases hpages with hp | ⟨a, hfresh, hp⟩
    · rw [hp] at hq; exact hold hq
    · rw [hp] at hq
      rcases List.mem_append.mp hq with hq' | hq'
      · exact hold hq'
      · exfalso
        rw [List.mem_singleton] at hq'
        obtain ⟨pg0, hpg0, ha, -, -⟩ := hC.bitSet call hcall
        apply hfresh pg0 hpg0
        rw [ha, ← hqa, hq']
        rfl

theorem ctorInv_free (c : RTMEMCACHEINT) (live : List Nat) (log : List Callback) (p : Nat)
    (c' : RTMEMCACHEINT) (hinv : Inv 0 c live) (hC : CtorInv c live log) (hp : p ∈ live)
    (h : RTMemCacheFree c p = some c') : CtorInv c' (live.erase p) log := by
  obtain ⟨pg, hpg, i, hi, rfl⟩ := hinv.liveSlots p hp
  have hPg := hinv.pagesOk pg hpg
  rw [free_slot c pg hinv.cfg hinv.distinct hpg hPg.aligned hPg.nobj hPg.objs i hi
    (hPg.liveBit i hi hp)] at h
  cases h
  apply ctorInv_update 0 c live _ log pg (pg.cFree + 1)
    (ASMAtomicBitClear pg.mem pg.pbmAlloc i) (c.cFree + 1) c.pPageHint hinv hC hpg
  · intro call hcall hsame hbit
    rw [test_clear]
    have hne := hC.noAlias call hcall pg hpg hsame.symm i hi hp
    have : ¬ 8 * pg.pbmCtor + call.iObj = 8 * pg.pbmAlloc + i := fun he => hne he.symm
    simp only [this, if_false]
    exact hbit
  · intro q hq
    exact Or.inl (List.mem_of_mem_erase hq)

theorem ctorInv_alloc (arch : Arch) (c : RTMEMCACHEINT) (live : List Nat)
    (log : List Callback) (env : AllocEnv) (r : AllocResult) (hinv : Inv 0 c live)
    (hf : PageFresh c env) (hC : CtorInv c live log) (hnf : RT_FAILURE env.rcCtor = false)
    (h : RTMemCacheAllocEx arch c env = some r) :
    CtorInv r.pThis
      (match r.ppvObj with
        | some p => p :: live
        | none => live)
      (match r.ctorCall with
        | some call => call :: log
        | none => log) := by
  obtain ⟨-, hok⟩ := reserve_spec arch c live env hinv hf
  rcases alloc_spec arch c live env r hinv hf h with ⟨hne, e1, e2, e3, e4⟩ |
    ⟨hs, pg, hpg, i, H, hi, hclr, hout⟩
  · rw [e2, e3, e4]; exact hC
  · have hC1 := ctorInv_reserve arch c live log env hinv hf hC hs
    obtain ⟨hinv1, -, -, -, -, -⟩ := hok hs
    generalize (allocReserve arch c env.pvPage).2 = c1 at *
    have hPg := hinv1.pagesOk pg hpg
    have hlogbit : ∀ call ∈ log, call.pPage = pg.pPage →
        ASMBitTest pg.mem pg.pbmCtor call.iObj = true := by
      intro call hcall hsame
      obtain ⟨pg0, hpg0, ha, -, hbit⟩ := hC1.bitSet call hcall
      have : pg0 = pg :=
        eq_of_mem_of_pPage_eq c1.pages hinv1.distinct pg0 pg hpg0 hpg (ha.trans hsame)
      subst this
      exact hbit
    have hbase : ∀ (M : BitMem),
        (∀ a j, ASMBitTest pg.mem a j = true → ASMBitTest M a j = true) →
        CtorInv (slotTaken c1 pg (pg.cFree - 1) M c1.cFree H) (slotPtr c1 pg i :: live) log := by
      intro M hM
      apply ctorInv_update 1 c1 live _ log pg _ M _ H hinv1 hC1 hpg
      · intro call hcall hsame hbit
        exact hM _ _ hbit
      · intro q hq
        rcases List.mem_cons.mp hq with rfl | hl
        · refine Or.inr ⟨i, hi, rfl, ?_⟩
          intro call hcall hsame he
          have h1 := hlogbit call hcall hsame
          unfold ASMBitTest at h1 hclr
          rw [← he, hclr] at h1
          cases h1
        · exact Or.inl hl
    rcases hout with ⟨-, -, e3, e4, e5⟩ | ⟨-, -, -, e3, e4, e5⟩ |
      ⟨-, e2, -, -, e3, e4, e5⟩ | ⟨-, -, hrcf, -, -, -, -⟩
    · rw [e3, e4, e5]
      exact hbase _ (fun a j hj => test_set_of_test _ _ _ _ _ hj)
    · rw [e3, e4, e5]
      exact hbase _ (fun a j hj => test_set_of_test _ _ _ _ _ (test_set_of_test _ _ _ _ _ hj))
    · rw [e3, e4, e5]
      have hb := hbase (ASMBitSet (ASMBitSet pg.mem pg.pbmAlloc i) pg.pbmCtor i)
        (fun a j hj => test_set_of_test _ _ _ _ _ (test_set_of_test _ _ _ _ _ hj))
      have hself : ({ pg with cFree := pg.cFree - 1, mem := ASMBitSet (ASMBitSet pg.mem pg.pbmAlloc i) pg.pbmCtor i } : RTMEMCACHEPAGE) ∈
          (slotTaken c1 pg (pg.cFree - 1)
            (ASMBitSet (ASMBitSet pg.mem pg.pbmAlloc i) pg.pbmCtor i) c1.cFree H).pages :=
        (mem_setPage c1.pages _ _).mpr (Or.inl ⟨rfl, pg, hpg, rfl⟩)
      refine ⟨?_, ?_, ?_⟩
      · intro call hcall
        rcases List.mem_cons.mp hcall with rfl | hcall'
        · exact ⟨_, hself, rfl, hi, test_set_self _ _ _⟩
        · exact hb.bitSet call hcall'
      · intro call hcall q hq hqa j hj hmem
        rcases List.mem_cons.mp hcall with rfl | hcall'
        · rcases (mem_setPage c1.pages _ q).mp hq with ⟨rfl, _⟩ | ⟨_, hq2⟩
          · intro he
            have hset : ASMBitTest (ASMBitSet pg.mem pg.pbmAlloc i) pg.pbmAlloc j = true := by
              rcases List.mem_cons.mp hmem with hji | hl
              · have : j = i := slotPtr_inj c1 pg hinv1.cfg j i hji
                subst this
                exact test_set_self _ _ _
              · exact test_set_of_test _ _ _ _ _ (hPg.liveBit j hj hl)
            unfold ASMBitTest at hset e2
            have he' : 8 * pg.pbmAlloc + j = 8 * pg.pbmCtor + i := he
            rw [he', e2] at hset
            cases hset
          · exact absurd hqa hq2
        · exact hb.noAlias call hcall' q hq hqa j hj hmem
      · rw [List.map_cons, List.nodup_cons]
        refine ⟨?_, hb.nodup⟩
        intro hmem
        obtain ⟨call, hcall, he⟩ := List.mem_map.mp hmem
        simp only [Prod.mk.injEq] at he
        have h1 := hlogbit call hcall he.1
        rw [he.2] at h1
        have h2 := test_set_of_test pg.mem pg.pbmAlloc i pg.pbmCtor i h1
        rw [e2] at h2
        cases h2
    · rw [hnf] at hrcf
      cases hrcf

theorem reachable_ctorInv (arch : Arch) (w : World)
    (hw : Reachable arch ctorNeverFails w) : CtorInv w.cache w.live w.ctorLog := by
  induction hw with
  | create cbObject cbAlignment cMaxObjects pfnCtor pfnDtor pvUser env pThis hmax hc =>
    refine ⟨?_, ?_, List.nodup_nil⟩
    · intro call hcall; cases hcall
    · intro call hcall; cases hcall
  | alloc w env r hw' henv hf h ih =>
    exact ctorInv_alloc arch w.cache w.live w.ctorLog env r
      (reachable_inv arch ctorNeverFails w hw') hf ih henv h
  | free w pvObj pThis hw' hp h ih =>
    exact ctorInv_free w.cache w.live w.ctorLog pvObj pThis
      (reachable_inv arch ctorNeverFails w hw') ih hp h

/-! ## Teardown -/

theorem dtorLoop_eq (pv : Nat) : ∀ (n : Nat) (m : BitMem),
    (dtorLoop pv m n).1 = ((List.range n).reverse).filter (fun i => ASMBitTest m pv i) := by
  intro n
  induction n with
  | zero => intro m; rfl
  | succ n ih =>
    intro m
    have hrev : (List.range (n + 1)).reverse = n :: (List.range n).reverse := by
      rw [List.range_succ, List.reverse_append]; rfl
    have hcongr : ((List.range n).reverse).filter
          (fun i => ASMBitTest (ASMAtomicBitClear m pv n) pv i)
        = ((List.range n).reverse).filter (fun i => ASMBitTest m pv i) := by
      apply List.filter_congr
      intro i hi
      have hlt : i < n := List.mem_range.mp (List.mem_reverse.mp hi)
      rw [test_clear]
      have : ¬ 8 * pv + i = 8 * pv + n := by omega
      simp only [this, if_false]
    unfold dtorLoop
    simp only [ASMAtomicBitTestAndClear]
    rw [ih, hcongr, hrev, List.filter_cons]

theorem dtorLoop_nodup (pv n : Nat) (m : BitMem) : (dtorLoop pv m n).1.Nodup := by
  rw [dtorLoop_eq]
  exact List.Nodup.filter _ (List.nodup_reverse.mpr (List.nodup_range n))

theorem mem_dtorLoop (pv n : Nat) (m : BitMem) (i : Nat) :
    i ∈ (dtorLoop pv m n).1 ↔ i < n ∧ ASMBitTest m pv i = true := by
  rw [dtorLoop_eq, List.mem_filter, List.mem_reverse, List.mem_range]

theorem countP_destroyPage (pThis : RTMEMCACHEINT) (q : RTMEMCACHEPAGE) (a i : Nat)
    (hd : pThis.pfnDtor = true) :
    (destroyPage pThis q).countP (onSlot a i)
      = if q.pPage = a ∧ i < q.cObjects ∧ ASMBitTest q.mem q.pbmCtor i = true then 1 else 0 := by
  unfold destroyPage
  rw [if_pos hd, List.countP_map]
  by_cases ha : q.pPage = a
  · have hcongr : List.countP (onSlot a i ∘ fun iObj =>
          ({ pPage := q.pPage, iObj := iObj, pvObj := q.pbObjects + iObj * pThis.cbObject,
             pvUser := pThis.pvUser } : Callback))
          (dtorLoop q.pbmCtor q.mem q.cObjects).1
        = List.countP (fun x => x == i) (dtorLoop q.pbmCtor q.mem q.cObjects).1 := by
      apply List.countP_congr
      intro x _
      simp [onSlot, ha]
    rw [hcongr, ← List.count_eq_countP, List.count_eq_of_nodup (dtorLoop_nodup _ _ _)]
    simp only [mem_dtorLoop, ha, true_and]
  · have h0 : List.countP (onSlot a i ∘ fun iObj =>
          ({ pPage := q.pPage, iObj := iObj, pvObj := q.pbObjects + iObj * pThis.cbObject,
             pvUser := pThis.pvUser } : Callback))
          (dtorLoop q.pbmCtor q.mem q.cObjects).1 = 0 := by
      rw [List.countP_eq_zero]
      intro x _
      simp [onSlot, ha]
    rw [h0]
    simp [ha]

theorem countP_destroy_other (pThis : RTMEMCACHEINT) (a i : Nat) (hd : pThis.pfnDtor = true) :
    ∀ l : List RTMEMCACHEPAGE, (∀ q ∈ l, q.pPage ≠ a) →
      (l.flatMap (destroyPage pThis)).countP (onSlot a i) = 0 := by
  intro l
  induction l with
  | nil => intro _; rfl
  | cons x rest ih =>
    intro h
    rw [List.flatMap_cons, List.countP_append, countP_destroyPage pThis x a i hd,
      ih (fun q hq => h q (List.mem_cons_of_mem _ hq))]
    have := h x (List.mem_cons_self _ _)
    simp [this]

theorem countP_destroy (pThis : RTMEMCACHEINT) (hd : pThis.pfnDtor = true) (i : Nat) :
    ∀ l : List RTMEMCACHEPAGE, (l.map (fun p => p.pPage)).Nodup → ∀ pg ∈ l,
      (l.flatMap (destroyPage pThis)).countP (onSlot pg.pPage i)
        = if i < pg.cObjects ∧ ASMBitTest pg.mem pg.pbmCtor i = true then 1 else 0 := by
  intro l
  induction l with
  | nil => intro _ pg hpg; cases hpg
  | cons x rest ih =>
    intro hnd pg hpg
    rw [List.map_cons, List.nodup_cons] at hnd
    rw [List.flatMap_cons, List.countP_append, countP_destroyPage pThis x pg.pPage i hd]
    rcases List.mem_cons.mp hpg with rfl | hpg'
    · rw [countP_destroy_other pThis pg.pPage i hd rest (by
        intro q hq he
        exact hnd.1 (List.mem_map.mpr ⟨q, hq, he⟩))]
      simp
    · have hne : ¬ x.pPage = pg.pPage := by
        intro he
        exact hnd.1 (List.mem_map.mpr ⟨pg, hpg', he.symm⟩)
      rw [ih hnd.2 pg hpg']
      simp [hne]

/-! ## The sample execution -/

theorem returned_eq (o : Option AllocResult) (h : o.isSome = true) : o = some (returned o) := by
  cases o with
  | none => cases h
  | some r => rfl

theorem sampleCache_created :
    RTMemCacheCreate Arch.bits64 512 64 4 true true 0 sampleCreateEnv = Except.ok sampleCache := by
  rfl

theorem sampleWorld_reachable (envOk : AllocEnv → Prop) :
    Reachable Arch.bits64 envOk sampleWorld :=
  Reachable.create 512 64 4 true true 0 sampleCreateEnv sampleCache (by decide)
    sampleCache_created

theorem sample_fresh (a : Nat) (h : a % PAGE_SIZE = 0 ∧ a ≠ 0) :
    PageFresh sampleWorld.cache (sampleEnv a) := by
  intro b hb
  cases hb
  exact ⟨h.1, h.2, fun pg hpg => by cases hpg⟩

theorem sampleAlloc1_eq :
    RTMemCacheAllocEx Arch.bits64 sampleWorld.cache (sampleEnv 4096) = some sampleAlloc1 :=
  returned_eq _ (by decide)

theorem sampleWorld1_reachable (envOk : AllocEnv → Prop) (h : envOk (sampleEnv 4096)) :
    Reachable Arch.bits64 envOk sampleWorld1 :=
  Reachable.alloc sampleWorld (sampleEnv 4096) sampleAlloc1 (sampleWorld_reachable envOk) h
    (sample_fresh 4096 (by decide)) sampleAlloc1_eq

theorem sample_fresh1 : PageFresh sampleWorld1.cache (sampleEnv 8192) := by
  intro b hb
  cases hb
  exact ⟨by decide, by decide, by decide⟩

theorem sampleAlloc2_eq :
    RTMemCacheAllocEx Arch.bits64 sampleWorld1.cache (sampleEnv 8192) = some sampleAlloc2 :=
  returned_eq _ (by decide)

theorem freed_eq (c : RTMEMCACHEINT) (p : Nat) (h : (RTMemCacheFree c p).isSome = true) :
    RTMemCacheFree c p = some (freed c p) := by
  unfold freed
  cases hf : RTMemCacheFree c p with
  | none => rw [hf] at h; cases h
  | some c' => rfl

theorem runWorld_reachable (arch : Arch) (envOk : AllocEnv → Prop)
    (hok : envOk sampleEnvNoPage) (ops : List (Option Nat)) :
    ∀ w, Reachable arch envOk w → runOk arch ops w = true →
      Reachable arch envOk (runWorld arch ops w) := by
  induction ops with
  | nil => intro w hw _; exact hw
  | cons op rest ih =>
    intro w hw h
    cases op with
    | none =>
      have h' : ((RTMemCacheAllocEx arch w.cache sampleEnvNoPage).isSome
          && runOk arch rest (stepWorld arch w none)) = true := h
      rw [Bool.and_eq_true] at h'
      exact ih _ (Reachable.alloc w sampleEnvNoPage _ hw hok (by intro b hb; cases hb)
        (returned_eq _ h'.1)) h'.2
    | some p =>
      have h' : (decide (p ∈ w.live) && (RTMemCacheFree w.cache p).isSome
          && runOk arch rest (stepWorld arch w (some p))) = true := h
      rw [Bool.and_eq_true, Bool.and_eq_true] at h'
      exact ih _ (Reachable.free w p _ hw (of_decide_eq_true h'.1.1)
        (freed_eq _ _ h'.1.2)) h'.2

/-! ## The claims -/

/-- C1 (no double allocation, single-threaded): in every world reachable by
`RTMemCacheCreate`, returning `RTMemCacheAllocEx` calls and `RTMemCacheFree` calls on live
pointers, an `RTMemCacheAllocEx` call that returns `VINF_SUCCESS` stores a pointer, and that
pointer is not equal to any pointer that is live (handed out earlier and not yet freed). -/
theorem no_double_allocation (arch : Arch) (envOk : AllocEnv → Prop) (w : World)
    (hw : Reachable arch envOk w) (env : AllocEnv) (hf : PageFresh w.cache env)
    (r : AllocResult) (h : RTMemCacheAllocEx arch w.cache env = some r)
    (hrc : r.rc = Status.VINF_SUCCESS) :
    ∃ p, r.ppvObj = some p ∧ p ∉ w.live := by
  obtain ⟨-, h2, h3⟩ := alloc_step arch w.cache w.live env r (reachable_inv arch envOk w hw) hf h
  obtain ⟨p, hp⟩ := h3 hrc
  exact ⟨p, hp, (h2 p hp).1⟩

theorem no_double_allocation_witness :
    ∃ p, sampleAlloc2.ppvObj = some p ∧ p ∉ sampleWorld1.live :=
  no_double_allocation Arch.bits64 anyEnv sampleWorld1 (sampleWorld1_reachable anyEnv trivial)
    (sampleEnv 8192) sample_fresh1 sampleAlloc2 sampleAlloc2_eq (by decide)

/-- Conservation on the exact counters: in every world reachable by `RTMemCacheCreate`,
`RTMemCacheAllocEx` calls (successful or failing) and `RTMemCacheFree` calls on live
pointers, `cFree + (number of live objects) = cTotal` and `cTotal ≤ cMax`. -/
theorem conservation_exact (arch : Arch) (envOk : AllocEnv → Prop) (w : World)
    (hw : Reachable arch envOk w) :
    w.cache.cFree + (w.live.length : Int) = (w.cache.cTotal : Int) ∧
      w.cache.cTotal ≤ w.cache.cMax := by
  have hinv := reachable_inv arch envOk w hw
  have := hinv.conserve
  exact ⟨by omega, hinv.total_le⟩

theorem sample_conservation_exact :
    sampleWorld1.cache.cFree + (sampleWorld1.live.length : Int)
        = (sampleWorld1.cache.cTotal : Int) ∧
      sampleWorld1.cache.cTotal ≤ sampleWorld1.cache.cMax :=
  conservation_exact Arch.bits64 anyEnv sampleWorld1 (sampleWorld1_reachable anyEnv trivial)

/-- C3 (capacity ceiling): on a live instance with `cTotal = cMax` and `cFree = 0` (any
value of `cMax`, `0` and `UINT32_MAX` included), `RTMemCacheAllocEx` returns
`VERR_MEM_CACHE_MAX_SIZE`, stores no pointer, calls no constructor and leaves the whole
instance (counters, page list, hint and every bitmap) exactly as it was. -/
theorem capacity_ceiling (arch : Arch) (pThis : RTMEMCACHEINT) (env : AllocEnv)
    (hmagic : pThis.u32Magic = RTMEMCACHE_MAGIC)
    (hfull : pThis.cTotal = pThis.cMax) (hfree : pThis.cFree = 0) :
    RTMemCacheAllocEx arch pThis env =
      some { rc := Status.VERR_MEM_CACHE_MAX_SIZE, ppvObj := none, ctorCall := none
             pThis := pThis } := by
  have hres : allocReserve arch pThis env.pvPage = (Status.VERR_MEM_CACHE_MAX_SIZE, pThis) := by
    unfold allocReserve
    simp only
    have h1 : pThis.cFree - 1 < 0 := by omega
    rw [if_pos h1]
    have h2 : (((pThis.cTotal : Int) + -(pThis.cFree - 1)) % 4294967296).toNat > pThis.cMax ∨
        (((pThis.cTotal : Int) + -(pThis.cFree - 1)) % 4294967296).toNat ≤ pThis.cTotal := by
      omega
    rw [if_pos h2]
    rw [restore_cFree]
  unfold RTMemCacheAllocEx
  rw [if_neg (by simp [hmagic])]
  simp only [hres]
  rfl

theorem capacity_ceiling_witness :
    RTMemCacheAllocEx Arch.bits64 sampleFullCache (sampleEnv 4096) =
      some { rc := Status.VERR_MEM_CACHE_MAX_SIZE, ppvObj := none, ctorCall := none
             pThis := sampleFullCache } :=
  capacity_ceiling Arch.bits64 sampleFullCache (sampleEnv 4096) rfl rfl rfl

/-- C4 (alignment): for a cache created with any accepted object size and alignment
(explicit, or derived when 0 is passed) and pages obtained at `PAGE_SIZE`-aligned addresses,
every pointer a returning `RTMemCacheAllocEx` stores satisfies
`pointer % cbAlignment = 0` for the effective alignment `cbAlignment` of the cache. -/
theorem allocation_aligned (arch : Arch) (envOk : AllocEnv → Prop) (w : World)
    (hw : Reachable arch envOk w) (env : AllocEnv) (hf : PageFresh w.cache env)
    (r : AllocResult) (h : RTMemCacheAllocEx arch w.cache env = some r)
    (p : Nat) (hp : r.ppvObj = some p) :
    p % w.cache.cbAlignment = 0 :=
  ((alloc_step arch w.cache w.live env r (reachable_inv arch envOk w hw) hf h).2.1 p hp).2

theorem allocation_aligned_witness : 7168 % sampleWorld1.cache.cbAlignment = 0 :=
  allocation_aligned Arch.bits64 anyEnv sampleWorld1 (sampleWorld1_reachable anyEnv trivial)
    (sampleEnv 8192) sample_fresh1 sampleAlloc2 sampleAlloc2_eq 7168 (by decide)

/-- C5 (construct-once): with a constructor that never fails, in every world reachable by
`RTMemCacheCreate`, `RTMemCacheAllocEx` and `RTMemCacheFree` of live pointers (no
`RTMemCacheDestroy`), the constructor invocations made so far are on pairwise distinct
storage slots (page, slot index): no slot is constructed twice, however often it is
allocated and freed. -/
theorem construct_once (arch : Arch) (w : World) (hw : Reachable arch ctorNeverFails w) :
    (w.ctorLog.map (fun call => (call.pPage, call.iObj))).Nodup :=
  (reachable_ctorInv arch w hw).nodup

theorem construct_once_witness :
    sampleWorld1.live = [7680] ∧
    (runWorld Arch.bits64 [some 7680] sampleWorld1).live = [] ∧
    (runWorld Arch.bits64 [some 7680, none] sampleWorld1).live = [7680] ∧
    (runWorld Arch.bits64 [some 7680, none, some 7680] sampleWorld1).live = [] ∧
    (runWorld Arch.bits64 [some 7680, none, some 7680, none] sampleWorld1).live = [7680] ∧
    (runWorld Arch.bits64 [some 7680, none, some 7680, none, none] sampleWorld1).live
      = [7168, 7680] ∧
    (runWorld Arch.bits64 [some 7680, none, some 7680, none, none] sampleWorld1).ctorLog.map
      (fun call => (call.pPage, call.iObj)) = [(4096, 2), (4096, 3)] ∧
    ((runWorld Arch.bits64 [some 7680, none, some 7680, none, none] sampleWorld1).ctorLog.map
      (fun call => (call.pPage, call.iObj))).Nodup :=
  ⟨by decide!, by decide!, by decide!, by decide!, by decide!, by decide!, by decide!,
    construct_once Arch.bits64 _
      (runWorld_reachable Arch.bits64 ctorNeverFails rfl
        [some 7680, none, some 7680, none, none] sampleWorld1
        (sampleWorld1_reachable ctorNeverFails rfl) (by decide!))⟩

/-- C6 (teardown): `RTMemCacheDestroy` on a live cache (pages at pairwise distinct
addresses) succeeds; with no destructor registered it invokes nothing; with a destructor
registered, for every page and every index `i` the number of invocations on slot `i` of
that page is 1 when `i` is a slot of the page whose construction bit is set on entry and 0
otherwise (the allocation bit plays no role), and every invocation is made with the slot's
object pointer and the user-data. -/
theorem destroy_runs_destructors (pThis : RTMEMCACHEINT)
    (hmagic : pThis.u32Magic = RTMEMCACHE_MAGIC)
    (hnd : (pThis.pages.map (fun p => p.pPage)).Nodup) :
    (RTMemCacheDestroy (some pThis)).rc = Status.VINF_SUCCESS ∧
    (pThis.pfnDtor = false → (RTMemCacheDestroy (some pThis)).dtorCalls = []) ∧
    (pThis.pfnDtor = true →
      (∀ pg ∈ pThis.pages, ∀ i,
        (RTMemCacheDestroy (some pThis)).dtorCalls.countP (onSlot pg.pPage i)
          = if i < pg.cObjects ∧ ASMBitTest pg.mem pg.pbmCtor i = true then 1 else 0) ∧
      (∀ call ∈ (RTMemCacheDestroy (some pThis)).dtorCalls,
        ∃ pg ∈ pThis.pages, call = dtorCallOf pThis pg call.iObj)) := by
  have hm : ¬ pThis.u32Magic ≠ RTMEMCACHE_MAGIC := by simp [hmagic]
  have hcalls : (RTMemCacheDestroy (some pThis)).dtorCalls
      = pThis.pages.flatMap (destroyPage pThis) := by
    unfold RTMemCacheDestroy
    simp only [hm, if_false]
  have hrc : (RTMemCacheDestroy (some pThis)).rc = Status.VINF_SUCCESS := by
    unfold RTMemCacheDestroy
    simp only [hm, if_false]
  refine ⟨hrc, ?_, ?_⟩
  · intro hno
    rw [hcalls]
    have : ∀ pg, destroyPage pThis pg = [] := by
      intro pg
      unfold destroyPage
      simp [hno]
    simp [this]
  · intro hd
    rw [hcalls]
    refine ⟨fun pg hpg i => countP_destroy pThis hd i pThis.pages hnd pg hpg, ?_⟩
    intro call hcall
    obtain ⟨pg, hpg, hin⟩ := List.mem_flatMap.mp hcall
    refine ⟨pg, hpg, ?_⟩
    unfold destroyPage at hin
    rw [if_pos hd] at hin
    obtain ⟨i, _, rfl⟩ := List.mem_map.mp hin
    rfl

theorem destroy_runs_destructors_witness :
    (RTMemCacheDestroy (some sampleWorld1.cache)).rc = Status.VINF_SUCCESS ∧
    (sampleWorld1.cache.pfnDtor = false →
      (RTMemCacheDestroy (some sampleWorld1.cache)).dtorCalls = []) ∧
    (sampleWorld1.cache.pfnDtor = true →
      (∀ pg ∈ sampleWorld1.cache.pages, ∀ i,
        (RTMemCacheDestroy (some sampleWorld1.cache)).dtorCalls.countP (onSlot pg.pPage i)
          = if i < pg.cObjects ∧ ASMBitTest pg.mem pg.pbmCtor i = true then 1 else 0) ∧
      (∀ call ∈ (RTMemCacheDestroy (some sampleWorld1.cache)).dtorCalls,
        ∃ pg ∈ sampleWorld1.cache.pages, call = dtorCallOf sampleWorld1.cache pg call.iObj)) :=
  destroy_runs_destructors sampleWorld1.cache (by decide) (by decide)

/-- The teardown of the sample world: one constructed slot, one destructor invocation. -/
theorem sample_destroy_calls :
    (RTMemCacheDestroy (some sampleWorld1.cache)).dtorCalls
      = [{ pPage := 4096, iObj := 3, pvObj := 7680, pvUser := 0 }] := by
  decide

/-- C8 (Scenario B) at its failing input: on a 32-bit host `RTMemCacheCreate(&h, 68, 4, 100,
ctor, dtor, NULL)` yields 59 objects per page, growth places `pbmCtor` and `pbmAlloc` at the
same address, and Allocate, Free, Allocate never invokes the constructor: the count is 0. -/
theorem scenarioB_bits32_constructs_nothing :
    RTMemCacheCreate Arch.bits32 68 4 100 true true 0 sampleCreateEnv
      = Except.ok (sampleCache68 59) ∧
    (growPage Arch.bits32 (sampleCache68 59) 4096).pbmCtor = 4168 ∧
    (growPage Arch.bits32 (sampleCache68 59) 4096).pbmAlloc = 4168 ∧
    scenarioB Arch.bits32 (sampleCache68 59) = some [] := by
  refine ⟨rfl, by decide, by decide, by decide⟩

/-- Scenario B on a 64-bit host, same request: the constructor is invoked once. -/
theorem scenarioB_bits64_constructs_once :
    RTMemCacheCreate Arch.bits64 68 4 100 true true 0 sampleCreateEnv
      = Except.ok (sampleCache68 58) ∧
    scenarioB Arch.bits64 (sampleCache68 58)
      = some [{ pPage := 4096, iObj := 57, pvObj := 8124, pvUser := 0 }] := by
  refine ⟨rfl, by decide⟩

/-! ## Derived alignment and parameter validation -/

theorem derivedAlignment_above :
    ∀ s, s ≤ 512 → 0 < s →
      ∃ k, k ≤ 10 ∧ derivedAlignment s = min (2 ^ k) 64 ∧ s < 2 ^ k ∧ 2 ^ k ≤ 2 * s := by
  decide!

theorem derivedAlignment_capped :
    ∀ s, s ≤ 512 → 64 ≤ s → derivedAlignment s = 64 ∧ specDerivedAlignment s = 64 := by
  decide!

/-- C9 as stated fails: for `cbObject = 16` the spec's wording gives 16, the code derives 32,
rounds the object size up to 32, and the four Allocates of `Create(16, 0, 4)` return
pointers 32 bytes apart (a fifth returns `VERR_MEM_CACHE_MAX_SIZE`); for `cbObject = 24` the
wording gives 16 and the code derives 32. -/
theorem derived_alignment_counterexample :
    specDerivedAlignment 16 = 16 ∧ derivedAlignment 16 = 32 ∧
    createAlignment 16 0 = Except.ok 32 ∧
    RTMemCacheCreate Arch.bits64 16 0 4 false false 0 sampleCreateEnv = Except.ok sampleCacheA ∧
    allocRun Arch.bits64 5 sampleCacheA
      = [(Status.VINF_SUCCESS, some 8160), (Status.VINF_SUCCESS, some 8128),
         (Status.VINF_SUCCESS, some 8096), (Status.VINF_SUCCESS, some 8064),
         (Status.VERR_MEM_CACHE_MAX_SIZE, none)] ∧
    specDerivedAlignment 24 = 16 ∧ derivedAlignment 24 = 32 := by
  refine ⟨by decide, by decide, rfl, rfl, by decide!, by decide, by decide⟩

/-- C9 amended: when `RTMemCacheCreate` is called with `cbAlignment == 0` and a valid object
size `s`, the effective alignment is the smallest power of two that is `> s`, capped at 64
(the power of two `2^k` with `s < 2^k <= 2 * s`); for `s >= 64` that is 64, the value the
original wording gives; and `Create(16, 0, 4)` followed by four Allocates yields pointers
spaced exactly 32 bytes apart. -/
theorem derived_alignment_amended (s : Nat) (h0 : 0 < s) (h1 : s ≤ PAGE_SIZE / 8) :
    (createAlignment s 0 = Except.ok (derivedAlignment s) ∧
      ∃ k, derivedAlignment s = min (2 ^ k) 64 ∧ s < 2 ^ k ∧ 2 ^ k ≤ 2 * s) ∧
    (64 ≤ s → derivedAlignment s = specDerivedAlignment s) ∧
    (RTMemCacheCreate Arch.bits64 16 0 4 false false 0 sampleCreateEnv = Except.ok sampleCacheA ∧
      allocRun Arch.bits64 4 sampleCacheA
        = [(Status.VINF_SUCCESS, some 8160), (Status.VINF_SUCCESS, some 8128),
           (Status.VINF_SUCCESS, some 8096), (Status.VINF_SUCCESS, some 8064)]) := by
  refine ⟨⟨rfl, ?_⟩, ?_, rfl, by decide!⟩
  · obtain ⟨k, -, hk⟩ := derivedAlignment_above s h1 h0
    exact ⟨k, hk⟩
  · intro h64
    obtain ⟨e1, e2⟩ := derivedAlignment_capped s h1 h64
    rw [e1, e2]

theorem derived_alignment_amended_witness :
    ((createAlignment 16 0 = Except.ok (derivedAlignment 16) ∧
      ∃ k, derivedAlignment 16 = min (2 ^ k) 64 ∧ 16 < 2 ^ k ∧ 2 ^ k ≤ 2 * 16) ∧
    (64 ≤ 16 → derivedAlignment 16 = specDerivedAlignment 16) ∧
    (RTMemCacheCreate Arch.bits64 16 0 4 false false 0 sampleCreateEnv = Except.ok sampleCacheA ∧
      allocRun Arch.bits64 4 sampleCacheA
        = [(Status.VINF_SUCCESS, some 8160), (Status.VINF_SUCCESS, some 8128),
           (Status.VINF_SUCCESS, some 8096), (Status.VINF_SUCCESS, some 8064)])) ∧
    derivedAlignment 16 = 32 ∧
    derivedAlignment 100 = specDerivedAlignment 100 ∧ specDerivedAlignment 100 = 64 :=
  ⟨derived_alignment_amended 16 (by decide) (by decide), by decide,
    (derived_alignment_amended 100 (by decide) (by decide)).2.1 (by decide), by decide⟩

/-- C10 (create size validation): `RTMemCacheCreate` returns `VERR_INVALID_PARAMETER` and
stores no instance whenever `cbObject == 0` or `cbObject > PAGE_SIZE / 8`; for every
`cbObject` in `1 .. PAGE_SIZE / 8` with alignment 0 it succeeds when the instance memory
and the critical section are obtained, and its only failures are `VERR_NO_MEMORY` (no
instance memory) and the failure status of `RTCritSectInit`. -/
theorem create_size_validation (arch : Arch) (cbObject cbAlignment cMaxObjects : Nat)
    (pfnCtor pfnDtor : Bool) (pvUser : Nat) (env : CreateEnv) :
    ((cbObject = 0 ∨ PAGE_SIZE / 8 < cbObject) →
      RTMemCacheCreate arch cbObject cbAlignment cMaxObjects pfnCtor pfnDtor pvUser env
        = Except.error Status.VERR_INVALID_PARAMETER) ∧
    ((0 < cbObject ∧ cbObject ≤ PAGE_SIZE / 8) →
      ((env.fMemAlloc = true ∧ RT_FAILURE env.rcCritSect = false) →
        ∃ pThis, RTMemCacheCreate arch cbObject 0 cMaxObjects pfnCtor pfnDtor pvUser env
          = Except.ok pThis) ∧
      (∀ rc, RTMemCacheCreate arch cbObject 0 cMaxObjects pfnCtor pfnDtor pvUser env
          = Except.error rc →
        (env.fMemAlloc = false ∧ rc = Status.VERR_NO_MEMORY) ∨
        (env.fMemAlloc = true ∧ RT_FAILURE env.rcCritSect = true ∧ rc = env.rcCritSect))) := by
  constructor
  · intro h
    unfold RTMemCacheCreate
    rcases h with h | h
    · have : ¬ cbObject > 0 := by omega
      rw [if_pos this]
    · by_cases hp : ¬ cbObject > 0
      · rw [if_pos hp]
      · rw [if_neg hp]
        have : ¬ cbObject ≤ PAGE_SIZE / 8 := by omega
        rw [if_pos this]
  · intro ⟨hpos, hle⟩
    have h1 : ¬ ¬ cbObject > 0 := by omega
    have h2 : ¬ ¬ cbObject ≤ PAGE_SIZE / 8 := by omega
    have hal : createAlignment cbObject 0 = Except.ok (derivedAlignment cbObject) := rfl
    unfold RTMemCacheCreate
    rw [if_neg h1, if_neg h2, hal]
    simp only
    by_cases hm : env.fMemAlloc = true
    · rw [if_neg (not_not.mpr hm)]
      by_cases hc : RT_FAILURE env.rcCritSect = true
      · rw [if_pos hc]
        refine ⟨fun h => ?_, ?_⟩
        · rw [h.2] at hc
          cases hc
        · intro rc hrc
          cases hrc
          exact Or.inr ⟨hm, hc, rfl⟩
      · rw [if_neg hc]
        refine ⟨fun _ => ⟨_, rfl⟩, ?_⟩
        intro rc hrc
        cases hrc
    · rw [if_pos hm]
      refine ⟨fun h => absurd h.1 hm, ?_⟩
      intro rc hrc
      cases hrc
      exact Or.inl ⟨by simpa using hm, rfl⟩

theorem create_size_validation_witness :
    RTMemCacheCreate Arch.bits64 513 0 4 true true 0 sampleCreateEnv
        = Except.error Status.VERR_INVALID_PARAMETER ∧
    ∃ pThis, RTMemCacheCreate Arch.bits64 512 0 4 true true 0 sampleCreateEnv
        = Except.ok pThis :=
  ⟨(create_size_validation Arch.bits64 513 0 4 true true 0 sampleCreateEnv).1
      (Or.inr (by decide)),
    ((create_size_validation Arch.bits64 512 0 4 true true 0 sampleCreateEnv).2
      ⟨by decide, by decide⟩).1 ⟨rfl, rfl⟩⟩

/-! ## Alignment errors -/

theorem pow_two_of_and_pred : ∀ a : Nat, a ≠ 0 → (a - 1) &&& a = 0 → ∃ k, a = 2 ^ k := by
  intro a
  induction a using Nat.strong_induction_on with
  | _ a ih =>
    intro ha h
    have hdiv : (a - 1) / 2 &&& a / 2 = 0 := by
      rw [← Nat.and_div_two, h]
    by_cases hodd : a % 2 = 1
    · have h1 : (a - 1) / 2 = a / 2 := by omega
      rw [h1, Nat.and_self] at hdiv
      exact ⟨0, by omega⟩
    · have h1 : (a - 1) / 2 = a / 2 - 1 := by omega
      rw [h1] at hdiv
      obtain ⟨k, hk⟩ := ih (a / 2) (by omega) (by omega) hdiv
      refine ⟨k + 1, ?_⟩
      rw [Nat.pow_succ, ← hk]
      omega

theorem and_pred_pow_two (k : Nat) : (2 ^ k - 1) &&& 2 ^ k = 0 := by
  rw [Nat.and_comm, Nat.and_pow_two_sub_one_eq_mod, Nat.mod_self]

/-- C11 as stated fails: with a valid object size, alignment 3 is rejected with
`VERR_NOT_POWER_OF_TWO` and alignment 128 with `VERR_OUT_OF_RANGE`, neither with
`VERR_INVALID_PARAMETER`. -/
theorem alignment_errors_counterexample :
    RTMemCacheCreate Arch.bits64 16 3 4 false false 0 sampleCreateEnv
        = Except.error Status.VERR_NOT_POWER_OF_TWO ∧
    RTMemCacheCreate Arch.bits64 16 3 4 false false 0 sampleCreateEnv
        ≠ Except.error Status.VERR_INVALID_PARAMETER ∧
    RTMemCacheCreate Arch.bits64 16 128 4 false false 0 sampleCreateEnv
        = Except.error Status.VERR_OUT_OF_RANGE ∧
    RTMemCacheCreate Arch.bits64 16 128 4 false false 0 sampleCreateEnv
        ≠ Except.error Status.VERR_INVALID_PARAMETER := by
  have h1 : RTMemCacheCreate Arch.bits64 16 3 4 false false 0 sampleCreateEnv
      = Except.error Status.VERR_NOT_POWER_OF_TWO := rfl
  have h2 : RTMemCacheCreate Arch.bits64 16 128 4 false false 0 sampleCreateEnv
      = Except.error Status.VERR_OUT_OF_RANGE := rfl
  refine ⟨h1, ?_, h2, ?_⟩
  · rw [h1]
    intro h
    cases h
  · rw [h2]
    intro h
    cases h

/-- C11 amended: `RTMemCacheCreate` called with a valid object size and a non-zero
alignment that is not a power of two fails with `VERR_NOT_POWER_OF_TWO`; called with a
valid object size and an alignment that is a power of two greater than 64 it fails with
`VERR_OUT_OF_RANGE`; no instance is produced in either case. -/
theorem alignment_errors_amended (arch : Arch) (cbObject cbAlignment cMaxObjects : Nat)
    (pfnCtor pfnDtor : Bool) (pvUser : Nat) (env : CreateEnv)
    (hpos : 0 < cbObject) (hle : cbObject ≤ PAGE_SIZE / 8) (hne : cbAlignment ≠ 0) :
    ((¬ ∃ k, cbAlignment = 2 ^ k) →
      RTMemCacheCreate arch cbObject cbAlignment cMaxObjects pfnCtor pfnDtor pvUser env
        = Except.error Status.VERR_NOT_POWER_OF_TWO) ∧
    ((∃ k, cbAlignment = 2 ^ k) → 64 < cbAlignment →
      RTMemCacheCreate arch cbObject cbAlignment cMaxObjects pfnCtor pfnDtor pvUser env
        = Except.error Status.VERR_OUT_OF_RANGE) := by
  have h1 : ¬ ¬ cbObject > 0 := by omega
  have h2 : ¬ ¬ cbObject ≤ PAGE_SIZE / 8 := by omega
  constructor
  · intro hnp
    have hand : (cbAlignment - 1) &&& cbAlignment ≠ 0 :=
      fun h => hnp (pow_two_of_and_pred cbAlignment hne h)
    have hal : createAlignment cbObject cbAlignment
        = Except.error Status.VERR_NOT_POWER_OF_TWO := by
      unfold createAlignment
      rw [if_neg hne, if_pos hand]
    unfold RTMemCacheCreate
    rw [if_neg h1, if_neg h2, hal]
  · intro ⟨k, hk⟩ hgt
    have hand : ¬ (cbAlignment - 1) &&& cbAlignment ≠ 0 := by
      rw [hk]
      simp [and_pred_pow_two]
    have hal : createAlignment cbObject cbAlignment
        = Except.error Status.VERR_OUT_OF_RANGE := by
      unfold createAlignment
      rw [if_neg hne, if_neg hand, if_pos (by omega)]
    unfold RTMemCacheCreate
    rw [if_neg h1, if_neg h2, hal]

theorem alignment_errors_amended_witness :
    ((¬ ∃ k, 3 = 2 ^ k) →
      RTMemCacheCreate Arch.bits64 16 3 4 false false 0 sampleCreateEnv
        = Except.error Status.VERR_NOT_POWER_OF_TWO) ∧
    ((∃ k, 3 = 2 ^ k) → 64 < 3 →
      RTMemCacheCreate Arch.bits64 16 3 4 false false 0 sampleCreateEnv
        = Except.error Status.VERR_OUT_OF_RANGE) :=
  alignment_errors_amended Arch.bits64 16 3 4 false false 0 sampleCreateEnv (by decide)
    (by decide) (by decide)

/-! ## Failure paths of `RTMemCacheAllocEx` and `RTMemCacheDestroy` -/

/-- C14 (out-of-memory rollback): on a live instance with `cFree = 0` and `cTotal < cMax`
(`cMax` a `uint32_t`), when `RTMemPageAlloc` returns `NULL` during growth,
`RTMemCacheAllocEx` returns `VERR_NO_MEMORY`, stores no pointer, calls no constructor, and
the instance (counters, page list, hint and every bitmap) is exactly the instance before
the call. -/
theorem oom_rollback (arch : Arch) (pThis : RTMEMCACHEINT) (env : AllocEnv)
    (hmagic : pThis.u32Magic = RTMEMCACHE_MAGIC) (hmax : pThis.cMax < 4294967296)
    (hfree : pThis.cFree = 0) (hlt : pThis.cTotal < pThis.cMax) (hpv : env.pvPage = none) :
    RTMemCacheAllocEx arch pThis env =
      some { rc := Status.VERR_NO_MEMORY, ppvObj := none, ctorCall := none, pThis := pThis } := by
  have hres : allocReserve arch pThis env.pvPage = (Status.VERR_NO_MEMORY, pThis) := by
    rw [hpv]
    unfold allocReserve
    simp only
    have h1 : pThis.cFree - 1 < 0 := by omega
    rw [if_pos h1]
    have h2 : ¬ ((((pThis.cTotal : Int) + -(pThis.cFree - 1)) % 4294967296).toNat > pThis.cMax ∨
        (((pThis.cTotal : Int) + -(pThis.cFree - 1)) % 4294967296).toNat ≤ pThis.cTotal) := by
      omega
    rw [if_neg h2]
    unfold rtMemCacheGrow
    simp only [h1, if_true, RT_FAILURE]
    rw [restore_cFree]
  unfold RTMemCacheAllocEx
  rw [if_neg (by simp [hmagic])]
  simp only [hres]
  rfl

theorem oom_rollback_witness :
    RTMemCacheAllocEx Arch.bits64 sampleCache sampleEnvNoPage =
      some { rc := Status.VERR_NO_MEMORY, ppvObj := none, ctorCall := none
             pThis := sampleCache } :=
  oom_rollback Arch.bits64 sampleCache sampleEnvNoPage rfl (by decide) rfl (by decide) rfl

/-- C18 (double destroy): `RTMemCacheDestroy` on an instance with the live magic returns
`VINF_SUCCESS` and leaves `RTMEMCACHE_MAGIC_DEAD` in the magic field; on an instance whose
magic is not the live value (in particular the instance a first `RTMemCacheDestroy` left)
it returns `VERR_INVALID_HANDLE`, invokes no destructor, hands no page to `RTMemPageFree`,
does not free the instance and leaves it as it was. -/
theorem double_destroy (pThis : RTMEMCACHEINT) :
    (pThis.u32Magic = RTMEMCACHE_MAGIC →
      (RTMemCacheDestroy (some pThis)).rc = Status.VINF_SUCCESS ∧
      (∃ p, (RTMemCacheDestroy (some pThis)).pThis = some p ∧
        p.u32Magic = RTMEMCACHE_MAGIC_DEAD) ∧
      (RTMemCacheDestroy (RTMemCacheDestroy (some pThis)).pThis).rc
        = Status.VERR_INVALID_HANDLE ∧
      (RTMemCacheDestroy (RTMemCacheDestroy (some pThis)).pThis).dtorCalls = [] ∧
      (RTMemCacheDestroy (RTMemCacheDestroy (some pThis)).pThis).pagesFreed = []) ∧
    (pThis.u32Magic ≠ RTMEMCACHE_MAGIC →
      (RTMemCacheDestroy (some pThis)).rc = Status.VERR_INVALID_HANDLE ∧
      (RTMemCacheDestroy (some pThis)).dtorCalls = [] ∧
      (RTMemCacheDestroy (some pThis)).pagesFreed = [] ∧
      (RTMemCacheDestroy (some pThis)).fFreed = false ∧
      (RTMemCacheDestroy (some pThis)).pThis = some pThis) := by
  have hbad : ∀ q : RTMEMCACHEINT, q.u32Magic ≠ RTMEMCACHE_MAGIC →
      RTMemCacheDestroy (some q) =
        { rc := Status.VERR_INVALID_HANDLE, dtorCalls := [], pagesFreed := [], fFreed := false
          pThis := some q } := by
    intro q hq
    unfold RTMemCacheDestroy
    simp only
    rw [if_pos hq]
  constructor
  · intro h
    have h1 : RTMemCacheDestroy (some pThis) =
        { rc := Status.VINF_SUCCESS
          dtorCalls := pThis.pages.flatMap (destroyPage pThis)
          pagesFreed := pThis.pages.map (fun pg => pg.pPage)
          fFreed := true
          pThis := some { pThis with u32Magic := RTMEMCACHE_MAGIC_DEAD, pages := [] } } := by
      unfold RTMemCacheDestroy
      simp only
      rw [if_neg (not_not.mpr h)]
    have hdead : ({ pThis with u32Magic := RTMEMCACHE_MAGIC_DEAD, pages := [] }
        : RTMEMCACHEINT).u32Magic ≠ RTMEMCACHE_MAGIC := by
      show RTMEMCACHE_MAGIC_DEAD ≠ RTMEMCACHE_MAGIC
      decide
    have h2 := hbad _ hdead
    rw [h1]
    simp only
    rw [h2]
    exact ⟨trivial, ⟨_, rfl, rfl⟩, rfl, rfl, rfl⟩
  · intro h
    rw [hbad pThis h]
    exact ⟨rfl, rfl, rfl, rfl, rfl⟩

theorem double_destroy_witness :
    (sampleCache.u32Magic = RTMEMCACHE_MAGIC →
      (RTMemCacheDestroy (some sampleCache)).rc = Status.VINF_SUCCESS ∧
      (∃ p, (RTMemCacheDestroy (some sampleCache)).pThis = some p ∧
        p.u32Magic = RTMEMCACHE_MAGIC_DEAD) ∧
      (RTMemCacheDestroy (RTMemCacheDestroy (some sampleCache)).pThis).rc
        = Status.VERR_INVALID_HANDLE ∧
      (RTMemCacheDestroy (RTMemCacheDestroy (some sampleCache)).pThis).dtorCalls = [] ∧
      (RTMemCacheDestroy (RTMemCacheDestroy (some sampleCache)).pThis).pagesFreed = []) ∧
    (sampleCache.u32Magic ≠ RTMEMCACHE_MAGIC →
      (RTMemCacheDestroy (some sampleCache)).rc = Status.VERR_INVALID_HANDLE ∧
      (RTMemCacheDestroy (some sampleCache)).dtorCalls = [] ∧
      (RTMemCacheDestroy (some sampleCache)).pagesFreed = [] ∧
      (RTMemCacheDestroy (some sampleCache)).fFreed = false ∧
      (RTMemCacheDestroy (some sampleCache)).pThis = some sampleCache) :=
  double_destroy sampleCache

/-- C19 as stated fails: `RTMemCacheAllocEx` on the instance a `RTMemCacheDestroy` left
(magic `RTMEMCACHE_MAGIC_DEAD`) returns `VERR_INVALID_PARAMETER`, not
`VERR_INVALID_HANDLE`. -/
theorem alloc_dead_counterexample :
    (returned (RTMemCacheAllocEx Arch.bits64 sampleDeadCache (sampleEnv 4096))).rc
        = Status.VERR_INVALID_PARAMETER ∧
    (returned (RTMemCacheAllocEx Arch.bits64 sampleDeadCache (sampleEnv 4096))).rc
        ≠ Status.VERR_INVALID_HANDLE ∧
    (RTMemCacheAllocEx Arch.bits64 sampleDeadCache (sampleEnv 4096)).isSome = true := by
  decide

/-- C19 amended: `RTMemCacheAllocEx` on an instance whose magic is not the live value
returns `VERR_INVALID_PARAMETER`, stores no pointer, calls no constructor and leaves the
instance (every counter included) exactly as it was. -/
theorem alloc_dead_amended (arch : Arch) (pThis : RTMEMCACHEINT) (env : AllocEnv)
    (hmagic : pThis.u32Magic ≠ RTMEMCACHE_MAGIC) :
    RTMemCacheAllocEx arch pThis env =
      some { rc := Status.VERR_INVALID_PARAMETER, ppvObj := none, ctorCall := none
             pThis := pThis } := by
  unfold RTMemCacheAllocEx
  rw [if_pos hmagic]

theorem alloc_dead_amended_witness :
    RTMemCacheAllocEx Arch.bits64 sampleDeadCache (sampleEnv 4096) =
      some { rc := Status.VERR_INVALID_PARAMETER, ppvObj := none, ctorCall := none
             pThis := sampleDeadCache } :=
  alloc_dead_amended Arch.bits64 sampleDeadCache (sampleEnv 4096) (by decide)

/-! ## Pointers and slots -/

/-- C17 (pointer/slot round trip): in a reachable world, for the page `rtMemCacheGrow` lays
out at a `PAGE_SIZE`-aligned address `a` and for every page of the cache, and every slot
index `i < cObjects`, the pointer `p = pbObjects + i * cbObject` satisfies
`p & ~PAGE_OFFSET_MASK = page base`, `p - pbObjects` is a multiple of `cbObject` and
`(p - pbObjects) / cbObject = i`; for a page of the cache the masked pointer dereferences to
that very page, so `RTMemCacheFree` recovers the page and slot `RTMemCacheAllocEx` claimed. -/
theorem pointer_slot_round_trip (arch : Arch) (envOk : AllocEnv → Prop) (w : World)
    (hw : Reachable arch envOk w) :
    (∀ a i, a % PAGE_SIZE = 0 → i < (growPage arch w.cache a).cObjects →
      slotPtr w.cache (growPage arch w.cache a) i
          - (slotPtr w.cache (growPage arch w.cache a) i &&& PAGE_OFFSET_MASK) = a ∧
      (growPage arch w.cache a).pbObjects ≤ slotPtr w.cache (growPage arch w.cache a) i ∧
      (slotPtr w.cache (growPage arch w.cache a) i - (growPage arch w.cache a).pbObjects)
          % w.cache.cbObject = 0 ∧
      (slotPtr w.cache (growPage arch w.cache a) i - (growPage arch w.cache a).pbObjects)
          / w.cache.cbObject = i) ∧
    (∀ pg ∈ w.cache.pages, ∀ i, i < pg.cObjects →
      slotPtr w.cache pg i - (slotPtr w.cache pg i &&& PAGE_OFFSET_MASK) = pg.pPage ∧
      findPage w.cache.pages (slotPtr w.cache pg i - (slotPtr w.cache pg i &&& PAGE_OFFSET_MASK))
          = some pg ∧
      pg.pbObjects ≤ slotPtr w.cache pg i ∧
      (slotPtr w.cache pg i - pg.pbObjects) % w.cache.cbObject = 0 ∧
      (slotPtr w.cache pg i - pg.pbObjects) / w.cache.cbObject = i) := by
  have hinv := reachable_inv arch envOk w hw
  have hmod : ∀ (pg : RTMEMCACHEPAGE) (i : Nat),
      (slotPtr w.cache pg i - pg.pbObjects) % w.cache.cbObject = 0 := by
    intro pg i
    unfold slotPtr
    rw [Nat.add_sub_cancel_left]
    exact Nat.mul_mod_left _ _
  constructor
  · intro a i ha hi
    obtain ⟨hn1, -⟩ := growPage_cObjects arch w.cache a hinv.cfg.max_lt hinv.total_le
    have hobjs : (growPage arch w.cache a).pbObjects
        = (growPage arch w.cache a).pPage + 4096
          - w.cache.cbObject * (growPage arch w.cache a).cObjects := rfl
    have hal : (growPage arch w.cache a).pPage % 4096 = 0 := ha
    exact ⟨slot_mask w.cache _ hinv.cfg hal hn1 hobjs i hi,
      (slot_bounds w.cache _ hinv.cfg hn1 hobjs i hi).2.1, hmod _ i,
      slot_index w.cache _ hinv.cfg i⟩
  · intro pg hpg i hi
    have hP := hinv.pagesOk pg hpg
    have hmask := slot_mask w.cache pg hinv.cfg hP.aligned hP.nobj hP.objs i hi
    refine ⟨hmask, ?_, (slot_bounds w.cache pg hinv.cfg hP.nobj hP.objs i hi).2.1, hmod pg i,
      slot_index w.cache pg hinv.cfg i⟩
    rw [hmask]
    exact findPage_of_mem w.cache.pages hinv.distinct pg hpg

theorem pointer_slot_round_trip_witness :
    (∀ a i, a % PAGE_SIZE = 0 → i < (growPage Arch.bits64 sampleWorld1.cache a).cObjects →
      slotPtr sampleWorld1.cache (growPage Arch.bits64 sampleWorld1.cache a) i
          - (slotPtr sampleWorld1.cache (growPage Arch.bits64 sampleWorld1.cache a) i
              &&& PAGE_OFFSET_MASK) = a ∧
      (growPage Arch.bits64 sampleWorld1.cache a).pbObjects
          ≤ slotPtr sampleWorld1.cache (growPage Arch.bits64 sampleWorld1.cache a) i ∧
      (slotPtr sampleWorld1.cache (growPage Arch.bits64 sampleWorld1.cache a) i
          - (growPage Arch.bits64 sampleWorld1.cache a).pbObjects)
          % sampleWorld1.cache.cbObject = 0 ∧
      (slotPtr sampleWorld1.cache (growPage Arch.bits64 sampleWorld1.cache a) i
          - (growPage Arch.bits64 sampleWorld1.cache a).pbObjects)
          / sampleWorld1.cache.cbObject = i) ∧
    (∀ pg ∈ sampleWorld1.cache.pages, ∀ i, i < pg.cObjects →
      slotPtr sampleWorld1.cache pg i
          - (slotPtr sampleWorld1.cache pg i &&& PAGE_OFFSET_MASK) = pg.pPage ∧
      findPage sampleWorld1.cache.pages
          (slotPtr sampleWorld1.cache pg i
            - (slotPtr sampleWorld1.cache pg i &&& PAGE_OFFSET_MASK)) = some pg ∧
      pg.pbObjects ≤ slotPtr sampleWorld1.cache pg i ∧
      (slotPtr sampleWorld1.cache pg i - pg.pbObjects) % sampleWorld1.cache.cbObject = 0 ∧
      (slotPtr sampleWorld1.cache pg i - pg.pbObjects) / sampleWorld1.cache.cbObject = i) :=
  pointer_slot_round_trip Arch.bits64 anyEnv sampleWorld1 (sampleWorld1_reachable anyEnv trivial)

/-! ## `RTMemCacheFree` where the bitmaps coincide -/

theorem sampleWorld68_reachable : Reachable Arch.bits32 anyEnv sampleWorld68 :=
  Reachable.alloc { cache := sampleCache68 59, live := [], ctorLog := [] } (sampleEnv 4096)
    sampleAlloc68
    (Reachable.create 68 4 100 true true 0 sampleCreateEnv (sampleCache68 59) (by decide) rfl)
    trivial
    (by
      intro b hb
      cases hb
      exact ⟨by decide, by decide, fun pg hpg => by cases hpg⟩)
    (returned_eq _ (by decide))

/-- C16 fails on a 32-bit host: after `RTMemCacheCreate(&h, 68, 4, 100, ctor, dtor, NULL)`
and one `RTMemCacheAllocEx` (page at 4096) the world is reachable, its only live pointer is
8124 (slot 58), and both bitmaps of the page start at 4168.  `RTMemCacheFree(h, 8124)`
returns, and bit 58 of the construction bitmap, set before the call, is clear after it. -/
theorem free_clears_construction_bit_bits32 :
    Reachable Arch.bits32 anyEnv sampleWorld68 ∧
    sampleWorld68.live = [8124] ∧
    (pageAt sampleWorld68.cache 4096).pbmCtor = 4168 ∧
    (pageAt sampleWorld68.cache 4096).pbmAlloc = 4168 ∧
    slotPtr sampleWorld68.cache (pageAt sampleWorld68.cache 4096) 58 = 8124 ∧
    (RTMemCacheFree sampleWorld68.cache 8124).isSome = true ∧
    ASMBitTest (pageAt sampleWorld68.cache 4096).mem
      (pageAt sampleWorld68.cache 4096).pbmCtor 58 = true ∧
    ASMBitTest (pageAt (freed sampleWorld68.cache 8124) 4096).mem
      (pageAt (freed sampleWorld68.cache 8124) 4096).pbmCtor 58 = false := by
  refine ⟨sampleWorld68_reachable, by decide, by decide, by decide, by decide, by decide,
    by decide, by decide⟩

/-! ## Objects per page -/

theorem RT_ALIGN_eq_specRoundUp (x a : Nat) (h : a ∈ [1, 2, 4, 8, 16, 32, 64]) :
    RT_ALIGN x a = specRoundUp x a := by
  obtain ⟨k, _, rfl⟩ := pow_of_mem_alignments a h
  rw [RT_ALIGN_pow]
  rfl

theorem RT_MIN_eq_min (a b : Nat) : RT_MIN a b = min a b := by
  unfold RT_MIN
  split <;> omega

theorem min8_mem (a : Nat) (h : a ∈ [1, 2, 4, 8, 16, 32, 64]) :
    min a 8 ∈ [1, 2, 4, 8, 16, 32, 64] := by
  simp only [List.mem_cons, List.mem_singleton, List.not_mem_nil, or_false] at h
  rcases h with h | h | h | h | h | h | h <;> subst h <;> decide

/-- The header sized with the full alignment exceeds the header sized with
`RT_MIN(cbAlignment, 8)` by at most 8 bytes, except for the alignments 32 and 64. -/
theorem header_gap (arch : Arch) (a : Nat) (h : a ∈ [1, 2, 4, 8, 16, 32, 64]) :
    (RT_ALIGN (sizeofRTMEMCACHEPAGE arch) a
        ≤ RT_ALIGN (sizeofRTMEMCACHEPAGE arch) (RT_MIN a 8) + 8) ∨
    (a = 32 ∧ RT_ALIGN (sizeofRTMEMCACHEPAGE arch) a = 96 ∧
      RT_ALIGN (sizeofRTMEMCACHEPAGE arch) (RT_MIN a 8) = 72) ∨
    (a = 64 ∧ RT_ALIGN (sizeofRTMEMCACHEPAGE arch) a = 128 ∧
      RT_ALIGN (sizeofRTMEMCACHEPAGE arch) (RT_MIN a 8) = 72) := by
  simp only [List.mem_cons, List.mem_singleton, List.not_mem_nil, or_false] at h
  rcases h with h | h | h | h | h | h | h <;> subst h <;> cases arch <;> decide

/-- No object count above the result of the loop fits the page. -/
theorem cPerPageLoop_maximal (arch : Arch) (a cbObject N : Nat)
    (hmem : a ∈ [1, 2, 4, 8, 16, 32, 64]) (hpos : 0 < cbObject)
    (hP : RT_ALIGN (sizeofRTMEMCACHEPAGE arch) (RT_MIN a 8) + N * RT_ALIGN cbObject a
      + RT_ALIGN N 64 / 8 * 2 ≤ PAGE_SIZE) :
    N ≤ cPerPageLoop (RT_ALIGN (sizeofRTMEMCACHEPAGE arch) (RT_MIN a 8)) (RT_ALIGN cbObject a)
      ((PAGE_SIZE - RT_ALIGN (sizeofRTMEMCACHEPAGE arch) a) / RT_ALIGN cbObject a) := by
  obtain ⟨hb1, hb2⟩ := RT_ALIGN_bounds cbObject a hmem
  obtain ⟨q, hq⟩ := RT_ALIGN_dvd cbObject a hmem
  have hgap := header_gap arch a hmem
  obtain ⟨hh1, hh2, hh3⟩ := header_bounds arch a hmem
  have hPS : PAGE_SIZE = 4096 := rfl
  rw [hPS] at hP ⊢
  generalize hcb : RT_ALIGN cbObject a = cb at *
  generalize hhdr : RT_ALIGN (sizeofRTMEMCACHEPAGE arch) (RT_MIN a 8) = hdr at *
  generalize hA : RT_ALIGN (sizeofRTMEMCACHEPAGE arch) a = A at *
  have hcbpos : 0 < cb := by omega
  by_cases hN : N ≤ (4096 - A) / cb
  · exact cPerPageLoop_ge hdr cb N (by rw [hPS]; omega) _ hN
  · exfalso
    have h1 := Nat.div_add_mod (4096 - A) cb
    have h2 := Nat.mod_lt (4096 - A) hcbpos
    generalize (4096 - A) % cb = md at *
    generalize (4096 - A) / cb = n0 at *
    have h3 : (n0 + 1) * cb ≤ N * cb := Nat.mul_le_mul_right cb (by omega)
    have h4 : (n0 + 1) * cb = cb * n0 + cb := by ring
    have h5 : (n0 + 1) * cb = a * ((n0 + 1) * q) := by
      rw [hq]; ring
    rw [RT_ALIGN_64] at hP
    generalize N * cb = NC at *
    generalize (n0 + 1) * cb = X at *
    generalize cb * n0 = Z at *
    generalize (n0 + 1) * q = Y at *
    have hN1 : 1 ≤ N := by omega
    have h16 : 16 ≤ (N + 63) / 64 * 64 / 8 * 2 := by omega
    have hX : 4096 - A < X := by omega
    have hB : hdr + X + 16 ≤ 4096 := by omega
    rcases hgap with hg | ⟨ha, hA1, hH1⟩ | ⟨ha, hA1, hH1⟩
    · omega
    · subst ha
      omega
    · subst ha
      omega

/-- C12 (objects per page): when `RTMemCacheCreate` succeeds, with `H` the size of
`RTMEMCACHEPAGE` rounded up to `min(alignment, 8)` and `cb` the object size rounded up to
the effective alignment (which is what the instance stores as `cbObject`), the stored
`cPerPage` satisfies `H + cPerPage * cb + 2 * (roundup(cPerPage, 64) / 8) <= PAGE_SIZE`,
every `N` with `H + N * cb + 2 * (roundup(N, 64) / 8) <= PAGE_SIZE` is `<= cPerPage`, and
`cBits = roundup(cPerPage, 64)`. -/
theorem objects_per_page (arch : Arch) (cbObject cbAlignment cMaxObjects : Nat)
    (pfnCtor pfnDtor : Bool) (pvUser : Nat) (env : CreateEnv) (pThis : RTMEMCACHEINT)
    (h : RTMemCacheCreate arch cbObject cbAlignment cMaxObjects pfnCtor pfnDtor pvUser env
      = Except.ok pThis) :
    pThis.cbObject = specRoundUp cbObject pThis.cbAlignment ∧
    specRoundUp (sizeofRTMEMCACHEPAGE arch) (min pThis.cbAlignment 8)
      + pThis.cPerPage * pThis.cbObject + 2 * (specRoundUp pThis.cPerPage 64 / 8)
      ≤ PAGE_SIZE ∧
    (∀ N, specRoundUp (sizeofRTMEMCACHEPAGE arch) (min pThis.cbAlignment 8)
        + N * pThis.cbObject + 2 * (specRoundUp N 64 / 8) ≤ PAGE_SIZE →
      N ≤ pThis.cPerPage) ∧
    pThis.cBits = specRoundUp pThis.cPerPage 64 := by
  obtain ⟨a, ha, hpos, hle, rfl⟩ := create_ok arch cbObject cbAlignment cMaxObjects pfnCtor
    pfnDtor pvUser env pThis h
  have hmem := createAlignment_mem cbObject cbAlignment a ha
  obtain ⟨hh1, hh2, hh3⟩ := header_bounds arch a hmem
  have h64 : ∀ x, specRoundUp x 64 = RT_ALIGN x 64 := fun x =>
    (RT_ALIGN_eq_specRoundUp x 64 (by decide)).symm
  have hH : specRoundUp (sizeofRTMEMCACHEPAGE arch) (min a 8)
      = RT_ALIGN (sizeofRTMEMCACHEPAGE arch) (RT_MIN a 8) := by
    rw [RT_MIN_eq_min]
    exact (RT_ALIGN_eq_specRoundUp _ _ (min8_mem a hmem)).symm
  have hcb : specRoundUp cbObject a = RT_ALIGN cbObject a :=
    (RT_ALIGN_eq_specRoundUp cbObject a hmem).symm
  simp only [h64, hH, hcb]
  refine ⟨trivial, ?_, ?_, trivial⟩
  · have hfit := cPerPageLoop_fits (RT_ALIGN (sizeofRTMEMCACHEPAGE arch) (RT_MIN a 8))
      (RT_ALIGN cbObject a) (by
        have : PAGE_SIZE = 4096 := rfl
        omega)
      ((PAGE_SIZE - RT_ALIGN (sizeofRTMEMCACHEPAGE arch) a) / RT_ALIGN cbObject a)
    omega
  · intro N hN
    exact cPerPageLoop_maximal arch a cbObject N hmem hpos (by omega)

theorem objects_per_page_witness :
    sampleCache.cbObject = specRoundUp 512 sampleCache.cbAlignment ∧
    specRoundUp (sizeofRTMEMCACHEPAGE Arch.bits64) (min sampleCache.cbAlignment 8)
      + sampleCache.cPerPage * sampleCache.cbObject
      + 2 * (specRoundUp sampleCache.cPerPage 64 / 8) ≤ PAGE_SIZE ∧
    (∀ N, specRoundUp (sizeofRTMEMCACHEPAGE Arch.bits64) (min sampleCache.cbAlignment 8)
        + N * sampleCache.cbObject + 2 * (specRoundUp N 64 / 8) ≤ PAGE_SIZE →
      N ≤ sampleCache.cPerPage) ∧
    sampleCache.cBits = specRoundUp sampleCache.cPerPage 64 :=
  objects_per_page Arch.bits64 512 64 4 true true 0 sampleCreateEnv sampleCache
    sampleCache_created

/-! ## Growth on exhaustion -/

theorem findPage_append_fresh (l : List RTMEMCACHEPAGE) (x : RTMEMCACHEPAGE) (a : Nat)
    (hfresh : ∀ pg ∈ l, pg.pPage ≠ a) (hx : x.pPage = a) :
    findPage (l ++ [x]) a = some x := by
  unfold findPage
  rw [List.find?_append]
  have h1 : l.find? (fun pg => decide (pg.pPage = a)) = none := by
    rw [List.find?_eq_none]
    intro pg hpg
    simpa using hfresh pg hpg
  rw [h1]
  simp [hx]

theorem setPage_append_fresh (l : List RTMEMCACHEPAGE) (x y : RTMEMCACHEPAGE)
    (hfresh : ∀ pg ∈ l, pg.pPage ≠ y.pPage) (hx : x.pPage = y.pPage) :
    setPage (l ++ [x]) y = l ++ [y] := by
  unfold setPage
  rw [List.map_append]
  have h1 : l.map (fun q => if q.pPage = y.pPage then y else q) = l := by
    conv => rhs; rw [← List.map_id l]
    apply List.map_congr_left
    intro q hq
    simp [hfresh q hq]
  rw [h1]
  simp [hx]

/-- The cache-level reservation when the cache is exhausted below its maximum and the
page allocator delivers. -/
theorem reserve_grow (arch : Arch) (c : RTMEMCACHEINT) (a : Nat)
    (hmax : c.cMax < 4294967296) (hfree : c.cFree = 0) (hlt : c.cTotal < c.cMax) :
    allocReserve arch c (some a) = (Status.VINF_SUCCESS,
      { c with
        pPageHint := some a
        pages := c.pages ++ [growPage arch c a]
        cFree := c.cFree - 1 + ((growPage arch c a).cObjects : Int)
        cTotal := (c.cTotal + (growPage arch c a).cObjects) % 4294967296 }) := by
  unfold allocReserve
  simp only
  have h1 : c.cFree - 1 < 0 := by omega
  rw [if_pos h1]
  have h2 : ¬ ((((c.cTotal : Int) + -(c.cFree - 1)) % 4294967296).toNat > c.cMax ∨
      (((c.cTotal : Int) + -(c.cFree - 1)) % 4294967296).toNat ≤ c.cTotal) := by
    omega
  rw [if_neg h2]
  unfold rtMemCacheGrow
  simp only [h1, if_true, RT_FAILURE, Bool.false_eq_true, if_false]
  rfl

/-- `RTMemCacheAllocEx` as the composition of its stages. -/
theorem allocEx_run (arch : Arch) (c : RTMEMCACHEINT) (env : AllocEnv) (c1 c2 : RTMEMCACHEINT)
    (iObj : Int) (pg pg1 : RTMEMCACHEPAGE) (i : Nat)
    (hmagic : c.u32Magic = RTMEMCACHE_MAGIC)
    (hres : allocReserve arch c env.pvPage = (Status.VINF_SUCCESS, c1))
    (hg : allocGrabPage c1 = some (iObj, pg, c2))
    (hcl : claimBit c2.cBits pg iObj.toNat = some (i, pg1)) :
    RTMemCacheAllocEx arch c env
      = allocConstruct { c2 with pages := setPage c2.pages pg1 } pg1 i env.rcCtor := by
  unfold RTMemCacheAllocEx
  rw [if_neg (by simp [hmagic])]
  simp only [hres]
  rw [if_neg (by simp)]
  simp only [hg, hcl]

/-- With a constructor that succeeds (or none) the last stage returns success. -/
theorem construct_ok (d : RTMEMCACHEINT) (q : RTMEMCACHEPAGE) (i : Nat) (rcCtor : Status)
    (hrc : RT_FAILURE rcCtor = false) :
    ∃ r, allocConstruct d q i rcCtor = some r ∧ r.rc = Status.VINF_SUCCESS ∧
      r.ppvObj = some (q.pbObjects + i * d.cbObject) ∧
      (r.pThis = d ∨ ∃ M, r.pThis = { d with pages := setPage d.pages { q with mem := M } }) := by
  unfold allocConstruct
  by_cases hctor : d.pfnCtor = true
  · rw [if_pos hctor]
    simp only [ASMAtomicBitTestAndSet]
    by_cases ht : ASMBitTest q.mem q.pbmCtor i = true
    · simp only [ht, not_true_eq_false, if_false]
      exact ⟨_, rfl, rfl, rfl, Or.inr ⟨_, rfl⟩⟩
    · have ht' : ASMBitTest q.mem q.pbmCtor i = false := by simpa using ht
      simp only [ht', Bool.false_eq_true, not_false_eq_true, if_true, hrc, if_false]
      exact ⟨_, rfl, rfl, rfl, Or.inr ⟨_, rfl⟩⟩
  · rw [if_neg hctor]
    exact ⟨_, rfl, rfl, rfl, Or.inl rfl⟩

theorem growPage_cObjects_eq (arch : Arch) (c : RTMEMCACHEINT) (a : Nat)
    (hmax : c.cMax < 4294967296) (htot : c.cTotal ≤ c.cMax) :
    (growPage arch c a).cObjects = min c.cPerPage (c.cMax - c.cTotal) := by
  show RT_MIN c.cPerPage ((c.cMax + 4294967296 - c.cTotal) % 4294967296)
    = min c.cPerPage (c.cMax - c.cTotal)
  rw [RT_MIN_eq_min]
  omega

/-- The whole of `RTMemCacheAllocEx` on an exhausted cache below its maximum, when the page
allocator delivers the fresh page at `a` and the constructor (if any) succeeds. -/
theorem alloc_grows (arch : Arch) (c : RTMEMCACHEINT) (env : AllocEnv) (a : Nat)
    (hmagic : c.u32Magic = RTMEMCACHE_MAGIC) (hmax : c.cMax < 4294967296)
    (hper : 0 < c.cPerPage) (hfree : c.cFree = 0) (hlt : c.cTotal < c.cMax)
    (hpv : env.pvPage = some a) (hfresh : ∀ pg ∈ c.pages, pg.pPage ≠ a)
    (hrc : RT_FAILURE env.rcCtor = false) :
    ∃ r pgF, RTMemCacheAllocEx arch c env = some r ∧ r.rc = Status.VINF_SUCCESS ∧
      r.ppvObj = some (slotPtr c (growPage arch c a) ((growPage arch c a).cObjects - 1)) ∧
      r.pThis.pages = c.pages ++ [pgF] ∧ pgF.pPage = a ∧
      pgF.cObjects = (growPage arch c a).cObjects ∧
      pgF.cFree = ((growPage arch c a).cObjects : Int) - 1 ∧
      r.pThis.cTotal = c.cTotal + (growPage arch c a).cObjects ∧
      r.pThis.cFree = ((growPage arch c a).cObjects : Int) - 1 ∧
      r.pThis.pPageHint = some a := by
  have hn := growPage_cObjects_eq arch c a hmax (by omega)
  have hres := reserve_grow arch c a hmax hfree hlt
  have hpage : (growPage arch c a).pPage = a := rfl
  have hcf : (growPage arch c a).cFree = ((growPage arch c a).cObjects : Int) := rfl
  have hmem : (growPage arch c a).mem
      = markPadding zeroMem (growPage arch c a).pbmAlloc (growPage arch c a).cObjects c.cBits :=
    rfl
  generalize growPage arch c a = pgN at *
  have hn1 : 1 ≤ pgN.cObjects := by omega
  have hmod : (c.cTotal + pgN.cObjects) % 4294967296 = c.cTotal + pgN.cObjects :=
    Nat.mod_eq_of_lt (by omega)
  rw [hmod] at hres
  have hfind : findPage (c.pages ++ [pgN]) a = some pgN :=
    findPage_append_fresh c.pages pgN a hfresh hpage
  have hgrab : rtMemCacheGrabObj pgN
      = (pgN.cFree - 1, { pgN with cFree := pgN.cFree - 1 }) :=
    grabObj_ok pgN (by omega)
  have hg : allocGrabPage
      { c with pPageHint := some a, pages := c.pages ++ [pgN], cFree := c.cFree - 1 + (pgN.cObjects : Int), cTotal := c.cTotal + pgN.cObjects }
      = some (pgN.cFree - 1, { pgN with cFree := pgN.cFree - 1 },
          { c with pPageHint := some a, pages := c.pages ++ [{ pgN with cFree := pgN.cFree - 1 }], cFree := c.cFree - 1 + (pgN.cObjects : Int), cTotal := c.cTotal + pgN.cObjects }) := by
    unfold allocGrabPage
    simp only [hfind, hgrab]
    rw [if_neg (by omega)]
    rw [setPage_append_fresh c.pages pgN { pgN with cFree := pgN.cFree - 1 } (by intro q hq; show q.pPage ≠ pgN.pPage; rw [hpage]; exact hfresh q hq) rfl]
  have hidx : (pgN.cFree - 1).toNat = pgN.cObjects - 1 := by omega
  have hbit : ASMBitTest pgN.mem pgN.pbmAlloc (pgN.cObjects - 1) = false := by
    rw [hmem, markPadding_test]
    rw [if_neg (by omega)]
    rfl
  have hcl : claimBit c.cBits { pgN with cFree := pgN.cFree - 1 } (pgN.cFree - 1).toNat
      = some (pgN.cObjects - 1,
          { pgN with cFree := pgN.cFree - 1, mem := ASMBitSet pgN.mem pgN.pbmAlloc (pgN.cObjects - 1) }) := by
    rw [hidx]
    unfold claimBit
    simp only [ASMAtomicBitTestAndSet, hbit, Bool.false_eq_true, if_false]
  have hrun := allocEx_run arch c env _ _ _ _ _ _ hmagic (by rw [hpv]; exact hres) hg hcl
  obtain ⟨r, hr, hr1, hr2, hr3⟩ := construct_ok
    { c with pPageHint := some a, pages := setPage (c.pages ++ [{ pgN with cFree := pgN.cFree - 1 }]) { pgN with cFree := pgN.cFree - 1, mem := ASMBitSet pgN.mem pgN.pbmAlloc (pgN.cObjects - 1) }, cFree := c.cFree - 1 + (pgN.cObjects : Int), cTotal := c.cTotal + pgN.cObjects }
    { pgN with cFree := pgN.cFree - 1, mem := ASMBitSet pgN.mem pgN.pbmAlloc (pgN.cObjects - 1) }
    (pgN.cObjects - 1) env.rcCtor hrc
  have hset1 : setPage (c.pages ++ [{ pgN with cFree := pgN.cFree - 1 }])
      { pgN with cFree := pgN.cFree - 1, mem := ASMBitSet pgN.mem pgN.pbmAlloc (pgN.cObjects - 1) }
      = c.pages ++ [{ pgN with cFree := pgN.cFree - 1, mem := ASMBitSet pgN.mem pgN.pbmAlloc (pgN.cObjects - 1) }] :=
    setPage_append_fresh c.pages _ _ (by intro q hq; show q.pPage ≠ pgN.pPage; rw [hpage]; exact hfresh q hq) rfl
  rw [hset1] at hr hr3
  rcases hr3 with h3 | ⟨M, h3⟩
  · refine ⟨r, { pgN with cFree := pgN.cFree - 1, mem := ASMBitSet pgN.mem pgN.pbmAlloc (pgN.cObjects - 1) },
      hrun.trans (by rw [hset1]; exact hr), hr1, hr2, ?_, hpage, rfl, ?_, ?_, ?_, ?_⟩
    · rw [h3]
    · show pgN.cFree - 1 = (pgN.cObjects : Int) - 1
      omega
    · rw [h3]
    · rw [h3]
      show c.cFree - 1 + (pgN.cObjects : Int) = (pgN.cObjects : Int) - 1
      omega
    · rw [h3]
  · have hset2 : setPage (c.pages ++ [{ pgN with cFree := pgN.cFree - 1, mem := ASMBitSet pgN.mem pgN.pbmAlloc (pgN.cObjects - 1) }])
        { pgN with cFree := pgN.cFree - 1, mem := M }
        = c.pages ++ [{ pgN with cFree := pgN.cFree - 1, mem := M }] :=
      setPage_append_fresh c.pages _ _ (by intro q hq; show q.pPage ≠ pgN.pPage; rw [hpage]; exact hfresh q hq) rfl
    refine ⟨r, { pgN with cFree := pgN.cFree - 1, mem := M },
      hrun.trans (by rw [hset1]; exact hr), hr1, hr2, ?_, hpage, rfl, ?_, ?_, ?_, ?_⟩
    · rw [h3]
      exact hset2
    · show pgN.cFree - 1 = (pgN.cObjects : Int) - 1
      omega
    · rw [h3]
    · rw [h3]
      show c.cFree - 1 + (pgN.cObjects : Int) = (pgN.cObjects : Int) - 1
      omega
    · rw [h3]

theorem allocMore_reachable (arch : Arch) (envOk : AllocEnv → Prop) (w : World)
    (hw : Reachable arch envOk w) (hok : envOk sampleEnvNoPage) :
    ∀ k, (∀ j, j < k →
        (RTMemCacheAllocEx arch (allocMore arch j w).cache sampleEnvNoPage).isSome = true) →
      Reachable arch envOk (allocMore arch k w) := by
  intro k
  induction k with
  | zero => intro _; exact hw
  | succ k ih =>
    intro h
    exact Reachable.alloc (allocMore arch k w) sampleEnvNoPage _
      (ih (fun j hj => h j (by omega))) hok
      (by intro b hb; cases hb)
      (returned_eq _ (h k (by omega)))

theorem sampleWorldFull_reachable : Reachable Arch.bits64 anyEnv sampleWorldFull :=
  allocMore_reachable Arch.bits64 anyEnv sampleWorld10
    (Reachable.alloc { cache := sampleCache10, live := [], ctorLog := [] } (sampleEnv 4096) _
      (Reachable.create 512 64 10 true true 0 sampleCreateEnv sampleCache10 (by decide) rfl)
      trivial
      (by
        intro b hb
        cases hb
        exact ⟨by decide, by decide, fun pg hpg => by cases hpg⟩)
      (returned_eq _ (by decide)))
    trivial 6 (by decide!)

/-- C13 (growth on exhaustion): in a reachable world with `cFree = 0` and `cTotal < cMax`,
when the page allocator hands out a fresh page at `a` and the constructor (if any) does not
fail, `RTMemCacheAllocEx` returns `VINF_SUCCESS` with a pointer; the page list afterwards is
the old list with exactly one page appended at the tail, at address `a`, with
`cObjects = min(cPerPage, cMax - cTotal)`; `cTotal` has grown by that count and `cFree` is
that count minus one.  So when the first page is full (`cTotal = cPerPage`) the call leaves
`cTotal = cPerPage + min(cPerPage, cMax - cPerPage)`. -/
theorem growth_on_exhaustion (arch : Arch) (envOk : AllocEnv → Prop) (w : World)
    (hw : Reachable arch envOk w) (env : AllocEnv) (a : Nat) (hpv : env.pvPage = some a)
    (hf : PageFresh w.cache env) (hrc : RT_FAILURE env.rcCtor = false)
    (hfree : w.cache.cFree = 0) (hlt : w.cache.cTotal < w.cache.cMax) :
    ∃ r pg, RTMemCacheAllocEx arch w.cache env = some r ∧ r.rc = Status.VINF_SUCCESS ∧
      r.ppvObj.isSome = true ∧
      r.pThis.pages = w.cache.pages ++ [pg] ∧ pg.pPage = a ∧
      pg.cObjects = min w.cache.cPerPage (w.cache.cMax - w.cache.cTotal) ∧
      r.pThis.cTotal = w.cache.cTotal + pg.cObjects ∧
      r.pThis.cFree = (pg.cObjects : Int) - 1 ∧
      (w.cache.cTotal = w.cache.cPerPage →
        r.pThis.cTotal
          = w.cache.cPerPage + min w.cache.cPerPage (w.cache.cMax - w.cache.cPerPage)) := by
  have hinv := reachable_inv arch envOk w hw
  obtain ⟨-, -, hfresh⟩ := hf a hpv
  obtain ⟨r, pgF, h1, h2, h3, h4, h5, h6, h7, h8, h9, -⟩ :=
    alloc_grows arch w.cache env a hinv.cfg.magic hinv.cfg.max_lt hinv.cfg.per_pos hfree hlt
      hpv hfresh hrc
  have hn := growPage_cObjects_eq arch w.cache a hinv.cfg.max_lt hinv.total_le
  rw [hn] at h6 h8 h9
  refine ⟨r, pgF, h1, h2, by rw [h3]; rfl, h4, h5, h6, by rw [h8, h6], by rw [h9, h6], ?_⟩
  intro hfull
  rw [h8, hfull]

theorem growth_on_exhaustion_witness :
    ∃ r pg, RTMemCacheAllocEx Arch.bits64 sampleWorldFull.cache (sampleEnv 8192) = some r ∧
      r.rc = Status.VINF_SUCCESS ∧ r.ppvObj.isSome = true ∧
      r.pThis.pages = sampleWorldFull.cache.pages ++ [pg] ∧ pg.pPage = 8192 ∧
      pg.cObjects
        = min sampleWorldFull.cache.cPerPage
            (sampleWorldFull.cache.cMax - sampleWorldFull.cache.cTotal) ∧
      r.pThis.cTotal = sampleWorldFull.cache.cTotal + pg.cObjects ∧
      r.pThis.cFree = (pg.cObjects : Int) - 1 ∧
      (sampleWorldFull.cache.cTotal = sampleWorldFull.cache.cPerPage →
        r.pThis.cTotal
          = sampleWorldFull.cache.cPerPage
            + min sampleWorldFull.cache.cPerPage
                (sampleWorldFull.cache.cMax - sampleWorldFull.cache.cPerPage)) :=
  growth_on_exhaustion Arch.bits64 anyEnv sampleWorldFull sampleWorldFull_reachable
    (sampleEnv 8192) 8192 rfl
    (by
      intro b hb
      cases hb
      exact ⟨by decide, by decide, by decide!⟩)
    rfl (by decide!) (by decide!)

/-- Scenario C evaluated: the cache with maximum 10 has 7 live objects on one page; the
next `RTMemCacheAllocEx` (page at 8192) succeeds and leaves `cTotal = 7 + min(7, 3) = 10`,
`cFree = 2` and two pages. -/
theorem sample_growth_second_page :
    sampleWorldFull.live.length = 7 ∧ sampleWorldFull.cache.cFree = 0 ∧
    sampleWorldFull.cache.cTotal = 7 ∧ sampleWorldFull.cache.cPerPage = 7 ∧
    (returned (RTMemCacheAllocEx Arch.bits64 sampleWorldFull.cache (sampleEnv 8192))).rc
      = Status.VINF_SUCCESS ∧
    (returned (RTMemCacheAllocEx Arch.bits64 sampleWorldFull.cache (sampleEnv 8192))).pThis.cTotal
      = 10 ∧
    (returned (RTMemCacheAllocEx Arch.bits64 sampleWorldFull.cache (sampleEnv 8192))).pThis.cFree
      = 2 ∧
    ((returned (RTMemCacheAllocEx Arch.bits64 sampleWorldFull.cache
      (sampleEnv 8192))).pThis.pages.map (fun pg => (pg.pPage, pg.cObjects)))
      = [(4096, 7), (8192, 3)] := by
  refine ⟨by decide!, by decide!, by decide!, by decide!, by decide!, by decide!, by decide!,
    by decide!⟩

/-! ## Constructor failure -/

theorem allocEx_none_grab (arch : Arch) (c : RTMEMCACHEINT) (env : AllocEnv)
    (c1 : RTMEMCACHEINT) (hmagic : c.u32Magic = RTMEMCACHE_MAGIC)
    (hres : allocReserve arch c env.pvPage = (Status.VINF_SUCCESS, c1))
    (hg : allocGrabPage c1 = none) :
    RTMemCacheAllocEx arch c env = none := by
  unfold RTMemCacheAllocEx
  rw [if_neg (by simp [hmagic])]
  simp only [hres]
  rw [if_neg (by simp)]
  simp only [hg]

theorem allocEx_none_claim (arch : Arch) (c : RTMEMCACHEINT) (env : AllocEnv)
    (c1 c2 : RTMEMCACHEINT) (iObj : Int) (pg : RTMEMCACHEPAGE)
    (hmagic : c.u32Magic = RTMEMCACHE_MAGIC)
    (hres : allocReserve arch c env.pvPage = (Status.VINF_SUCCESS, c1))
    (hg : allocGrabPage c1 = some (iObj, pg, c2))
    (hcl : claimBit c2.cBits pg iObj.toNat = none) :
    RTMemCacheAllocEx arch c env = none := by
  unfold RTMemCacheAllocEx
  rw [if_neg (by simp [hmagic])]
  simp only [hres]
  rw [if_neg (by simp)]
  simp only [hg, hcl]

/-- A returning `RTMemCacheAllocEx` call that passed the cache-level reservation claimed a
free slot, and up to the constructor invocation the call does not depend on what the
constructor returns. -/
theorem alloc_stages (arch : Arch) (c : RTMEMCACHEINT) (live : List Nat) (pv : Option Nat)
    (rc0 : Status) (r0 : AllocResult) (hinv : Inv 0 c live)
    (hf : PageFresh c { pvPage := pv, rcCtor := rc0 })
    (h : RTMemCacheAllocEx arch c { pvPage := pv, rcCtor := rc0 } = some r0)
    (hok : (allocReserve arch c pv).1 = Status.VINF_SUCCESS) :
    Inv 1 (allocReserve arch c pv).2 live ∧
    ∃ pg ∈ (allocReserve arch c pv).2.pages, ∃ i H, i < pg.cObjects ∧
      ASMBitTest pg.mem pg.pbmAlloc i = false ∧
      ∀ rc, RTMemCacheAllocEx arch c { pvPage := pv, rcCtor := rc }
        = allocConstruct
            (slotTaken (allocReserve arch c pv).2 pg (pg.cFree - 1)
              (ASMBitSet pg.mem pg.pbmAlloc i) (allocReserve arch c pv).2.cFree H)
            { pg with cFree := pg.cFree - 1, mem := ASMBitSet pg.mem pg.pbmAlloc i } i rc := by
  have hmagic := hinv.cfg.magic
  obtain ⟨-, hok1⟩ := reserve_spec arch c live { pvPage := pv, rcCtor := rc0 } hinv hf
  obtain ⟨hinv1, -⟩ := hok1 hok
  have hinv1 : Inv 1 (allocReserve arch c pv).2 live := hinv1
  have hres : allocReserve arch c pv = (Status.VINF_SUCCESS, (allocReserve arch c pv).2) := by
    rw [← hok]
  generalize (allocReserve arch c pv).2 = c1 at hres hinv1 ⊢
  refine ⟨hinv1, ?_⟩
  cases hg : allocGrabPage c1 with
  | none =>
    rw [allocEx_none_grab arch c { pvPage := pv, rcCtor := rc0 } c1 hmagic hres hg] at h
    cases h
  | some t =>
    obtain ⟨iObj, pgG, c2⟩ := t
    obtain ⟨pg, hpg, h0, hi, rfl, H, rfl⟩ :=
      allocGrabPage_spec c1 iObj pgG c2 hinv1.distinct hg
    have hPg := hinv1.pagesOk pg hpg
    cases hcl : claimBit c1.cBits { pg with cFree := pg.cFree - 1 } iObj.toNat with
    | none =>
      rw [allocEx_none_claim arch c { pvPage := pv, rcCtor := rc0 } c1 _ iObj _ hmagic hres hg
        hcl] at h
      cases h
    | some u =>
      obtain ⟨i, pgC⟩ := u
      obtain ⟨rfl, hclr, hidx⟩ := claimBit_spec _ _ _ _ _ hcl
      have hclr1 : ASMBitTest pg.mem pg.pbmAlloc i = false := hclr
      have hilt : i < pg.cObjects := by
        rcases hidx with hidx | hidx
        · have hcnt := hPg.count
          have : (0 : Int) ≤ (live.countP (onPage pg) : Int) := Int.natCast_nonneg _
          omega
        · by_contra hge
          have hbits : RT_ALIGN c1.cBits 32 = c1.cBits :=
            RT_ALIGN_32_of_bits64 _ hinv1.cfg.bits64
          have hidx1 : i < c1.cBits := by
            have : i < RT_ALIGN c1.cBits 32 := hidx
            omega
          have := hPg.pad i (by omega) hidx1
          rw [hclr1] at this
          cases this
      refine ⟨pg, hpg, i, H, hilt, hclr1, ?_⟩
      intro rc
      rw [allocEx_run arch c { pvPage := pv, rcCtor := rc } c1 _ iObj _ _ i hmagic hres hg hcl]
      have hpages : setPage (setPage c1.pages { pg with cFree := pg.cFree - 1 })
          { pg with cFree := pg.cFree - 1, mem := ASMBitSet pg.mem pg.pbmAlloc i }
          = setPage c1.pages
            { pg with cFree := pg.cFree - 1, mem := ASMBitSet pg.mem pg.pbmAlloc i } :=
        setPage_setPage _ _ _ rfl
      exact congrArg (fun P => allocConstruct
        ({ c1 with pages := P, cFree := c1.cFree, pPageHint := H } : RTMEMCACHEINT)
        { pg with cFree := pg.cFree - 1, mem := ASMBitSet pg.mem pg.pbmAlloc i } i rc) hpages

/-- The last stage when the constructor is invoked and fails, in terms of what the
`RTMemCacheFree` of the slot leaves. -/
theorem construct_fail (d : RTMEMCACHEINT) (q : RTMEMCACHEPAGE) (i : Nat) (rcCtor : Status)
    (pThis2 : RTMEMCACHEINT) (hctor : d.pfnCtor = true)
    (ht : ASMBitTest q.mem q.pbmCtor i = false) (hrc : RT_FAILURE rcCtor = true)
    (hF : RTMemCacheFree
        { d with pages := setPage d.pages { q with mem := ASMAtomicBitClear (ASMBitSet q.mem q.pbmCtor i) q.pbmCtor i } }
        (q.pbObjects + i * d.cbObject) = some pThis2) :
    allocConstruct d q i rcCtor =
      some { rc := rcCtor, ppvObj := none
             ctorCall := some { pPage := q.pPage, iObj := i, pvObj := q.pbObjects + i * d.cbObject, pvUser := d.pvUser }
             pThis := pThis2 } := by
  unfold allocConstruct
  rw [if_pos hctor]
  simp only [ASMAtomicBitTestAndSet, ht, Bool.false_eq_true, not_false_eq_true, if_true, hrc,
    hF]

/-- Setting and clearing the two bits of a slot whose bits were clear restores the page. -/
theorem rollback_page (pg : RTMEMCACHEPAGE) (i : Nat)
    (hclr : ASMBitTest pg.mem pg.pbmAlloc i = false)
    (ht : ASMBitTest (ASMBitSet pg.mem pg.pbmAlloc i) pg.pbmCtor i = false) :
    ({ pg with
       cFree := pg.cFree - 1 + 1
       mem := ASMAtomicBitClear (ASMAtomicBitClear (ASMBitSet (ASMBitSet pg.mem pg.pbmAlloc i) pg.pbmCtor i) pg.pbmCtor i) pg.pbmAlloc i }
      : RTMEMCACHEPAGE) = pg := by
  have hm : ASMAtomicBitClear (ASMAtomicBitClear (ASMBitSet (ASMBitSet pg.mem pg.pbmAlloc i)
      pg.pbmCtor i) pg.pbmCtor i) pg.pbmAlloc i = pg.mem := by
    funext b
    unfold ASMBitTest ASMBitSet at ht
    unfold ASMBitTest at hclr
    unfold ASMAtomicBitClear ASMBitSet
    by_cases hb : b = 8 * pg.pbmAlloc + i
    · simp only [hb, if_true]
      exact hclr.symm
    · by_cases hb2 : b = 8 * pg.pbmCtor + i
      · subst hb2
        simp only [hb, if_false] at ht ⊢
        simp only [if_true]
        exact ht.symm
      · simp only [hb, hb2, if_false]
  rw [hm]
  have hc : pg.cFree - 1 + 1 = pg.cFree := by omega
  rw [hc]

/-- C15 (constructor-failure rollback): in a reachable world, let the call reach a
constructor invocation `call` (as the same call with a succeeding constructor shows; up to
the invocation the two runs are the same).  When the constructor returns a failure code,
`RTMemCacheAllocEx` returns, with exactly that code, stores no pointer, and the live set is
unchanged.  The instance afterwards is the instance after the cache-level reservation
(`cFree` decremented, possibly grown by one page) with the decrement of `cFree` undone:
every page, its `cFree` and every bitmap bit are as before the slot was reserved, and the
allocation bit and the construction bit of the slot are clear.  Without growth
(`cFree > 0` before the call) the whole instance equals the instance before the call, the
hint apart. -/
theorem ctor_failure_rollback (arch : Arch) (envOk : AllocEnv → Prop) (w : World)
    (hw : Reachable arch envOk w) (env : AllocEnv) (hf : PageFresh w.cache env)
    (r0 : AllocResult) (call : Callback)
    (h0 : RTMemCacheAllocEx arch w.cache { pvPage := env.pvPage, rcCtor := Status.VINF_SUCCESS }
      = some r0)
    (hcall : r0.ctorCall = some call) (hrc : RT_FAILURE env.rcCtor = true) :
    ∃ r, RTMemCacheAllocEx arch w.cache env = some r ∧ r.rc = env.rcCtor ∧
      r.ppvObj = none ∧ r.ctorCall = some call ∧ (w.afterAlloc r).live = w.live ∧
      r.pThis = { (allocReserve arch w.cache env.pvPage).2 with cFree := (allocReserve arch w.cache env.pvPage).2.cFree + 1, pPageHint := r.pThis.pPageHint } ∧
      (∃ pg ∈ r.pThis.pages, pg.pPage = call.pPage ∧ call.iObj < pg.cObjects ∧
        call.pvObj = slotPtr w.cache pg call.iObj ∧
        ASMBitTest pg.mem pg.pbmAlloc call.iObj = false ∧
        ASMBitTest pg.mem pg.pbmCtor call.iObj = false) ∧
      (0 < w.cache.cFree → r.pThis = { w.cache with pPageHint := r.pThis.pPageHint }) := by
  have hinv := reachable_inv arch envOk w hw
  have hf0 : PageFresh w.cache { pvPage := env.pvPage, rcCtor := Status.VINF_SUCCESS } := hf
  have hok : (allocReserve arch w.cache env.pvPage).1 = Status.VINF_SUCCESS := by
    rcases alloc_spec arch w.cache w.live _ r0 hinv hf0 h0 with ⟨-, -, -, hnone, -⟩ | ⟨hok, -⟩
    · rw [hnone] at hcall
      cases hcall
    · exact hok
  have hng : 0 < w.cache.cFree → (allocReserve arch w.cache env.pvPage).2
      = { w.cache with cFree := w.cache.cFree - 1 } := by
    intro hpos
    unfold allocReserve
    simp only
    rw [if_neg (by omega)]
  have hcb : (allocReserve arch w.cache env.pvPage).2.cbObject = w.cache.cbObject := by
    obtain ⟨-, hok1⟩ := reserve_spec arch w.cache w.live env hinv hf
    exact (hok1 hok).2.2.1
  obtain ⟨hinv1, pg, hpg, i, H, hilt, hclr, hrun⟩ :=
    alloc_stages arch w.cache w.live env.pvPage Status.VINF_SUCCESS r0 hinv hf0 h0 hok
  have hc0 := (hrun Status.VINF_SUCCESS).symm.trans h0
  have hrunF := hrun env.rcCtor
  generalize (allocReserve arch w.cache env.pvPage).2 = c1 at *
  have hPg := hinv1.pagesOk pg hpg
  rcases construct_cases _ _ _ _ _ hc0 with ⟨-, -, -, e4, -⟩ | ⟨-, -, -, -, e5, -⟩ |
    ⟨hctor, ht, -, -, -, e6, -⟩ | ⟨-, -, e3, -⟩
  · rw [e4] at hcall
    cases hcall
  · rw [e5] at hcall
    cases hcall
  · have hcallEq : call = { pPage := pg.pPage, iObj := i, pvObj := slotPtr c1 pg i, pvUser := c1.pvUser } := by
      rw [e6] at hcall
      exact (Option.some.inj hcall).symm
    have ht1 : ASMBitTest (ASMBitSet pg.mem pg.pbmAlloc i) pg.pbmCtor i = false := ht
    have hctor1 : c1.pfnCtor = true := hctor
    have hbit : ASMBitTest (ASMAtomicBitClear
        (ASMBitSet (ASMBitSet pg.mem pg.pbmAlloc i) pg.pbmCtor i) pg.pbmCtor i)
        pg.pbmAlloc i = true := by
      rw [test_clear]
      have hne : ¬ 8 * pg.pbmAlloc + i = 8 * pg.pbmCtor + i := by
        intro he
        have h1 := test_set_self pg.mem pg.pbmAlloc i
        have h2 := ht1
        unfold ASMBitTest at h1 h2
        rw [he] at h1
        rw [h1] at h2
        cases h2
      simp only [hne, if_false]
      exact test_set_of_test _ _ _ _ _ (test_set_self _ _ _)
    have hfree := free_slot
      (slotTaken c1 pg (pg.cFree - 1) (ASMAtomicBitClear
        (ASMBitSet (ASMBitSet pg.mem pg.pbmAlloc i) pg.pbmCtor i) pg.pbmCtor i)
        c1.cFree H)
      { pg with
        cFree := pg.cFree - 1
        mem := ASMAtomicBitClear
          (ASMBitSet (ASMBitSet pg.mem pg.pbmAlloc i) pg.pbmCtor i) pg.pbmCtor i }
      ⟨hinv1.cfg.magic, hinv1.cfg.cb_pos, hinv1.cfg.per_pos, hinv1.cfg.per_le,
        hinv1.cfg.bits64, hinv1.cfg.fits, hinv1.cfg.max_lt, hinv1.cfg.al_cb,
        hinv1.cfg.al_page⟩
      (by
        show ((setPage c1.pages _).map (fun p => p.pPage)).Nodup
        rw [map_setPage]; exact hinv1.distinct)
      ((mem_setPage c1.pages _ _).mpr (Or.inl ⟨rfl, pg, hpg, rfl⟩))
      hPg.aligned hPg.nobj hPg.objs i hilt hbit
    have hback : setPage (setPage c1.pages
          { pg with cFree := pg.cFree - 1, mem := ASMAtomicBitClear (ASMBitSet (ASMBitSet pg.mem pg.pbmAlloc i) pg.pbmCtor i) pg.pbmCtor i })
        { pg with cFree := pg.cFree - 1 + 1, mem := ASMAtomicBitClear (ASMAtomicBitClear (ASMBitSet (ASMBitSet pg.mem pg.pbmAlloc i) pg.pbmCtor i) pg.pbmCtor i) pg.pbmAlloc i }
        = c1.pages := by
      rw [rollback_page pg i hclr ht1]
      exact (setPage_setPage c1.pages { pg with cFree := pg.cFree - 1, mem := ASMAtomicBitClear (ASMBitSet (ASMBitSet pg.mem pg.pbmAlloc i) pg.pbmCtor i) pg.pbmCtor i } pg rfl).trans
        (setPage_self c1.pages hinv1.distinct pg hpg)
    have hfree2 : RTMemCacheFree
        (slotTaken c1 pg (pg.cFree - 1) (ASMAtomicBitClear
          (ASMBitSet (ASMBitSet pg.mem pg.pbmAlloc i) pg.pbmCtor i) pg.pbmCtor i)
          c1.cFree H) (slotPtr c1 pg i)
        = some { c1 with cFree := c1.cFree + 1, pPageHint := H } :=
      hfree.trans (congrArg (fun P => some ({ c1 with pages := P, cFree := c1.cFree + 1, pPageHint := H } : RTMEMCACHEINT)) hback)
    have hF : RTMemCacheFree
        { (slotTaken c1 pg (pg.cFree - 1) (ASMBitSet pg.mem pg.pbmAlloc i) c1.cFree H) with pages := setPage (slotTaken c1 pg (pg.cFree - 1) (ASMBitSet pg.mem pg.pbmAlloc i) c1.cFree H).pages { pg with cFree := pg.cFree - 1, mem := ASMAtomicBitClear (ASMBitSet (ASMBitSet pg.mem pg.pbmAlloc i) pg.pbmCtor i) pg.pbmCtor i } }
        (pg.pbObjects + i * c1.cbObject)
        = some { c1 with cFree := c1.cFree + 1, pPageHint := H } := by
      refine Eq.trans (congrArg (fun P => RTMemCacheFree ({ c1 with pages := P, cFree := c1.cFree, pPageHint := H } : RTMEMCACHEINT) (slotPtr c1 pg i)) ?_) hfree2
      exact setPage_setPage c1.pages
        { pg with cFree := pg.cFree - 1, mem := ASMBitSet pg.mem pg.pbmAlloc i }
        { pg with
          cFree := pg.cFree - 1
          mem := ASMAtomicBitClear
            (ASMBitSet (ASMBitSet pg.mem pg.pbmAlloc i) pg.pbmCtor i) pg.pbmCtor i }
        rfl
    have hfin := hrunF.trans (construct_fail _ _ i env.rcCtor _ hctor ht hrc hF)
    have hctorbit : ASMBitTest pg.mem pg.pbmCtor i = false := by
      rw [test_set] at ht1
      split at ht1
      · cases ht1
      · exact ht1
    refine ⟨_, hfin, rfl, rfl, by rw [hcallEq]; rfl, rfl, rfl, ⟨pg, hpg, ?_, ?_, ?_, ?_, ?_⟩, ?_⟩
    · rw [hcallEq]
    · rw [hcallEq]; exact hilt
    · rw [hcallEq]
      show slotPtr c1 pg i = slotPtr w.cache pg i
      unfold slotPtr
      rw [hcb]
    · rw [hcallEq]; exact hclr
    · rw [hcallEq]; exact hctorbit
    · intro hpos
      show ({ c1 with cFree := c1.cFree + 1, pPageHint := H } : RTMEMCACHEINT)
        = { w.cache with pPageHint := H }
      rw [hng hpos]
      have hc : w.cache.cFree - 1 + 1 = w.cache.cFree := by omega
      show ({ w.cache with cFree := w.cache.cFree - 1 + 1, pPageHint := H } : RTMEMCACHEINT)
        = { w.cache with pPageHint := H }
      rw [hc]
  · cases e3

theorem ctor_failure_rollback_witness :
    ∃ r, RTMemCacheAllocEx Arch.bits64 sampleWorld1.cache sampleEnvCtorFails = some r ∧
      r.rc = sampleEnvCtorFails.rcCtor ∧
      r.ppvObj = none ∧ r.ctorCall = some sampleCall2 ∧
      (sampleWorld1.afterAlloc r).live = sampleWorld1.live ∧
      r.pThis = { (allocReserve Arch.bits64 sampleWorld1.cache sampleEnvCtorFails.pvPage).2 with cFree := (allocReserve Arch.bits64 sampleWorld1.cache sampleEnvCtorFails.pvPage).2.cFree + 1, pPageHint := r.pThis.pPageHint } ∧
      (∃ pg ∈ r.pThis.pages, pg.pPage = sampleCall2.pPage ∧ sampleCall2.iObj < pg.cObjects ∧
        sampleCall2.pvObj = slotPtr sampleWorld1.cache pg sampleCall2.iObj ∧
        ASMBitTest pg.mem pg.pbmAlloc sampleCall2.iObj = false ∧
        ASMBitTest pg.mem pg.pbmCtor sampleCall2.iObj = false) ∧
      (0 < sampleWorld1.cache.cFree →
        r.pThis = { sampleWorld1.cache with pPageHint := r.pThis.pPageHint }) :=
  ctor_failure_rollback Arch.bits64 anyEnv sampleWorld1 (sampleWorld1_reachable anyEnv trivial)
    sampleEnvCtorFails
    (by
      intro b hb
      cases hb)
    (returned (RTMemCacheAllocEx Arch.bits64 sampleWorld1.cache sampleEnvNoPage)) sampleCall2
    (returned_eq _ (by decide)) (by decide) rfl

/-- The sample run of C15: the second `RTMemCacheAllocEx` on the sample cache, with a
constructor that fails, returns `VERR_NO_MEMORY` and leaves the counters at 3 free of 4. -/
theorem sample_ctor_failure :
    0 < sampleWorld1.cache.cFree ∧
    (returned (RTMemCacheAllocEx Arch.bits64 sampleWorld1.cache sampleEnvCtorFails)).rc
      = Status.VERR_NO_MEMORY ∧
    (returned (RTMemCacheAllocEx Arch.bits64 sampleWorld1.cache sampleEnvCtorFails)).pThis.cFree
      = sampleWorld1.cache.cFree ∧
    (returned (RTMemCacheAllocEx Arch.bits64 sampleWorld1.cache sampleEnvCtorFails)).pThis.cTotal
      = sampleWorld1.cache.cTotal := by
  refine ⟨by decide, by decide, by decide, by decide⟩

/-! ## `ASMBitSetRange` in general -/

theorem mask_low : ∀ k, k < 32 → ∀ j, j < 32 →
    ((1 <<< k) - 1).testBit j = decide (j < k) := by
  decide!

theorem mask_high : ∀ k, k < 32 → ∀ j, j < 32 →
    (4294967295 - ((1 <<< k) - 1)).testBit j = decide (k ≤ j) := by
  decide!

theorem shift5 (x : Nat) : x >>> 5 = x / 32 := Nat.shiftRight_eq_div_pow x 5

theorem shift3 (x : Nat) : x >>> 3 = x / 8 := Nat.shiftRight_eq_div_pow x 3

theorem shift2 (x : Nat) : x >>> 2 = x / 4 := Nat.shiftRight_eq_div_pow x 2

/-- The ranges `[32, 40)` (inside the second dword), `[3, 9)` and `[30, 70)` on a zeroed
bitmap, evaluated: exactly the bits of the range are set; and an empty range stores
nothing. -/
theorem sample_bitSetRange :
    (∀ i, i < 96 →
      ASMBitTest (ASMBitSetRange zeroMem 0 32 40) 0 i = decide (32 ≤ i ∧ i < 40)) ∧
    (∀ i, i < 96 → ASMBitTest (ASMBitSetRange zeroMem 0 3 9) 0 i = decide (3 ≤ i ∧ i < 9)) ∧
    (∀ i, i < 96 →
      ASMBitTest (ASMBitSetRange zeroMem 0 30 70) 0 i = decide (30 ≤ i ∧ i < 70)) ∧
    (∀ i, i < 96 → ASMBitTest (ASMBitSetRange zeroMem 0 40 40) 0 i = false) := by
  refine ⟨by decide, by decide, by decide, by decide⟩

/-! ## `ASMBitClearRange` -/

/-- The statement `*pu32 &= (1 << (iBitStart & 31)) - 1` on the dword of `s`: the bits from
`s` to the end of that dword get cleared. -/
theorem andU32_low (m : BitMem) (pv s b : Nat) :
    andU32 m pv (s / 32) ((1 <<< (s % 32)) - 1) b
      = if 8 * pv + s ≤ b ∧ b < 8 * pv + (s - s % 32 + 32) then false else m b := by
  unfold andU32
  by_cases hc : 8 * pv + 32 * (s / 32) ≤ b ∧ b < 8 * pv + 32 * (s / 32) + 32
  · rw [if_pos hc, mask_low (s % 32) (Nat.mod_lt s (by decide))
      (b - (8 * pv + 32 * (s / 32))) (by omega)]
    by_cases hin : 8 * pv + s ≤ b ∧ b < 8 * pv + (s - s % 32 + 32)
    · rw [if_pos hin]
      have : ¬ b - (8 * pv + 32 * (s / 32)) < s % 32 := by omega
      simp [this]
    · rw [if_neg hin]
      have : b - (8 * pv + 32 * (s / 32)) < s % 32 := by omega
      simp [this]
  · rw [if_neg hc, if_neg (by omega)]

/-- The statement `*pu32 &= ~((1 << (iBitEnd & 31)) - 1)` on the dword of `e`: the bits of
that dword below `e` get cleared. -/
theorem andU32_high (m : BitMem) (pv e b : Nat) :
    andU32 m pv (e / 32) (4294967295 - ((1 <<< (e % 32)) - 1)) b
      = if 8 * pv + (e - e % 32) ≤ b ∧ b < 8 * pv + e then false else m b := by
  unfold andU32
  by_cases hc : 8 * pv + 32 * (e / 32) ≤ b ∧ b < 8 * pv + 32 * (e / 32) + 32
  · rw [if_pos hc, mask_high (e % 32) (Nat.mod_lt e (by decide))
      (b - (8 * pv + 32 * (e / 32))) (by omega)]
    by_cases hin : 8 * pv + (e - e % 32) ≤ b ∧ b < 8 * pv + e
    · rw [if_pos hin]
      have : ¬ e % 32 ≤ b - (8 * pv + 32 * (e / 32)) := by omega
      simp [this]
    · rw [if_neg hin]
      have : e % 32 ≤ b - (8 * pv + 32 * (e / 32)) := by omega
      simp [this]
  · rw [if_neg hc, if_neg (by omega)]

/-- The single-dword statement `*pu32 &= ((1 << (iBitStart & 31)) - 1) |
~((1 << (iBitEnd & 31)) - 1)` for a range inside one dword. -/
theorem andU32_mid (m : BitMem) (pv s e b : Nat) (hse : s < e)
    (hd : s - s % 32 = e - e % 32) :
    andU32 m pv (s / 32)
        (((1 <<< (s % 32)) - 1) ||| (4294967295 - ((1 <<< (e % 32)) - 1))) b
      = if 8 * pv + s ≤ b ∧ b < 8 * pv + e then false else m b := by
  unfold andU32
  by_cases hc : 8 * pv + 32 * (s / 32) ≤ b ∧ b < 8 * pv + 32 * (s / 32) + 32
  · rw [if_pos hc, Nat.testBit_or,
      mask_low (s % 32) (Nat.mod_lt s (by decide)) (b - (8 * pv + 32 * (s / 32))) (by omega),
      mask_high (e % 32) (Nat.mod_lt e (by decide)) (b - (8 * pv + 32 * (s / 32))) (by omega)]
    by_cases hin : 8 * pv + s ≤ b ∧ b < 8 * pv + e
    · rw [if_pos hin]
      have h1 : ¬ b - (8 * pv + 32 * (s / 32)) < s % 32 := by omega
      have h2 : ¬ e % 32 ≤ b - (8 * pv + 32 * (s / 32)) := by omega
      simp [h1, h2]
    · rw [if_neg hin]
      have h : b - (8 * pv + 32 * (s / 32)) < s % 32 ∨
          e % 32 ≤ b - (8 * pv + 32 * (s / 32)) := by omega
      rcases h with h | h
      · simp [h]
      · simp [h]
  · rw [if_neg hc, if_neg (by omega)]

/-- The call `ASMMemZero32(pu32, cb)` clears the `cb / 4` dwords from `pu32` on. -/
theorem memZero32_apply (m : BitMem) (pv d cb b : Nat) :
    ASMMemZero32 m pv d cb b
      = if 8 * pv + 32 * d ≤ b ∧ b < 8 * pv + 32 * d + 32 * (cb / 4) then false else m b := by
  unfold ASMMemZero32
  rw [shift2]

/-- C21 (`ASMBitClearRange`): for every memory, bitmap address and `iBitStart`,
`iBitEnd`, after `ASMBitClearRange(pvBitmap, iBitStart, iBitEnd)` a bit of the memory is
clear when `iBitStart < iBitEnd` and it is bit `i` of the bitmap for some
`iBitStart <= i < iBitEnd`, and has its previous value otherwise; in particular nothing
changes when `iBitStart >= iBitEnd`. -/
theorem bitClearRange_spec (m : BitMem) (pv s e b : Nat) :
    ASMBitClearRange m pv s e b
      = if s < e ∧ 8 * pv + s ≤ b ∧ b < 8 * pv + e then false else m b := by
  unfold ASMBitClearRange
  by_cases hse : s < e
  · rw [if_pos hse]
    simp only [and_mask31, shift5, shift3, hse, true_and]
    by_cases h1 : s - s % 32 = e - e % 32
    · rw [if_pos h1]
      exact andU32_mid m pv s e b hse h1
    · rw [if_neg h1]
      by_cases hs0 : s % 32 = 0
      · simp only [hs0, ne_eq, not_true_eq_false, if_false]
        have hne : s ≠ e - e % 32 := by omega
        simp only [hne, ne_eq, not_false_eq_true, if_true]
        by_cases he0 : e % 32 = 0
        · simp only [he0, not_true_eq_false, if_false]
          rw [memZero32_apply]
          split_ifs <;> first | rfl | (exfalso; omega)
        · simp only [he0, not_false_eq_true, if_true]
          rw [andU32_high, memZero32_apply]
          split_ifs <;> first | rfl | (exfalso; omega)
      · simp only [hs0, ne_eq, not_false_eq_true, if_true]
        by_cases hne : s - s % 32 + 32 = e - e % 32
        · simp only [hne, not_true_eq_false, if_false]
          by_cases he0 : e % 32 = 0
          · simp only [he0, not_true_eq_false, if_false]
            rw [andU32_low]
            split_ifs <;> first | rfl | (exfalso; omega)
          · simp only [he0, not_false_eq_true, if_true]
            rw [andU32_high, andU32_low]
            split_ifs <;> first | rfl | (exfalso; omega)
        · simp only [hne, not_false_eq_true, if_true]
          by_cases he0 : e % 32 = 0
          · simp only [he0, not_true_eq_false, if_false]
            rw [memZero32_apply, andU32_low]
            split_ifs <;> first | rfl | (exfalso; omega)
          · simp only [he0, not_false_eq_true, if_true]
            rw [andU32_high, memZero32_apply, andU32_low]
            split_ifs <;> first | rfl | (exfalso; omega)
  · rw [if_neg hse, if_neg (by omega)]

/-- Sample runs of `ASMBitClearRange` on a bitmap of ones: a range inside dword 1, a range
that spans three dwords, and an empty range. -/
theorem sample_bitClearRange :
    (∀ i, i < 96 → ASMBitTest (ASMBitClearRange onesMem 0 32 40) 0 i
      = !decide (32 ≤ i ∧ i < 40)) ∧
    (∀ i, i < 96 → ASMBitTest (ASMBitClearRange onesMem 0 30 70) 0 i
      = !decide (30 ≤ i ∧ i < 70)) ∧
    (∀ i, i < 96 → ASMBitTest (ASMBitClearRange onesMem 0 40 40) 0 i = true) := by
  refine ⟨by decide, by decide, by decide⟩

/-! ## The growth assertion and a second `RTMemCacheFree` -/

/-- C27 fails for every page: for an instance as `RTMemCacheCreate` leaves it and a page
that `RTMemPageAlloc` returned (page-aligned, inside the address space), the condition of
the assertion after the bitmap placement, `pbmCtor + cBits / 8 < pbmCtor`, is false, so the
assertion fires on every growth of a build that has assertions enabled. -/
theorem grow_assertion_fails (arch : Arch) (c : RTMEMCACHEINT) (a : Nat) (hc : CfgOk c)
    (ha : a % PAGE_SIZE = 0) (hin : a + PAGE_SIZE ≤ uintptrRange arch) :
    growAssertion arch c (growPage arch c a) = false := by
  have hctor := growPage_pbmCtor arch c a ha
  have hfit := hc.fits
  have hP : PAGE_SIZE = 4096 := rfl
  unfold growAssertion
  rw [hctor, decide_eq_false_iff_not]
  rw [hP] at hin
  have hlt : a + 72 + c.cBits / 8 < uintptrRange arch := by omega
  rw [Nat.mod_eq_of_lt hlt]
  omega

theorem grow_assertion_fails_witness :
    growAssertion Arch.bits64 sampleCache (growPage Arch.bits64 sampleCache 4096) = false :=
  grow_assertion_fails Arch.bits64 sampleCache 4096
    ((create_cfg Arch.bits64 512 64 4 true true 0 sampleCreateEnv sampleCache (by decide)
      sampleCache_created).1)
    (by decide) (by decide)

/-- The first growth of the sample cache, evaluated: `pbmCtor = 4168`, `cBits / 8 = 8`, and
`4176 < 4168` is false. -/
theorem sample_grow_assertion :
    (growPage Arch.bits64 sampleCache 4096).pbmCtor = 4168 ∧ sampleCache.cBits / 8 = 8 ∧
    growAssertion Arch.bits64 sampleCache (growPage Arch.bits64 sampleCache 4096) = false ∧
    growAssertion Arch.bits32 (sampleCache68 59) (growPage Arch.bits32 (sampleCache68 59) 4096)
      = false := by
  refine ⟨by decide, by decide, by decide, by decide⟩

/-- C29 (double free is inert): in a reachable world, `RTMemCacheFree` on the pointer of a
slot of a page of the cache whose allocation bit is clear returns and leaves the instance
exactly as it was: the page's `cFree`, the instance's `cFree`, `cTotal`, the page list, the
hint and every bit of every bitmap. -/
theorem double_free_inert (arch : Arch) (envOk : AllocEnv → Prop) (w : World)
    (hw : Reachable arch envOk w) (pg : RTMEMCACHEPAGE) (hpg : pg ∈ w.cache.pages) (i : Nat)
    (hi : i < pg.cObjects) (hbit : ASMBitTest pg.mem pg.pbmAlloc i = false) :
    RTMemCacheFree w.cache (slotPtr w.cache pg i) = some w.cache := by
  have hinv := reachable_inv arch envOk w hw
  have hP := hinv.pagesOk pg hpg
  obtain ⟨h1, h2, h3⟩ := slot_bounds w.cache pg hinv.cfg hP.nobj hP.objs i hi
  unfold RTMemCacheFree
  have hne : ¬ slotPtr w.cache pg i = 0 := by omega
  have hmagic : ¬ w.cache.u32Magic ≠ RTMEMCACHE_MAGIC := by simp [hinv.cfg.magic]
  simp only [hne, hmagic, if_false]
  rw [slot_mask w.cache pg hinv.cfg hP.aligned hP.nobj hP.objs i hi,
    findPage_of_mem w.cache.pages hinv.distinct pg hpg]
  have hlt : ¬ slotPtr w.cache pg i < pg.pbObjects := by omega
  simp only [hlt, if_false, slot_index w.cache pg hinv.cfg i, ASMAtomicBitTestAndClear, hbit,
    Bool.false_eq_true, not_false_eq_true, if_true]
  have hm : ASMAtomicBitClear pg.mem pg.pbmAlloc i = pg.mem := by
    funext b
    unfold ASMAtomicBitClear
    unfold ASMBitTest at hbit
    by_cases hb : b = 8 * pg.pbmAlloc + i
    · rw [if_pos hb, hb, hbit]
    · rw [if_neg hb]
  rw [hm]
  have hpgeq : ({ pg with mem := pg.mem } : RTMEMCACHEPAGE) = pg := rfl
  rw [hpgeq, setPage_self w.cache.pages hinv.distinct pg hpg]

theorem pageAt_mem (pThis : RTMEMCACHEINT) (a : Nat)
    (h : (findPage pThis.pages a).isSome = true) : pageAt pThis a ∈ pThis.pages := by
  unfold pageAt
  cases hf : findPage pThis.pages a with
  | none => rw [hf] at h; cases h
  | some pg => exact (findPage_some pThis.pages a pg hf).1

theorem double_free_inert_witness :
    RTMemCacheFree sampleWorld1.cache (slotPtr sampleWorld1.cache (pageAt sampleWorld1.cache 4096) 0)
      = some sampleWorld1.cache :=
  double_free_inert Arch.bits64 anyEnv sampleWorld1 (sampleWorld1_reachable anyEnv trivial)
    (pageAt sampleWorld1.cache 4096) (pageAt_mem sampleWorld1.cache 4096 (by decide)) 0
    (by decide) (by decide)

/-! ## The host command buffer of the guest control service -/

theorem processHostCmd_bound (s : Service) (eFunction : HostFunction) (cParms : Nat)
    (paParms : List Nat) (env : SvcEnv) (h : s.mHostCmds.length ≤ 256) :
    (processHostCmd s eFunction cParms paParms env).2.mHostCmds.length ≤ 256 := by
  unfold processHostCmd
  simp only
  split
  · have hw : ∀ w : SvcStatus × Bool × Service, w.2.2.mHostCmds = s.mHostCmds →
        (if ¬ w.2.1 = true then
          if env.fListAlloc = true then
            (some w.1, { w.2.2 with mHostCmds := if (w.2.2.mHostCmds ++ [({ parmBuf := (paramBufferAllocate eFunction cParms paParms env).2 } : HostCmd)]).length > 256 then (w.2.2.mHostCmds ++ [({ parmBuf := (paramBufferAllocate eFunction cParms paParms env).2 } : HostCmd)]).tail else w.2.2.mHostCmds ++ [({ parmBuf := (paramBufferAllocate eFunction cParms paParms env).2 } : HostCmd)] })
          else (none, w.2.2)
        else (some w.1, w.2.2) : Option SvcStatus × Service).2.mHostCmds.length ≤ 256 := by
      intro w hw
      split
      · split
        · simp only [hw]
          split
          · rw [List.length_tail, List.length_append, List.length_singleton]
            omega
          · rename_i hle
            omega
        · simp only [hw]; exact h
      · simp only [hw]; exact h
    apply hw
    split
    · split
      · rfl
      · split <;> rfl
    · rfl
  · exact h

theorem retrieveNextHostCmd_bound (s : Service) (callHandle cParms : Nat) (env : SvcEnv) :
    (retrieveNextHostCmd s callHandle cParms env).2.mHostCmds.length ≤ s.mHostCmds.length := by
  unfold retrieveNextHostCmd
  split
  · rename_i hl
    split
    · simp only [hl]; exact Nat.le_refl _
    · exact Nat.le_refl _
  · rename_i curCmd rest hl
    simp only
    split
    · simp only [hl, List.length_cons]
      omega
    · exact Nat.le_refl _

theorem svcStep_bound (s : Service) (op : SvcOp) (h : s.mHostCmds.length ≤ 256) :
    (svcStep s op).mHostCmds.length ≤ 256 := by
  cases op with
  | hostCall eFunction cParms paParms env =>
    have hp := processHostCmd_bound s eFunction cParms paParms env h
    unfold svcStep hostCall
    cases eFunction with
    | HOST_EXEC_CMD =>
      simp only
      split
      · rename_i rc s1 heq
        rw [heq] at hp; exact hp
      · rename_i s1 heq
        rw [heq] at hp; exact hp
    | HOST_EXEC_SET_INPUT => exact h
    | HOST_EXEC_GET_OUTPUT =>
      simp only
      split
      · rename_i rc s1 heq
        rw [heq] at hp; exact hp
      · rename_i s1 heq
        rw [heq] at hp; exact hp
    | other n => exact h
  | call callHandle eFunction cParms env =>
    have hr := retrieveNextHostCmd_bound s callHandle cParms env
    unfold svcStep call
    cases eFunction with
    | GUEST_GET_HOST_MSG =>
      simp only
      split
      · rename_i rc s1 heq
        rw [heq] at hr
        exact Nat.le_trans hr h
      · rename_i s1 heq
        rw [heq] at hr
        exact Nat.le_trans hr h
    | GUEST_EXEC_SEND_OUTPUT => exact h
    | GUEST_EXEC_SEND_STATUS => exact h
    | other n => exact h

theorem svcRun_bound (ops : List SvcOp) : ∀ s : Service, s.mHostCmds.length ≤ 256 →
    (svcRun s ops).mHostCmds.length ≤ 256 := by
  induction ops with
  | nil => intro s h; exact h
  | cons op rest ih =>
    intro s h
    exact ih (svcStep s op) (svcStep_bound s op h)

/-- What `processHostCmd` does to `mHostCmds` when the new command is buffered: with fewer
than 256 entries the command is appended and nothing is dropped, with 256 entries the
oldest is dropped and the command appended. -/
theorem processHostCmd_buffers (s : Service) (eFunction : HostFunction) (cParms : Nat)
    (paParms : List Nat) (env : SvcEnv) (hlen : s.mHostCmds.length ≤ 256)
    (hp : env.fParmAlloc = true) (hl : env.fListAlloc = true)
    (hguest : ∀ guest, s.mClientList.head? = some guest →
      RT_SUCCESS (sendHostCmdToGuest { parmBuf := { uMsg := eFunction, uParmCount := cParms, pParms := paParms } } guest.mNumParms) = false) :
    (processHostCmd s eFunction cParms paParms env).2.mHostCmds
      = if s.mHostCmds.length < 256 then
          s.mHostCmds ++ [{ parmBuf := { uMsg := eFunction, uParmCount := cParms, pParms := paParms } }]
        else
          s.mHostCmds.tail ++ [{ parmBuf := { uMsg := eFunction, uParmCount := cParms, pParms := paParms } }] := by
  have hpush : (if (s.mHostCmds ++ [({ parmBuf := { uMsg := eFunction, uParmCount := cParms, pParms := paParms } } : HostCmd)]).length > 256 then (s.mHostCmds ++ [({ parmBuf := { uMsg := eFunction, uParmCount := cParms, pParms := paParms } } : HostCmd)]).tail else s.mHostCmds ++ [({ parmBuf := { uMsg := eFunction, uParmCount := cParms, pParms := paParms } } : HostCmd)])
      = if s.mHostCmds.length < 256 then
          s.mHostCmds ++ [{ parmBuf := { uMsg := eFunction, uParmCount := cParms, pParms := paParms } }]
        else
          s.mHostCmds.tail ++ [{ parmBuf := { uMsg := eFunction, uParmCount := cParms, pParms := paParms } }] := by
    by_cases h : s.mHostCmds.length < 256
    · rw [if_pos h, if_neg (by rw [List.length_append, List.length_singleton]; omega)]
    · rw [if_neg h, if_pos (by rw [List.length_append, List.length_singleton]; omega)]
      cases hs : s.mHostCmds with
      | nil => rw [hs] at h; simp at h
      | cons x rest => rfl
  have hS : RT_SUCCESS SvcStatus.VINF_SUCCESS = true := rfl
  unfold processHostCmd paramBufferAllocate
  simp only [hp, if_true, hS]
  cases hc : s.mClientList with
  | nil =>
    simp only [Bool.false_eq_true, not_false_eq_true, if_true, hl]
    exact hpush
  | cons guest rest =>
    have hg := hguest guest (by rw [hc]; rfl)
    simp only [hg, Bool.false_eq_true, if_false]
    by_cases ht : sendHostCmdToGuest { parmBuf := { uMsg := eFunction, uParmCount := cParms, pParms := paParms } } guest.mNumParms = SvcStatus.VERR_TOO_MUCH_DATA
    · simp only [ht, if_true, Bool.false_eq_true, not_false_eq_true, hl]
      exact hpush
    · simp only [ht, if_false, Bool.false_eq_true, not_false_eq_true, if_true, hl]
      exact hpush

/-- When the command is not buffered (an allocation fails, or the waiting guest call takes
the command), `processHostCmd` leaves `mHostCmds` as it was. -/
theorem processHostCmd_keeps (s : Service) (eFunction : HostFunction) (cParms : Nat)
    (paParms : List Nat) (env : SvcEnv)
    (h : env.fParmAlloc = false ∨ env.fListAlloc = false ∨
      ∃ guest, s.mClientList.head? = some guest ∧
        RT_SUCCESS (sendHostCmdToGuest { parmBuf := { uMsg := eFunction, uParmCount := cParms, pParms := paParms } } guest.mNumParms) = true) :
    (processHostCmd s eFunction cParms paParms env).2.mHostCmds = s.mHostCmds := by
  have hS : RT_SUCCESS SvcStatus.VINF_SUCCESS = true := rfl
  have hN : RT_SUCCESS SvcStatus.VERR_NO_MEMORY = false := rfl
  unfold processHostCmd paramBufferAllocate
  by_cases hp : env.fParmAlloc = true
  · simp only [hp, if_true, hS]
    cases hc : s.mClientList with
    | nil =>
      rcases h with h | h | ⟨guest, hh, -⟩
      · rw [hp] at h; cases h
      · simp only [Bool.false_eq_true, not_false_eq_true, if_true, h, if_false]
      · rw [hc] at hh; cases hh
    | cons guest rest =>
      by_cases hg : RT_SUCCESS (sendHostCmdToGuest { parmBuf := { uMsg := eFunction, uParmCount := cParms, pParms := paParms } } guest.mNumParms) = true
      · simp only [hg, if_true, not_true_eq_false, if_false]
      · rcases h with h | h | ⟨guest', hh, hs⟩
        · rw [hp] at h; cases h
        · have hg' : RT_SUCCESS (sendHostCmdToGuest { parmBuf := { uMsg := eFunction, uParmCount := cParms, pParms := paParms } } guest.mNumParms) = false := by
            simpa using hg
          simp only [hg', Bool.false_eq_true, if_false]
          by_cases ht : sendHostCmdToGuest { parmBuf := { uMsg := eFunction, uParmCount := cParms, pParms := paParms } } guest.mNumParms = SvcStatus.VERR_TOO_MUCH_DATA
          · simp only [ht, if_true, Bool.false_eq_true, not_false_eq_true, h, if_false]
          · simp only [ht, if_false, Bool.false_eq_true, not_false_eq_true, if_true, h]
        · rw [hc] at hh
          have : guest = guest' := Option.some.inj hh
          rw [this] at hg
          exact absurd hs hg
  · have hp' : env.fParmAlloc = false := by simpa using hp
    simp only [hp', Bool.false_eq_true, if_false, hN]

/-- C30 (host command queue bound): after any sequence of `hostCall` / `call` operations
on a service that started with empty lists, `mHostCmds` holds at most 256 entries, and it
still does after a further `processHostCmd`.  That call buffers the new command exactly
when the allocations succeed and no waiting guest call takes it (none waits, or the send to
the oldest waiting call fails): then with fewer than 256 entries buffered the command is
appended and nothing is dropped, and with 256 entries buffered the oldest entry is dropped
and the command appended.  In every other case `mHostCmds` is left as it was. -/
theorem host_cmds_bounded (ops : List SvcOp) (eFunction : HostFunction) (cParms : Nat)
    (paParms : List Nat) (env : SvcEnv) :
    (svcRun emptyService ops).mHostCmds.length ≤ 256 ∧
    (processHostCmd (svcRun emptyService ops) eFunction cParms paParms env).2.mHostCmds.length
      ≤ 256 ∧
    (env.fParmAlloc = true → env.fListAlloc = true →
      (∀ guest, (svcRun emptyService ops).mClientList.head? = some guest →
        RT_SUCCESS (sendHostCmdToGuest { parmBuf := { uMsg := eFunction, uParmCount := cParms, pParms := paParms } } guest.mNumParms) = false) →
      (processHostCmd (svcRun emptyService ops) eFunction cParms paParms env).2.mHostCmds
        = if (svcRun emptyService ops).mHostCmds.length < 256 then
            (svcRun emptyService ops).mHostCmds
              ++ [{ parmBuf := { uMsg := eFunction, uParmCount := cParms, pParms := paParms } }]
          else
            (svcRun emptyService ops).mHostCmds.tail
              ++ [{ parmBuf := { uMsg := eFunction, uParmCount := cParms, pParms := paParms } }]) ∧
    ((env.fParmAlloc = false ∨ env.fListAlloc = false ∨
      ∃ guest, (svcRun emptyService ops).mClientList.head? = some guest ∧
        RT_SUCCESS (sendHostCmdToGuest { parmBuf := { uMsg := eFunction, uParmCount := cParms, pParms := paParms } } guest.mNumParms) = true) →
      (processHostCmd (svcRun emptyService ops) eFunction cParms paParms env).2.mHostCmds
        = (svcRun emptyService ops).mHostCmds) := by
  have h := svcRun_bound ops emptyService (by decide)
  exact ⟨h, processHostCmd_bound _ eFunction cParms paParms env h,
    processHostCmd_buffers _ eFunction cParms paParms env h,
    processHostCmd_keeps _ eFunction cParms paParms env⟩

theorem host_cmds_bounded_witness :
    (svcRun emptyService sampleWaitingRun).mHostCmds.length = 256 ∧
    (svcRun emptyService sampleWaitingRun).mClientList.length = 44 ∧
    (processHostCmd (svcRun emptyService sampleWaitingRun) HostFunction.HOST_EXEC_CMD 257
      [] sampleSvcEnv).2.mHostCmds
      = (svcRun emptyService sampleWaitingRun).mHostCmds.tail
        ++ [{ parmBuf := { uMsg := HostFunction.HOST_EXEC_CMD, uParmCount := 257, pParms := [] } }] ∧
    (processHostCmd (svcRun emptyService (sampleHostCalls 3)) HostFunction.HOST_EXEC_CMD 3
      [] sampleSvcEnv).2.mHostCmds
      = (svcRun emptyService (sampleHostCalls 3)).mHostCmds
        ++ [{ parmBuf := { uMsg := HostFunction.HOST_EXEC_CMD, uParmCount := 3, pParms := [] } }] :=
  ⟨by decide!, by decide!,
    ((host_cmds_bounded sampleWaitingRun HostFunction.HOST_EXEC_CMD 257 [] sampleSvcEnv).2.2.1
      rfl rfl (by decide!)).trans (if_neg (by decide!)),
    ((host_cmds_bounded (sampleHostCalls 3) HostFunction.HOST_EXEC_CMD 3 [] sampleSvcEnv).2.2.1
      rfl rfl (by decide!)).trans (if_pos (by decide!))⟩

/-- The sample run: 256 host commands fill the buffer; after the 257th the buffer holds the
commands 1 to 256, the oldest (command 0) is gone. -/
theorem sample_host_cmds :
    (svcRun emptyService (sampleHostCalls 256)).mHostCmds.length = 256 ∧
    (svcRun emptyService (sampleHostCalls 257)).mHostCmds.length = 256 ∧
    (svcRun emptyService (sampleHostCalls 257)).mHostCmds.map (fun cmd => cmd.parmBuf.uParmCount)
      = List.range' 1 256 := by
  refine ⟨by decide!, by decide!, by decide!⟩

/-! ## Page layout -/

theorem create_fits (arch : Arch) (cbObject cbAlignment cMaxObjects : Nat)
    (pfnCtor pfnDtor : Bool) (pvUser : Nat) (env : CreateEnv) (c : RTMEMCACHEINT)
    (h : RTMemCacheCreate arch cbObject cbAlignment cMaxObjects pfnCtor pfnDtor pvUser env
      = Except.ok c) :
    RT_ALIGN (sizeofRTMEMCACHEPAGE arch) (RT_MIN c.cbAlignment 8) + c.cPerPage * c.cbObject
      + c.cBits / 8 * 2 ≤ 4096 ∧ c.cbAlignment ∈ [1, 2, 4, 8, 16, 32, 64] := by
  obtain ⟨a, ha, hpos, hle, rfl⟩ := create_ok arch cbObject cbAlignment cMaxObjects pfnCtor
    pfnDtor pvUser env c h
  have hmem := createAlignment_mem cbObject cbAlignment a ha
  obtain ⟨hh1, hh2, hh3⟩ := header_bounds arch a hmem
  refine ⟨?_, hmem⟩
  have hP : PAGE_SIZE = 4096 := rfl
  have hfit := cPerPageLoop_fits (RT_ALIGN (sizeofRTMEMCACHEPAGE arch) (RT_MIN a 8))
    (RT_ALIGN cbObject a) (by rw [hP]; omega)
    ((PAGE_SIZE - RT_ALIGN (sizeofRTMEMCACHEPAGE arch) a) / RT_ALIGN cbObject a)
  rw [hP] at hfit
  exact hfit

theorem create_sample_env (arch : Arch) (cbObject cbAlignment cMaxObjects : Nat)
    (pfnCtor pfnDtor : Bool) (pvUser a : Nat) (hpos : 0 < cbObject)
    (hle : cbObject ≤ PAGE_SIZE / 8) (ha : createAlignment cbObject cbAlignment = Except.ok a) :
    RTMemCacheCreate arch cbObject cbAlignment cMaxObjects pfnCtor pfnDtor pvUser sampleCreateEnv
      = Except.ok
          { u32Magic := RTMEMCACHE_MAGIC
            cbObject := RT_ALIGN cbObject a
            cbAlignment := a
            cPerPage := cPerPageLoop (RT_ALIGN (sizeofRTMEMCACHEPAGE arch) (RT_MIN a 8))
              (RT_ALIGN cbObject a)
              ((PAGE_SIZE - RT_ALIGN (sizeofRTMEMCACHEPAGE arch) a) / RT_ALIGN cbObject a)
            cBits := RT_ALIGN (cPerPageLoop (RT_ALIGN (sizeofRTMEMCACHEPAGE arch) (RT_MIN a 8))
              (RT_ALIGN cbObject a)
              ((PAGE_SIZE - RT_ALIGN (sizeofRTMEMCACHEPAGE arch) a) / RT_ALIGN cbObject a)) 64
            cMax := cMaxObjects
            cTotal := 0
            cFree := 0
            pages := []
            pPageHint := none
            pfnCtor := pfnCtor
            pfnDtor := pfnDtor
            pvUser := pvUser } := by
  unfold RTMemCacheCreate
  rw [if_neg (by omega), if_neg (by omega), ha]
  rfl

theorem create_cfg_any (arch : Arch) (cbObject cbAlignment cMaxObjects : Nat)
    (pfnCtor pfnDtor : Bool) (pvUser : Nat) (env : CreateEnv) (pThis : RTMEMCACHEINT)
    (h : RTMemCacheCreate arch cbObject cbAlignment cMaxObjects pfnCtor pfnDtor pvUser env
      = Except.ok pThis) (m : Nat) (hm : m < 4294967296) :
    CfgOk { pThis with cMax := m, cTotal := 0 } := by
  obtain ⟨a1, ha1, hpos, hle, rfl⟩ := create_ok arch cbObject cbAlignment cMaxObjects pfnCtor
    pfnDtor pvUser env pThis h
  have hc := (create_cfg arch cbObject cbAlignment m pfnCtor pfnDtor pvUser sampleCreateEnv _ hm
    (create_sample_env arch cbObject cbAlignment m pfnCtor pfnDtor pvUser a1 hpos hle ha1)).1
  exact ⟨hc.magic, hc.cb_pos, hc.per_pos, hc.per_le, hc.bits64, hc.fits, hc.max_lt, hc.al_cb,
    hc.al_page⟩

theorem header_bits64 (a : Nat) (h : a ∈ [1, 2, 4, 8, 16, 32, 64]) :
    RT_ALIGN (sizeofRTMEMCACHEPAGE Arch.bits64) (RT_MIN a 8) = 72 := by
  simp only [List.mem_cons, List.mem_singleton, List.not_mem_nil, or_false] at h
  rcases h with h | h | h | h | h | h | h <;> subst h <;> decide

/-- What holds of the page `rtMemCacheGrow` lays out for both pointer widths: the
construction bitmap starts behind the header, the allocation bitmap ends before the object
array, and the object array ends at the end of the page. -/
theorem page_layout_common (arch : Arch) (c : RTMEMCACHEINT) (a : Nat) (hc : CfgOk c)
    (ha : a % PAGE_SIZE = 0) :
    (growPage arch c a).cObjects ≤ c.cPerPage ∧
    a + sizeofRTMEMCACHEPAGE arch ≤ (growPage arch c a).pbmCtor ∧
    (growPage arch c a).pbmAlloc + c.cBits / 8 ≤ (growPage arch c a).pbObjects ∧
    (growPage arch c a).pbObjects + (growPage arch c a).cObjects * c.cbObject
      = a + PAGE_SIZE := by
  have hn1 : (growPage arch c a).cObjects ≤ c.cPerPage := by
    show RT_MIN c.cPerPage ((c.cMax + 4294967296 - c.cTotal) % 4294967296) ≤ c.cPerPage
    rw [RT_MIN_eq_min]
    omega
  have hctor := growPage_pbmCtor arch c a ha
  have hobjs : (growPage arch c a).pbObjects
      = a + 4096 - c.cbObject * (growPage arch c a).cObjects := rfl
  have halloc : (growPage arch c a).pbmAlloc
      = ((growPage arch c a).pbObjects - c.cBits / 8)
        - (((growPage arch c a).pbObjects - c.cBits / 8) &&& 7) := rfl
  have hP : PAGE_SIZE = 4096 := rfl
  generalize growPage arch c a = pg at *
  have h1 : pg.cObjects * c.cbObject ≤ c.cPerPage * c.cbObject := Nat.mul_le_mul_right _ hn1
  have h2 : c.cbObject * pg.cObjects = pg.cObjects * c.cbObject := Nat.mul_comm _ _
  have h3 := hc.fits
  rw [hctor, halloc, hobjs, hP, and_mask7]
  refine ⟨hn1, ?_, ?_, ?_⟩
  · cases arch <;> simp only [sizeofRTMEMCACHEPAGE] <;> omega
  · omega
  · omega

/-- On a 64-bit host the two bitmaps of the page `rtMemCacheGrow` lays out do not overlap:
`pbmCtor + cBits / 8 <= pbmAlloc`. -/
theorem page_layout_bits64 (c : RTMEMCACHEINT) (a : Nat) (hc : CfgOk c)
    (hfit : 72 + c.cPerPage * c.cbObject + c.cBits / 8 * 2 ≤ 4096) (ha : a % PAGE_SIZE = 0) :
    (growPage Arch.bits64 c a).pbmCtor + c.cBits / 8 ≤ (growPage Arch.bits64 c a).pbmAlloc := by
  obtain ⟨hn1, -, -, -⟩ := page_layout_common Arch.bits64 c a hc ha
  have hctor := growPage_pbmCtor Arch.bits64 c a ha
  have hobjs : (growPage Arch.bits64 c a).pbObjects
      = a + 4096 - c.cbObject * (growPage Arch.bits64 c a).cObjects := rfl
  have halloc : (growPage Arch.bits64 c a).pbmAlloc
      = ((growPage Arch.bits64 c a).pbObjects - c.cBits / 8)
        - (((growPage Arch.bits64 c a).pbObjects - c.cBits / 8) &&& 7) := rfl
  have hP : PAGE_SIZE = 4096 := rfl
  generalize growPage Arch.bits64 c a = pg at *
  have h1 : pg.cObjects * c.cbObject ≤ c.cPerPage * c.cbObject := Nat.mul_le_mul_right _ hn1
  have h2 : c.cbObject * pg.cObjects = pg.cObjects * c.cbObject := Nat.mul_comm _ _
  have h4 := hc.bits64
  rw [hctor, halloc, hobjs, and_mask7]
  rw [hP] at ha
  omega

/-- The page layout on a 64-bit host, for every request `RTMemCacheCreate` accepts and
every object count `cObjects <= cPerPage`: header, construction bitmap, allocation bitmap
and object array follow each other without overlap and end at the end of the page. -/
theorem page_layout_created_bits64 (cbObject cbAlignment cMaxObjects : Nat)
    (pfnCtor pfnDtor : Bool) (pvUser : Nat) (env : CreateEnv) (pThis : RTMEMCACHEINT)
    (h : RTMemCacheCreate Arch.bits64 cbObject cbAlignment cMaxObjects pfnCtor pfnDtor pvUser
      env = Except.ok pThis)
    (cObjects : Nat) (hn : cObjects ≤ pThis.cPerPage) (a : Nat) (ha : a % PAGE_SIZE = 0) :
    (growPage Arch.bits64 { pThis with cMax := cObjects, cTotal := 0 } a).cObjects = cObjects ∧
    a + 72 ≤ (growPage Arch.bits64 { pThis with cMax := cObjects, cTotal := 0 } a).pbmCtor ∧
    (growPage Arch.bits64 { pThis with cMax := cObjects, cTotal := 0 } a).pbmCtor
        + pThis.cBits / 8
      ≤ (growPage Arch.bits64 { pThis with cMax := cObjects, cTotal := 0 } a).pbmAlloc ∧
    (growPage Arch.bits64 { pThis with cMax := cObjects, cTotal := 0 } a).pbmAlloc
        + pThis.cBits / 8
      ≤ (growPage Arch.bits64 { pThis with cMax := cObjects, cTotal := 0 } a).pbObjects ∧
    (growPage Arch.bits64 { pThis with cMax := cObjects, cTotal := 0 } a).pbObjects
        + cObjects * pThis.cbObject = a + PAGE_SIZE := by
  obtain ⟨hfit, hmem⟩ := create_fits Arch.bits64 cbObject cbAlignment cMaxObjects pfnCtor
    pfnDtor pvUser env pThis h
  rw [header_bits64 _ hmem] at hfit
  have hcfg0 := create_cfg_any Arch.bits64 cbObject cbAlignment cMaxObjects pfnCtor pfnDtor
    pvUser env pThis h 0 (by decide)
  have hlt : cObjects < 4294967296 := by
    have h1 : pThis.cPerPage ≤ pThis.cBits := hcfg0.per_le
    have h2 : 68 + pThis.cPerPage * pThis.cbObject + pThis.cBits / 8 * 2 ≤ 4096 := hcfg0.fits
    have h3 : (0 : Nat) ≤ pThis.cPerPage * pThis.cbObject := Nat.zero_le _
    omega
  have hcfg2 := create_cfg_any Arch.bits64 cbObject cbAlignment cMaxObjects pfnCtor pfnDtor
    pvUser env pThis h cObjects hlt
  have hcnt : (growPage Arch.bits64 { pThis with cMax := cObjects, cTotal := 0 } a).cObjects
      = cObjects := by
    show RT_MIN pThis.cPerPage ((cObjects + 4294967296 - 0) % 4294967296) = cObjects
    rw [RT_MIN_eq_min]
    omega
  obtain ⟨-, l1, l3, l4⟩ := page_layout_common Arch.bits64
    { pThis with cMax := cObjects, cTotal := 0 } a hcfg2 ha
  have l2 := page_layout_bits64 { pThis with cMax := cObjects, cTotal := 0 } a hcfg2 hfit ha
  rw [hcnt] at l4
  exact ⟨hcnt, l1, l2, l3, l4⟩

/-- C24 fails on a 32-bit host: for `RTMemCacheCreate(&h, 68, 4, 100, ...)` (accepted, 59
objects per page, `cBits = 64`) the page `rtMemCacheGrow` lays out at 4096 with 59 objects
has `pbmCtor = pbmAlloc = 4168`, so `pbmCtor + cBits / 8 = 4176 > pbmAlloc`: the two bitmaps
are the same 8 bytes.  The other three relations of the claim hold for this page. -/
theorem page_layout_bits32_overlap :
    RTMemCacheCreate Arch.bits32 68 4 100 true true 0 sampleCreateEnv
      = Except.ok (sampleCache68 59) ∧
    (growPage Arch.bits32 (sampleCache68 59) 4096).cObjects = 59 ∧
    4096 + sizeofRTMEMCACHEPAGE Arch.bits32 ≤ (growPage Arch.bits32 (sampleCache68 59) 4096).pbmCtor ∧
    (growPage Arch.bits32 (sampleCache68 59) 4096).pbmCtor = 4168 ∧
    (growPage Arch.bits32 (sampleCache68 59) 4096).pbmAlloc = 4168 ∧
    ¬ ((growPage Arch.bits32 (sampleCache68 59) 4096).pbmCtor + (sampleCache68 59).cBits / 8
        ≤ (growPage Arch.bits32 (sampleCache68 59) 4096).pbmAlloc) ∧
    (growPage Arch.bits32 (sampleCache68 59) 4096).pbmAlloc + (sampleCache68 59).cBits / 8
      ≤ (growPage Arch.bits32 (sampleCache68 59) 4096).pbObjects ∧
    (growPage Arch.bits32 (sampleCache68 59) 4096).pbObjects + 59 * (sampleCache68 59).cbObject
      = 4096 + PAGE_SIZE := by
  refine ⟨rfl, by decide, by decide, by decide, by decide, by decide, by decide, by decide⟩

/-! ## Padding bits -/

/-- C23 (padding bits): in a reachable world every bit `i` with `cObjects <= i < cBits` of
the allocation bitmap of every page is set, and so it is in the page `rtMemCacheGrow` lays
out; hence a bit claim on a page of the cache (at the hinted index `iHint < cObjects`, or at
the result of `ASMBitFirstClear` over `cBits` bits) yields an index `< cObjects`, and every
returning `RTMemCacheAllocEx` that passed the cache-level reservation ended with a slot
index `i < cObjects` of a page of the cache whose allocation bit was clear. -/
theorem padding_bits (arch : Arch) (envOk : AllocEnv → Prop) (w : World)
    (hw : Reachable arch envOk w) :
    (∀ pg ∈ w.cache.pages, ∀ i, pg.cObjects ≤ i → i < w.cache.cBits →
      ASMBitTest pg.mem pg.pbmAlloc i = true) ∧
    (∀ a i, (growPage arch w.cache a).cObjects ≤ i → i < w.cache.cBits →
      ASMBitTest (growPage arch w.cache a).mem (growPage arch w.cache a).pbmAlloc i = true) ∧
    (∀ pg ∈ w.cache.pages, ∀ iHint i pg1, iHint < pg.cObjects →
      claimBit w.cache.cBits pg iHint = some (i, pg1) → i < pg.cObjects) ∧
    (∀ env r, PageFresh w.cache env → RTMemCacheAllocEx arch w.cache env = some r →
      (allocReserve arch w.cache env.pvPage).1 = Status.VINF_SUCCESS →
      ∃ pg ∈ (allocReserve arch w.cache env.pvPage).2.pages, ∃ i H, i < pg.cObjects ∧
        ASMBitTest pg.mem pg.pbmAlloc i = false ∧
        AllocOutcome (allocReserve arch w.cache env.pvPage).2 pg i H env.rcCtor r) := by
  have hinv := reachable_inv arch envOk w hw
  refine ⟨fun pg hpg => (hinv.pagesOk pg hpg).pad, ?_, ?_, ?_⟩
  · intro a i h1 h2
    have hmem : (growPage arch w.cache a).mem
        = markPadding zeroMem (growPage arch w.cache a).pbmAlloc
            (growPage arch w.cache a).cObjects w.cache.cBits := rfl
    rw [hmem, markPadding_test, if_pos (by omega)]
  · intro pg hpg iHint i pg1 hhint hcl
    obtain ⟨-, hclr, hidx⟩ := claimBit_spec _ _ _ _ _ hcl
    rcases hidx with hidx | hidx
    · omega
    · by_contra hge
      have hbits : RT_ALIGN w.cache.cBits 32 = w.cache.cBits :=
        RT_ALIGN_32_of_bits64 _ hinv.cfg.bits64
      rw [hbits] at hidx
      have := (hinv.pagesOk pg hpg).pad i (by omega) hidx
      rw [hclr] at this
      cases this
  · intro env r hf h hok
    rcases alloc_spec arch w.cache w.live env r hinv hf h with ⟨hne, -⟩ | ⟨-, hrest⟩
    · exact absurd hok hne
    · exact hrest

theorem padding_bits_witness :
    (∀ pg ∈ sampleWorld1.cache.pages, ∀ i, pg.cObjects ≤ i → i < sampleWorld1.cache.cBits →
      ASMBitTest pg.mem pg.pbmAlloc i = true) ∧
    (∀ a i, (growPage Arch.bits64 sampleWorld1.cache a).cObjects ≤ i →
      i < sampleWorld1.cache.cBits →
      ASMBitTest (growPage Arch.bits64 sampleWorld1.cache a).mem
        (growPage Arch.bits64 sampleWorld1.cache a).pbmAlloc i = true) ∧
    (∀ pg ∈ sampleWorld1.cache.pages, ∀ iHint i pg1, iHint < pg.cObjects →
      claimBit sampleWorld1.cache.cBits pg iHint = some (i, pg1) → i < pg.cObjects) ∧
    (∀ env r, PageFresh sampleWorld1.cache env →
      RTMemCacheAllocEx Arch.bits64 sampleWorld1.cache env = some r →
      (allocReserve Arch.bits64 sampleWorld1.cache env.pvPage).1 = Status.VINF_SUCCESS →
      ∃ pg ∈ (allocReserve Arch.bits64 sampleWorld1.cache env.pvPage).2.pages, ∃ i H,
        i < pg.cObjects ∧ ASMBitTest pg.mem pg.pbmAlloc i = false ∧
        AllocOutcome (allocReserve Arch.bits64 sampleWorld1.cache env.pvPage).2 pg i H
          env.rcCtor r) :=
  padding_bits Arch.bits64 anyEnv sampleWorld1 (sampleWorld1_reachable anyEnv trivial)

/-- The sample world evaluated: the page holds 4 objects, `cBits` is 64, and the bits 4 to
63 of its allocation bitmap are set. -/
theorem sample_padding :
    (pageAt sampleWorld1.cache 4096).cObjects = 4 ∧ sampleWorld1.cache.cBits = 64 ∧
    ∀ i, i < 64 → 4 ≤ i →
      ASMBitTest (pageAt sampleWorld1.cache 4096).mem (pageAt sampleWorld1.cache 4096).pbmAlloc i
        = true := by
  refine ⟨by decide, by decide, by decide⟩

/-! ## Which page is grabbed -/

theorem firstFree_some (l : List RTMEMCACHEPAGE) (pg : RTMEMCACHEPAGE)
    (h : firstFree l = some pg) : pg ∈ l ∧ 0 ≤ pg.cFree - 1 := by
  unfold firstFree at h
  exact ⟨List.mem_of_find?_eq_some h, by simpa using List.find?_some h⟩

theorem firstFree_cons (x : RTMEMCACHEPAGE) (rest : List RTMEMCACHEPAGE) :
    firstFree (x :: rest) = if 0 ≤ x.cFree - 1 then some x else firstFree rest := by
  unfold firstFree
  rw [List.find?_cons]
  by_cases h : 0 ≤ x.cFree - 1
  · simp [h]
  · simp [h]

theorem scanGrab_eq : ∀ (l : List RTMEMCACHEPAGE), (l.map (fun p => p.pPage)).Nodup →
    scanGrab l = match firstFree l with
      | some pg => some (pg.cFree - 1, { pg with cFree := pg.cFree - 1 }, setPage l { pg with cFree := pg.cFree - 1 })
      | none => none := by
  intro l
  induction l with
  | nil => intro _; rfl
  | cons x rest ih =>
    intro hd
    rw [List.map_cons, List.nodup_cons] at hd
    unfold scanGrab
    rw [firstFree_cons]
    by_cases hx : x.cFree - 1 < 0
    · rw [grabObj_fail x hx]
      have hx2 : ¬ (0 ≤ x.cFree - 1) := by omega
      rw [if_neg hx2]
      simp only [ge_iff_le, Left.nonneg_neg_iff, Int.reduceLE, if_false]
      rw [ih hd.2]
      cases hf : firstFree rest with
      | none => rfl
      | some pg =>
        simp only
        obtain ⟨hpg, -⟩ := firstFree_some rest pg hf
        have hne : ¬ x.pPage = pg.pPage := by
          intro he
          exact hd.1 (List.mem_map.mpr ⟨pg, hpg, he.symm⟩)
        simp [setPage, hne]
    · rw [grabObj_ok x hx]
      have hge : 0 ≤ x.cFree - 1 := by omega
      rw [if_pos hge]
      simp only [ge_iff_le, hge, if_true]
      have hrest : setPage rest { x with cFree := x.cFree - 1 } = rest := by
        apply setPage_of_not_mem
        intro q hq he
        exact hd.1 (List.mem_map.mpr ⟨q, hq, he⟩)
      have : setPage (x :: rest) { x with cFree := x.cFree - 1 }
          = { x with cFree := x.cFree - 1 } :: setPage rest { x with cFree := x.cFree - 1 } := by
        simp [setPage]
      rw [this, hrest]

theorem allocScan_eq (c : RTMEMCACHEINT) (hd : (c.pages.map (fun p => p.pPage)).Nodup) :
    allocScan c = match firstFree c.pages with
      | some pg => some (pg.cFree - 1, { pg with cFree := pg.cFree - 1 }, { c with pages := setPage c.pages { pg with cFree := pg.cFree - 1 }, pPageHint := if pg.cFree - 1 > 0 then some pg.pPage else c.pPageHint })
      | none => none := by
  unfold allocScan
  rw [scanGrab_eq c.pages hd]
  cases firstFree c.pages with
  | none => rfl
  | some pg => rfl

theorem choosePage_some (c : RTMEMCACHEINT) (pg : RTMEMCACHEPAGE)
    (h : choosePage c = some pg) : pg ∈ c.pages ∧ 0 ≤ pg.cFree - 1 := by
  unfold choosePage at h
  split at h
  · exact firstFree_some _ _ h
  · split at h
    · cases h
    · rename_i pgH hf
      split at h
      · exact firstFree_some _ _ h
      · rename_i hx
        cases h
        exact ⟨(findPage_some _ _ _ hf).1, by omega⟩

/-- The page-level grab as a function of the page `choosePage` names. -/
theorem allocGrabPage_eq (c : RTMEMCACHEINT) (hd : (c.pages.map (fun p => p.pPage)).Nodup) :
    allocGrabPage c = match choosePage c with
      | some pg => some (pg.cFree - 1, { pg with cFree := pg.cFree - 1 }, { c with pages := setPage c.pages { pg with cFree := pg.cFree - 1 }, pPageHint := hintAfter c pg })
      | none => none := by
  cases hh : c.pPageHint with
  | none =>
    have h1 : allocGrabPage c = allocScan c := by
      unfold allocGrabPage
      rw [hh]
    have h2 : choosePage c = firstFree c.pages := by
      unfold choosePage
      rw [hh]
    have h3 : ∀ pg, hintAfter c pg = if pg.cFree - 1 > 0 then some pg.pPage else c.pPageHint := by
      intro pg
      unfold hintAfter hintGrabs
      rw [hh]
      rfl
    rw [h1, h2, allocScan_eq c hd]
    cases firstFree c.pages with
    | none => rfl
    | some pg => simp only [h3]
  | some a =>
    cases hf : findPage c.pages a with
    | none =>
      have h1 : allocGrabPage c = none := by
        unfold allocGrabPage
        rw [hh]
        simp only [hf]
      have h2 : choosePage c = none := by
        unfold choosePage
        rw [hh]
        simp only [hf]
      rw [h1, h2]
    | some pgH =>
      obtain ⟨hmem, -⟩ := findPage_some c.pages a pgH hf
      by_cases hx : pgH.cFree - 1 < 0
      · have h1 : allocGrabPage c = allocScan c := by
          unfold allocGrabPage
          rw [hh]
          simp only [hf]
          rw [grabObj_fail pgH hx]
          simp only [Int.reduceNeg, Int.reduceLT, if_true]
          rw [setPage_self c.pages hd pgH hmem, ← hh]
        have h2 : choosePage c = firstFree c.pages := by
          unfold choosePage
          rw [hh]
          simp only [hf, hx, if_true]
        have h3 : ∀ pg, hintAfter c pg
            = if pg.cFree - 1 > 0 then some pg.pPage else c.pPageHint := by
          intro pg
          unfold hintAfter hintGrabs
          rw [hh]
          simp only [hf]
          have hng : ¬ (0 ≤ pgH.cFree - 1) := by omega
          simp only [hng, decide_False, Bool.false_eq_true, if_false]
        rw [h1, h2, allocScan_eq c hd]
        cases firstFree c.pages with
        | none => rfl
        | some pg => simp only [h3]
      · have h1 : allocGrabPage c = some (pgH.cFree - 1, { pgH with cFree := pgH.cFree - 1 }, { c with pages := setPage c.pages { pgH with cFree := pgH.cFree - 1 } }) := by
          unfold allocGrabPage
          rw [hh]
          simp only [hf]
          rw [grabObj_ok pgH hx]
          simp only [hx, if_false]
        have h2 : choosePage c = some pgH := by
          unfold choosePage
          rw [hh]
          simp only [hf, hx, if_false]
        have h3 : hintAfter c pgH = c.pPageHint := by
          unfold hintAfter hintGrabs
          rw [hh]
          simp only [hf]
          have hge : 0 ≤ pgH.cFree - 1 := by omega
          simp only [hge, decide_True, if_true]
        rw [h1, h2]
        simp only [h3]

/-! ## `RTMemCacheAllocEx` as a function of the chosen page -/

theorem alloc_none_of_choose (arch : Arch) (c : RTMEMCACHEINT) (env : AllocEnv)
    (c1 : RTMEMCACHEINT) (hmagic : c.u32Magic = RTMEMCACHE_MAGIC)
    (hres : allocReserve arch c env.pvPage = (Status.VINF_SUCCESS, c1))
    (hd : (c1.pages.map (fun p => p.pPage)).Nodup) (hch : choosePage c1 = none) :
    RTMemCacheAllocEx arch c env = none := by
  apply allocEx_none_grab arch c env c1 hmagic hres
  rw [allocGrabPage_eq c1 hd, hch]

theorem alloc_none_of_claim (arch : Arch) (c : RTMEMCACHEINT) (env : AllocEnv)
    (c1 : RTMEMCACHEINT) (pg : RTMEMCACHEPAGE) (hmagic : c.u32Magic = RTMEMCACHE_MAGIC)
    (hres : allocReserve arch c env.pvPage = (Status.VINF_SUCCESS, c1))
    (hd : (c1.pages.map (fun p => p.pPage)).Nodup) (hch : choosePage c1 = some pg)
    (hcl : claimBit c1.cBits { pg with cFree := pg.cFree - 1 } (pg.cFree - 1).toNat = none) :
    RTMemCacheAllocEx arch c env = none := by
  have hg : allocGrabPage c1 = some (pg.cFree - 1, { pg with cFree := pg.cFree - 1 }, { c1 with pages := setPage c1.pages { pg with cFree := pg.cFree - 1 }, pPageHint := hintAfter c1 pg }) := by
    rw [allocGrabPage_eq c1 hd, hch]
  exact allocEx_none_claim arch c env c1 _ _ _ hmagic hres hg hcl

/-- The call after the reservation, the page choice and the bit claim: what is left is the
constructor stage. -/
theorem alloc_run (arch : Arch) (c : RTMEMCACHEINT) (env : AllocEnv)
    (c1 : RTMEMCACHEINT) (pg : RTMEMCACHEPAGE) (i : Nat) (pgC : RTMEMCACHEPAGE)
    (hmagic : c.u32Magic = RTMEMCACHE_MAGIC)
    (hres : allocReserve arch c env.pvPage = (Status.VINF_SUCCESS, c1))
    (hd : (c1.pages.map (fun p => p.pPage)).Nodup) (hch : choosePage c1 = some pg)
    (hcl : claimBit c1.cBits { pg with cFree := pg.cFree - 1 } (pg.cFree - 1).toNat
      = some (i, pgC)) :
    RTMemCacheAllocEx arch c env
      = allocConstruct
          (slotTaken c1 pg (pg.cFree - 1) (ASMBitSet pg.mem pg.pbmAlloc i) c1.cFree
            (hintAfter c1 pg))
          { pg with cFree := pg.cFree - 1, mem := ASMBitSet pg.mem pg.pbmAlloc i } i
          env.rcCtor := by
  have hg : allocGrabPage c1 = some (pg.cFree - 1, { pg with cFree := pg.cFree - 1 }, { c1 with pages := setPage c1.pages { pg with cFree := pg.cFree - 1 }, pPageHint := hintAfter c1 pg }) := by
    rw [allocGrabPage_eq c1 hd, hch]
  rw [allocEx_run arch c env c1 _ _ _ _ i hmagic hres hg hcl]
  obtain ⟨rfl, -, -⟩ := claimBit_spec _ _ _ _ _ hcl
  have hpages : setPage (setPage c1.pages { pg with cFree := pg.cFree - 1 })
      { pg with cFree := pg.cFree - 1, mem := ASMBitSet pg.mem pg.pbmAlloc i }
      = setPage c1.pages
        { pg with cFree := pg.cFree - 1, mem := ASMBitSet pg.mem pg.pbmAlloc i } :=
    setPage_setPage _ _ _ rfl
  exact congrArg (fun P => allocConstruct
    ({ c1 with pages := P, cFree := c1.cFree, pPageHint := hintAfter c1 pg } : RTMEMCACHEINT)
    { pg with cFree := pg.cFree - 1, mem := ASMBitSet pg.mem pg.pbmAlloc i } i env.rcCtor) hpages

/-- A claimed index on a grabbed page of a world that satisfies the invariant is a slot. -/
theorem claim_lt (c1 : RTMEMCACHEINT) (live : List Nat) (pg : RTMEMCACHEPAGE) (i : Nat)
    (pgC : RTMEMCACHEPAGE) (hinv1 : Inv 1 c1 live) (hpg : pg ∈ c1.pages)
    (h0 : 0 ≤ pg.cFree - 1)
    (hcl : claimBit c1.cBits { pg with cFree := pg.cFree - 1 } (pg.cFree - 1).toNat
      = some (i, pgC)) :
    i < pg.cObjects ∧ ASMBitTest pg.mem pg.pbmAlloc i = false := by
  have hPg := hinv1.pagesOk pg hpg
  obtain ⟨-, hclr, hidx⟩ := claimBit_spec _ _ _ _ _ hcl
  have hclr1 : ASMBitTest pg.mem pg.pbmAlloc i = false := hclr
  refine ⟨?_, hclr1⟩
  rcases hidx with hidx | hidx
  · have hcnt := hPg.count
    have : (0 : Int) ≤ (live.countP (onPage pg) : Int) := Int.natCast_nonneg _
    omega
  · by_contra hge
    have hbits : RT_ALIGN c1.cBits 32 = c1.cBits :=
      RT_ALIGN_32_of_bits64 _ hinv1.cfg.bits64
    have hidx1 : i < c1.cBits := by
      have : i < RT_ALIGN c1.cBits 32 := hidx
      omega
    have := hPg.pad i (by omega) hidx1
    rw [hclr1] at this
    cases this

/-- The `RTMemCacheFree` that follows a failed constructor call gives the slot back: the
instance is the one from before the page grab, with the decrement of `cFree` undone. -/
theorem free_after_ctor_failure (c1 : RTMEMCACHEINT) (live : List Nat) (pg : RTMEMCACHEPAGE)
    (i : Nat) (H : Option Nat) (hinv1 : Inv 1 c1 live) (hpg : pg ∈ c1.pages)
    (hilt : i < pg.cObjects) (hclr : ASMBitTest pg.mem pg.pbmAlloc i = false)
    (ht1 : ASMBitTest (ASMBitSet pg.mem pg.pbmAlloc i) pg.pbmCtor i = false) :
    RTMemCacheFree
        { (slotTaken c1 pg (pg.cFree - 1) (ASMBitSet pg.mem pg.pbmAlloc i) c1.cFree H) with pages := setPage (slotTaken c1 pg (pg.cFree - 1) (ASMBitSet pg.mem pg.pbmAlloc i) c1.cFree H).pages { pg with cFree := pg.cFree - 1, mem := ASMAtomicBitClear (ASMBitSet (ASMBitSet pg.mem pg.pbmAlloc i) pg.pbmCtor i) pg.pbmCtor i } }
        (pg.pbObjects + i * c1.cbObject)
      = some { c1 with cFree := c1.cFree + 1, pPageHint := H } := by
  have hPg := hinv1.pagesOk pg hpg
  have hbit : ASMBitTest (ASMAtomicBitClear
      (ASMBitSet (ASMBitSet pg.mem pg.pbmAlloc i) pg.pbmCtor i) pg.pbmCtor i)
      pg.pbmAlloc i = true := by
    rw [test_clear]
    have hne : ¬ 8 * pg.pbmAlloc + i = 8 * pg.pbmCtor + i := by
      intro he
      have h1 := test_set_self pg.mem pg.pbmAlloc i
      have h2 := ht1
      unfold ASMBitTest at h1 h2
      rw [he] at h1
      rw [h1] at h2
      cases h2
    simp only [hne, if_false]
    exact test_set_of_test _ _ _ _ _ (test_set_self _ _ _)
  have hfree := free_slot
    (slotTaken c1 pg (pg.cFree - 1) (ASMAtomicBitClear
      (ASMBitSet (ASMBitSet pg.mem pg.pbmAlloc i) pg.pbmCtor i) pg.pbmCtor i)
      c1.cFree H)
    { pg with
      cFree := pg.cFree - 1
      mem := ASMAtomicBitClear
        (ASMBitSet (ASMBitSet pg.mem pg.pbmAlloc i) pg.pbmCtor i) pg.pbmCtor i }
    ⟨hinv1.cfg.magic, hinv1.cfg.cb_pos, hinv1.cfg.per_pos, hinv1.cfg.per_le,
      hinv1.cfg.bits64, hinv1.cfg.fits, hinv1.cfg.max_lt, hinv1.cfg.al_cb,
      hinv1.cfg.al_page⟩
    (by
      show ((setPage c1.pages _).map (fun p => p.pPage)).Nodup
      rw [map_setPage]; exact hinv1.distinct)
    ((mem_setPage c1.pages _ _).mpr (Or.inl ⟨rfl, pg, hpg, rfl⟩))
    hPg.aligned hPg.nobj hPg.objs i hilt hbit
  have hback : setPage (setPage c1.pages
        { pg with cFree := pg.cFree - 1, mem := ASMAtomicBitClear (ASMBitSet (ASMBitSet pg.mem pg.pbmAlloc i) pg.pbmCtor i) pg.pbmCtor i })
      { pg with cFree := pg.cFree - 1 + 1, mem := ASMAtomicBitClear (ASMAtomicBitClear (ASMBitSet (ASMBitSet pg.mem pg.pbmAlloc i) pg.pbmCtor i) pg.pbmCtor i) pg.pbmAlloc i }
      = c1.pages := by
    rw [rollback_page pg i hclr ht1]
    exact (setPage_setPage c1.pages { pg with cFree := pg.cFree - 1, mem := ASMAtomicBitClear (ASMBitSet (ASMBitSet pg.mem pg.pbmAlloc i) pg.pbmCtor i) pg.pbmCtor i } pg rfl).trans
      (setPage_self c1.pages hinv1.distinct pg hpg)
  have hfree2 : RTMemCacheFree
      (slotTaken c1 pg (pg.cFree - 1) (ASMAtomicBitClear
        (ASMBitSet (ASMBitSet pg.mem pg.pbmAlloc i) pg.pbmCtor i) pg.pbmCtor i)
        c1.cFree H) (slotPtr c1 pg i)
      = some { c1 with cFree := c1.cFree + 1, pPageHint := H } :=
    hfree.trans (congrArg (fun P => some ({ c1 with pages := P, cFree := c1.cFree + 1, pPageHint := H } : RTMEMCACHEINT)) hback)
  refine Eq.trans (congrArg (fun P => RTMemCacheFree ({ c1 with pages := P, cFree := c1.cFree, pPageHint := H } : RTMEMCACHEINT) (slotPtr c1 pg i)) ?_) hfree2
  exact setPage_setPage c1.pages
    { pg with cFree := pg.cFree - 1, mem := ASMBitSet pg.mem pg.pbmAlloc i }
    { pg with
      cFree := pg.cFree - 1
      mem := ASMAtomicBitClear
        (ASMBitSet (ASMBitSet pg.mem pg.pbmAlloc i) pg.pbmCtor i) pg.pbmCtor i }
    rfl

/-- How a returning `RTMemCacheAllocEx` call ends, in a world that satisfies the invariant:
the reservation failed and nothing changed; or a slot `i` of the page `choosePage` names was
claimed and handed out; or the constructor failed and the claim was undone. -/
theorem alloc_outcome (arch : Arch) (c : RTMEMCACHEINT) (live : List Nat) (env : AllocEnv)
    (r : AllocResult) (hinv : Inv 0 c live) (hf : PageFresh c env)
    (h : RTMemCacheAllocEx arch c env = some r) :
    ((allocReserve arch c env.pvPage).1 ≠ Status.VINF_SUCCESS ∧
      r.rc = (allocReserve arch c env.pvPage).1 ∧ r.pThis = c ∧ r.ppvObj = none) ∨
    ((allocReserve arch c env.pvPage).1 = Status.VINF_SUCCESS ∧
      Inv 1 (allocReserve arch c env.pvPage).2 live ∧
      ∃ pg i, choosePage (allocReserve arch c env.pvPage).2 = some pg ∧
        pg ∈ (allocReserve arch c env.pvPage).2.pages ∧ 0 ≤ pg.cFree - 1 ∧
        i < pg.cObjects ∧ ASMBitTest pg.mem pg.pbmAlloc i = false ∧
        (∃ pgC, claimBit (allocReserve arch c env.pvPage).2.cBits
          { pg with cFree := pg.cFree - 1 } (pg.cFree - 1).toNat = some (i, pgC)) ∧
        ((r.rc = Status.VINF_SUCCESS ∧
          r.ppvObj = some (slotPtr (allocReserve arch c env.pvPage).2 pg i) ∧
          (((allocReserve arch c env.pvPage).2.pfnCtor = false ∧
            r.pThis = slotTaken (allocReserve arch c env.pvPage).2 pg (pg.cFree - 1)
              (ASMBitSet pg.mem pg.pbmAlloc i) (allocReserve arch c env.pvPage).2.cFree
              (hintAfter (allocReserve arch c env.pvPage).2 pg)) ∨
           ((allocReserve arch c env.pvPage).2.pfnCtor = true ∧
            r.pThis = slotTaken (allocReserve arch c env.pvPage).2 pg (pg.cFree - 1)
              (ASMBitSet (ASMBitSet pg.mem pg.pbmAlloc i) pg.pbmCtor i)
              (allocReserve arch c env.pvPage).2.cFree
              (hintAfter (allocReserve arch c env.pvPage).2 pg)))) ∨
         ((allocReserve arch c env.pvPage).2.pfnCtor = true ∧
          RT_FAILURE env.rcCtor = true ∧ r.rc = env.rcCtor ∧ r.ppvObj = none ∧
          r.pThis = { (allocReserve arch c env.pvPage).2 with cFree := (allocReserve arch c env.pvPage).2.cFree + 1, pPageHint := hintAfter (allocReserve arch c env.pvPage).2 pg }))) := by
  have hmagic := hinv.cfg.magic
  by_cases hok : (allocReserve arch c env.pvPage).1 = Status.VINF_SUCCESS
  · right
    obtain ⟨-, hok1⟩ := reserve_spec arch c live env hinv hf
    obtain ⟨hinv1, -⟩ := hok1 hok
    refine ⟨hok, hinv1, ?_⟩
    have hres : allocReserve arch c env.pvPage
        = (Status.VINF_SUCCESS, (allocReserve arch c env.pvPage).2) := by
      rw [← hok]
    generalize (allocReserve arch c env.pvPage).2 = c1 at hres hinv1 ⊢
    cases hch : choosePage c1 with
    | none =>
      rw [alloc_none_of_choose arch c env c1 hmagic hres hinv1.distinct hch] at h
      cases h
    | some pg =>
      obtain ⟨hpg, h0⟩ := choosePage_some c1 pg hch
      cases hcl : claimBit c1.cBits { pg with cFree := pg.cFree - 1 } (pg.cFree - 1).toNat with
      | none =>
        rw [alloc_none_of_claim arch c env c1 pg hmagic hres hinv1.distinct hch hcl] at h
        cases h
      | some u =>
        obtain ⟨i, pgC⟩ := u
        obtain ⟨hilt, hclr⟩ := claim_lt c1 live pg i pgC hinv1 hpg h0 hcl
        rw [alloc_run arch c env c1 pg i pgC hmagic hres hinv1.distinct hch hcl] at h
        refine ⟨pg, i, rfl, hpg, h0, hilt, hclr, ⟨pgC, hcl⟩, ?_⟩
        rcases construct_cases _ _ _ _ _ h with ⟨e1, e2, e3, -, e5⟩ |
          ⟨e1, -, e2, e3, -, e5⟩ | ⟨e1, -, -, e2, e3, -, e5⟩ | ⟨e1, ht, hrcf, erc, e3, -, e5⟩
        · left
          exact ⟨e2, e3, Or.inl ⟨e1, e5⟩⟩
        · left
          refine ⟨e2, e3, Or.inr ⟨e1, ?_⟩⟩
          rw [e5]
          exact congrArg (fun P => ({ c1 with pages := P, cFree := c1.cFree, pPageHint := hintAfter c1 pg } : RTMEMCACHEINT)) (setPage_setPage _ _ _ rfl)
        · left
          refine ⟨e2, e3, Or.inr ⟨e1, ?_⟩⟩
          rw [e5]
          exact congrArg (fun P => ({ c1 with pages := P, cFree := c1.cFree, pPageHint := hintAfter c1 pg } : RTMEMCACHEINT)) (setPage_setPage _ _ _ rfl)
        · right
          have hF := free_after_ctor_failure c1 live pg i (hintAfter c1 pg) hinv1 hpg hilt hclr ht
          have e := e5.symm.trans hF
          simp only [Option.some.injEq] at e
          exact ⟨e1, hrcf, erc, e3, e⟩
  · left
    rcases alloc_spec arch c live env r hinv hf h with ⟨-, e1, e2, -, e4⟩ | ⟨hs, -⟩
    · exact ⟨hok, e1, e4, e2⟩
    · exact absurd hs hok

/-! ## The counters of reachable worlds -/

theorem sum_setPage (f : RTMEMCACHEPAGE → Int) (l : List RTMEMCACHEPAGE)
    (hd : (l.map (fun p => p.pPage)).Nodup) (pg pg' : RTMEMCACHEPAGE) (hpg : pg ∈ l)
    (h : pg'.pPage = pg.pPage) :
    ((setPage l pg').map f).sum = (l.map f).sum - f pg + f pg' := by
  induction l with
  | nil => cases hpg
  | cons x rest ih =>
    rw [List.map_cons, List.nodup_cons] at hd
    by_cases hx : x.pPage = pg'.pPage
    · have hxe : x = pg := by
        rcases List.mem_cons.mp hpg with rfl | hpg'
        · rfl
        · exact absurd (List.mem_map.mpr ⟨pg, hpg', by rw [hx, h]⟩) hd.1
      have hrest : setPage rest pg' = rest := by
        apply setPage_of_not_mem
        intro q hq he
        exact hd.1 (List.mem_map.mpr ⟨q, hq, by rw [he, hx]⟩)
      have : setPage (x :: rest) pg' = pg' :: setPage rest pg' := by
        unfold setPage
        simp [hx]
      rw [this, hrest, ← hxe]
      simp only [List.map_cons, List.sum_cons]
      omega
    · have hpg' : pg ∈ rest := by
        rcases List.mem_cons.mp hpg with rfl | hpg'
        · exact absurd h.symm hx
        · exact hpg'
      have : setPage (x :: rest) pg' = x :: setPage rest pg' := by
        unfold setPage
        simp [hx]
      rw [this]
      simp only [List.map_cons, List.sum_cons]
      rw [ih hd.2 hpg']
      omega

theorem le_sum_of_mem (l : List RTMEMCACHEPAGE) (h0 : ∀ pg ∈ l, 0 ≤ pg.cFree)
    (pg : RTMEMCACHEPAGE) (hpg : pg ∈ l) : pg.cFree ≤ (l.map (fun p => p.cFree)).sum := by
  induction l with
  | nil => cases hpg
  | cons x rest ih =>
    simp only [List.map_cons, List.sum_cons]
    have hx := h0 x (List.mem_cons_self _ _)
    have hr : 0 ≤ (rest.map (fun p => p.cFree)).sum := by
      apply List.sum_nonneg
      intro v hv
      obtain ⟨q, hq, rfl⟩ := List.mem_map.mp hv
      exact h0 q (List.mem_cons_of_mem _ hq)
    rcases List.mem_cons.mp hpg with rfl | hpg'
    · omega
    · have := ih (fun q hq => h0 q (List.mem_cons_of_mem _ hq)) hpg'
      omega

theorem counters_reserve (arch : Arch) (c : RTMEMCACHEINT) (live : List Nat) (pv : Option Nat)
    (hinv : Inv 0 c live) (hc : Counters 0 c)
    (hok : (allocReserve arch c pv).1 = Status.VINF_SUCCESS) :
    Counters 1 (allocReserve arch c pv).2 := by
  rcases reserve_cases arch c pv with h | h | h | ⟨a, -, h⟩
  · rw [h] at hok; cases hok
  · rw [h] at hok; cases hok
  · rw [h]
    show Counters 1 { c with cFree := c.cFree - 1 }
    refine ⟨hc.pageFree, ?_, hc.sumObj, hc.hintOk⟩
    have := hc.sumFree
    show c.cFree - 1 + 1 = (c.pages.map (fun pg => pg.cFree)).sum
    omega
  · rw [h]
    show Counters 1 { c with pPageHint := some a, pages := c.pages ++ [growPage arch c a], cFree := c.cFree - 1 + ((growPage arch c a).cObjects : Int), cTotal := (c.cTotal + (growPage arch c a).cObjects) % 4294967296 }
    obtain ⟨-, hle⟩ := growPage_cObjects arch c a hinv.cfg.max_lt hinv.total_le
    have hmax := hinv.cfg.max_lt
    refine ⟨?_, ?_, ?_, ?_⟩
    · intro pg hpg
      rcases List.mem_append.mp hpg with hpg | hpg
      · exact hc.pageFree pg hpg
      · rw [List.mem_singleton] at hpg
        subst hpg
        exact Int.natCast_nonneg _
    · have := hc.sumFree
      show c.cFree - 1 + ((growPage arch c a).cObjects : Int) + 1
        = ((c.pages ++ [growPage arch c a]).map (fun pg => pg.cFree)).sum
      rw [List.map_append, List.sum_append]
      have hg : (growPage arch c a).cFree = ((growPage arch c a).cObjects : Int) := rfl
      simp only [List.map_cons, List.map_nil, List.sum_cons, List.sum_nil, hg]
      omega
    · have := hc.sumObj
      show (((c.cTotal + (growPage arch c a).cObjects) % 4294967296 : Nat) : Int)
        = ((c.pages ++ [growPage arch c a]).map (fun pg => (pg.cObjects : Int))).sum
      rw [List.map_append, List.sum_append, Nat.mod_eq_of_lt (by omega)]
      simp only [List.map_cons, List.map_nil, List.sum_cons, List.sum_nil]
      push_cast
      omega
    · intro b hb
      have hb' : some a = some b := hb
      cases hb'
      rw [List.map_append]
      exact List.mem_append_right _ (List.mem_singleton.mpr rfl)

theorem hintAfter_ok (c1 : RTMEMCACHEINT) (pg : RTMEMCACHEPAGE)
    (hh : ∀ a, c1.pPageHint = some a → a ∈ c1.pages.map (fun p => p.pPage))
    (hpg : pg ∈ c1.pages) :
    ∀ a, hintAfter c1 pg = some a → a ∈ c1.pages.map (fun p => p.pPage) := by
  intro a ha
  unfold hintAfter at ha
  split at ha
  · exact hh a ha
  · split at ha
    · cases ha
      exact List.mem_map.mpr ⟨pg, hpg, rfl⟩
    · exact hh a ha

theorem counters_taken (c1 : RTMEMCACHEINT) (pg : RTMEMCACHEPAGE) (M : BitMem)
    (H : Option Nat) (hc : Counters 1 c1) (hd : (c1.pages.map (fun p => p.pPage)).Nodup)
    (hpg : pg ∈ c1.pages) (h0 : 0 ≤ pg.cFree - 1)
    (hH : ∀ a, H = some a → a ∈ c1.pages.map (fun p => p.pPage)) :
    Counters 0 (slotTaken c1 pg (pg.cFree - 1) M c1.cFree H) := by
  refine ⟨?_, ?_, ?_, ?_⟩
  · intro q hq
    rcases (mem_setPage c1.pages _ q).mp hq with ⟨rfl, -⟩ | ⟨hq', -⟩
    · exact h0
    · exact hc.pageFree q hq'
  · show c1.cFree + 0 = ((setPage c1.pages _).map (fun p => p.cFree)).sum
    rw [sum_setPage (fun p => p.cFree) c1.pages hd pg { pg with cFree := pg.cFree - 1, mem := M } hpg rfl]
    have := hc.sumFree
    show c1.cFree + 0 = (c1.pages.map (fun p => p.cFree)).sum - pg.cFree + (pg.cFree - 1)
    omega
  · show (c1.cTotal : Int) = ((setPage c1.pages _).map (fun p => (p.cObjects : Int))).sum
    rw [sum_setPage (fun p => (p.cObjects : Int)) c1.pages hd pg { pg with cFree := pg.cFree - 1, mem := M } hpg rfl]
    have := hc.sumObj
    show (c1.cTotal : Int)
      = (c1.pages.map (fun p => (p.cObjects : Int))).sum - (pg.cObjects : Int)
        + (pg.cObjects : Int)
    omega
  · intro a ha
    show a ∈ (setPage c1.pages _).map (fun p => p.pPage)
    rw [map_setPage]
    exact hH a ha

theorem counters_alloc (arch : Arch) (c : RTMEMCACHEINT) (live : List Nat) (env : AllocEnv)
    (r : AllocResult) (hinv : Inv 0 c live) (hc : Counters 0 c) (hf : PageFresh c env)
    (h : RTMemCacheAllocEx arch c env = some r) : Counters 0 r.pThis := by
  rcases alloc_outcome arch c live env r hinv hf h with ⟨-, -, e, -⟩ |
    ⟨hok, hinv1, pg, i, -, hpg, h0, -, -, -, hcase⟩
  · rw [e]; exact hc
  · have hc1 := counters_reserve arch c live env.pvPage hinv hc hok
    have hH := hintAfter_ok _ pg hc1.hintOk hpg
    rcases hcase with ⟨-, -, ⟨-, e⟩ | ⟨-, e⟩⟩ | ⟨-, -, -, -, e⟩
    · rw [e]; exact counters_taken _ pg _ _ hc1 hinv1.distinct hpg h0 hH
    · rw [e]; exact counters_taken _ pg _ _ hc1 hinv1.distinct hpg h0 hH
    · rw [e]
      refine ⟨hc1.pageFree, ?_, hc1.sumObj, hH⟩
      have := hc1.sumFree
      show (allocReserve arch c env.pvPage).2.cFree + 1 + 0
        = ((allocReserve arch c env.pvPage).2.pages.map (fun pg => pg.cFree)).sum
      omega

theorem counters_free (c : RTMEMCACHEINT) (live : List Nat) (p : Nat) (c' : RTMEMCACHEINT)
    (hinv : Inv 0 c live) (hc : Counters 0 c) (hp : p ∈ live)
    (h : RTMemCacheFree c p = some c') : Counters 0 c' := by
  obtain ⟨pg, hpg, i, hi, rfl⟩ := hinv.liveSlots p hp
  have hPg := hinv.pagesOk pg hpg
  rw [free_slot c pg hinv.cfg hinv.distinct hpg hPg.aligned hPg.nobj hPg.objs i hi
    (hPg.liveBit i hi hp)] at h
  cases h
  refine ⟨?_, ?_, ?_, ?_⟩
  · intro q hq
    rcases (mem_setPage c.pages _ q).mp hq with ⟨rfl, -⟩ | ⟨hq', -⟩
    · have := hc.pageFree pg hpg
      show 0 ≤ pg.cFree + 1
      omega
    · exact hc.pageFree q hq'
  · show c.cFree + 1 + 0 = ((setPage c.pages _).map (fun p => p.cFree)).sum
    rw [sum_setPage (fun p => p.cFree) c.pages hinv.distinct pg { pg with mem := ASMAtomicBitClear pg.mem pg.pbmAlloc i, cFree := pg.cFree + 1 } hpg rfl]
    have := hc.sumFree
    show c.cFree + 1 + 0 = (c.pages.map (fun p => p.cFree)).sum - pg.cFree + (pg.cFree + 1)
    omega
  · show (c.cTotal : Int) = ((setPage c.pages _).map (fun p => (p.cObjects : Int))).sum
    rw [sum_setPage (fun p => (p.cObjects : Int)) c.pages hinv.distinct pg { pg with mem := ASMAtomicBitClear pg.mem pg.pbmAlloc i, cFree := pg.cFree + 1 } hpg rfl]
    have := hc.sumObj
    show (c.cTotal : Int)
      = (c.pages.map (fun p => (p.cObjects : Int))).sum - (pg.cObjects : Int)
        + (pg.cObjects : Int)
    omega
  · intro a ha
    show a ∈ (setPage c.pages _).map (fun p => p.pPage)
    rw [map_setPage]
    exact hc.hintOk a ha

theorem reachable_counters (arch : Arch) (envOk : AllocEnv → Prop) (w : World)
    (hw : Reachable arch envOk w) : Counters 0 w.cache := by
  induction hw with
  | create cbObject cbAlignment cMaxObjects pfnCtor pfnDtor pvUser env pThis hmax hc =>
    obtain ⟨-, hp, ht, hfree⟩ := create_cfg arch cbObject cbAlignment cMaxObjects pfnCtor
      pfnDtor pvUser env pThis hmax hc
    have hhint : pThis.pPageHint = none := by
      obtain ⟨a, -, -, -, rfl⟩ := create_ok arch cbObject cbAlignment cMaxObjects pfnCtor
        pfnDtor pvUser env pThis hc
      rfl
    refine ⟨?_, ?_, ?_, ?_⟩
    · intro pg hpg
      simp only [hp] at hpg
      cases hpg
    · simp only [hp, hfree]
      rfl
    · simp only [hp, ht]
      rfl
    · intro a ha
      simp only [hhint] at ha
      cases ha
  | alloc w env r hw' _ hf h ih =>
    exact counters_alloc arch w.cache w.live env r (reachable_inv arch envOk w hw') ih hf h
  | free w pvObj pThis hw' hp h ih =>
    exact counters_free w.cache w.live pvObj pThis (reachable_inv arch envOk w hw') ih hp h

/-! ## Allocating again after a free -/

theorem reserve_plain (arch : Arch) (c : RTMEMCACHEINT) (pv : Option Nat)
    (h : 0 ≤ c.cFree - 1) :
    allocReserve arch c pv = (Status.VINF_SUCCESS, { c with cFree := c.cFree - 1 }) := by
  unfold allocReserve
  simp only
  rw [if_neg (by omega)]

theorem findPage_setPage_self (l : List RTMEMCACHEPAGE)
    (hd : (l.map (fun p => p.pPage)).Nodup) (pg pg3 : RTMEMCACHEPAGE) (hpg : pg ∈ l)
    (hp3 : pg3.pPage = pg.pPage) : findPage (setPage l pg3) pg3.pPage = some pg3 := by
  apply findPage_of_mem
  · rw [map_setPage]; exact hd
  · exact (mem_setPage l pg3 pg3).mpr (Or.inl ⟨rfl, pg, hpg, hp3.symm⟩)

theorem findPage_setPage_ne (l : List RTMEMCACHEPAGE) (pg3 : RTMEMCACHEPAGE) (a : Nat)
    (hne : a ≠ pg3.pPage) (ph : RTMEMCACHEPAGE) (hf : findPage l a = some ph) :
    findPage (setPage l pg3) a = some ph := by
  induction l with
  | nil => cases hf
  | cons x rest ih =>
    unfold findPage at hf
    rw [List.find?_cons] at hf
    have hs : setPage (x :: rest) pg3
        = (if x.pPage = pg3.pPage then pg3 else x) :: setPage rest pg3 := rfl
    rw [hs]
    unfold findPage
    rw [List.find?_cons]
    by_cases hx : x.pPage = a
    · have hx3 : ¬ x.pPage = pg3.pPage := by rw [hx]; exact hne
      have hd1 : decide (x.pPage = a) = true := decide_eq_true hx
      rw [hd1] at hf
      rw [if_neg hx3, hd1]
      exact hf
    · have hd0 : decide (x.pPage = a) = false := decide_eq_false hx
      rw [hd0] at hf
      by_cases hx3 : x.pPage = pg3.pPage
      · rw [if_pos hx3]
        have : decide (pg3.pPage = a) = false := decide_eq_false (Ne.symm hne)
        rw [this]
        exact ih hf
      · rw [if_neg hx3, hd0]
        exact ih hf

theorem firstFree_setPage (l : List RTMEMCACHEPAGE) (hd : (l.map (fun p => p.pPage)).Nodup)
    (pg pg3 : RTMEMCACHEPAGE) (hff : firstFree l = some pg) (hp3 : pg3.pPage = pg.pPage)
    (h3 : 0 ≤ pg3.cFree - 1) : firstFree (setPage l pg3) = some pg3 := by
  induction l with
  | nil => cases hff
  | cons x rest ih =>
    rw [List.map_cons, List.nodup_cons] at hd
    rw [firstFree_cons] at hff
    have hs : setPage (x :: rest) pg3
        = (if x.pPage = pg3.pPage then pg3 else x) :: setPage rest pg3 := rfl
    rw [hs, firstFree_cons]
    by_cases hx : 0 ≤ x.cFree - 1
    · rw [if_pos hx] at hff
      cases hff
      rw [if_pos hp3.symm, if_pos h3]
    · rw [if_neg hx] at hff
      have hmem := (firstFree_some _ _ hff).1
      have hne : ¬ x.pPage = pg3.pPage := by
        intro he
        exact hd.1 (List.mem_map.mpr ⟨pg, hmem, (he.trans hp3).symm⟩)
      rw [if_neg hne, if_neg hx]
      exact ih hd.2 hff

theorem choosePage_of_none (c : RTMEMCACHEINT) (hh : c.pPageHint = none) :
    choosePage c = firstFree c.pages := by
  unfold choosePage
  rw [hh]

theorem choosePage_of_fail (c : RTMEMCACHEINT) (a : Nat) (ph : RTMEMCACHEPAGE)
    (hh : c.pPageHint = some a) (hf : findPage c.pages a = some ph)
    (hneg : ph.cFree - 1 < 0) : choosePage c = firstFree c.pages := by
  unfold choosePage
  rw [hh]
  simp only [hf]
  rw [if_pos hneg]

theorem choosePage_of_grab (c : RTMEMCACHEINT) (a : Nat) (ph : RTMEMCACHEPAGE)
    (hh : c.pPageHint = some a) (hf : findPage c.pages a = some ph)
    (hok : ¬ ph.cFree - 1 < 0) : choosePage c = some ph := by
  unfold choosePage
  rw [hh]
  simp only [hf]
  rw [if_neg hok]

theorem hintGrabs_of_none (c : RTMEMCACHEINT) (hh : c.pPageHint = none) :
    hintGrabs c = false := by
  unfold hintGrabs
  rw [hh]

theorem hintGrabs_of_some (c : RTMEMCACHEINT) (a : Nat) (ph : RTMEMCACHEPAGE)
    (hh : c.pPageHint = some a) (hf : findPage c.pages a = some ph) :
    hintGrabs c = decide (0 ≤ ph.cFree - 1) := by
  unfold hintGrabs
  rw [hh]
  simp only [hf]

/-- After the chosen page got its slot back, the page-level grab chooses it again. -/
theorem choosePage_again (c1 : RTMEMCACHEINT) (pg pg3 : RTMEMCACHEPAGE) (Y : Int)
    (hd : (c1.pages.map (fun p => p.pPage)).Nodup) (hch : choosePage c1 = some pg)
    (hp3 : pg3.pPage = pg.pPage) (hf3 : pg3.cFree = pg.cFree) :
    choosePage { c1 with pages := setPage c1.pages pg3, cFree := Y, pPageHint := hintAfter c1 pg }
      = some pg3 := by
  obtain ⟨hpg, h0⟩ := choosePage_some c1 pg hch
  have h3 : ¬ pg3.cFree - 1 < 0 := by rw [hf3]; omega
  have h3' : 0 ≤ pg3.cFree - 1 := by omega
  have hself := findPage_setPage_self c1.pages hd pg pg3 hpg hp3
  have hcase1 : hintAfter c1 pg = some pg.pPage →
      choosePage { c1 with pages := setPage c1.pages pg3, cFree := Y, pPageHint := hintAfter c1 pg }
        = some pg3 := by
    intro hH
    exact choosePage_of_grab _ pg3.pPage pg3
      (by show hintAfter c1 pg = some pg3.pPage; rw [hH, hp3]) hself h3
  cases hh : c1.pPageHint with
  | none =>
    have hff : firstFree c1.pages = some pg := by
      rw [← choosePage_of_none c1 hh]; exact hch
    have hg : hintGrabs c1 = false := hintGrabs_of_none c1 hh
    by_cases hX : pg.cFree - 1 > 0
    · apply hcase1
      unfold hintAfter
      rw [hg, if_neg Bool.false_ne_true, if_pos hX]
    · have hH : hintAfter c1 pg = none := by
        unfold hintAfter
        rw [hg, if_neg Bool.false_ne_true, if_neg hX, hh]
      rw [choosePage_of_none _ (by show hintAfter c1 pg = none; exact hH)]
      exact firstFree_setPage c1.pages hd pg pg3 hff hp3 h3'
  | some a =>
    cases hf : findPage c1.pages a with
    | none =>
      exfalso
      unfold choosePage at hch
      rw [hh] at hch
      simp only [hf] at hch
      cases hch
    | some ph =>
      obtain ⟨hph, hpha⟩ := findPage_some _ _ _ hf
      by_cases hneg : ph.cFree - 1 < 0
      · have hff : firstFree c1.pages = some pg := by
          rw [← choosePage_of_fail c1 a ph hh hf hneg]; exact hch
        have hg : hintGrabs c1 = false := by
          rw [hintGrabs_of_some c1 a ph hh hf]
          exact decide_eq_false (by omega)
        by_cases hX : pg.cFree - 1 > 0
        · apply hcase1
          unfold hintAfter
          rw [hg, if_neg Bool.false_ne_true, if_pos hX]
        · have hH : hintAfter c1 pg = some a := by
            unfold hintAfter
            rw [hg, if_neg Bool.false_ne_true, if_neg hX, hh]
          have hne : a ≠ pg3.pPage := by
            intro he
            have hpe : ph = pg :=
              eq_of_mem_of_pPage_eq c1.pages hd ph pg hph hpg (by rw [hpha, he, hp3])
            rw [hpe] at hneg
            omega
          rw [choosePage_of_fail _ a ph (by show hintAfter c1 pg = some a; exact hH)
            (findPage_setPage_ne c1.pages pg3 a hne ph hf) hneg]
          exact firstFree_setPage c1.pages hd pg pg3 hff hp3 h3'
      · have hpe : ph = pg := by
          have h1 := choosePage_of_grab c1 a ph hh hf hneg
          rw [h1] at hch
          exact Option.some.inj hch
        have hg : hintGrabs c1 = true := by
          rw [hintGrabs_of_some c1 a ph hh hf]
          exact decide_eq_true (by omega)
        apply hcase1
        unfold hintAfter
        rw [hg, if_pos rfl, hh, ← hpha, hpe]

theorem find_first_congr (p q : Nat → Bool) (i : Nat) (hq : q i = true)
    (hpq : ∀ j, p j = false → j ≠ i → q j = false) (l : List Nat)
    (h : l.find? p = some i) : l.find? q = some i := by
  induction l with
  | nil => cases h
  | cons x rest ih =>
    rw [List.find?_cons] at h ⊢
    cases hp : p x with
    | true =>
      rw [hp] at h
      have hx : x = i := Option.some.inj h
      rw [hx, hq]
    | false =>
      rw [hp] at h
      by_cases hx : x = i
      · rw [hx, hq]
      · rw [hpq x hp hx]
        exact ih h

theorem firstClear_congr (m m' : BitMem) (pv cBits i : Nat)
    (h : ASMBitFirstClear m pv cBits = (i : Int)) (hi : ASMBitTest m' pv i = false)
    (hsub : ∀ j, ASMBitTest m pv j = true → j ≠ i → ASMBitTest m' pv j = true) :
    ASMBitFirstClear m' pv cBits = (i : Int) := by
  unfold ASMBitFirstClear at h ⊢
  by_cases hc : cBits ≠ 0
  · rw [if_pos hc] at h ⊢
    cases hfind : (List.range (RT_ALIGN cBits 32)).find? (fun j => !ASMBitTest m pv j) with
    | none =>
      rw [hfind] at h
      simp only at h
      omega
    | some k =>
      rw [hfind] at h
      simp only at h
      have hk : k = i := by omega
      rw [hk] at hfind
      have := find_first_congr (fun j => !ASMBitTest m pv j) (fun j => !ASMBitTest m' pv j) i
        (by simp [hi])
        (by
          intro j hj hne
          have hj' : ASMBitTest m pv j = true := by simpa using hj
          simp [hsub j hj' hne])
        _ hfind
      rw [this]
  · rw [if_neg hc] at h
    omega

/-- The bit claim repeats itself on a memory in which the claimed bit is clear again and no
other allocation bit has been cleared. -/
theorem claim_again (cBits : Nat) (pgA : RTMEMCACHEPAGE) (k i : Nat) (pgC : RTMEMCACHEPAGE)
    (h : claimBit cBits pgA k = some (i, pgC)) (M3 : BitMem)
    (ha : ASMBitTest M3 pgA.pbmAlloc i = false)
    (hb : ∀ j, ASMBitTest pgA.mem pgA.pbmAlloc j = true → j ≠ i →
      ASMBitTest M3 pgA.pbmAlloc j = true) :
    ∃ pgC', claimBit cBits { pgA with mem := M3 } k = some (i, pgC') := by
  unfold claimBit ASMAtomicBitTestAndSet at h ⊢
  simp only at h ⊢
  by_cases ht : ASMBitTest pgA.mem pgA.pbmAlloc k = true
  · simp only [ht, if_true] at h
    by_cases hge : ASMBitFirstClear (ASMBitSet pgA.mem pgA.pbmAlloc k) pgA.pbmAlloc cBits ≥ 0
    · simp only [hge, if_true] at h
      obtain ⟨-, hclr⟩ := firstClear_spec _ _ _ _ rfl hge
      simp only [hclr, Bool.false_eq_true, not_false_eq_true, if_true, Option.some.injEq,
        Prod.mk.injEq] at h
      obtain ⟨hi, -⟩ := h
      have hfc : ASMBitFirstClear (ASMBitSet pgA.mem pgA.pbmAlloc k) pgA.pbmAlloc cBits
          = (i : Int) := by
        rw [← hi]
        exact (Int.toNat_of_nonneg hge).symm
      rw [hi] at hclr
      have hik : i ≠ k := by
        intro he
        rw [he, test_set_self] at hclr
        cases hclr
      have ht3 : ASMBitTest M3 pgA.pbmAlloc k = true := hb k ht (Ne.symm hik)
      have hclr3 : ASMBitTest (ASMBitSet M3 pgA.pbmAlloc k) pgA.pbmAlloc i = false := by
        rw [test_set]
        have : ¬ 8 * pgA.pbmAlloc + i = 8 * pgA.pbmAlloc + k := by omega
        rw [if_neg this]
        exact ha
      have hfc3 := firstClear_congr (ASMBitSet pgA.mem pgA.pbmAlloc k)
        (ASMBitSet M3 pgA.pbmAlloc k) pgA.pbmAlloc cBits i hfc hclr3
        (by
          intro j hj hne
          rw [test_set] at hj ⊢
          by_cases hjk : 8 * pgA.pbmAlloc + j = 8 * pgA.pbmAlloc + k
          · rw [if_pos hjk]
          · rw [if_neg hjk] at hj ⊢
            exact hb j hj hne)
      simp only [ht3, if_true, hfc3]
      have hnn : (i : Int) ≥ 0 := Int.natCast_nonneg _
      simp only [hnn, if_true, Int.toNat_ofNat, hclr3, Bool.false_eq_true, not_false_eq_true]
      exact ⟨_, rfl⟩
    · simp [hge] at h
  · simp only [ht, Bool.false_eq_true, if_false, Option.some.injEq, Prod.mk.injEq] at h
    obtain ⟨hk, -⟩ := h
    rw [hk]
    simp only [ha, Bool.false_eq_true, if_false]
    exact ⟨_, rfl⟩

theorem construct_noctor (d : RTMEMCACHEINT) (q : RTMEMCACHEPAGE) (i : Nat) (rcCtor : Status)
    (h : d.pfnCtor = false) :
    ∃ r, allocConstruct d q i rcCtor = some r ∧ r.rc = Status.VINF_SUCCESS ∧
      r.ppvObj = some (q.pbObjects + i * d.cbObject) ∧ r.ctorCall = none ∧ r.pThis = d := by
  unfold allocConstruct
  simp only [h, Bool.false_eq_true, if_false]
  exact ⟨_, rfl, rfl, rfl, rfl, rfl⟩

theorem construct_constructed (d : RTMEMCACHEINT) (q : RTMEMCACHEPAGE) (i : Nat)
    (rcCtor : Status) (h : d.pfnCtor = true) (ht : ASMBitTest q.mem q.pbmCtor i = true) :
    ∃ r, allocConstruct d q i rcCtor = some r ∧ r.rc = Status.VINF_SUCCESS ∧
      r.ppvObj = some (q.pbObjects + i * d.cbObject) ∧ r.ctorCall = none ∧
      r.pThis = { d with pages := setPage d.pages { q with mem := ASMBitSet q.mem q.pbmCtor i } } := by
  unfold allocConstruct
  rw [if_pos h]
  simp only [ASMAtomicBitTestAndSet, ht, not_true_eq_false, if_false]
  exact ⟨_, rfl, rfl, rfl, rfl, rfl⟩

/-- A call that gets through the reservation, the page choice and the bit claim returns
success without a constructor call when no constructor is registered or the slot is already
constructed. -/
theorem alloc_run_constructed (arch : Arch) (c : RTMEMCACHEINT) (env : AllocEnv)
    (c1 : RTMEMCACHEINT) (pg : RTMEMCACHEPAGE) (i : Nat) (pgC : RTMEMCACHEPAGE)
    (hmagic : c.u32Magic = RTMEMCACHE_MAGIC)
    (hres : allocReserve arch c env.pvPage = (Status.VINF_SUCCESS, c1))
    (hd : (c1.pages.map (fun p => p.pPage)).Nodup) (hch : choosePage c1 = some pg)
    (hcl : claimBit c1.cBits { pg with cFree := pg.cFree - 1 } (pg.cFree - 1).toNat
      = some (i, pgC))
    (hcase : c1.pfnCtor = false ∨
      ASMBitTest (ASMBitSet pg.mem pg.pbmAlloc i) pg.pbmCtor i = true) :
    ∃ r, RTMemCacheAllocEx arch c env = some r ∧ r.rc = Status.VINF_SUCCESS ∧
      r.ppvObj = some (slotPtr c1 pg i) ∧ r.ctorCall = none ∧
      r.pThis.cFree = c1.cFree ∧ r.pThis.cTotal = c1.cTotal := by
  rw [alloc_run arch c env c1 pg i pgC hmagic hres hd hch hcl]
  by_cases hct : c1.pfnCtor = true
  · have ht : ASMBitTest (ASMBitSet pg.mem pg.pbmAlloc i) pg.pbmCtor i = true := by
      rcases hcase with hn | ht
      · rw [hn] at hct; cases hct
      · exact ht
    obtain ⟨r, hr, e1, e2, e3, e4⟩ := construct_constructed
      (slotTaken c1 pg (pg.cFree - 1) (ASMBitSet pg.mem pg.pbmAlloc i) c1.cFree
        (hintAfter c1 pg))
      { pg with cFree := pg.cFree - 1, mem := ASMBitSet pg.mem pg.pbmAlloc i } i env.rcCtor
      hct ht
    exact ⟨r, hr, e1, e2, e3, by rw [e4]; rfl, by rw [e4]; rfl⟩
  · have hcf : c1.pfnCtor = false := by simpa using hct
    obtain ⟨r, hr, e1, e2, e3, e4⟩ := construct_noctor
      (slotTaken c1 pg (pg.cFree - 1) (ASMBitSet pg.mem pg.pbmAlloc i) c1.cFree
        (hintAfter c1 pg))
      { pg with cFree := pg.cFree - 1, mem := ASMBitSet pg.mem pg.pbmAlloc i } i env.rcCtor
      hcf
    exact ⟨r, hr, e1, e2, e3, by rw [e4]; rfl, by rw [e4]; rfl⟩

/-- The heart of free-then-allocate: in the instance `c1` (after the reservation) slot `i` of
the chosen page `pg` was claimed and handed out, leaving the memory `M'`.  Freeing the slot
and allocating again returns the same slot without growth and without a constructor call. -/
theorem realloc_core (arch : Arch) (c1 : RTMEMCACHEINT) (live : List Nat)
    (pg : RTMEMCACHEPAGE) (i : Nat) (M' : BitMem) (env2 : AllocEnv)
    (hinv1 : Inv 1 c1 live) (hcnt1 : Counters 1 c1) (hch : choosePage c1 = some pg)
    (hilt : i < pg.cObjects)
    (hcl : ∃ pgC, claimBit c1.cBits { pg with cFree := pg.cFree - 1 } (pg.cFree - 1).toNat
      = some (i, pgC))
    (hM : (c1.pfnCtor = false ∧ M' = ASMBitSet pg.mem pg.pbmAlloc i) ∨
      (c1.pfnCtor = true ∧ M' = ASMBitSet (ASMBitSet pg.mem pg.pbmAlloc i) pg.pbmCtor i)) :
    ∃ c3 r2,
      RTMemCacheFree (slotTaken c1 pg (pg.cFree - 1) M' c1.cFree (hintAfter c1 pg))
        (slotPtr c1 pg i) = some c3 ∧
      RTMemCacheAllocEx arch c3 env2 = some r2 ∧ r2.rc = Status.VINF_SUCCESS ∧
      r2.ppvObj = some (slotPtr c1 pg i) ∧ r2.ctorCall = none ∧
      r2.pThis.cFree = c1.cFree ∧ r2.pThis.cTotal = c1.cTotal := by
  obtain ⟨hpg, h0⟩ := choosePage_some c1 pg hch
  obtain ⟨pgC, hcl⟩ := hcl
  have hPg := hinv1.pagesOk pg hpg
  have hd := hinv1.distinct
  have hA : ASMBitTest M' pg.pbmAlloc i = true := by
    rcases hM with ⟨-, rfl⟩ | ⟨-, rfl⟩
    · exact test_set_self _ _ _
    · exact test_set_of_test _ _ _ _ _ (test_set_self _ _ _)
  have hsup : ∀ j, ASMBitTest pg.mem pg.pbmAlloc j = true →
      ASMBitTest M' pg.pbmAlloc j = true := by
    intro j hj
    rcases hM with ⟨-, rfl⟩ | ⟨-, rfl⟩
    · exact test_set_of_test _ _ _ _ _ hj
    · exact test_set_of_test _ _ _ _ _ (test_set_of_test _ _ _ _ _ hj)
  have hC : c1.pfnCtor = true → ASMBitTest M' pg.pbmCtor i = true := by
    intro hct
    rcases hM with ⟨hn, -⟩ | ⟨-, rfl⟩
    · rw [hn] at hct; cases hct
    · exact test_set_self _ _ _
  have hfree := free_slot
    (slotTaken c1 pg (pg.cFree - 1) M' c1.cFree (hintAfter c1 pg))
    { pg with cFree := pg.cFree - 1, mem := M' }
    ⟨hinv1.cfg.magic, hinv1.cfg.cb_pos, hinv1.cfg.per_pos, hinv1.cfg.per_le,
      hinv1.cfg.bits64, hinv1.cfg.fits, hinv1.cfg.max_lt, hinv1.cfg.al_cb,
      hinv1.cfg.al_page⟩
    (by
      show ((setPage c1.pages _).map (fun p => p.pPage)).Nodup
      rw [map_setPage]; exact hd)
    ((mem_setPage c1.pages _ _).mpr (Or.inl ⟨rfl, pg, hpg, rfl⟩))
    hPg.aligned hPg.nobj hPg.objs i hilt hA
  have e : pg.cFree - 1 + 1 = pg.cFree := by omega
  have hpage : ({ pg with cFree := pg.cFree - 1 + 1, mem := ASMAtomicBitClear M' pg.pbmAlloc i } : RTMEMCACHEPAGE)
      = { pg with mem := ASMAtomicBitClear M' pg.pbmAlloc i } := by
    rw [e]
  have hpages : setPage (setPage c1.pages { pg with cFree := pg.cFree - 1, mem := M' })
      { pg with cFree := pg.cFree - 1 + 1, mem := ASMAtomicBitClear M' pg.pbmAlloc i }
      = setPage c1.pages { pg with mem := ASMAtomicBitClear M' pg.pbmAlloc i } := by
    rw [hpage]
    exact setPage_setPage _ _ _ rfl
  have hfree3 : RTMemCacheFree (slotTaken c1 pg (pg.cFree - 1) M' c1.cFree (hintAfter c1 pg))
      (slotPtr c1 pg i)
      = some { c1 with pages := setPage c1.pages { pg with mem := ASMAtomicBitClear M' pg.pbmAlloc i }, cFree := c1.cFree + 1, pPageHint := hintAfter c1 pg } :=
    hfree.trans (congrArg (fun P => some ({ c1 with pages := P, cFree := c1.cFree + 1, pPageHint := hintAfter c1 pg } : RTMEMCACHEINT)) hpages)
  have hsum := le_sum_of_mem c1.pages hcnt1.pageFree pg hpg
  have hc1 : 0 ≤ c1.cFree := by
    have := hcnt1.sumFree
    omega
  have e2 : c1.cFree + 1 - 1 = c1.cFree := by omega
  have hres := reserve_plain arch
    { c1 with pages := setPage c1.pages { pg with mem := ASMAtomicBitClear M' pg.pbmAlloc i }, cFree := c1.cFree + 1, pPageHint := hintAfter c1 pg }
    env2.pvPage (by show 0 ≤ c1.cFree + 1 - 1; omega)
  have hch4 := choosePage_again c1 pg { pg with mem := ASMAtomicBitClear M' pg.pbmAlloc i }
    (c1.cFree + 1 - 1) hd hch rfl rfl
  have ha3 : ASMBitTest (ASMAtomicBitClear M' pg.pbmAlloc i) pg.pbmAlloc i = false := by
    rw [test_clear, if_pos rfl]
  have hb3 : ∀ j, ASMBitTest pg.mem pg.pbmAlloc j = true → j ≠ i →
      ASMBitTest (ASMAtomicBitClear M' pg.pbmAlloc i) pg.pbmAlloc j = true := by
    intro j hj hne
    rw [test_clear]
    have : ¬ 8 * pg.pbmAlloc + j = 8 * pg.pbmAlloc + i := by omega
    rw [if_neg this]
    exact hsup j hj
  obtain ⟨pgC4, hcl4⟩ := claim_again c1.cBits { pg with cFree := pg.cFree - 1 }
    (pg.cFree - 1).toNat i pgC hcl (ASMAtomicBitClear M' pg.pbmAlloc i) ha3 hb3
  have hcase : c1.pfnCtor = false ∨
      ASMBitTest (ASMBitSet (ASMAtomicBitClear M' pg.pbmAlloc i) pg.pbmAlloc i)
        pg.pbmCtor i = true := by
    by_cases hct : c1.pfnCtor = true
    · right
      rw [test_set]
      by_cases hal : 8 * pg.pbmCtor + i = 8 * pg.pbmAlloc + i
      · rw [if_pos hal]
      · rw [if_neg hal, test_clear, if_neg hal]
        exact hC hct
    · left
      simpa using hct
  obtain ⟨r2, hr2, e1, e2', e3, e4, e5⟩ := alloc_run_constructed arch
    { c1 with pages := setPage c1.pages { pg with mem := ASMAtomicBitClear M' pg.pbmAlloc i }, cFree := c1.cFree + 1, pPageHint := hintAfter c1 pg }
    env2 _ { pg with mem := ASMAtomicBitClear M' pg.pbmAlloc i } i pgC4 hinv1.cfg.magic hres
    (by
      show ((setPage c1.pages _).map (fun p => p.pPage)).Nodup
      rw [map_setPage]; exact hd)
    hch4 hcl4 hcase
  exact ⟨_, r2, hfree3, hr2, e1, e2', e3, e4.trans e2, e5⟩

/-- C28 (free-then-allocate reuse): in every reachable world, when `RTMemCacheAllocEx`
returns with the pointer `p` and `RTMemCacheFree(p)` is called next, the free returns, and
the `RTMemCacheAllocEx` call after it returns `VINF_SUCCESS` with the same pointer `p`,
whatever the environment would answer: it neither grows the cache nor invokes the
constructor. -/
theorem free_then_allocate (arch : Arch) (envOk : AllocEnv → Prop) (w : World)
    (hw : Reachable arch envOk w) (env env2 : AllocEnv) (hf : PageFresh w.cache env)
    (r : AllocResult) (h : RTMemCacheAllocEx arch w.cache env = some r) (p : Nat)
    (hp : r.ppvObj = some p) :
    ∃ c3 r2, RTMemCacheFree r.pThis p = some c3 ∧
      RTMemCacheAllocEx arch c3 env2 = some r2 ∧ r2.rc = Status.VINF_SUCCESS ∧
      r2.ppvObj = some p ∧ r2.ctorCall = none := by
  have hinv := reachable_inv arch envOk w hw
  have hcnt := reachable_counters arch envOk w hw
  rcases alloc_outcome arch w.cache w.live env r hinv hf h with ⟨-, -, -, e⟩ |
    ⟨hok, hinv1, pg, i, hch, hpg, h0, hilt, hclr, hcl, hcase⟩
  · rw [e] at hp; cases hp
  · have hcnt1 := counters_reserve arch w.cache w.live env.pvPage hinv hcnt hok
    rcases hcase with ⟨-, e3, hst⟩ | ⟨-, -, -, e3, -⟩
    · have hpe : slotPtr (allocReserve arch w.cache env.pvPage).2 pg i = p := by
        rw [e3] at hp; exact Option.some.inj hp
      subst hpe
      rcases hst with ⟨hn, e5⟩ | ⟨hy, e5⟩
      · rw [e5]
        obtain ⟨c3, r2, h1, h2, h3, h4, h5, -, -⟩ := realloc_core arch _ w.live pg i _ env2
          hinv1 hcnt1 hch hilt hcl (Or.inl ⟨hn, rfl⟩)
        exact ⟨c3, r2, h1, h2, h3, h4, h5⟩
      · rw [e5]
        obtain ⟨c3, r2, h1, h2, h3, h4, h5, -, -⟩ := realloc_core arch _ w.live pg i _ env2
          hinv1 hcnt1 hch hilt hcl (Or.inr ⟨hy, rfl⟩)
        exact ⟨c3, r2, h1, h2, h3, h4, h5⟩
    · rw [e3] at hp; cases hp

theorem free_then_allocate_witness :
    ∃ c3 r2, RTMemCacheFree sampleAlloc1.pThis 7680 = some c3 ∧
      RTMemCacheAllocEx Arch.bits64 c3 sampleEnvCtorFails = some r2 ∧
      r2.rc = Status.VINF_SUCCESS ∧ r2.ppvObj = some 7680 ∧ r2.ctorCall = none :=
  free_then_allocate Arch.bits64 anyEnv sampleWorld (sampleWorld_reachable anyEnv)
    (sampleEnv 4096) sampleEnvCtorFails (sample_fresh 4096 (by decide)) sampleAlloc1
    sampleAlloc1_eq 7680 (by decide)

/-- The same on a 32-bit host where the two bitmaps of the page coincide: after
`RTMemCacheCreate(&h, 68, 4, 100, ctor, dtor, NULL)`, one allocation (pointer 8124) and its
free, the next allocation returns 8124 again. -/
theorem sample_reuse_bits32 :
    sampleAlloc68.ppvObj = some 8124 ∧
    (returned (RTMemCacheAllocEx Arch.bits32 (freed sampleAlloc68.pThis 8124)
      sampleEnvCtorFails)).ppvObj = some 8124 := by
  refine ⟨by decide, by decide⟩

/-! ## The allocation bitmap where the bitmaps are apart -/

theorem reserve_cfg (arch : Arch) (c : RTMEMCACHEINT) (pv : Option Nat) :
    (allocReserve arch c pv).2.cPerPage = c.cPerPage ∧
    (allocReserve arch c pv).2.cbObject = c.cbObject ∧
    (allocReserve arch c pv).2.cBits = c.cBits ∧
    (allocReserve arch c pv).2.pfnCtor = c.pfnCtor := by
  rcases reserve_cases arch c pv with h | h | h | ⟨a, -, h⟩ <;> rw [h] <;>
    exact ⟨rfl, rfl, rfl, rfl⟩

theorem alloc_cfg (arch : Arch) (c : RTMEMCACHEINT) (live : List Nat) (env : AllocEnv)
    (r : AllocResult) (hinv : Inv 0 c live) (hf : PageFresh c env)
    (h : RTMemCacheAllocEx arch c env = some r) :
    r.pThis.cPerPage = c.cPerPage ∧ r.pThis.cbObject = c.cbObject ∧
    r.pThis.cBits = c.cBits ∧ r.pThis.pfnCtor = c.pfnCtor := by
  have hcfg := reserve_cfg arch c env.pvPage
  rcases alloc_outcome arch c live env r hinv hf h with ⟨-, -, e, -⟩ |
    ⟨-, -, pg, i, -, -, -, -, -, -, hcase⟩
  · rw [e]; exact ⟨rfl, rfl, rfl, rfl⟩
  · rcases hcase with ⟨-, -, ⟨-, e⟩ | ⟨-, e⟩⟩ | ⟨-, -, -, -, e⟩ <;> rw [e] <;> exact hcfg

theorem free_cfg (c : RTMEMCACHEINT) (live : List Nat) (p : Nat) (c' : RTMEMCACHEINT)
    (hinv : Inv 0 c live) (hp : p ∈ live) (h : RTMemCacheFree c p = some c') :
    c'.cPerPage = c.cPerPage ∧ c'.cbObject = c.cbObject ∧ c'.cBits = c.cBits ∧
    c'.pfnCtor = c.pfnCtor := by
  obtain ⟨pg, hpg, i, hi, rfl⟩ := hinv.liveSlots p hp
  have hPg := hinv.pagesOk pg hpg
  rw [free_slot c pg hinv.cfg hinv.distinct hpg hPg.aligned hPg.nobj hPg.objs i hi
    (hPg.liveBit i hi hp)] at h
  cases h
  exact ⟨rfl, rfl, rfl, rfl⟩

/-- Where the 72 bytes growth reserves for the header fit the page, the construction bitmap
of a new page ends before its allocation bitmap starts (any pointer width). -/
theorem page_layout_apart (arch : Arch) (c : RTMEMCACHEINT) (a : Nat) (hc : CfgOk c)
    (hfit : 72 + c.cPerPage * c.cbObject + c.cBits / 8 * 2 ≤ 4096) (ha : a % PAGE_SIZE = 0) :
    (growPage arch c a).pbmCtor + c.cBits / 8 ≤ (growPage arch c a).pbmAlloc := by
  obtain ⟨hn1, -, -, -⟩ := page_layout_common arch c a hc ha
  have hctor := growPage_pbmCtor arch c a ha
  have hobjs : (growPage arch c a).pbObjects
      = a + 4096 - c.cbObject * (growPage arch c a).cObjects := rfl
  have halloc : (growPage arch c a).pbmAlloc
      = ((growPage arch c a).pbObjects - c.cBits / 8)
        - (((growPage arch c a).pbObjects - c.cBits / 8) &&& 7) := rfl
  have hP : PAGE_SIZE = 4096 := rfl
  generalize growPage arch c a = pg at *
  have h1 : pg.cObjects * c.cbObject ≤ c.cPerPage * c.cbObject := Nat.mul_le_mul_right _ hn1
  have h2 : c.cbObject * pg.cObjects = pg.cObjects * c.cbObject := Nat.mul_comm _ _
  have h4 := hc.bits64
  rw [hctor, halloc, hobjs, and_mask7]
  rw [hP] at ha
  omega

theorem exact_reserve (arch : Arch) (c : RTMEMCACHEINT) (live : List Nat) (env : AllocEnv)
    (hinv : Inv 0 c live) (hf : PageFresh c env)
    (hfit : 72 + c.cPerPage * c.cbObject + c.cBits / 8 * 2 ≤ 4096) (hx : Exact c live)
    (hok : (allocReserve arch c env.pvPage).1 = Status.VINF_SUCCESS) :
    Exact (allocReserve arch c env.pvPage).2 live := by
  rcases reserve_cases arch c env.pvPage with h | h | h | ⟨a, ha, h⟩
  · rw [h] at hok; cases hok
  · rw [h] at hok; cases hok
  · rw [h]
    exact ⟨hx.disjoint, hx.bitLive⟩
  · rw [h]
    obtain ⟨hal, -, -⟩ := hf a ha
    refine ⟨?_, ?_⟩
    · intro pg hpg
      rcases List.mem_append.mp hpg with hpg | hpg
      · exact hx.disjoint pg hpg
      · rw [List.mem_singleton] at hpg
        subst hpg
        exact page_layout_apart arch c a hinv.cfg hfit hal
    · intro pg hpg i hi hbit
      rcases List.mem_append.mp hpg with hpg | hpg
      · exact hx.bitLive pg hpg i hi hbit
      · rw [List.mem_singleton] at hpg
        subst hpg
        exfalso
        have hm : ASMBitTest (markPadding zeroMem (growPage arch c a).pbmAlloc
            (growPage arch c a).cObjects c.cBits) (growPage arch c a).pbmAlloc i = true := hbit
        rw [markPadding_test] at hm
        have hno : ¬ (8 * (growPage arch c a).pbmAlloc + (growPage arch c a).cObjects
            ≤ 8 * (growPage arch c a).pbmAlloc + i ∧
            8 * (growPage arch c a).pbmAlloc + i
              < 8 * (growPage arch c a).pbmAlloc + (growPage arch c a).cObjects
                + (c.cBits - (growPage arch c a).cObjects)) := by omega
        rw [if_neg hno] at hm
        cases hm

theorem exact_taken (c1 : RTMEMCACHEINT) (live : List Nat) (pg : RTMEMCACHEPAGE) (i : Nat)
    (X Y : Int) (H : Option Nat) (M' : BitMem) (hinv1 : Inv 1 c1 live) (hx : Exact c1 live)
    (hpg : pg ∈ c1.pages) (hilt : i < pg.cObjects)
    (hM : M' = ASMBitSet pg.mem pg.pbmAlloc i ∨
      M' = ASMBitSet (ASMBitSet pg.mem pg.pbmAlloc i) pg.pbmCtor i) :
    Exact (slotTaken c1 pg X M' Y H) (slotPtr c1 pg i :: live) := by
  have hPg := hinv1.pagesOk pg hpg
  have hdis := hx.disjoint pg hpg
  have hb8 : 8 * (c1.cBits / 8) = c1.cBits := by
    have := hinv1.cfg.bits64
    omega
  have hle := hinv1.cfg.per_le
  have hn := hPg.nobj
  refine ⟨?_, ?_⟩
  · intro q hq
    rcases (mem_setPage c1.pages _ q).mp hq with ⟨rfl, -⟩ | ⟨hq', -⟩
    · exact hdis
    · exact hx.disjoint q hq'
  · intro q hq j hj hbit
    rcases (mem_setPage c1.pages _ q).mp hq with ⟨rfl, -⟩ | ⟨hq', -⟩
    · by_cases hji : j = i
      · rw [hji]
        exact List.mem_cons_self _ _
      · apply List.mem_cons_of_mem
        apply hx.bitLive pg hpg j hj
        have hj' : j < pg.cObjects := hj
        have hbit' : ASMBitTest M' pg.pbmAlloc j = true := hbit
        have hne1 : ¬ 8 * pg.pbmAlloc + j = 8 * pg.pbmAlloc + i := by omega
        have hne2 : ¬ 8 * pg.pbmAlloc + j = 8 * pg.pbmCtor + i := by omega
        rcases hM with rfl | rfl
        · rw [test_set, if_neg hne1] at hbit'
          exact hbit'
        · rw [test_set, if_neg hne2, test_set, if_neg hne1] at hbit'
          exact hbit'
    · exact List.mem_cons_of_mem _ (hx.bitLive q hq' j hj hbit)

theorem exact_alloc (arch : Arch) (c : RTMEMCACHEINT) (live : List Nat) (env : AllocEnv)
    (r : AllocResult) (hinv : Inv 0 c live) (hf : PageFresh c env)
    (hfit : 72 + c.cPerPage * c.cbObject + c.cBits / 8 * 2 ≤ 4096) (hx : Exact c live)
    (h : RTMemCacheAllocEx arch c env = some r) :
    Exact r.pThis (match r.ppvObj with
      | some pvObj => pvObj :: live
      | none => live) := by
  rcases alloc_outcome arch c live env r hinv hf h with ⟨-, -, e, e2⟩ |
    ⟨hok, hinv1, pg, i, -, hpg, -, hilt, -, -, hcase⟩
  · rw [e, e2]; exact hx
  · have hx1 := exact_reserve arch c live env hinv hf hfit hx hok
    rcases hcase with ⟨-, e3, ⟨-, e⟩ | ⟨-, e⟩⟩ | ⟨-, -, -, e3, e⟩
    · rw [e, e3]
      exact exact_taken _ live pg i _ _ _ _ hinv1 hx1 hpg hilt (Or.inl rfl)
    · rw [e, e3]
      exact exact_taken _ live pg i _ _ _ _ hinv1 hx1 hpg hilt (Or.inr rfl)
    · rw [e, e3]
      exact ⟨hx1.disjoint, hx1.bitLive⟩

theorem exact_free (c : RTMEMCACHEINT) (live : List Nat) (p : Nat) (c' : RTMEMCACHEINT)
    (hinv : Inv 0 c live) (hx : Exact c live) (hp : p ∈ live)
    (h : RTMemCacheFree c p = some c') : Exact c' (live.erase p) := by
  obtain ⟨pg, hpg, i, hi, rfl⟩ := hinv.liveSlots p hp
  have hPg := hinv.pagesOk pg hpg
  rw [free_slot c pg hinv.cfg hinv.distinct hpg hPg.aligned hPg.nobj hPg.objs i hi
    (hPg.liveBit i hi hp)] at h
  cases h
  have hon := slot_onPage c pg hinv.cfg hPg.nobj hPg.objs i hi
  refine ⟨?_, ?_⟩
  · intro q hq
    rcases (mem_setPage c.pages _ q).mp hq with ⟨rfl, -⟩ | ⟨hq', -⟩
    · exact hx.disjoint pg hpg
    · exact hx.disjoint q hq'
  · intro q hq j hj hbit
    rcases (mem_setPage c.pages _ q).mp hq with ⟨rfl, -⟩ | ⟨hq', hne⟩
    · have hbit' : ASMBitTest (ASMAtomicBitClear pg.mem pg.pbmAlloc i) pg.pbmAlloc j = true :=
        hbit
      rw [test_clear] at hbit'
      by_cases hji : 8 * pg.pbmAlloc + j = 8 * pg.pbmAlloc + i
      · rw [if_pos hji] at hbit'; cases hbit'
      · rw [if_neg hji] at hbit'
        have hm := hx.bitLive pg hpg j hj hbit'
        have hne : slotPtr c pg j ≠ slotPtr c pg i := by
          intro he
          have := slotPtr_inj c pg hinv.cfg j i he
          omega
        exact (List.mem_erase_of_ne hne).mpr hm
    · have hm := hx.bitLive q hq' j hj hbit
      have hQ := hinv.pagesOk q hq'
      have honq := slot_onPage c q hinv.cfg hQ.nobj hQ.objs j hj
      have hne2 : slotPtr c q j ≠ slotPtr c pg i := by
        intro he
        rw [he] at honq
        exact hne (onPage_unique q pg hQ.aligned hPg.aligned _ honq hon)
      exact (List.mem_erase_of_ne hne2).mpr hm

/-- In a reachable world whose configuration leaves room for the 72 header bytes, the
bitmaps of every page are apart and every set allocation bit of a slot belongs to a live
object. -/
theorem reachable_exact (arch : Arch) (envOk : AllocEnv → Prop) (w : World)
    (hw : Reachable arch envOk w) :
    72 + w.cache.cPerPage * w.cache.cbObject + w.cache.cBits / 8 * 2 ≤ 4096 →
      Exact w.cache w.live := by
  induction hw with
  | create cbObject cbAlignment cMaxObjects pfnCtor pfnDtor pvUser env pThis hmax hc =>
    intro _
    obtain ⟨-, hp, -, -⟩ := create_cfg arch cbObject cbAlignment cMaxObjects pfnCtor
      pfnDtor pvUser env pThis hmax hc
    refine ⟨?_, ?_⟩
    · intro pg hpg
      simp only [hp] at hpg
      cases hpg
    · intro pg hpg
      simp only [hp] at hpg
      cases hpg
  | alloc w env r hw' _ hf h ih =>
    intro hfit
    have hinv := reachable_inv arch envOk w hw'
    obtain ⟨e1, e2, e3, -⟩ := alloc_cfg arch w.cache w.live env r hinv hf h
    have hfit' : 72 + w.cache.cPerPage * w.cache.cbObject + w.cache.cBits / 8 * 2 ≤ 4096 := by
      rw [← e1, ← e2, ← e3]; exact hfit
    exact exact_alloc arch w.cache w.live env r hinv hf hfit' (ih hfit') h
  | free w pvObj pThis hw' hp h ih =>
    intro hfit
    have hinv := reachable_inv arch envOk w hw'
    obtain ⟨e1, e2, e3, -⟩ := free_cfg w.cache w.live pvObj pThis hinv hp h
    have hfit' : 72 + w.cache.cPerPage * w.cache.cbObject + w.cache.cBits / 8 * 2 ≤ 4096 := by
      rw [← e1, ← e2, ← e3]; exact hfit
    exact exact_free w.cache w.live pvObj pThis hinv (ih hfit') hp h

/-- On a 64-bit host every reachable configuration leaves room for the 72 header bytes. -/
theorem reachable_fits_bits64 (envOk : AllocEnv → Prop) (w : World)
    (hw : Reachable Arch.bits64 envOk w) :
    72 + w.cache.cPerPage * w.cache.cbObject + w.cache.cBits / 8 * 2 ≤ 4096 := by
  induction hw with
  | create cbObject cbAlignment cMaxObjects pfnCtor pfnDtor pvUser env pThis hmax hc =>
    obtain ⟨hfit, hmem⟩ := create_fits Arch.bits64 cbObject cbAlignment cMaxObjects pfnCtor
      pfnDtor pvUser env pThis hc
    rw [header_bits64 _ hmem] at hfit
    exact hfit
  | alloc w env r hw' _ hf h ih =>
    have hinv := reachable_inv Arch.bits64 envOk w hw'
    obtain ⟨e1, e2, e3, -⟩ := alloc_cfg Arch.bits64 w.cache w.live env r hinv hf h
    show 72 + r.pThis.cPerPage * r.pThis.cbObject + r.pThis.cBits / 8 * 2 ≤ 4096
    rw [e1, e2, e3]; exact ih
  | free w pvObj pThis hw' hp h ih =>
    have hinv := reachable_inv Arch.bits64 envOk w hw'
    obtain ⟨e1, e2, e3, -⟩ := free_cfg w.cache w.live pvObj pThis hinv hp h
    show 72 + pThis.cPerPage * pThis.cbObject + pThis.cBits / 8 * 2 ≤ 4096
    rw [e1, e2, e3]; exact ih

/-! ## Free counters against clear bits, and the end of the search -/

theorem live_on_page (k : Int) (c : RTMEMCACHEINT) (live : List Nat) (pg : RTMEMCACHEPAGE)
    (hinv : Inv k c live) (hx : Exact c live) (hpg : pg ∈ c.pages) :
    live.countP (onPage pg)
      = (List.range pg.cObjects).countP (fun i => ASMBitTest pg.mem pg.pbmAlloc i) := by
  have hPg := hinv.pagesOk pg hpg
  rw [List.countP_eq_length_filter, List.countP_eq_length_filter]
  have hperm : (live.filter (onPage pg)).Perm
      (((List.range pg.cObjects).filter (fun i => ASMBitTest pg.mem pg.pbmAlloc i)).map
        (slotPtr c pg)) := by
    apply (List.perm_ext_iff_of_nodup (hinv.liveNodup.filter _) ?_).mpr
    · intro p
      rw [List.mem_filter, List.mem_map]
      constructor
      · rintro ⟨hp, hon⟩
        obtain ⟨q, hq, j, hj, rfl⟩ := hinv.liveSlots p hp
        have hQ := hinv.pagesOk q hq
        have honq := slot_onPage c q hinv.cfg hQ.nobj hQ.objs j hj
        have hqe : q = pg := eq_of_mem_of_pPage_eq c.pages hinv.distinct q pg hq hpg
          (onPage_unique q pg hQ.aligned hPg.aligned _ honq hon)
        subst hqe
        exact ⟨j, List.mem_filter.mpr ⟨List.mem_range.mpr hj, hQ.liveBit j hj hp⟩, rfl⟩
      · rintro ⟨j, hj, rfl⟩
        rw [List.mem_filter, List.mem_range] at hj
        exact ⟨hx.bitLive pg hpg j hj.1 hj.2,
          slot_onPage c pg hinv.cfg hPg.nobj hPg.objs j hj.1⟩
    · exact ((List.nodup_range _).filter _).map
        (fun a b h => slotPtr_inj c pg hinv.cfg a b h)
  rw [hperm.length_eq, List.length_map]

theorem page_cFree_clear (k : Int) (c : RTMEMCACHEINT) (live : List Nat)
    (pg : RTMEMCACHEPAGE) (hinv : Inv k c live) (hx : Exact c live) (hpg : pg ∈ c.pages) :
    pg.cFree = (clearSlots pg : Int) := by
  have hPg := hinv.pagesOk pg hpg
  have h1 := live_on_page k c live pg hinv hx hpg
  have h2 := List.length_eq_countP_add_countP (fun i => ASMBitTest pg.mem pg.pbmAlloc i)
    (List.range pg.cObjects)
  have h3 : clearSlots pg = (List.range pg.cObjects).countP
      (fun a => decide ¬ (ASMBitTest pg.mem pg.pbmAlloc a = true)) := by
    unfold clearSlots
    rw [← List.countP_eq_length_filter]
    apply List.countP_congr
    intro a _
    simp
  rw [List.length_range] at h2
  have h4 := hPg.count
  rw [h3]
  rw [h1] at h4
  omega

theorem exists_clear (k : Int) (c : RTMEMCACHEINT) (live : List Nat) (pg : RTMEMCACHEPAGE)
    (hinv : Inv k c live) (hx : Exact c live) (hpg : pg ∈ c.pages) (h1 : 0 ≤ pg.cFree - 1) :
    ∃ j, j < pg.cObjects ∧ ASMBitTest pg.mem pg.pbmAlloc j = false := by
  have h2 := page_cFree_clear k c live pg hinv hx hpg
  have h3 : 0 < clearSlots pg := by omega
  unfold clearSlots at h3
  obtain ⟨j, hj⟩ := List.exists_mem_of_length_pos h3
  rw [List.mem_filter, List.mem_range] at hj
  exact ⟨j, hj.1, by simpa using hj.2⟩

theorem firstClear_exists (m : BitMem) (pv cBits j : Nat) (hc : cBits ≠ 0)
    (hj : j < RT_ALIGN cBits 32) (hclr : ASMBitTest m pv j = false) :
    ∃ i0 : Nat, ASMBitFirstClear m pv cBits = (i0 : Int) ∧ ASMBitTest m pv i0 = false := by
  unfold ASMBitFirstClear
  rw [if_pos hc]
  cases hfind : (List.range (RT_ALIGN cBits 32)).find? (fun i => !ASMBitTest m pv i) with
  | none =>
    rw [List.find?_eq_none] at hfind
    exact absurd (by simp [hclr]) (hfind j (List.mem_range.mpr hj))
  | some i0 =>
    exact ⟨i0, rfl, by simpa using List.find?_some hfind⟩

/-- Where the bitmaps are apart, the bit claim on a page with a free object succeeds in its
first round: at the hinted index, or at the first clear bit. -/
theorem claim_ok (k : Int) (c1 : RTMEMCACHEINT) (live : List Nat) (pg : RTMEMCACHEPAGE)
    (hinv1 : Inv k c1 live) (hx : Exact c1 live) (hpg : pg ∈ c1.pages)
    (h1 : 0 ≤ pg.cFree - 1) (iObj : Nat) :
    ∃ i pgC, claimBit c1.cBits { pg with cFree := pg.cFree - 1 } iObj = some (i, pgC) := by
  obtain ⟨j, hj, hclr⟩ := exists_clear k c1 live pg hinv1 hx hpg h1
  have hPg := hinv1.pagesOk pg hpg
  unfold claimBit ASMAtomicBitTestAndSet
  simp only
  by_cases ht : ASMBitTest pg.mem pg.pbmAlloc iObj = true
  · simp only [ht, if_true]
    have hjk : j ≠ iObj := by
      intro e
      rw [e, ht] at hclr
      cases hclr
    have hclr' : ASMBitTest (ASMBitSet pg.mem pg.pbmAlloc iObj) pg.pbmAlloc j = false := by
      rw [test_set, if_neg (by omega)]
      exact hclr
    have hle := hinv1.cfg.per_le
    have hpos := hinv1.cfg.per_pos
    have hn := hPg.nobj
    have hjr : j < RT_ALIGN c1.cBits 32 := by
      rw [RT_ALIGN_32_of_bits64 _ hinv1.cfg.bits64]
      omega
    obtain ⟨i0, hfc, hi0⟩ := firstClear_exists (ASMBitSet pg.mem pg.pbmAlloc iObj) pg.pbmAlloc
      c1.cBits j (by omega) hjr hclr'
    rw [hfc]
    have hnn : (i0 : Int) ≥ 0 := Int.natCast_nonneg _
    simp only [hnn, if_true, Int.toNat_ofNat, hi0, Bool.false_eq_true, not_false_eq_true]
    exact ⟨_, _, rfl⟩
  · simp only [ht, Bool.false_eq_true, if_false]
    exact ⟨_, _, rfl⟩

theorem firstFree_exists (l : List RTMEMCACHEPAGE) (pg : RTMEMCACHEPAGE) (hpg : pg ∈ l)
    (h : 0 ≤ pg.cFree - 1) : ∃ q, firstFree l = some q := by
  unfold firstFree
  cases hf : l.find? (fun pg => decide (0 ≤ pg.cFree - 1)) with
  | none =>
    rw [List.find?_eq_none] at hf
    exact absurd (by simpa using h) (hf pg hpg)
  | some q => exact ⟨q, rfl⟩

theorem exists_page_free (l : List RTMEMCACHEPAGE) (h0 : ∀ pg ∈ l, 0 ≤ pg.cFree)
    (hs : 1 ≤ (l.map (fun p => p.cFree)).sum) : ∃ pg ∈ l, 0 ≤ pg.cFree - 1 := by
  induction l with
  | nil =>
    simp only [List.map_nil, List.sum_nil] at hs
    omega
  | cons x rest ih =>
    by_cases hx : 0 ≤ x.cFree - 1
    · exact ⟨x, List.mem_cons_self _ _, hx⟩
    · have hx0 := h0 x (List.mem_cons_self _ _)
      simp only [List.map_cons, List.sum_cons] at hs
      obtain ⟨pg, hpg, h⟩ := ih (fun q hq => h0 q (List.mem_cons_of_mem _ hq)) (by omega)
      exact ⟨pg, List.mem_cons_of_mem _ hpg, h⟩

/-- After a reservation that left `cFree >= 0`, the page-level grab finds a page: the hint
page, or a page of the first pass over the list. -/
theorem choose_ok (c1 : RTMEMCACHEINT) (hd : (c1.pages.map (fun p => p.pPage)).Nodup)
    (hcnt1 : Counters 1 c1) (hfree : 0 ≤ c1.cFree) : ∃ pg, choosePage c1 = some pg := by
  obtain ⟨pg, hpg, h1⟩ := exists_page_free c1.pages hcnt1.pageFree
    (by have := hcnt1.sumFree; omega)
  obtain ⟨q, hq⟩ := firstFree_exists c1.pages pg hpg h1
  cases hh : c1.pPageHint with
  | none => exact ⟨q, by rw [choosePage_of_none c1 hh]; exact hq⟩
  | some a =>
    obtain ⟨ph, hph, hpa⟩ := List.mem_map.mp (hcnt1.hintOk a hh)
    have hf : findPage c1.pages a = some ph := by
      rw [← hpa]; exact findPage_of_mem c1.pages hd ph hph
    by_cases hneg : ph.cFree - 1 < 0
    · exact ⟨q, by rw [choosePage_of_fail c1 a ph hh hf hneg]; exact hq⟩
    · exact ⟨ph, choosePage_of_grab c1 a ph hh hf hneg⟩

theorem counters_nonneg (k : Int) (c : RTMEMCACHEINT) (hc : Counters k c) :
    0 ≤ c.cFree + k := by
  rw [hc.sumFree]
  apply List.sum_nonneg
  intro v hv
  obtain ⟨q, hq, rfl⟩ := List.mem_map.mp hv
  exact hc.pageFree q hq

/-- A successful reservation leaves `cFree >= 0`: either the decrement did, or the new page
holds at least one object. -/
theorem reserve_free_nonneg (arch : Arch) (c : RTMEMCACHEINT) (pv : Option Nat)
    (h0 : 0 ≤ c.cFree) (hmax : c.cMax < 4294967296) (htot : c.cTotal ≤ c.cMax)
    (hper : 0 < c.cPerPage)
    (hok : (allocReserve arch c pv).1 = Status.VINF_SUCCESS) :
    0 ≤ (allocReserve arch c pv).2.cFree := by
  by_cases h1 : c.cFree - 1 < 0
  · have hz : c.cFree = 0 := by omega
    by_cases hlt : c.cTotal < c.cMax
    · cases pv with
      | none =>
        exfalso
        unfold allocReserve rtMemCacheGrow at hok
        simp only [h1, if_true] at hok
        split at hok
        · simp at hok
        · simp [RT_FAILURE] at hok
      | some a =>
        rw [reserve_grow arch c a hmax hz hlt]
        show 0 ≤ c.cFree - 1 + ((growPage arch c a).cObjects : Int)
        have := growPage_cObjects_eq arch c a hmax htot
        rw [this]
        have : 1 ≤ min c.cPerPage (c.cMax - c.cTotal) := by
          rw [Nat.le_min]; omega
        omega
    · exfalso
      unfold allocReserve at hok
      simp only [h1, if_true] at hok
      have hg : (((c.cTotal : Int) + -(c.cFree - 1)) % 4294967296).toNat > c.cMax ∨
          (((c.cTotal : Int) + -(c.cFree - 1)) % 4294967296).toNat ≤ c.cTotal := by
        omega
      rw [if_pos hg] at hok
      simp at hok
  · unfold allocReserve
    simp only [h1, if_false]
    omega

theorem allocEx_fail (arch : Arch) (c : RTMEMCACHEINT) (env : AllocEnv)
    (hmagic : c.u32Magic = RTMEMCACHE_MAGIC)
    (hok : (allocReserve arch c env.pvPage).1 ≠ Status.VINF_SUCCESS) :
    RTMemCacheAllocEx arch c env
      = some { rc := (allocReserve arch c env.pvPage).1, ppvObj := none, ctorCall := none, pThis := (allocReserve arch c env.pvPage).2 } := by
  unfold RTMemCacheAllocEx
  rw [if_neg (not_not.mpr hmagic)]
  simp only
  rw [if_pos hok]

/-- The constructor stage returns: whatever the constructor answers, the slot claimed in a
world that satisfies the invariant is handed out or given back. -/
theorem construct_total (c1 : RTMEMCACHEINT) (live : List Nat) (pg : RTMEMCACHEPAGE)
    (i : Nat) (H : Option Nat) (rcCtor : Status) (hinv1 : Inv 1 c1 live) (hpg : pg ∈ c1.pages)
    (hilt : i < pg.cObjects) (hclr : ASMBitTest pg.mem pg.pbmAlloc i = false) :
    ∃ r, allocConstruct
      (slotTaken c1 pg (pg.cFree - 1) (ASMBitSet pg.mem pg.pbmAlloc i) c1.cFree H)
      { pg with cFree := pg.cFree - 1, mem := ASMBitSet pg.mem pg.pbmAlloc i } i rcCtor
      = some r := by
  by_cases hct : c1.pfnCtor = true
  · by_cases ht : ASMBitTest (ASMBitSet pg.mem pg.pbmAlloc i) pg.pbmCtor i = true
    · obtain ⟨r, hr, -⟩ := construct_constructed
        (slotTaken c1 pg (pg.cFree - 1) (ASMBitSet pg.mem pg.pbmAlloc i) c1.cFree H)
        { pg with cFree := pg.cFree - 1, mem := ASMBitSet pg.mem pg.pbmAlloc i } i rcCtor
        hct ht
      exact ⟨r, hr⟩
    · have ht' : ASMBitTest (ASMBitSet pg.mem pg.pbmAlloc i) pg.pbmCtor i = false := by
        simpa using ht
      by_cases hrc : RT_FAILURE rcCtor = true
      · have hF := free_after_ctor_failure c1 live pg i H hinv1 hpg hilt hclr ht'
        exact ⟨_, construct_fail
          (slotTaken c1 pg (pg.cFree - 1) (ASMBitSet pg.mem pg.pbmAlloc i) c1.cFree H)
          { pg with cFree := pg.cFree - 1, mem := ASMBitSet pg.mem pg.pbmAlloc i } i rcCtor
          _ hct ht' hrc hF⟩
      · obtain ⟨r, hr, -⟩ := construct_ok
          (slotTaken c1 pg (pg.cFree - 1) (ASMBitSet pg.mem pg.pbmAlloc i) c1.cFree H)
          { pg with cFree := pg.cFree - 1, mem := ASMBitSet pg.mem pg.pbmAlloc i } i rcCtor
          (by simpa using hrc)
        exact ⟨r, hr⟩
  · obtain ⟨r, hr, -⟩ := construct_noctor
      (slotTaken c1 pg (pg.cFree - 1) (ASMBitSet pg.mem pg.pbmAlloc i) c1.cFree H)
      { pg with cFree := pg.cFree - 1, mem := ASMBitSet pg.mem pg.pbmAlloc i } i rcCtor
      (by simpa using hct)
    exact ⟨r, hr⟩

/-- Where the bitmaps are apart, `RTMemCacheAllocEx` returns. -/
theorem alloc_total (arch : Arch) (c : RTMEMCACHEINT) (live : List Nat) (env : AllocEnv)
    (hinv : Inv 0 c live) (hcnt : Counters 0 c) (hx : Exact c live)
    (hfit : 72 + c.cPerPage * c.cbObject + c.cBits / 8 * 2 ≤ 4096) (hf : PageFresh c env) :
    ∃ r, RTMemCacheAllocEx arch c env = some r := by
  by_cases hok : (allocReserve arch c env.pvPage).1 = Status.VINF_SUCCESS
  · obtain ⟨-, hok1⟩ := reserve_spec arch c live env hinv hf
    obtain ⟨hinv1, -⟩ := hok1 hok
    have hcnt1 := counters_reserve arch c live env.pvPage hinv hcnt hok
    have hx1 := exact_reserve arch c live env hinv hf hfit hx hok
    have hc0 : 0 ≤ c.cFree := by
      have := counters_nonneg 0 c hcnt
      omega
    have hfree1 := reserve_free_nonneg arch c env.pvPage hc0 hinv.cfg.max_lt hinv.total_le
      hinv.cfg.per_pos hok
    have hres : allocReserve arch c env.pvPage
        = (Status.VINF_SUCCESS, (allocReserve arch c env.pvPage).2) := by
      rw [← hok]
    generalize (allocReserve arch c env.pvPage).2 = c1 at hres hinv1 hcnt1 hx1 hfree1
    obtain ⟨pg, hch⟩ := choose_ok c1 hinv1.distinct hcnt1 hfree1
    obtain ⟨hpg, h0⟩ := choosePage_some c1 pg hch
    obtain ⟨i, pgC, hcl⟩ := claim_ok 1 c1 live pg hinv1 hx1 hpg h0 (pg.cFree - 1).toNat
    obtain ⟨hilt, hclr⟩ := claim_lt c1 live pg i pgC hinv1 hpg h0 hcl
    rw [alloc_run arch c env c1 pg i pgC hinv.cfg.magic hres hinv1.distinct hch hcl]
    exact construct_total c1 live pg i _ env.rcCtor hinv1 hpg hilt hclr
  · exact ⟨_, allocEx_fail arch c env hinv.cfg.magic hok⟩

/-! ## The page and counter invariant -/

/-- Where the bitmaps are apart (the configuration leaves room for the 72 header bytes),
every reachable world satisfies the page and counter invariant: the allocation bit of a slot
is set exactly when the slot is live, `cFree` of a page is the number of clear allocation
bits among its slots and not negative, `cFree` of the instance is the sum of the page
counters, and `cTotal` is the sum of the object counts. -/
theorem page_invariant (arch : Arch) (envOk : AllocEnv → Prop) (w : World)
    (hw : Reachable arch envOk w)
    (hfit : 72 + w.cache.cPerPage * w.cache.cbObject + w.cache.cBits / 8 * 2 ≤ 4096) :
    (∀ pg ∈ w.cache.pages,
      (∀ i, i < pg.cObjects →
        (ASMBitTest pg.mem pg.pbmAlloc i = true ↔ slotPtr w.cache pg i ∈ w.live)) ∧
      pg.cFree = (clearSlots pg : Int) ∧ 0 ≤ pg.cFree) ∧
    w.cache.cFree = (w.cache.pages.map (fun pg => pg.cFree)).sum ∧
    (w.cache.cTotal : Int) = (w.cache.pages.map (fun pg => (pg.cObjects : Int))).sum := by
  have hinv := reachable_inv arch envOk w hw
  have hcnt := reachable_counters arch envOk w hw
  have hx := reachable_exact arch envOk w hw hfit
  refine ⟨?_, ?_, hcnt.sumObj⟩
  · intro pg hpg
    refine ⟨?_, page_cFree_clear 0 w.cache w.live pg hinv hx hpg, hcnt.pageFree pg hpg⟩
    intro i hi
    exact ⟨hx.bitLive pg hpg i hi, (hinv.pagesOk pg hpg).liveBit i hi⟩
  · have := hcnt.sumFree
    omega

/-- On a 64-bit host the page and counter invariant holds in every reachable world. -/
theorem page_invariant_bits64 (envOk : AllocEnv → Prop) (w : World)
    (hw : Reachable Arch.bits64 envOk w) :
    (∀ pg ∈ w.cache.pages,
      (∀ i, i < pg.cObjects →
        (ASMBitTest pg.mem pg.pbmAlloc i = true ↔ slotPtr w.cache pg i ∈ w.live)) ∧
      pg.cFree = (clearSlots pg : Int) ∧ 0 ≤ pg.cFree) ∧
    w.cache.cFree = (w.cache.pages.map (fun pg => pg.cFree)).sum ∧
    (w.cache.cTotal : Int) = (w.cache.pages.map (fun pg => (pg.cObjects : Int))).sum :=
  page_invariant Arch.bits64 envOk w hw (reachable_fits_bits64 envOk w hw)

theorem sampleWorld54_reachable (envOk : AllocEnv → Prop) (h : envOk (sampleEnv 4096)) :
    Reachable Arch.bits32 envOk sampleWorld54 :=
  Reachable.alloc { cache := sampleCache54, live := [], ctorLog := [] } (sampleEnv 4096) _
    (Reachable.create 54 1 100 true true 0 sampleCreateEnv sampleCache54 (by decide) rfl)
    h
    (by
      intro b hb
      cases hb
      exact ⟨by decide, by decide, fun pg hpg => by cases hpg⟩)
    (returned_eq _ (by decide))

/-- C22 fails on a 32-bit host: after `RTMemCacheCreate(&h, 54, 1, 100, ctor, dtor, NULL)`
and one `RTMemCacheAllocEx` (page at 4096) the world is reachable and its only live pointer
is 8138, slot 73 of the only page.  The page has 74 slots; its construction bitmap starts at
4168 and its allocation bitmap at 4176, eight bytes into the 16 bytes of the construction
bitmap, so construction bit 73 is allocation bit 9.  Allocation bit 9 is set although slot 9
(address 4682) is not live, and the page's `cFree` is 73 while only 72 allocation bits among
the 74 slots are clear. -/
theorem page_invariant_bits32 :
    Reachable Arch.bits32 anyEnv sampleWorld54 ∧
    sampleWorld54.live = [8138] ∧
    sampleWorld54.cache.pages.map (fun pg => pg.pPage) = [4096] ∧
    (pageAt sampleWorld54.cache 4096).cObjects = 74 ∧
    (pageAt sampleWorld54.cache 4096).pbmCtor = 4168 ∧
    (pageAt sampleWorld54.cache 4096).pbmAlloc = 4176 ∧
    slotPtr sampleWorld54.cache (pageAt sampleWorld54.cache 4096) 73 = 8138 ∧
    slotPtr sampleWorld54.cache (pageAt sampleWorld54.cache 4096) 9 = 4682 ∧
    ASMBitTest (pageAt sampleWorld54.cache 4096).mem
      (pageAt sampleWorld54.cache 4096).pbmAlloc 9 = true ∧
    slotPtr sampleWorld54.cache (pageAt sampleWorld54.cache 4096) 9 ∉ sampleWorld54.live ∧
    (pageAt sampleWorld54.cache 4096).cFree = 73 ∧
    clearSlots (pageAt sampleWorld54.cache 4096) = 72 := by
  refine ⟨sampleWorld54_reachable anyEnv trivial, by decide, by decide, by decide, by decide,
    by decide,
    by decide, by decide, by decide, by decide, by decide, by decide!⟩

/-! ## Termination of the search -/

/-- After a successful reservation in a reachable world `cFree` is not negative and the
page-level grab succeeds, on the hint page or in the first pass over the list; where the
bitmaps are apart, the bit claim on that page succeeds in its first round as well. -/
theorem search_terminates (arch : Arch) (envOk : AllocEnv → Prop) (w : World)
    (hw : Reachable arch envOk w) (env : AllocEnv) (hf : PageFresh w.cache env)
    (hok : (allocReserve arch w.cache env.pvPage).1 = Status.VINF_SUCCESS) :
    0 ≤ (allocReserve arch w.cache env.pvPage).2.cFree ∧
    ∃ pg, choosePage (allocReserve arch w.cache env.pvPage).2 = some pg ∧
      0 ≤ pg.cFree - 1 ∧
      (∃ c2, allocGrabPage (allocReserve arch w.cache env.pvPage).2
        = some (pg.cFree - 1, { pg with cFree := pg.cFree - 1 }, c2)) ∧
      (72 + w.cache.cPerPage * w.cache.cbObject + w.cache.cBits / 8 * 2 ≤ 4096 →
        ∃ i pgC, claimBit (allocReserve arch w.cache env.pvPage).2.cBits
          { pg with cFree := pg.cFree - 1 } (pg.cFree - 1).toNat = some (i, pgC)) := by
  have hinv := reachable_inv arch envOk w hw
  have hcnt := reachable_counters arch envOk w hw
  obtain ⟨-, hok1⟩ := reserve_spec arch w.cache w.live env hinv hf
  obtain ⟨hinv1, -⟩ := hok1 hok
  have hcnt1 := counters_reserve arch w.cache w.live env.pvPage hinv hcnt hok
  have hc0 : 0 ≤ w.cache.cFree := by
    have := counters_nonneg 0 w.cache hcnt
    omega
  have hfree1 := reserve_free_nonneg arch w.cache env.pvPage hc0 hinv.cfg.max_lt
    hinv.total_le hinv.cfg.per_pos hok
  obtain ⟨pg, hch⟩ := choose_ok _ hinv1.distinct hcnt1 hfree1
  obtain ⟨hpg, h0⟩ := choosePage_some _ pg hch
  refine ⟨hfree1, pg, hch, h0, ⟨{ (allocReserve arch w.cache env.pvPage).2 with pages := setPage (allocReserve arch w.cache env.pvPage).2.pages { pg with cFree := pg.cFree - 1 }, pPageHint := hintAfter (allocReserve arch w.cache env.pvPage).2 pg }, ?_⟩, ?_⟩
  · rw [allocGrabPage_eq _ hinv1.distinct, hch]
  · intro hfit
    have hx := reachable_exact arch envOk w hw hfit
    have hx1 := exact_reserve arch w.cache w.live env hinv hf hfit hx hok
    exact claim_ok 1 _ w.live pg hinv1 hx1 hpg h0 _

theorem sampleWorld54Full_reachable (envOk : AllocEnv → Prop)
    (h1 : envOk (sampleEnv 4096)) (h2 : envOk sampleEnvNoPage) :
    Reachable Arch.bits32 envOk sampleWorld54Full :=
  allocMore_reachable Arch.bits32 envOk sampleWorld54 (sampleWorld54_reachable envOk h1) h2 63
    (by decide!)

/-- C25 fails on a 32-bit host: after `RTMemCacheCreate(&h, 54, 1, 100, ctor, dtor, NULL)`
and 64 `RTMemCacheAllocEx` calls the world is reachable with 64 live objects and
`cFree = 10`.  The next call passes the reservation (`cFree` becomes 9, no growth) and the
page-level grab succeeds on the only page, whose `cFree` is 10; but every one of the 128
allocation bits of that page is set (`ASMBitFirstClear` returns -1: ten of them were set as
construction bits of the slots 64..73), so the bit claim never succeeds and the call does
not return. -/
theorem search_never_ends_bits32 :
    Reachable Arch.bits32 anyEnv sampleWorld54Full ∧
    sampleWorld54Full.live.length = 64 ∧
    sampleWorld54Full.cache.cFree = 10 ∧
    (allocReserve Arch.bits32 sampleWorld54Full.cache none).1 = Status.VINF_SUCCESS ∧
    (allocReserve Arch.bits32 sampleWorld54Full.cache none).2.cFree = 9 ∧
    (allocReserve Arch.bits32 sampleWorld54Full.cache none).2.pages.length = 1 ∧
    (allocGrabPage (allocReserve Arch.bits32 sampleWorld54Full.cache none).2).isSome = true ∧
    (pageAt sampleWorld54Full.cache 4096).cFree = 10 ∧
    ASMBitFirstClear (pageAt sampleWorld54Full.cache 4096).mem
      (pageAt sampleWorld54Full.cache 4096).pbmAlloc 128 = -1 ∧
    RTMemCacheAllocEx Arch.bits32 sampleWorld54Full.cache sampleEnvNoPage = none ∧
    RTMemCacheAllocEx Arch.bits32 sampleWorld54Full.cache (sampleEnv 8192) = none := by
  refine ⟨sampleWorld54Full_reachable anyEnv trivial trivial, by decide!, by decide!,
    by decide!, by decide!,
    by decide!, by decide!, by decide!, by decide!,
    Option.isNone_iff_eq_none.mp (by decide!), Option.isNone_iff_eq_none.mp (by decide!)⟩

/-! ## The hint is advisory -/

theorem inv_hint (k : Int) (c : RTMEMCACHEINT) (live : List Nat) (h' : Option Nat)
    (hinv : Inv k c live) : Inv k { c with pPageHint := h' } live := by
  refine ⟨⟨hinv.cfg.magic, hinv.cfg.cb_pos, hinv.cfg.per_pos, hinv.cfg.per_le,
    hinv.cfg.bits64, hinv.cfg.fits, hinv.cfg.max_lt, hinv.cfg.al_cb, hinv.cfg.al_page⟩,
    ?_, hinv.distinct, ?_, hinv.liveNodup, hinv.conserve, hinv.total_le⟩
  · intro pg hpg
    exact pageOk_congr c _ live pg rfl rfl rfl (hinv.pagesOk pg hpg)
  · intro p hp
    exact hinv.liveSlots p hp

/-- The reservation does not look at the hint. -/
theorem reserve_hint (arch : Arch) (c : RTMEMCACHEINT) (h' : Option Nat) (pv : Option Nat) :
    (allocReserve arch { c with pPageHint := h' } pv).1 = (allocReserve arch c pv).1 ∧
    (allocReserve arch { c with pPageHint := h' } pv).2.cFree
      = (allocReserve arch c pv).2.cFree ∧
    (allocReserve arch { c with pPageHint := h' } pv).2.cTotal
      = (allocReserve arch c pv).2.cTotal ∧
    (allocReserve arch { c with pPageHint := h' } pv).2.pages
      = (allocReserve arch c pv).2.pages := by
  unfold allocReserve rtMemCacheGrow
  simp only
  by_cases h1 : c.cFree - 1 < 0
  · simp only [h1, if_true]
    by_cases hg : (((c.cTotal : Int) + -(c.cFree - 1)) % 4294967296).toNat > c.cMax ∨
        (((c.cTotal : Int) + -(c.cFree - 1)) % 4294967296).toNat ≤ c.cTotal
    · simp only [hg, if_true]
      refine ⟨?_, ?_, ?_, ?_⟩ <;> first | rfl | trivial
    · simp only [hg, if_false]
      cases pv with
      | none =>
        simp only [RT_FAILURE, if_true]
        refine ⟨?_, ?_, ?_, ?_⟩ <;> first | rfl | trivial
      | some a =>
        simp only [RT_FAILURE, Bool.false_eq_true, if_false]
        refine ⟨?_, ?_, ?_, ?_⟩ <;> first | rfl | trivial
  · simp only [h1, if_false]
    refine ⟨?_, ?_, ?_, ?_⟩ <;> first | rfl | trivial

/-- What a returning call leaves of the status and the counters when the constructor does
not fail: the outcome of the reservation. -/
theorem alloc_summary (arch : Arch) (c : RTMEMCACHEINT) (live : List Nat) (env : AllocEnv)
    (r : AllocResult) (hinv : Inv 0 c live) (hf : PageFresh c env)
    (hrc : c.pfnCtor = false ∨ RT_FAILURE env.rcCtor = false)
    (h : RTMemCacheAllocEx arch c env = some r) :
    r.rc = (allocReserve arch c env.pvPage).1 ∧
    r.pThis.cFree = (allocReserve arch c env.pvPage).2.cFree ∧
    r.pThis.cTotal = (allocReserve arch c env.pvPage).2.cTotal ∧
    r.pThis.pages.length = (allocReserve arch c env.pvPage).2.pages.length := by
  obtain ⟨hfail, -⟩ := reserve_spec arch c live env hinv hf
  obtain ⟨-, -, -, hctor⟩ := reserve_cfg arch c env.pvPage
  rcases alloc_outcome arch c live env r hinv hf h with ⟨hnok, erc, e, -⟩ |
    ⟨hok, -, pg, i, -, -, -, -, -, -, hcase⟩
  · rw [hfail hnok, e]
    exact ⟨erc, rfl, rfl, rfl⟩
  · have hlen : ∀ (P : RTMEMCACHEPAGE),
        (setPage (allocReserve arch c env.pvPage).2.pages P).length
          = (allocReserve arch c env.pvPage).2.pages.length := by
      intro P
      unfold setPage
      rw [List.length_map]
    rcases hcase with ⟨e1, -, ⟨-, e⟩ | ⟨-, e⟩⟩ | ⟨hct, hfl, -, -, -⟩
    · rw [e, e1, hok]
      exact ⟨rfl, rfl, rfl, hlen _⟩
    · rw [e, e1, hok]
      exact ⟨rfl, rfl, rfl, hlen _⟩
    · exfalso
      rcases hrc with hn | hn
      · rw [hctor, hn] at hct
        cases hct
      · rw [hn] at hfl
        cases hfl

/-- Where the hint is advisory: take a reachable world and the same instance with any other
value of `pPageHint` (null or the address of a page of the list), and let no constructor be
registered or the constructor not fail.  Whenever `RTMemCacheAllocEx` returns on both, the
status code, the resulting `cFree`, `cTotal` and number of pages are the same.  Where the
bitmaps are apart (the configuration leaves room for the 72 header bytes) both calls do
return; every 64-bit configuration is of that kind. -/
theorem hint_advisory (arch : Arch) (envOk : AllocEnv → Prop) (w : World)
    (hw : Reachable arch envOk w) (h' : Option Nat)
    (hh' : ∀ a, h' = some a → a ∈ w.cache.pages.map (fun pg => pg.pPage))
    (env : AllocEnv) (hf : PageFresh w.cache env)
    (hrc : w.cache.pfnCtor = false ∨ RT_FAILURE env.rcCtor = false) :
    (∀ r r', RTMemCacheAllocEx arch w.cache env = some r →
      RTMemCacheAllocEx arch { w.cache with pPageHint := h' } env = some r' →
      r.rc = r'.rc ∧ r.pThis.cFree = r'.pThis.cFree ∧ r.pThis.cTotal = r'.pThis.cTotal ∧
      r.pThis.pages.length = r'.pThis.pages.length) ∧
    (72 + w.cache.cPerPage * w.cache.cbObject + w.cache.cBits / 8 * 2 ≤ 4096 →
      (RTMemCacheAllocEx arch w.cache env).isSome = true ∧
      (RTMemCacheAllocEx arch { w.cache with pPageHint := h' } env).isSome = true) ∧
    (arch = Arch.bits64 →
      72 + w.cache.cPerPage * w.cache.cbObject + w.cache.cBits / 8 * 2 ≤ 4096) := by
  have hinv := reachable_inv arch envOk w hw
  have hcnt := reachable_counters arch envOk w hw
  have hinv' := inv_hint 0 w.cache w.live h' hinv
  have hcnt' : Counters 0 { w.cache with pPageHint := h' } :=
    ⟨hcnt.pageFree, hcnt.sumFree, hcnt.sumObj, hh'⟩
  obtain ⟨q1, q2, q3, q4⟩ := reserve_hint arch w.cache h' env.pvPage
  refine ⟨?_, ?_, ?_⟩
  · intro r r' hr hr'
    obtain ⟨a1, a2, a3, a4⟩ := alloc_summary arch w.cache w.live env r hinv hf hrc hr
    obtain ⟨b1, b2, b3, b4⟩ := alloc_summary arch _ w.live env r' hinv' hf hrc hr'
    exact ⟨by rw [a1, b1, q1], by rw [a2, b2, q2], by rw [a3, b3, q3], by rw [a4, b4, q4]⟩
  · intro hfit
    have hx := reachable_exact arch envOk w hw hfit
    obtain ⟨r, hr⟩ := alloc_total arch w.cache w.live env hinv hcnt hx hfit hf
    obtain ⟨r', hr'⟩ := alloc_total arch _ w.live env hinv' hcnt'
      ⟨hx.disjoint, hx.bitLive⟩ hfit hf
    exact ⟨by rw [hr]; rfl, by rw [hr']; rfl⟩
  · intro harch
    subst harch
    exact reachable_fits_bits64 envOk w hw

theorem sample_hint_advisory :
    (∀ r r', RTMemCacheAllocEx Arch.bits64 sampleWorld1.cache (sampleEnv 8192) = some r →
      RTMemCacheAllocEx Arch.bits64 { sampleWorld1.cache with pPageHint := none }
        (sampleEnv 8192) = some r' →
      r.rc = r'.rc ∧ r.pThis.cFree = r'.pThis.cFree ∧ r.pThis.cTotal = r'.pThis.cTotal ∧
      r.pThis.pages.length = r'.pThis.pages.length) ∧
    (72 + sampleWorld1.cache.cPerPage * sampleWorld1.cache.cbObject
        + sampleWorld1.cache.cBits / 8 * 2 ≤ 4096 →
      (RTMemCacheAllocEx Arch.bits64 sampleWorld1.cache (sampleEnv 8192)).isSome = true ∧
      (RTMemCacheAllocEx Arch.bits64 { sampleWorld1.cache with pPageHint := none }
        (sampleEnv 8192)).isSome = true) ∧
    (Arch.bits64 = Arch.bits64 →
      72 + sampleWorld1.cache.cPerPage * sampleWorld1.cache.cbObject
        + sampleWorld1.cache.cBits / 8 * 2 ≤ 4096) :=
  hint_advisory Arch.bits64 anyEnv sampleWorld1 (sampleWorld1_reachable anyEnv trivial) none
    (by intro a h; cases h) (sampleEnv 8192) sample_fresh1 (Or.inr rfl)

theorem wrapS32_of_range (i : Int) (h0 : -2147483648 ≤ i) (h1 : i < 2147483648) :
    wrapS32 i = i := by
  unfold wrapS32; omega

theorem wrapS32_add (i j : Int) : wrapS32 (wrapS32 i + j) = wrapS32 (i + j) := by
  unfold wrapS32; omega

theorem grabObjS32_eq (pg : RTMEMCACHEPAGE) (h0 : 0 ≤ pg.cFree) (h1 : pg.cFree < 2147483647) :
    rtMemCacheGrabObjS32 pg = rtMemCacheGrabObj pg := by
  unfold rtMemCacheGrabObjS32 rtMemCacheGrabObj ASMAtomicDecS32 ASMAtomicIncS32
  rw [wrapS32_of_range (pg.cFree - 1) (by omega) (by omega)]
  by_cases h : pg.cFree - 1 < 0
  · simp only [h, if_true]
    rw [wrapS32_of_range (pg.cFree - 1 + 1) (by omega) (by omega)]
  · simp only [h, if_false]

theorem scanGrabS32_eq : ∀ (l : List RTMEMCACHEPAGE), PagesSmall l →
    scanGrabS32 l = scanGrab l := by
  intro l
  induction l with
  | nil => intro _; rfl
  | cons x rest ih =>
    intro h
    have hx := h x (List.mem_cons_self _ _)
    have hr : PagesSmall rest := fun q hq => h q (List.mem_cons_of_mem _ hq)
    unfold scanGrabS32 scanGrab
    rw [grabObjS32_eq x hx.1 hx.2, ih hr]

theorem allocScanS32_eq (c : RTMEMCACHEINT) (h : PagesSmall c.pages) :
    allocScanS32 c = allocScan c := by
  unfold allocScanS32 allocScan
  rw [scanGrabS32_eq c.pages h]

theorem findPage_mem_pages (l : List RTMEMCACHEPAGE) (a : Nat) (pg : RTMEMCACHEPAGE)
    (h : findPage l a = some pg) : pg ∈ l := by
  unfold findPage at h
  exact List.mem_of_find?_eq_some h

theorem pagesSmall_setPage (l : List RTMEMCACHEPAGE) (pg : RTMEMCACHEPAGE)
    (h : PagesSmall l) (h0 : 0 ≤ pg.cFree) (h1 : pg.cFree < 2147483647) :
    PagesSmall (setPage l pg) := by
  intro q hq
  unfold setPage at hq
  rw [List.mem_map] at hq
  obtain ⟨q0, hq0, rfl⟩ := hq
  split_ifs
  · exact ⟨h0, h1⟩
  · exact h q0 hq0

theorem allocGrabPageS32_eq (c : RTMEMCACHEINT) (h : PagesSmall c.pages) :
    allocGrabPageS32 c = allocGrabPage c := by
  unfold allocGrabPageS32 allocGrabPage
  cases hh : c.pPageHint with
  | none => exact allocScanS32_eq c h
  | some a =>
    simp only []
    cases hf : findPage c.pages a with
    | none => rfl
    | some pg =>
      have hpg := h pg (findPage_mem_pages c.pages a pg hf)
      simp only []
      rw [grabObjS32_eq pg hpg.1 hpg.2]
      by_cases hg : (rtMemCacheGrabObj pg).1 < 0
      · simp only [hg, if_true]
        apply allocScanS32_eq
        apply pagesSmall_setPage c.pages _ h
        · unfold rtMemCacheGrabObj
          simp only []
          split_ifs <;> simp only [] <;> omega
        · unfold rtMemCacheGrabObj
          simp only []
          split_ifs <;> simp only [] <;> omega
      · simp only [hg, if_false]

theorem allocGrabPage_wrap (c : RTMEMCACHEINT) :
    allocGrabPage (wrapCache c)
      = (allocGrabPage c).map (fun t => (t.1, t.2.1, wrapCache t.2.2)) := by
  unfold allocGrabPage allocScan wrapCache
  simp only []
  cases hh : c.pPageHint with
  | none =>
    simp only []
    cases hs : scanGrab c.pages with
    | none => rfl
    | some t => rfl
  | some a =>
    simp only []
    cases hf : findPage c.pages a with
    | none => rfl
    | some pg =>
      simp only []
      by_cases hg : (rtMemCacheGrabObj pg).1 < 0
      · simp only [hg, if_true]
        cases hs : scanGrab (setPage c.pages (rtMemCacheGrabObj pg).2) with
        | none => rfl
        | some t => rfl
      · simp only [hg, if_false]
        rfl

theorem freeS32_wrap (c : RTMEMCACHEINT) (p : Nat) (h : PagesSmall c.pages) :
    RTMemCacheFreeS32 (wrapCache c) p = (RTMemCacheFree c p).map wrapCache := by
  unfold RTMemCacheFreeS32 RTMemCacheFree
  by_cases hp : p = 0
  · simp only [hp, if_true]; rfl
  · simp only [hp, if_false]
    by_cases hm : c.u32Magic ≠ RTMEMCACHE_MAGIC
    · have hm' : (wrapCache c).u32Magic ≠ RTMEMCACHE_MAGIC := hm
      rw [if_pos hm', if_pos hm]; rfl
    · have hm' : ¬ (wrapCache c).u32Magic ≠ RTMEMCACHE_MAGIC := hm
      rw [if_neg hm', if_neg hm]
      have hpages : (wrapCache c).pages = c.pages := rfl
      rw [hpages]
      cases hf : findPage c.pages (p - (p &&& PAGE_OFFSET_MASK)) with
      | none => rfl
      | some pg =>
        have hpg := h pg (findPage_mem_pages c.pages _ pg hf)
        simp only []
        by_cases hlt : p < pg.pbObjects
        · simp only [hlt, if_true]; rfl
        · simp only [hlt, if_false]
          have hcb : (wrapCache c).cbObject = c.cbObject := rfl
          rw [hcb]
          by_cases hb : (ASMAtomicBitTestAndClear pg.mem pg.pbmAlloc
              ((p - pg.pbObjects) / c.cbObject)).1 = true
          · simp only [hb, not_true_eq_false, if_false, Option.map_some']
            unfold ASMAtomicIncS32
            rw [wrapS32_of_range (pg.cFree + 1) (by omega) (by omega)]
            have hw : wrapS32 ((wrapCache c).cFree + 1) = wrapS32 (c.cFree + 1) :=
              wrapS32_add c.cFree 1
            rw [hw]
            rfl
          · simp only [hb, not_false_eq_true, if_true, Option.map_some']
            rfl

theorem constructS32_wrap (d : RTMEMCACHEINT) (q : RTMEMCACHEPAGE) (i : Nat) (rc : Status)
    (h : PagesSmall d.pages) (h0 : 0 ≤ q.cFree) (h1 : q.cFree < 2147483647) :
    allocConstructS32 (wrapCache d) q i rc = (allocConstruct d q i rc).map wrapResult := by
  unfold allocConstructS32 allocConstruct
  have hctor : (wrapCache d).pfnCtor = d.pfnCtor := rfl
  rw [hctor]
  generalize ASMAtomicBitTestAndSet q.mem q.pbmCtor i = t
  by_cases hc : d.pfnCtor = true
  · rw [if_pos hc, if_pos hc]
    by_cases ht : t.1 = true
    · rw [if_neg (not_not.mpr ht), if_neg (not_not.mpr ht)]
      rfl
    · rw [if_pos ht, if_pos ht]
      by_cases hr : RT_FAILURE rc = true
      · rw [if_pos hr, if_pos hr]
        have hfree := freeS32_wrap
          { d with pages := setPage d.pages { q with mem := ASMAtomicBitClear t.2 q.pbmCtor i } }
          (q.pbObjects + i * d.cbObject) (pagesSmall_setPage d.pages _ h h0 h1)
        dsimp only [wrapCache] at hfree ⊢
        rw [hfree]
        cases RTMemCacheFree
            { d with pages := setPage d.pages { q with mem := ASMAtomicBitClear t.2 q.pbmCtor i } }
            (q.pbObjects + i * d.cbObject) with
        | none => rfl
        | some c2 => rfl
      · rw [if_neg hr, if_neg hr]
        rfl
  · rw [if_neg hc, if_neg hc]
    rfl

theorem growPage_cObjects_le (arch : Arch) (c : RTMEMCACHEINT) (a : Nat) :
    (growPage arch c a).cObjects ≤ c.cPerPage := by
  show RT_MIN c.cPerPage _ ≤ c.cPerPage
  unfold RT_MIN
  split_ifs <;> omega


theorem reserveS32_big (arch : Arch) (c : RTMEMCACHEINT) (pv : Option Nat)
    (hle : c.cFree ≤ (c.cTotal : Int)) (htot : c.cTotal ≤ c.cMax)
    (hmax : c.cMax < 4294967296) (hbig : 2147483648 < c.cFree) :
    allocReserveS32 arch (wrapCache c) pv = (Status.VERR_MEM_CACHE_MAX_SIZE, wrapCache c) := by
  have hw : wrapS32 c.cFree = c.cFree - 4294967296 := by unfold wrapS32; omega
  have hd : ASMAtomicDecS32 (wrapS32 c.cFree) = c.cFree - 4294967296 - 1 := by
    unfold ASMAtomicDecS32; rw [hw]; unfold wrapS32; omega
  have hi : ASMAtomicIncS32 (c.cFree - 4294967296 - 1) = wrapS32 c.cFree := by
    unfold ASMAtomicIncS32; rw [hw]; unfold wrapS32; omega
  have hneg : c.cFree - 4294967296 - 1 < 0 := by omega
  have hguard : (((c.cTotal : Int) + -(c.cFree - 4294967296 - 1)) % 4294967296).toNat > c.cMax ∨
      (((c.cTotal : Int) + -(c.cFree - 4294967296 - 1)) % 4294967296).toNat ≤ c.cTotal := by
    right; omega
  unfold allocReserveS32
  have hcf : (wrapCache c).cFree = wrapS32 c.cFree := rfl
  rw [hcf, hd]
  simp only []
  rw [if_pos hneg]
  have hT : (wrapCache c).cTotal = c.cTotal := rfl
  have hM : (wrapCache c).cMax = c.cMax := rfl
  rw [hT, hM, if_pos hguard, hi]
  rfl

theorem wrapCache_of_range (c : RTMEMCACHEINT) (h0 : -2147483648 ≤ c.cFree)
    (h1 : c.cFree < 2147483648) : wrapCache c = c := by
  unfold wrapCache
  rw [wrapS32_of_range c.cFree h0 h1]

theorem growS32_eq (arch : Arch) (c : RTMEMCACHEINT) (pv : Option Nat)
    (hlow : -1 ≤ c.cFree) (hper : c.cPerPage < 2147483647) :
    rtMemCacheGrowS32 arch c pv = rtMemCacheGrow arch c pv := by
  unfold rtMemCacheGrowS32 rtMemCacheGrow
  by_cases hneg : c.cFree < 0
  · rw [if_pos hneg, if_pos hneg]
    cases pv with
    | none => rfl
    | some a =>
      simp only []
      have hob := growPage_cObjects_le arch c a
      have hwo : wrapS32 ((growPage arch c a).cObjects : Int)
          = ((growPage arch c a).cObjects : Int) := by
        unfold wrapS32; omega
      have hadd : ASMAtomicAddS32 c.cFree ((growPage arch c a).cObjects : Int)
          = c.cFree + ((growPage arch c a).cObjects : Int) := by
        unfold ASMAtomicAddS32 wrapS32; omega
      rw [hwo, hadd]
      rfl
  · rw [if_neg hneg, if_neg hneg]

theorem grow_free_range (arch : Arch) (c : RTMEMCACHEINT) (pv : Option Nat)
    (hlow : -1 ≤ c.cFree) (hup : c.cFree < 2147483647) (hper : c.cPerPage < 2147483647) :
    -1 ≤ (rtMemCacheGrow arch c pv).2.cFree ∧
      (rtMemCacheGrow arch c pv).2.cFree < 2147483647 := by
  unfold rtMemCacheGrow
  by_cases hneg : c.cFree < 0
  · rw [if_pos hneg]
    cases pv with
    | none => exact ⟨hlow, hup⟩
    | some a =>
      have hob := growPage_cObjects_le arch c a
      show -1 ≤ c.cFree + ((growPage arch c a).cObjects : Int) ∧
        c.cFree + ((growPage arch c a).cObjects : Int) < 2147483647
      omega
  · rw [if_neg hneg]
    exact ⟨hlow, hup⟩

theorem reserveS32_small (arch : Arch) (c : RTMEMCACHEINT) (pv : Option Nat)
    (h0 : 0 ≤ c.cFree) (hper : c.cPerPage < 2147483647) (hbig : ¬ 2147483648 < c.cFree) :
    allocReserveS32 arch (wrapCache c) pv
      = ((allocReserve arch c pv).1, wrapCache (allocReserve arch c pv).2) := by
  have hw : wrapS32 (c.cFree - 1) = c.cFree - 1 := by unfold wrapS32; omega
  have hd : ASMAtomicDecS32 (wrapS32 c.cFree) = c.cFree - 1 := by
    unfold ASMAtomicDecS32 wrapS32; omega
  have hi : ASMAtomicIncS32 (c.cFree - 1) = wrapS32 (c.cFree - 1 + 1) := rfl
  have hT : (wrapCache c).cTotal = c.cTotal := rfl
  have hM : (wrapCache c).cMax = c.cMax := rfl
  have hcf : (wrapCache c).cFree = wrapS32 c.cFree := rfl
  unfold allocReserveS32 allocReserve
  rw [hcf, hd]
  simp only []
  by_cases hneg : c.cFree - 1 < 0
  · rw [if_pos hneg, if_pos hneg, hT, hM]
    by_cases hg : (((c.cTotal : Int) + -(c.cFree - 1)) % 4294967296).toNat > c.cMax ∨
        (((c.cTotal : Int) + -(c.cFree - 1)) % 4294967296).toNat ≤ c.cTotal
    · rw [if_pos hg, if_pos hg, hi]
      rfl
    · rw [if_neg hg, if_neg hg]
      have hlow : -1 ≤ ({ c with cFree := c.cFree - 1 } : RTMEMCACHEINT).cFree := by
        show -1 ≤ c.cFree - 1
        omega
      have hup : ({ c with cFree := c.cFree - 1 } : RTMEMCACHEINT).cFree < 2147483647 := by
        show c.cFree - 1 < 2147483647
        omega
      have hgr := growS32_eq arch { c with cFree := c.cFree - 1 } pv hlow hper
      have hrange := grow_free_range arch { c with cFree := c.cFree - 1 } pv hlow hup hper
      show (if RT_FAILURE (rtMemCacheGrowS32 arch { c with cFree := c.cFree - 1 } pv).1 = true
          then ((rtMemCacheGrowS32 arch { c with cFree := c.cFree - 1 } pv).1,
            { (rtMemCacheGrowS32 arch { c with cFree := c.cFree - 1 } pv).2 with
              cFree := ASMAtomicIncS32
                (rtMemCacheGrowS32 arch { c with cFree := c.cFree - 1 } pv).2.cFree })
          else (Status.VINF_SUCCESS,
            (rtMemCacheGrowS32 arch { c with cFree := c.cFree - 1 } pv).2)) = _
      rw [hgr]
      generalize rtMemCacheGrow arch { c with cFree := c.cFree - 1 } pv = g at hrange ⊢
      by_cases hF : RT_FAILURE g.1 = true
      · rw [if_pos hF, if_pos hF]
        rfl
      · rw [if_neg hF, if_neg hF]
        show (Status.VINF_SUCCESS, g.2) = (Status.VINF_SUCCESS, wrapCache g.2)
        rw [wrapCache_of_range g.2 (by omega) (by omega)]
  · rw [if_neg hneg, if_neg hneg]
    unfold wrapCache
    simp only [hw]

/-- The reservation on the `int32_t` counter: above `2^31` free objects the counter reads
negative and the call fails; otherwise it does what the exact reservation does. -/
theorem reserveS32_wrap (arch : Arch) (c : RTMEMCACHEINT) (pv : Option Nat)
    (h0 : 0 ≤ c.cFree) (hle : c.cFree ≤ (c.cTotal : Int)) (htot : c.cTotal ≤ c.cMax)
    (hmax : c.cMax < 4294967296) (hper : c.cPerPage < 2147483647) :
    allocReserveS32 arch (wrapCache c) pv
      = if 2147483648 < c.cFree then (Status.VERR_MEM_CACHE_MAX_SIZE, wrapCache c)
        else ((allocReserve arch c pv).1, wrapCache (allocReserve arch c pv).2) := by
  by_cases hbig : 2147483648 < c.cFree
  · rw [if_pos hbig]
    exact reserveS32_big arch c pv hle htot hmax hbig
  · rw [if_neg hbig]
    exact reserveS32_small arch c pv h0 hper hbig

theorem pagesSmall_of_inv (k : Int) (c : RTMEMCACHEINT) (live : List Nat)
    (hinv : Inv k c live) (hc : Counters k c) : PagesSmall c.pages := by
  intro pg hpg
  have hok := hinv.pagesOk pg hpg
  have h1 := hok.count
  have h2 := hok.nobj
  have h3 := hinv.cfg.fits
  have h4 : c.cPerPage ≤ c.cPerPage * c.cbObject := Nat.le_mul_of_pos_right _ hinv.cfg.cb_pos
  refine ⟨hc.pageFree pg hpg, ?_⟩
  omega

theorem per_small (c : RTMEMCACHEINT) (hc : CfgOk c) : c.cPerPage < 2147483647 := by
  have h3 := hc.fits
  have h4 : c.cPerPage ≤ c.cPerPage * c.cbObject := Nat.le_mul_of_pos_right _ hc.cb_pos
  omega

/-- One `RTMemCacheAllocEx` call on the `int32_t` counter, from the image of a world that
satisfies the invariant: with more than `2^31` free objects the call fails with
`VERR_MEM_CACHE_MAX_SIZE` and changes nothing; otherwise it does what the exact call does. -/
theorem allocExS32_wrap (arch : Arch) (c : RTMEMCACHEINT) (live : List Nat) (env : AllocEnv)
    (hinv : Inv 0 c live) (hcnt : Counters 0 c) (hf : PageFresh c env) :
    RTMemCacheAllocExS32 arch (wrapCache c) env
      = if 2147483648 < c.cFree then
          some { rc := Status.VERR_MEM_CACHE_MAX_SIZE, ppvObj := none, ctorCall := none
                 pThis := wrapCache c }
        else (RTMemCacheAllocEx arch c env).map wrapResult := by
  have hm : ¬ c.u32Magic ≠ RTMEMCACHE_MAGIC := not_not.mpr hinv.cfg.magic
  have hmS : ¬ (wrapCache c).u32Magic ≠ RTMEMCACHE_MAGIC := hm
  have h0 : 0 ≤ c.cFree := by have := counters_nonneg 0 c hcnt; omega
  have hle : c.cFree ≤ (c.cTotal : Int) := by have := hinv.conserve; omega
  have hres := reserveS32_wrap arch c env.pvPage h0 hle hinv.total_le hinv.cfg.max_lt
    (per_small c hinv.cfg)
  unfold RTMemCacheAllocExS32 RTMemCacheAllocEx
  rw [if_neg hmS, if_neg hm]
  simp only []
  rw [hres]
  by_cases hbig : 2147483648 < c.cFree
  · rw [if_pos hbig, if_pos hbig]
    rfl
  · rw [if_neg hbig, if_neg hbig]
    by_cases hs : (allocReserve arch c env.pvPage).1 ≠ Status.VINF_SUCCESS
    · rw [if_pos hs, if_pos hs]
      rfl
    · rw [if_neg hs, if_neg hs]
      have hok := not_not.mp hs
      have hinv1 := ((reserve_spec arch c live env hinv hf).2 hok).1
      have hcnt1 := counters_reserve arch c live env.pvPage hinv hcnt hok
      have hsmall := pagesSmall_of_inv 1 _ live hinv1 hcnt1
      rw [allocGrabPageS32_eq (wrapCache (allocReserve arch c env.pvPage).2) hsmall,
        allocGrabPage_wrap]
      cases hgr : allocGrabPage (allocReserve arch c env.pvPage).2 with
      | none => rfl
      | some t =>
        obtain ⟨iObj, pg, c1⟩ := t
        obtain ⟨pg0, hpg0, hge, -, hpg, H, hc1⟩ :=
          allocGrabPage_spec _ iObj pg c1 hinv1.distinct hgr
        simp only [Option.map_some']
        have hcb : (wrapCache c1).cBits = c1.cBits := rfl
        rw [hcb]
        cases hcl : claimBit c1.cBits pg iObj.toNat with
        | none => rfl
        | some u =>
          obtain ⟨i1, pg1⟩ := u
          have hpg1 := (claimBit_spec c1.cBits pg iObj.toNat i1 pg1 hcl).1
          have hsm0 := hsmall pg0 hpg0
          have hpgf : pg.cFree = pg0.cFree - 1 := by rw [hpg]
          have hpg1f : pg1.cFree = pg.cFree := by rw [hpg1]
          have hc1p : c1.pages = setPage (allocReserve arch c env.pvPage).2.pages pg := by
            rw [hc1]
          have hsm1 : PagesSmall c1.pages := by
            rw [hc1p]
            exact pagesSmall_setPage _ pg hsmall (by omega) (by omega)
          exact constructS32_wrap { c1 with pages := setPage c1.pages pg1 } pg1 i1 env.rcCtor
            (pagesSmall_setPage _ pg1 hsm1 (by omega) (by omega)) (by omega) (by omega)

/-- With more than `2^31` objects free the `int32_t` counter reads negative, and every
`RTMemCacheAllocEx` call is refused with `VERR_MEM_CACHE_MAX_SIZE`. -/
theorem allocExS32_big (arch : Arch) (c : RTMEMCACHEINT) (env : AllocEnv)
    (hm : c.u32Magic = RTMEMCACHE_MAGIC) (hle : c.cFree ≤ (c.cTotal : Int))
    (htot : c.cTotal ≤ c.cMax) (hmax : c.cMax < 4294967296) (hbig : 2147483648 < c.cFree) :
    RTMemCacheAllocExS32 arch (wrapCache c) env
      = some { rc := Status.VERR_MEM_CACHE_MAX_SIZE, ppvObj := none, ctorCall := none
               pThis := wrapCache c } := by
  have hmS : ¬ (wrapCache c).u32Magic ≠ RTMEMCACHE_MAGIC := not_not.mpr hm
  unfold RTMemCacheAllocExS32
  rw [if_neg hmS]
  simp only []
  rw [reserveS32_big arch c env.pvPage hle htot hmax hbig]
  rfl

/-- Every world the `int32_t` calls reach is the image of a world the exact calls reach:
same pages, same live objects, same constructor log, and the `int32_t` counter holds the
exact count modulo `2^32`. -/
theorem reachableS32_exact (arch : Arch) (envOk : AllocEnv → Prop) (w : World)
    (hw : ReachableS32 arch envOk w) :
    ∃ w0, Reachable arch envOk w0 ∧ w = wrapWorld w0 := by
  induction hw with
  | create cbObject cbAlignment cMaxObjects pfnCtor pfnDtor pvUser env pThis hmax h =>
    refine ⟨{ cache := pThis, live := [], ctorLog := [] },
      Reachable.create cbObject cbAlignment cMaxObjects pfnCtor pfnDtor pvUser env pThis hmax h,
      ?_⟩
    obtain ⟨a, -, -, -, rfl⟩ := create_ok arch cbObject cbAlignment cMaxObjects pfnCtor
      pfnDtor pvUser env pThis h
    rfl
  | alloc w env r _ henv hf h ih =>
    obtain ⟨w0, hw0, rfl⟩ := ih
    have hinv := reachable_inv arch envOk w0 hw0
    have hcnt := reachable_counters arch envOk w0 hw0
    have hf0 : PageFresh w0.cache env := hf
    have hS := allocExS32_wrap arch w0.cache w0.live env hinv hcnt hf0
    have h' : RTMemCacheAllocExS32 arch (wrapCache w0.cache) env = some r := h
    rw [hS] at h'
    by_cases hbig : 2147483648 < w0.cache.cFree
    · rw [if_pos hbig] at h'
      cases h'
      exact ⟨w0, hw0, rfl⟩
    · rw [if_neg hbig] at h'
      cases h0 : RTMemCacheAllocEx arch w0.cache env with
      | none => rw [h0] at h'; cases h'
      | some r0 =>
        rw [h0] at h'
        cases h'
        exact ⟨w0.afterAlloc r0, Reachable.alloc w0 env r0 hw0 henv hf0 h0, rfl⟩
  | free w pvObj pThis _ hp h ih =>
    obtain ⟨w0, hw0, rfl⟩ := ih
    have hinv := reachable_inv arch envOk w0 hw0
    have hcnt := reachable_counters arch envOk w0 hw0
    have hp0 : pvObj ∈ w0.live := hp
    have h' : RTMemCacheFreeS32 (wrapCache w0.cache) pvObj = some pThis := h
    rw [freeS32_wrap w0.cache pvObj (pagesSmall_of_inv 0 _ _ hinv hcnt)] at h'
    cases h0 : RTMemCacheFree w0.cache pvObj with
    | none => rw [h0] at h'; cases h'
    | some c0 =>
      rw [h0] at h'
      cases h'
      exact ⟨w0.afterFree pvObj c0, Reachable.free w0 pvObj c0 hw0 hp0 h0, rfl⟩

/-- Conservation on the `int32_t` counter: in every world the calls of the code reach,
`cTotal <= cMax`, the counter holds `cTotal - live` modulo `2^32`, and
`cFree + live = cTotal` as long as `cTotal` is at most `INT32_MAX`. -/
theorem conservation_int32 (arch : Arch) (envOk : AllocEnv → Prop) (w : World)
    (hw : ReachableS32 arch envOk w) :
    w.cache.cTotal ≤ w.cache.cMax ∧
    w.cache.cFree = wrapS32 ((w.cache.cTotal : Int) - (w.live.length : Int)) ∧
    (w.cache.cTotal ≤ 2147483647 →
      w.cache.cFree + (w.live.length : Int) = (w.cache.cTotal : Int)) := by
  obtain ⟨w0, hw0, rfl⟩ := reachableS32_exact arch envOk w hw
  have hinv := reachable_inv arch envOk w0 hw0
  have hcnt := reachable_counters arch envOk w0 hw0
  have h0 := counters_nonneg 0 _ hcnt
  have hc := hinv.conserve
  have hF : (wrapWorld w0).cache.cFree = wrapS32 w0.cache.cFree := rfl
  have hT : (wrapWorld w0).cache.cTotal = w0.cache.cTotal := rfl
  have hM : (wrapWorld w0).cache.cMax = w0.cache.cMax := rfl
  have hL : (wrapWorld w0).live = w0.live := rfl
  rw [hF, hT, hM, hL]
  refine ⟨hinv.total_le, ?_, ?_⟩
  · congr 1
    omega
  · intro hle
    rw [wrapS32_of_range _ (by omega) (by omega)]
    omega

/-- `RTMemCacheFree` of a live pointer returns, and leaves the configuration and `cTotal`
alone. -/
theorem free_live (c : RTMEMCACHEINT) (live : List Nat) (p : Nat) (hinv : Inv 0 c live)
    (hp : p ∈ live) :
    ∃ c', RTMemCacheFree c p = some c' ∧ c'.cTotal = c.cTotal ∧ c'.cMax = c.cMax ∧
      c'.cbObject = c.cbObject ∧ c'.cPerPage = c.cPerPage ∧ c'.pfnCtor = c.pfnCtor := by
  obtain ⟨pg, hpg, i, hi, rfl⟩ := hinv.liveSlots p hp
  have hPg := hinv.pagesOk pg hpg
  exact ⟨_, free_slot c pg hinv.cfg hinv.distinct hpg hPg.aligned hPg.nobj hPg.objs i hi
    (hPg.liveBit i hi hp), rfl, rfl, rfl, rfl, rfl⟩

theorem setPage_addr (l : List RTMEMCACHEPAGE) (pg : RTMEMCACHEPAGE) (b : Nat)
    (h : ∀ q ∈ l, q.pPage ≤ b) : ∀ q ∈ setPage l pg, q.pPage ≤ b := by
  intro q hq
  have hm : q.pPage ∈ (setPage l pg).map (fun p => p.pPage) := List.mem_map_of_mem _ hq
  rw [map_setPage, List.mem_map] at hm
  obtain ⟨q0, hq0, he⟩ := hm
  rw [← he]
  exact h q0 hq0

theorem setPage_length (l : List RTMEMCACHEPAGE) (pg : RTMEMCACHEPAGE) :
    (setPage l pg).length = l.length := by
  unfold setPage
  exact List.length_map _ _

/-- One more allocation from a cache of one-byte objects without a constructor, below
`2^31` live objects, with page `k` at address `4096 * k`: the exact call and the `int32_t`
call both succeed, in step. -/
theorem fill_step (w0 : World) (n : Nat)
    (h1 : Reachable Arch.bits64 anyEnv w0)
    (h2 : ReachableS32 Arch.bits64 anyEnv (wrapWorld w0))
    (hlen : w0.live.length = n) (hn : n < 4294967295)
    (hmax : w0.cache.cMax = 4294967295) (hctor : w0.cache.pfnCtor = false)
    (hcb : w0.cache.cbObject = 1) (hper : w0.cache.cPerPage = 3208)
    (hfree : w0.cache.cFree ≤ 4096)
    (haddr : ∀ pg ∈ w0.cache.pages, pg.pPage ≤ 4096 * w0.cache.pages.length) :
    ∃ w1, Reachable Arch.bits64 anyEnv w1 ∧
      ReachableS32 Arch.bits64 anyEnv (wrapWorld w1) ∧
      w1.live.length = n + 1 ∧
      w1.cache.cMax = 4294967295 ∧ w1.cache.pfnCtor = false ∧
      w1.cache.cbObject = 1 ∧ w1.cache.cPerPage = 3208 ∧
      w1.cache.cFree ≤ 4096 ∧
      ∀ pg ∈ w1.cache.pages, pg.pPage ≤ 4096 * w1.cache.pages.length := by
  have hinv := reachable_inv Arch.bits64 anyEnv w0 h1
  have hcnt := reachable_counters Arch.bits64 anyEnv w0 h1
  have hfit := reachable_fits_bits64 anyEnv w0 h1
  have hx := reachable_exact Arch.bits64 anyEnv w0 h1 hfit
  have h0 := counters_nonneg 0 _ hcnt
  have hcons := hinv.conserve
  have hf : PageFresh w0.cache (sampleEnv (4096 * (w0.cache.pages.length + 1))) := by
    intro a ha
    cases ha
    refine ⟨Nat.mul_mod_right _ _, by omega, ?_⟩
    intro pg hpg
    have := haddr pg hpg
    omega
  obtain ⟨r, hr⟩ := alloc_total Arch.bits64 w0.cache w0.live
    (sampleEnv (4096 * (w0.cache.pages.length + 1))) hinv hcnt hx hfit hf
  have hres : (allocReserve Arch.bits64 w0.cache (some (4096 * (w0.cache.pages.length + 1)))).1
        = Status.VINF_SUCCESS ∧
      (allocReserve Arch.bits64 w0.cache (some (4096 * (w0.cache.pages.length + 1)))).2.cMax
        = 4294967295 ∧
      (allocReserve Arch.bits64 w0.cache (some (4096 * (w0.cache.pages.length + 1)))).2.pfnCtor
        = false ∧
      (allocReserve Arch.bits64 w0.cache (some (4096 * (w0.cache.pages.length + 1)))).2.cbObject
        = 1 ∧
      (allocReserve Arch.bits64 w0.cache (some (4096 * (w0.cache.pages.length + 1)))).2.cPerPage
        = 3208 ∧
      (allocReserve Arch.bits64 w0.cache (some (4096 * (w0.cache.pages.length + 1)))).2.cFree
        ≤ 4096 ∧
      ∀ pg ∈ (allocReserve Arch.bits64 w0.cache
          (some (4096 * (w0.cache.pages.length + 1)))).2.pages,
        pg.pPage ≤ 4096 * (allocReserve Arch.bits64 w0.cache
          (some (4096 * (w0.cache.pages.length + 1)))).2.pages.length := by
    by_cases hz : w0.cache.cFree = 0
    · rw [reserve_grow Arch.bits64 w0.cache _ (by omega) hz (by omega)]
      have hob := growPage_cObjects_le Arch.bits64 w0.cache
        (4096 * (w0.cache.pages.length + 1))
      refine ⟨rfl, hmax, hctor, hcb, hper, ?_, ?_⟩
      · show w0.cache.cFree - 1 + ((growPage Arch.bits64 w0.cache
          (4096 * (w0.cache.pages.length + 1))).cObjects : Int) ≤ 4096
        omega
      · intro pg hpg
        have hpg' : pg ∈ w0.cache.pages
            ++ [growPage Arch.bits64 w0.cache (4096 * (w0.cache.pages.length + 1))] := hpg
        show pg.pPage ≤ 4096 * (w0.cache.pages
          ++ [growPage Arch.bits64 w0.cache (4096 * (w0.cache.pages.length + 1))]).length
        rw [List.length_append, List.length_singleton]
        rw [List.mem_append, List.mem_singleton] at hpg'
        rcases hpg' with hq | hq
        · have := haddr pg hq
          omega
        · rw [hq]
          exact le_refl _
    · rw [reserve_plain Arch.bits64 w0.cache _ (by omega)]
      refine ⟨rfl, hmax, hctor, hcb, hper, ?_, haddr⟩
      show w0.cache.cFree - 1 ≤ 4096
      omega
  obtain ⟨hok, hmax1, hctor1, hcb1, hper1, hfree1, haddr1⟩ := hres
  have hS : RTMemCacheAllocExS32 Arch.bits64 (wrapWorld w0).cache
      (sampleEnv (4096 * (w0.cache.pages.length + 1))) = some (wrapResult r) := by
    show RTMemCacheAllocExS32 Arch.bits64 (wrapCache w0.cache) _ = _
    rw [allocExS32_wrap Arch.bits64 w0.cache w0.live _ hinv hcnt hf, if_neg (by omega), hr]
    rfl
  have hS2 := ReachableS32.alloc (wrapWorld w0) _ (wrapResult r) h2 trivial hf hS
  refine ⟨w0.afterAlloc r, Reachable.alloc w0 _ r h1 trivial hf hr, hS2, ?_⟩
  rcases alloc_outcome Arch.bits64 w0.cache w0.live _ r hinv hf hr with
    ⟨hne, -⟩ | ⟨-, -, pg, i, -, -, -, -, -, -, hout⟩
  · exact absurd hok hne
  · have hsame : (allocReserve Arch.bits64 w0.cache
        (sampleEnv (4096 * (w0.cache.pages.length + 1))).pvPage).2.pfnCtor = false := hctor1
    rcases hout with ⟨-, hptr, hform⟩ | ⟨hfail, -⟩
    · rcases hform with ⟨-, hthis⟩ | ⟨htrue, -⟩
      · have hlive : (w0.afterAlloc r).live.length = n + 1 := by
          show (match r.ppvObj with
            | some pvObj => pvObj :: w0.live
            | none => w0.live).length = n + 1
          rw [hptr]
          show (w0.live.length + 1) = n + 1
          omega
        have hc : (w0.afterAlloc r).cache = r.pThis := rfl
        rw [hc, hthis]
        refine ⟨hlive, hmax1, hctor1, hcb1, hper1, hfree1, ?_⟩
        intro q hq
        have hlen2 := setPage_length
          (allocReserve Arch.bits64 w0.cache (sampleEnv
            (4096 * (w0.cache.pages.length + 1))).pvPage).2.pages
          { pg with cFree := pg.cFree - 1, mem := ASMBitSet pg.mem pg.pbmAlloc i }
        exact le_of_le_of_eq (setPage_addr _ _ _ haddr1 q hq) (congrArg _ hlen2.symm)
      · exact (Bool.false_ne_true (hsame.symm.trans htrue)).elim
    · exact (Bool.false_ne_true (hsame.symm.trans hfail)).elim

/-- Any number of allocations below `UINT32_MAX` from `RTMemCacheCreate(&h, 1, 1, UINT32_MAX, NULL, NULL, NULL)`
on a 64-bit host, page `k` at address `4096 * k`: a world both the exact calls and the
`int32_t` calls reach. -/
theorem fill_worlds (n : Nat) (hn : n ≤ 4294967295) :
    ∃ w0 : World, Reachable Arch.bits64 anyEnv w0 ∧
      ReachableS32 Arch.bits64 anyEnv (wrapWorld w0) ∧
      w0.live.length = n ∧
      w0.cache.cMax = 4294967295 ∧ w0.cache.pfnCtor = false ∧
      w0.cache.cbObject = 1 ∧ w0.cache.cPerPage = 3208 ∧
      w0.cache.cFree ≤ 4096 ∧
      ∀ pg ∈ w0.cache.pages, pg.pPage ≤ 4096 * w0.cache.pages.length := by
  induction n with
  | zero =>
    have hc : ∃ c0, RTMemCacheCreate Arch.bits64 1 1 4294967295 false false 0 sampleCreateEnv
          = Except.ok c0 ∧ c0.cFree = 0 ∧ c0.cMax = 4294967295 ∧ c0.pfnCtor = false ∧
        c0.cbObject = 1 ∧ c0.cPerPage = 3208 ∧ c0.pages = [] :=
      ⟨_, create_sample_env Arch.bits64 1 1 4294967295 false false 0 1 (by decide)
        (by decide) rfl, rfl, rfl, rfl, rfl, by decide!, rfl⟩
    obtain ⟨c0, hc0, f1, f2, f3, f4, f5, f6⟩ := hc
    have hwr : wrapWorld { cache := c0, live := [], ctorLog := [] }
        = { cache := c0, live := [], ctorLog := [] } := by
      unfold wrapWorld
      rw [wrapCache_of_range c0 (by omega) (by omega)]
    refine ⟨{ cache := c0, live := [], ctorLog := [] },
      Reachable.create 1 1 4294967295 false false 0 sampleCreateEnv c0 (by omega) hc0, ?_,
      rfl, f2, f3, f4, f5, ?_, ?_⟩
    · rw [hwr]
      exact ReachableS32.create 1 1 4294967295 false false 0 sampleCreateEnv c0 (by omega) hc0
    · show c0.cFree ≤ 4096
      omega
    · intro pg hpg
      have hpg' : pg ∈ c0.pages := hpg
      rw [f6] at hpg'
      cases hpg'
  | succ k ih =>
    obtain ⟨w0, h1, h2, hlen, hmax, hctor, hcb, hper, hfree, haddr⟩ := ih (by omega)
    exact fill_step w0 k h1 h2 hlen (by omega) hmax hctor hcb hper hfree haddr

/-- Freeing every live object, on the exact counter and on the `int32_t` counter in step. -/
theorem drain_worlds : ∀ (l : List Nat) (w0 : World), w0.live = l →
    Reachable Arch.bits64 anyEnv w0 → ReachableS32 Arch.bits64 anyEnv (wrapWorld w0) →
    ∃ w1, Reachable Arch.bits64 anyEnv w1 ∧ ReachableS32 Arch.bits64 anyEnv (wrapWorld w1) ∧
      w1.live = [] ∧ w1.cache.cTotal = w0.cache.cTotal ∧ w1.cache.cMax = w0.cache.cMax ∧
      w1.cache.cbObject = w0.cache.cbObject ∧ w1.cache.cPerPage = w0.cache.cPerPage ∧
      w1.cache.pfnCtor = w0.cache.pfnCtor := by
  intro l
  induction l with
  | nil =>
    intro w0 hl h1 h2
    exact ⟨w0, h1, h2, hl, rfl, rfl, rfl, rfl, rfl⟩
  | cons p rest ih =>
    intro w0 hl h1 h2
    have hinv := reachable_inv Arch.bits64 anyEnv w0 h1
    have hcnt := reachable_counters Arch.bits64 anyEnv w0 h1
    have hp : p ∈ w0.live := by rw [hl]; exact List.mem_cons_self _ _
    obtain ⟨c1, hfree, e1, e2, e3, e4, e5⟩ := free_live w0.cache w0.live p hinv hp
    have hS : RTMemCacheFreeS32 (wrapWorld w0).cache p = some (wrapCache c1) := by
      show RTMemCacheFreeS32 (wrapCache w0.cache) p = _
      rw [freeS32_wrap w0.cache p (pagesSmall_of_inv 0 _ _ hinv hcnt), hfree]
      rfl
    have hl1 : (w0.afterFree p c1).live = rest := by
      show w0.live.erase p = rest
      rw [hl, List.erase_cons_head]
    obtain ⟨w1, g1, g2, g3, g4, g5, g6, g7, g8⟩ := ih (w0.afterFree p c1) hl1
      (Reachable.free w0 p c1 h1 hp hfree)
      (ReachableS32.free (wrapWorld w0) p (wrapCache c1) h2 hp hS)
    exact ⟨w1, g1, g2, g3, g4.trans e1, g5.trans e2, g6.trans e3, g7.trans e4, g8.trans e5⟩

/-- C2 (conservation): the code keeps `cFree` in an `int32_t` while `RTMemCacheCreate`
accepts any `uint32_t` maximum.  On a 64-bit host, `RTMemCacheCreate(&h, 1, 1, UINT32_MAX,
NULL, NULL, NULL)`, `2^31 + 1` allocations and the free of every pointer reach a world with
no live object, more than `2^31` objects in `cTotal`, and `cFree = cTotal - 2^32`, a
negative number: `cFree + (number of live objects) = cTotal` does not hold there, and every
further `RTMemCacheAllocEx` is refused with `VERR_MEM_CACHE_MAX_SIZE`. -/
theorem conservation_fails_int32 :
    ∃ w, ReachableS32 Arch.bits64 anyEnv w ∧
      w.cache.cbObject = 1 ∧ w.cache.cPerPage = 3208 ∧ w.cache.cMax = 4294967295 ∧
      w.cache.pfnCtor = false ∧ w.live = [] ∧
      2147483648 < w.cache.cTotal ∧ w.cache.cTotal ≤ w.cache.cMax ∧
      w.cache.cFree = (w.cache.cTotal : Int) - 4294967296 ∧ w.cache.cFree < 0 ∧
      w.cache.cFree + (w.live.length : Int) ≠ (w.cache.cTotal : Int) ∧
      ∀ env, RTMemCacheAllocExS32 Arch.bits64 w.cache env
        = some { rc := Status.VERR_MEM_CACHE_MAX_SIZE, ppvObj := none, ctorCall := none
                 pThis := w.cache } := by
  obtain ⟨w0, h1, h2, hlen, hmax, hctor, hcb, hper, -, -⟩ := fill_worlds 2147483649 (by omega)
  obtain ⟨w1, g1, g2, g3, g4, g5, g6, g7, g8⟩ := drain_worlds w0.live w0 rfl h1 h2
  have hinv0 := reachable_inv Arch.bits64 anyEnv w0 h1
  have hcnt0 := reachable_counters Arch.bits64 anyEnv w0 h1
  have hinv1 := reachable_inv Arch.bits64 anyEnv w1 g1
  have a0 := counters_nonneg 0 _ hcnt0
  have c0 := hinv0.conserve
  have c1 := hinv1.conserve
  have t1 := hinv1.total_le
  rw [g3] at c1
  have hF : (wrapWorld w1).cache.cFree = wrapS32 w1.cache.cFree := rfl
  have hT : (wrapWorld w1).cache.cTotal = w1.cache.cTotal := rfl
  have hL : (wrapWorld w1).live = w1.live := rfl
  have hlen0 : ((w0.live.length : Nat) : Int) = 2147483649 := by rw [hlen]; rfl
  have hnil : (([] : List Nat).length : Int) = 0 := rfl
  have hmax1 : w1.cache.cMax = 4294967295 := g5.trans hmax
  have hwrap : wrapS32 w1.cache.cFree = (w1.cache.cTotal : Int) - 4294967296 := by
    unfold wrapS32; omega
  refine ⟨wrapWorld w1, g2, g6.trans hcb, g7.trans hper, hmax1, g8.trans hctor, g3,
    ?_, t1, ?_, ?_, ?_, ?_⟩
  · rw [hT]; omega
  · rw [hF, hT]; exact hwrap
  · rw [hF, hwrap]; omega
  · rw [hF, hL, g3, hT, hwrap]; omega
  · intro env
    exact allocExS32_big Arch.bits64 w1.cache env hinv1.cfg.magic (by omega) t1 (by omega)
      (by omega)

/-- The `int32_t` operations at the edge of the range. -/
theorem sample_wrapS32 :
    ASMAtomicIncS32 2147483647 = -2147483648 ∧ ASMAtomicDecS32 (-2147483648) = 2147483647 ∧
    ASMAtomicAddS32 (-1) 3208 = 3207 ∧ ASMAtomicDecS32 0 = -1 ∧
    wrapS32 2147486528 = -2147480768 := by
  refine ⟨by decide, by decide, by decide, by decide, by decide⟩

end MemCache
